import Mathlib

/-!
# scalloc: the per-core frontend allocator

A shallow embedding of `src/allocators/scalloc_core-inl.h` and `src/freelist-inl.h`.

* Pointers (`void*`, `SpanHeader*`, `uintptr_t`) are natural numbers, `0` is `NULL`; `size_t`/`uintptr_t` arithmetic is taken
  modulo `2^64` wherever the source can wrap.
* Span headers live in a header store `hdrs : Nat → SpanHeader`; block memory is a store
  of bytes `mem`, in which the first machine word of a free block (eight bytes) holds the
  intrusive next pointer of the freelist.
* The cool list is the doubly linked list threaded through `prev`/`next` of the headers.
  The slow list is a chain of `ListNode`s private to the frontend; it is represented by the
  sequence of the nodes' `data` fields, head first.
* The collaborators that are not part of the frontend (`BlockPool::Allocate`,
  `SpanPool::Get`) answer through an explicit list of `Round`s, one per invocation of
  `AllocateNoSlab`; `BlockPool::Free`, `SpanPool::Put` and `Collector::Put` are recorded in
  the world.
* Code that can trap (the dereference of a null header, division by zero,
  `UNREACHABLE()`, a failed assertion) returns `Except Fault _`; loads and stores of block
  memory do not trap (see `Mem`).
-/

namespace scalloc


/-- Width of `size_t`, `uintptr_t` and `uint64_t`. -/
def kWord : Nat := 2 ^ 64

/-- Ways in which the embedded code can trap. -/
inductive Fault where
  | nullDeref
  | divByZero
  | unreachable
  | assertion
  | noAnswer
  | outOfFuel
  | fatal
  deriving DecidableEq, Repr

/-- Compile-time constants and tables of the build. They are declared in headers that are
not part of the sources (`common.h`, `size_classes.h`, `headers.h`, `utils.h`) and are
therefore parameters of the embedding. -/
structure Config where
  SizeToClass : Nat → Nat
  ClassToSize : Nat → Nat
  ClassToObjects : Nat → Nat
  kSpanReuseThreshold : Nat
  kLocalReuseThreshold : Nat
  Cpus : Nat
  kVirtualSpanSize : Nat
  kSpanHeaderSize : Nat
  REUSE_SLOW_SPANS : Bool
  MADVISE_SAME_THREAD : Bool

/-! ## Freelist (`freelist-inl.h`) -/

structure Freelist where
  cap_ : Nat
  len_ : Nat
  list_ : Nat
  deriving DecidableEq, Repr

/-- Block memory, byte by byte. Every address is taken to be mapped: the trap of a load or
a store through the null pointer or through an address outside the mapped memory is not
modelled, and the statements about block memory are about non-null blocks inside the
address space. -/
structure Mem where
  byte : Nat → Fin 256

/-- Memory that holds zero bytes only. -/
def Mem.zero : Mem := { byte := fun _ => 0 }

/-- The load `*(void**)a` of a pointer: the eight bytes at `a`, ..., `a + 7`, the least
significant one first (the byte order of x86-64). -/
def Mem.read (m : Mem) (a : Nat) : Nat :=
  (m.byte a).val + 256 * ((m.byte (a + 1)).val + 256 * ((m.byte (a + 2)).val
    + 256 * ((m.byte (a + 3)).val + 256 * ((m.byte (a + 4)).val
    + 256 * ((m.byte (a + 5)).val + 256 * ((m.byte (a + 6)).val
    + 256 * (m.byte (a + 7)).val))))))

/-- The store `*(void**)a = v` of a pointer: the eight low bytes of `v` go to `a`, ...,
`a + 7`, the least significant one first. -/
def Mem.write (m : Mem) (a v : Nat) : Mem :=
  { byte := fun x =>
      if a ≤ x ∧ x < a + 8 then ⟨v / 256 ^ (x - a) % 256, Nat.mod_lt _ (by decide)⟩
      else m.byte x }

namespace Freelist

def Empty (f : Freelist) : Bool := f.list_ == 0

def Full (f : Freelist) : Bool := f.len_ == f.cap_

def Size (f : Freelist) : Nat := f.len_

/-- The loop of `InitRange`: `for (; len > 0; len--)` threading one block per turn. -/
def InitRangeLoop : Nat → Nat → Nat → Nat → Mem → Nat × Mem
  | 0, _, _, list, m => (list, m)
  | len + 1, start_ptr, size, list, m =>
      InitRangeLoop len ((start_ptr + size) % kWord) size start_ptr (m.write start_ptr list)

def InitRange (start size len : Nat) (m : Mem) : Freelist × Mem :=
  let r := InitRangeLoop len start size 0 m
  ({ cap_ := len, len_ := len, list_ := r.1 }, r.2)

def Push (f : Freelist) (p : Nat) (m : Mem) : Freelist × Mem :=
  ({ f with list_ := p, len_ := (f.len_ + 1) % kWord }, m.write p f.list_)

def Pop (f : Freelist) (m : Mem) : Nat × Freelist :=
  if f.list_ ≠ 0 then
    (f.list_, { f with list_ := m.read f.list_, len_ := (f.len_ + kWord - 1) % kWord })
  else
    (f.list_, f)

/-- The expression `100 - ((len_ * 100) / cap_)` in `size_t` arithmetic; a zero capacity
divides by zero. -/
def Utilization (f : Freelist) : Except Fault Nat :=
  if f.cap_ = 0 then .error .divByZero
  else .ok ((100 + kWord - ((f.len_ * 100) % kWord) / f.cap_) % kWord)

end Freelist

/-! ## Span headers (`headers.h` is not part of the sources) -/

/-- Modelled from the spec: the owner tag `ActiveOwner` of `headers.h`, which is absent.
The spec packs it as `{ owner_id : 63 bits, active : 1 bit }` into one 64-bit word `raw`;
the active bit is taken to be bit 0. -/
def ActiveOwner.Reset (active : Bool) (owner : Nat) : Nat :=
  2 * (owner % 2 ^ 63) + (if active then 1 else 0)

/-- Modelled from the spec: the field `active` of the absent `ActiveOwner`. -/
def ActiveOwner.active (raw : Nat) : Bool := raw % 2 == 1

/-- Modelled from the spec: the field `owner` of the absent `ActiveOwner`. -/
def ActiveOwner.owner (raw : Nat) : Nat := raw / 2

/-- Modelled from the spec: the store `aowner.active = false` into the absent `ActiveOwner`
(`hdr.owner_tag.active := 0`). -/
def ActiveOwner.clearActive (raw : Nat) : Nat := 2 * (raw / 2)

/-- Modelled from the spec: the fields of `SpanHeader` (`headers.h` is absent) that the
frontend reads and writes, as listed in the spec's data model. -/
structure SpanHeader where
  size_class : Nat
  aowner : Nat
  flist : Freelist
  remote_flist : Nat
  prev : Nat
  next : Nat
  flist_aligned_blocksize_offset : Nat
  deriving DecidableEq, Repr

/-- Modelled from the spec: `SpanHeader::Utilization` (absent), the utilization of the
span's local freelist. -/
def SpanHeader.Utilization (h : SpanHeader) : Except Fault Nat := h.flist.Utilization

/-- Modelled from the spec: `SpanHeader::GetFromObject` (absent),
`header := pointer & ~(span_size - 1)` for a span size that is a power of two. -/
def SpanHeader.GetFromObject (cfg : Config) (p : Nat) : Nat := p - p % cfg.kVirtualSpanSize

/-! ## The frontend and its world -/

/-- The members of `ScallocCore` (the per-class locks and the node allocator apart). -/
structure ScallocCore where
  id_ : Nat
  me_active_ : Nat
  me_inactive_ : Nat
  hot_span_ : Nat → Nat
  cool_spans_ : Nat → Nat
  slow_spans_ : Nat → List Nat

/-- A call of `SpanPool::Put` or `Collector::Put`. -/
inductive Release where
  | spanPoolPut (hdr : Nat) (size_class : Nat) (owner : Nat)
  | collectorPut (hdr : Nat)
  deriving DecidableEq, Repr

/-- The span a release hands over. -/
def Release.span : Release → Nat
  | .spanPoolPut hdr _ _ => hdr
  | .collectorPut hdr => hdr

/-- An entry of the Block Pool: the arguments of one `BlockPool::Free` call. -/
structure PoolEntry where
  block : Nat
  size_class : Nat
  remote_flist : Nat
  deriving DecidableEq, Repr

/-- Everything a frontend call reads or writes. `pool` holds the blocks handed to
`BlockPool::Free` and not yet dequeued, `released` the calls of `SpanPool::Put` and
`Collector::Put` (latest first), `gets` the spans returned by `SpanPool::Get`
(latest first). -/
structure World where
  core : ScallocCore
  hdrs : Nat → SpanHeader
  mem : Mem
  pool : List PoolEntry
  released : List Release
  gets : List Nat

/-- Array store `a[i] = v`. -/
def upd {α : Type} (a : Nat → α) (i : Nat) (v : α) : Nat → α :=
  fun x => if x = i then v else a x

/-- Store to the header at `p`. -/
def World.modHdr (w : World) (p : Nat) (f : SpanHeader → SpanHeader) : World :=
  { w with hdrs := upd w.hdrs p (f (w.hdrs p)) }

/-- Store to a member of the frontend. -/
def World.modCore (w : World) (f : ScallocCore → ScallocCore) : World :=
  { w with core := f w.core }

/-- The constructor `ScallocCore(id)`. -/
def ScallocCore.New (id : Nat) : ScallocCore :=
  { id_ := id
    me_active_ := ActiveOwner.Reset true id
    me_inactive_ := ActiveOwner.Reset false id
    hot_span_ := fun _ => 0
    cool_spans_ := fun _ => 0
    slow_spans_ := fun _ => [] }

/-- Modelled from the spec: `SpanHeader::Init(sc, id, reusable)` (absent). It sets the size
class and the owner tag (active, owned by `id`) and builds the freelist from the block
range: `ClassToObjects sc` blocks of `ClassToSize sc` bytes, the first right after the
header. The recycled and the fresh case give the same freelist. -/
def SpanHeader.Init (cfg : Config) (span : Nat) (sc id : Nat) (_reusable : Bool)
    (w : World) : World :=
  let start := span + cfg.kSpanHeaderSize
  let r := Freelist.InitRange start (cfg.ClassToSize sc) (cfg.ClassToObjects sc) w.mem
  { w.modHdr span (fun h =>
      { h with
        size_class := sc
        aowner := ActiveOwner.Reset true id
        flist := r.1
        remote_flist := id % cfg.Cpus
        flist_aligned_blocksize_offset := start % cfg.ClassToSize sc }) with
    mem := r.2 }

/-! ## Cool and slow lists -/

def AddCoolSpan (sc : Nat) (span : Nat) (w : World) : World :=
  let w := w.modHdr span (fun h => { h with prev := 0 })
  let w := w.modHdr span (fun h => { h with next := w.core.cool_spans_ sc })
  let w :=
    if w.core.cool_spans_ sc ≠ 0 then
      w.modHdr (w.core.cool_spans_ sc) (fun h => { h with prev := span })
    else w
  w.modCore (fun c => { c with cool_spans_ := upd c.cool_spans_ sc span })

def RemoveCoolSpan (sc : Nat) (span : Nat) (w : World) : World :=
  let w :=
    if (w.hdrs span).prev ≠ 0 then
      w.modHdr (w.hdrs span).prev (fun h => { h with next := (w.hdrs span).next })
    else w
  let w :=
    if (w.hdrs span).next ≠ 0 then
      w.modHdr (w.hdrs span).next (fun h => { h with prev := (w.hdrs span).prev })
    else w
  let w :=
    if w.core.cool_spans_ sc = span then
      w.modCore (fun c => { c with cool_spans_ := upd c.cool_spans_ sc (w.hdrs span).next })
    else w
  let w := w.modHdr span (fun h => { h with prev := 0 })
  w.modHdr span (fun h => { h with next := 0 })

/-- With `REUSE_SLOW_SPANS` a new node carrying `span` becomes the head of the slow list. -/
def AddSlowSpan (cfg : Config) (sc : Nat) (span : Nat) (w : World) : World :=
  if cfg.REUSE_SLOW_SPANS then
    w.modCore (fun c => { c with slow_spans_ := upd c.slow_spans_ sc (span :: c.slow_spans_ sc) })
  else w

/-- The walk of `RemoveSlowSpan`: unlink the first node whose data is `span`. -/
def removeFirst (span : Nat) : List Nat → Option (List Nat)
  | [] => none
  | d :: rest =>
      if d = span then some rest
      else (removeFirst span rest).map (fun r => d :: r)

def RemoveSlowSpan (cfg : Config) (sc : Nat) (span : Nat) (w : World) : Except Fault World :=
  if cfg.REUSE_SLOW_SPANS then
    match removeFirst span (w.core.slow_spans_ sc) with
    | some l => .ok (w.modCore (fun c => { c with slow_spans_ := upd c.slow_spans_ sc l }))
    | none => .error .unreachable
  else .ok w

def SetActiveSlab (sc : Nat) (hdr : Nat) (w : World) : World :=
  let w := if w.core.hot_span_ sc ≠ 0 then AddCoolSpan sc (w.core.hot_span_ sc) w else w
  w.modCore (fun c => { c with hot_span_ := upd c.hot_span_ sc hdr })

/-! ## Collaborators -/

/-- The answers of the collaborators during one invocation of `AllocateNoSlab`: the block
and the span hint of `BlockPool::Allocate`, and the span and the reusable flag of
`SpanPool::Get` (read only if `Refill` gets that far). -/
structure Round where
  bp_block : Nat
  bp_span : Nat
  sp_span : Nat
  sp_reusable : Bool
  deriving DecidableEq, Repr

/-- Removes the first entry for `block` from the pool. -/
def dequeue (block : Nat) : List PoolEntry → List PoolEntry
  | [] => []
  | e :: rest => if e.block = block then rest else e :: dequeue block rest

/-- Modelled from the spec: the effect of `BlockPool::Allocate` (absent) on the pool, when
it answers `block`: a non-null block is dequeued. -/
def BlockPoolAllocate (block : Nat) (w : World) : World :=
  if block ≠ 0 then { w with pool := dequeue block w.pool } else w

/-- Modelled from the spec: the effect of `BlockPool::Free(p, sc, remote_flist)` (absent):
one block is enqueued. -/
def BlockPoolFree (p : Nat) (sc remote_flist : Nat) (w : World) : World :=
  { w with pool := { block := p, size_class := sc, remote_flist := remote_flist } :: w.pool }

/-- The release of a span: `SpanPool::Instance().Put(hdr, hdr->size_class,
hdr->aowner.owner)` with `MADVISE_SAME_THREAD`, `Collector::Put(hdr)` without. -/
def releaseSpan (cfg : Config) (hdr : Nat) (w : World) : World :=
  if cfg.MADVISE_SAME_THREAD then
    { w with released :=
        .spanPoolPut hdr (w.hdrs hdr).size_class (ActiveOwner.owner (w.hdrs hdr).aowner)
          :: w.released }
  else
    { w with released := .collectorPut hdr :: w.released }

/-- The builtin `__sync_bool_compare_and_swap(&x, old, new)` run without interference:
whether the swap took place, and the new content of `x`. -/
def compareAndSwap (cur old new : Nat) : Bool × Nat :=
  if cur = old then (true, new) else (false, cur)

/-! ## Allocation -/

/-- The loop of `Refill` over the slow list: every visited node is unlinked; the first span
that still belongs to this frontend, has class `sc` and whose tag is swapped from
`me_inactive_` to `me_active_` becomes the hot span. The flag tells whether one was found. -/
def RefillSlow (sc : Nat) : List Nat → World → Except Fault (Bool × World)
  | [], w => .ok (false, w)
  | span :: rest, w =>
      let w := w.modCore (fun c => { c with slow_spans_ := upd c.slow_spans_ sc rest })
      if span = 0 then .error .assertion
      else if ActiveOwner.owner (w.hdrs span).aowner = w.core.id_ ∧
          (w.hdrs span).size_class = sc ∧
          (compareAndSwap (w.hdrs span).aowner w.core.me_inactive_ w.core.me_active_).1 then
        let w := w.modHdr span (fun h =>
          { h with aowner := (compareAndSwap h.aowner w.core.me_inactive_ w.core.me_active_).2 })
        .ok (true, SetActiveSlab sc span w)
      else RefillSlow sc rest w

def Refill (cfg : Config) (sc : Nat) (r : Round) (w : World) : Except Fault World := do
  let (found, w) ←
    if cfg.REUSE_SLOW_SPANS then RefillSlow sc (w.core.slow_spans_ sc) w
    else pure (false, w)
  if found then pure w
  else
    let w := { w with gets := r.sp_span :: w.gets }
    if r.sp_span = 0 then throw .assertion
    else
      let w := SpanHeader.Init cfg r.sp_span sc w.core.id_ r.sp_reusable w
      pure (SetActiveSlab sc r.sp_span w)

/-- The body of `AllocateInSizeClass`, with the two calls of `AllocateNoSlab(sc)` given as
`noSlab`. -/
def AllocateInSizeClassWith (noSlab : World → Except Fault (Nat × World)) (sc : Nat)
    (w : World) : Except Fault (Nat × World) :=
  let hdr := w.core.hot_span_ sc
  if hdr = 0 then noSlab w
  else
    let r := (w.hdrs hdr).flist.Pop w.mem
    let w1 := w.modHdr hdr (fun h => { h with flist := r.2 })
    if r.1 ≠ 0 then .ok (r.1, w1)
    else noSlab w1

/-- `AllocateNoSlab(sc)`; each invocation consumes one `Round` of answers. -/
def AllocateNoSlab (cfg : Config) (sc : Nat) : List Round → World → Except Fault (Nat × World)
  | [], w => if sc = 0 then .ok (0, w) else .error .noAnswer
  | r :: rs, w =>
      if sc = 0 then .ok (0, w)
      else
        let w := BlockPoolAllocate r.bp_block w
        if r.bp_block ≠ 0 then
          if r.bp_span ≠ 0 then .ok (r.bp_block, SetActiveSlab sc r.bp_span w)
          else if cfg.Cpus = 0 then .error .divByZero
          else if SpanHeader.GetFromObject cfg r.bp_block = 0 then .error .nullDeref
          else if ActiveOwner.owner (w.hdrs (SpanHeader.GetFromObject cfg r.bp_block)).aowner
                % cfg.Cpus ≠ w.core.id_ % cfg.Cpus then
            (Refill cfg sc r w).map (fun w => (r.bp_block, w))
          else .ok (r.bp_block, w)
        else
          match Refill cfg sc r w with
          | .error e => .error e
          | .ok w => AllocateInSizeClassWith (AllocateNoSlab cfg sc rs) sc w

def AllocateInSizeClass (cfg : Config) (sc : Nat) (rs : List Round) (w : World) :
    Except Fault (Nat × World) :=
  AllocateInSizeClassWith (AllocateNoSlab cfg sc rs) sc w

def Allocate (cfg : Config) (size : Nat) (rs : List Round) (w : World) :
    Except Fault (Nat × World) :=
  AllocateInSizeClass cfg (cfg.SizeToClass size) rs w

/-! ## Free -/

/-- The statement `hdr->flist.Push(p)`. -/
def pushBlock (hdr p : Nat) (w : World) : World :=
  let r := (w.hdrs hdr).flist.Push p w.mem
  { w.modHdr hdr (fun h => { h with flist := r.1 }) with mem := r.2 }

/-- The block base computed at the top of `FreeInSizeClass`, in `uintptr_t` arithmetic. -/
def canonical (off size p : Nat) : Nat :=
  let blocksize_fixed_p := (p + kWord - off % kWord) % kWord
  (p + kWord - blocksize_fixed_p % size) % kWord

def FreeInSizeClass (cfg : Config) (sc : Nat) (p hdr : Nat) (w : World) : Except Fault World :=
  let cur_sc_hdr := w.core.hot_span_ (w.hdrs hdr).size_class
  if cfg.ClassToSize sc = 0 then .error .divByZero
  else
    let p := canonical (w.hdrs hdr).flist_aligned_blocksize_offset (cfg.ClassToSize sc) p
    if (w.hdrs hdr).aowner = w.core.me_active_ then do
      let w := pushBlock hdr p w
      let below ←
        if hdr ≠ cur_sc_hdr then do
          let u ← (w.hdrs hdr).Utilization
          pure (decide (u < cfg.kSpanReuseThreshold))
        else pure false
      if below then
        if (w.hdrs hdr).flist.Full then
          pure (releaseSpan cfg hdr (RemoveCoolSpan sc hdr w))
        else
          let w := AddSlowSpan cfg sc hdr (RemoveCoolSpan sc hdr w)
          pure (w.modHdr hdr (fun h => { h with aowner := ActiveOwner.clearActive h.aowner }))
      else pure w
    else if (w.hdrs hdr).aowner = w.core.me_inactive_ ∧
        (compareAndSwap (w.hdrs hdr).aowner w.core.me_inactive_ w.core.me_active_).1 then do
      let w := w.modHdr hdr (fun h =>
        { h with aowner := (compareAndSwap h.aowner w.core.me_inactive_ w.core.me_active_).2 })
      let w := pushBlock hdr p w
      if cur_sc_hdr = 0 then throw .nullDeref
      let u ← (w.hdrs cur_sc_hdr).Utilization
      if u > cfg.kLocalReuseThreshold then do
        let w ← RemoveSlowSpan cfg sc hdr w
        pure (SetActiveSlab sc hdr w)
      else if (w.hdrs hdr).flist.Full then do
        let w ← RemoveSlowSpan cfg sc hdr w
        pure (releaseSpan cfg hdr w)
      else
        pure (w.modHdr hdr (fun h => { h with aowner := ActiveOwner.clearActive h.aowner }))
    else
      pure (BlockPoolFree p (w.hdrs hdr).size_class (w.hdrs hdr).remote_flist w)

def Free (cfg : Config) (p hdr : Nat) (w : World) : Except Fault World :=
  if hdr = 0 then .error .nullDeref
  else FreeInSizeClass cfg (w.hdrs hdr).size_class p hdr w

/-- The world right after `ScallocCore::New(id)`: nothing pooled, released or obtained. -/
def World.New (id : Nat) (hdrs : Nat → SpanHeader) (mem : Mem) : World :=
  { core := ScallocCore.New id, hdrs := hdrs, mem := mem, pool := [], released := [],
    gets := [] }

/-! ## Vocabulary of the statements -/

/-- A header with its list links blanked: what the cool-list operations leave alone. -/
def SpanHeader.unlinked (h : SpanHeader) : SpanHeader := { h with prev := 0, next := 0 }

/-- The block base `FreeInSizeClass` computes for `p` on the span `hdr`. -/
def blockBase (cfg : Config) (w : World) (p hdr : Nat) : Nat :=
  canonical (w.hdrs hdr).flist_aligned_blocksize_offset
    (cfg.ClassToSize (w.hdrs hdr).size_class) p

/-- The world after the local push of the active branch of `Free`. -/
def afterActivePush (cfg : Config) (w : World) (p hdr : Nat) : World :=
  pushBlock hdr (blockBase cfg w p hdr) w

/-- The world after the tag swap and the push of the inactive branch of `Free`. -/
def afterInactivePush (cfg : Config) (w : World) (p hdr : Nat) : World :=
  pushBlock hdr (blockBase cfg w p hdr)
    (w.modHdr hdr (fun h => { h with aowner := w.core.me_active_ }))

/-- The seven ways through `Free(p, hdr)` that return, with the world each one leaves. -/
inductive FreeCase (cfg : Config) (w : World) (p hdr : Nat) : World → Prop where
  | remote
      (ha : (w.hdrs hdr).aowner ≠ w.core.me_active_)
      (hi : (w.hdrs hdr).aowner ≠ w.core.me_inactive_) :
      FreeCase cfg w p hdr
        (BlockPoolFree (blockBase cfg w p hdr) (w.hdrs hdr).size_class
          (w.hdrs hdr).remote_flist w)
  | keep
      (ha : (w.hdrs hdr).aowner = w.core.me_active_)
      (hk : hdr = w.core.hot_span_ (w.hdrs hdr).size_class ∨
        ∃ u, ((afterActivePush cfg w p hdr).hdrs hdr).Utilization = .ok u ∧
          ¬ u < cfg.kSpanReuseThreshold) :
      FreeCase cfg w p hdr (afterActivePush cfg w p hdr)
  | release (u : Nat)
      (ha : (w.hdrs hdr).aowner = w.core.me_active_)
      (hhot : hdr ≠ w.core.hot_span_ (w.hdrs hdr).size_class)
      (hu : ((afterActivePush cfg w p hdr).hdrs hdr).Utilization = .ok u)
      (hlt : u < cfg.kSpanReuseThreshold)
      (hfull : ((afterActivePush cfg w p hdr).hdrs hdr).flist.Full = true) :
      FreeCase cfg w p hdr
        (releaseSpan cfg hdr
          (RemoveCoolSpan (w.hdrs hdr).size_class hdr (afterActivePush cfg w p hdr)))
  | demote (u : Nat)
      (ha : (w.hdrs hdr).aowner = w.core.me_active_)
      (hhot : hdr ≠ w.core.hot_span_ (w.hdrs hdr).size_class)
      (hu : ((afterActivePush cfg w p hdr).hdrs hdr).Utilization = .ok u)
      (hlt : u < cfg.kSpanReuseThreshold)
      (hfull : ((afterActivePush cfg w p hdr).hdrs hdr).flist.Full = false) :
      FreeCase cfg w p hdr
        ((AddSlowSpan cfg (w.hdrs hdr).size_class hdr
            (RemoveCoolSpan (w.hdrs hdr).size_class hdr
              (afterActivePush cfg w p hdr))).modHdr hdr
          (fun h => { h with aowner := ActiveOwner.clearActive h.aowner }))
  | promote (u : Nat) (w3 : World)
      (ha : (w.hdrs hdr).aowner ≠ w.core.me_active_)
      (hi : (w.hdrs hdr).aowner = w.core.me_inactive_)
      (hcur : w.core.hot_span_ (w.hdrs hdr).size_class ≠ 0)
      (hu : ((afterInactivePush cfg w p hdr).hdrs
              (w.core.hot_span_ (w.hdrs hdr).size_class)).Utilization = .ok u)
      (hgt : u > cfg.kLocalReuseThreshold)
      (hrm : RemoveSlowSpan cfg (w.hdrs hdr).size_class hdr (afterInactivePush cfg w p hdr)
              = .ok w3) :
      FreeCase cfg w p hdr (SetActiveSlab (w.hdrs hdr).size_class hdr w3)
  | retire (u : Nat) (w3 : World)
      (ha : (w.hdrs hdr).aowner ≠ w.core.me_active_)
      (hi : (w.hdrs hdr).aowner = w.core.me_inactive_)
      (hcur : w.core.hot_span_ (w.hdrs hdr).size_class ≠ 0)
      (hu : ((afterInactivePush cfg w p hdr).hdrs
              (w.core.hot_span_ (w.hdrs hdr).size_class)).Utilization = .ok u)
      (hle : ¬ u > cfg.kLocalReuseThreshold)
      (hfull : ((afterInactivePush cfg w p hdr).hdrs hdr).flist.Full = true)
      (hrm : RemoveSlowSpan cfg (w.hdrs hdr).size_class hdr (afterInactivePush cfg w p hdr)
              = .ok w3) :
      FreeCase cfg w p hdr (releaseSpan cfg hdr w3)
  | stay (u : Nat)
      (ha : (w.hdrs hdr).aowner ≠ w.core.me_active_)
      (hi : (w.hdrs hdr).aowner = w.core.me_inactive_)
      (hcur : w.core.hot_span_ (w.hdrs hdr).size_class ≠ 0)
      (hu : ((afterInactivePush cfg w p hdr).hdrs
              (w.core.hot_span_ (w.hdrs hdr).size_class)).Utilization = .ok u)
      (hle : ¬ u > cfg.kLocalReuseThreshold)
      (hfull : ((afterInactivePush cfg w p hdr).hdrs hdr).flist.Full = false) :
      FreeCase cfg w p hdr
        ((afterInactivePush cfg w p hdr).modHdr hdr
          (fun h => { h with aowner := ActiveOwner.clearActive h.aowner }))

/-! ## A small build and a few worlds, for evaluating the code -/

/-- One size class (class 1) of 16-byte blocks, four to a span of 4096 bytes with a 64-byte
header; both thresholds at 80. -/
def cfgEx : Config :=
  { SizeToClass := fun n => if n = 0 then 0 else 1
    ClassToSize := fun c => if c = 0 then 0 else 16
    ClassToObjects := fun c => if c = 0 then 0 else 4
    kSpanReuseThreshold := 80
    kLocalReuseThreshold := 80
    Cpus := 2
    kVirtualSpanSize := 4096
    kSpanHeaderSize := 64
    REUSE_SLOW_SPANS := true
    MADVISE_SAME_THREAD := false }

/-- The all-zero header. -/
def hdrZero : SpanHeader :=
  { size_class := 0, aowner := 0, flist := { cap_ := 0, len_ := 0, list_ := 0 },
    remote_flist := 0, prev := 0, next := 0, flist_aligned_blocksize_offset := 0 }

/-- The world of frontend 1 right after `New`, over zeroed memory. -/
def worldNew : World := World.New 1 (fun _ => hdrZero) Mem.zero

/-- The span at 4096 initialised for class 1 and owner 1, not yet held by the frontend. -/
def worldInit : World := SpanHeader.Init cfgEx 4096 1 1 false worldNew

/-- The same memory seen by frontend 2. -/
def worldForeign : World := { worldInit with core := ScallocCore.New 2 }

/-- The span at 4096 made the hot span of class 1: what the first `Allocate` of frontend 1
builds before it pops. -/
def worldHot : World := SetActiveSlab 1 4096 worldInit

/-- The world after the first allocation: block 4208 of the hot span is handed out. -/
def worldOne : World :=
  worldHot.modHdr 4096 (fun h => { h with flist := (h.flist.Pop worldHot.mem).2 })

/-- The doubly linked chain of headers that starts at `p`, whose first entry has `prev`
as its predecessor, visits exactly the spans of `l` in order and ends in `NULL`. -/
def DLL (hdrs : Nat → SpanHeader) : Nat → Nat → List Nat → Prop
  | _, p, [] => p = 0
  | prev, p, x :: xs => p = x ∧ x ≠ 0 ∧ (hdrs x).prev = prev ∧ DLL hdrs x (hdrs x).next xs

instance DLL.instDecidable (hdrs : Nat → SpanHeader) :
    ∀ (l : List Nat) (prev p : Nat), Decidable (DLL hdrs prev p l)
  | [], _, p => inferInstanceAs (Decidable (p = 0))
  | x :: xs, prev, p =>
      have : Decidable (DLL hdrs x (hdrs x).next xs) := DLL.instDecidable hdrs xs x (hdrs x).next
      inferInstanceAs
        (Decidable (p = x ∧ x ≠ 0 ∧ (hdrs x).prev = prev ∧ DLL hdrs x (hdrs x).next xs))

/-- The cool list of class `sc` is well formed and holds exactly the spans of `l`, head
first: the head has no predecessor, consecutive entries point at each other, no span occurs
twice. -/
def CoolList (w : World) (sc : Nat) (l : List Nat) : Prop :=
  DLL w.hdrs 0 (w.core.cool_spans_ sc) l ∧ l.Nodup

instance (w : World) (sc : Nat) (l : List Nat) : Decidable (CoolList w sc l) :=
  inferInstanceAs (Decidable (_ ∧ _))

/-- The answers of one round in which the Block Pool is empty and the Span Pool hands out
the span at `s`. -/
def roundEx (s : Nat) : Round := { bp_block := 0, bp_span := 0, sp_span := s, sp_reusable := false }

/-- The world after `Allocate(16)` in the small build, the Span Pool offering `s`. -/
def allocEx (s : Nat) (w : World) : World :=
  match Allocate cfgEx 16 [roundEx s] w with
  | .ok r => r.2
  | .error _ => w

/-- The world after `Free(p, hdr)` in the small build. -/
def freeEx (p hdr : Nat) (w : World) : World :=
  match Free cfgEx p hdr w with
  | .ok w' => w'
  | .error _ => w

/-- Five allocations by frontend 1: the span at 4096 is exhausted and cool, the span at 8192
is hot with one block handed out. -/
def worldCool : World :=
  allocEx 8192 (allocEx 0 (allocEx 0 (allocEx 0 (allocEx 4096 worldNew))))

/-- Then block 4160 is freed: the span at 4096 is demoted to the slow list. -/
def worldSlow : World := freeEx 4160 4096 worldCool

/-! ## Runs of one frontend -/

/-- The intrusive chain in block memory that starts at `p` visits exactly the blocks of `l`
in order and ends in `NULL`. -/
def Chain (m : Mem) : Nat → List Nat → Prop
  | p, [] => p = 0
  | p, x :: xs => p = x ∧ x ≠ 0 ∧ Chain m (m.read x) xs

instance Chain.instDecidable (m : Mem) : ∀ (l : List Nat) (p : Nat), Decidable (Chain m p l)
  | [], p => inferInstanceAs (Decidable (p = 0))
  | x :: xs, p =>
      have : Decidable (Chain m (m.read x) xs) := Chain.instDecidable m xs (m.read x)
      inferInstanceAs (Decidable (p = x ∧ x ≠ 0 ∧ Chain m (m.read x) xs))

/-- The blocks `InitRange` threads, in the order of the resulting chain (last block
first), in front of `acc`. -/
def threaded : Nat → Nat → Nat → List Nat → List Nat
  | 0, _, _, acc => acc
  | n + 1, start, size, acc => threaded n (start + size) size (start :: acc)

/-- The address `b` is the base of a block of a span at `s` of class `c`. -/
def IsBlock (cfg : Config) (s c b : Nat) : Prop :=
  ∃ i, i < cfg.ClassToObjects c ∧ b = s + cfg.kSpanHeaderSize + i * cfg.ClassToSize c

/-- What the embedding needs of the tables: a positive span size, and for every class but
class 0 at least one block per span, blocks that hold a pointer, and a span that holds its
header and its blocks. -/
structure WFConfig (cfg : Config) : Prop where
  span_pos : 0 < cfg.kVirtualSpanSize
  objects : ∀ c, c ≠ 0 → 1 ≤ cfg.ClassToObjects c
  size : ∀ c, c ≠ 0 → 8 ≤ cfg.ClassToSize c
  fits : ∀ c, c ≠ 0 →
    cfg.kSpanHeaderSize + cfg.ClassToObjects c * cfg.ClassToSize c ≤ cfg.kVirtualSpanSize

/-- The frontend holds the span `s`: it was obtained from the Span Pool once more often
than it was released. -/
def Live (w : World) (s : Nat) : Prop :=
  w.gets.count s = (w.released.map Release.span).count s + 1

/-- A span the Span Pool may hand out: non-null, aligned to the span size, inside the
address space, and not held by the frontend (never obtained, or released since). -/
def FreshSpan (cfg : Config) (w : World) (s : Nat) : Prop :=
  s ≠ 0 ∧ s % cfg.kVirtualSpanSize = 0 ∧ s + cfg.kVirtualSpanSize ≤ kWord ∧
    w.gets.count s = (w.released.map Release.span).count s

instance (w : World) (s : Nat) : Decidable (Live w s) :=
  inferInstanceAs (Decidable (_ = _))

instance (cfg : Config) (w : World) (s : Nat) : Decidable (FreshSpan cfg w s) :=
  inferInstanceAs (Decidable (_ ∧ _ ∧ _ ∧ _))

/-- Answers the collaborators can give in the world `w` to a request of class `sc`: the
Block Pool, a multiset of remotely freed blocks, answers null or a block of the class that
it holds (with the span of that block, or null, as the hint); the Span Pool offers a span
the frontend does not hold. -/
def ValidRound (cfg : Config) (w : World) (sc : Nat) (r : Round) : Prop :=
  (r.bp_block ≠ 0 → ∃ e ∈ w.pool, e.block = r.bp_block ∧ e.size_class = sc) ∧
  (r.bp_span ≠ 0 → r.bp_block ≠ 0 ∧ r.bp_span = SpanHeader.GetFromObject cfg r.bp_block) ∧
  FreshSpan cfg w r.sp_span

/-- The worlds one frontend reaches from `New` by `Allocate` and `Free` calls, with the
block bases handed out and not yet freed. `Free` is called on a pointer into a block that
is handed out, with the header the pointer maps to. -/
inductive Reachable (cfg : Config) : World → List Nat → Prop where
  | init (id : Nat) (hdrs : Nat → SpanHeader) (mem : Mem) (hid : id < 2 ^ 63) :
      Reachable cfg (World.New id hdrs mem) []
  | alloc {w : World} {out : List Nat} (size : Nat) (r : Round) (rest : List Round)
      (p : Nat) (w' : World) :
      Reachable cfg w out → ValidRound cfg w (cfg.SizeToClass size) r →
      Allocate cfg size (r :: rest) w = .ok (p, w') →
      Reachable cfg w' (if p = 0 then out else p :: out)
  | free {w : World} {out : List Nat} (b k : Nat) (w' : World) :
      Reachable cfg w out → b ∈ out →
      k < cfg.ClassToSize (w.hdrs (SpanHeader.GetFromObject cfg b)).size_class →
      Free cfg (b + k) (SpanHeader.GetFromObject cfg b) w = .ok w' →
      Reachable cfg w' (out.erase b)

/-- The number of handed-out blocks that lie in the span `s`. -/
def outIn (cfg : Config) (out : List Nat) (s : Nat) : Nat :=
  out.countP (fun b => SpanHeader.GetFromObject cfg b = s)

/-- The state of a held span `s`, with `fl` the blocks of its freelist: its class is not 0,
its tag is one of the two tags of the frontend, capacity, offset and length are right, the
freelist is a chain of distinct blocks of the span none of which is handed out, and free
plus handed-out blocks make up the span. -/
structure SpanOK (cfg : Config) (w : World) (out : List Nat) (fl : List Nat) (s : Nat) :
    Prop where
  nonnull : s ≠ 0
  aligned : s % cfg.kVirtualSpanSize = 0
  inside : s + cfg.kVirtualSpanSize ≤ kWord
  cls : (w.hdrs s).size_class ≠ 0
  tag : (w.hdrs s).aowner = w.core.me_active_ ∨ (w.hdrs s).aowner = w.core.me_inactive_
  cap : (w.hdrs s).flist.cap_ = cfg.ClassToObjects (w.hdrs s).size_class
  off : (w.hdrs s).flist_aligned_blocksize_offset
    = (s + cfg.kSpanHeaderSize) % cfg.ClassToSize (w.hdrs s).size_class
  len : (w.hdrs s).flist.len_ = fl.length
  chain : Chain w.mem (w.hdrs s).flist.list_ fl
  nodup : fl.Nodup
  blocks : ∀ b ∈ fl, IsBlock cfg s (w.hdrs s).size_class b ∧ b ∉ out
  total : fl.length + outIn cfg out s = cfg.ClassToObjects (w.hdrs s).size_class
  hot : w.core.hot_span_ (w.hdrs s).size_class ≠ 0
  inactive : (w.hdrs s).aowner = w.core.me_inactive_ → 1 ≤ fl.length

/-- The invariant of the runs of one frontend, with `cool c` the spans of the cool list of
class `c` and `fl s` the blocks of the freelist of the span `s`. -/
structure Inv (cfg : Config) (w : World) (out : List Nat) (cool : Nat → List Nat)
    (fl : Nat → List Nat) : Prop where
  id_small : w.core.id_ < 2 ^ 63
  tagA : w.core.me_active_ = ActiveOwner.Reset true w.core.id_
  tagI : w.core.me_inactive_ = ActiveOwner.Reset false w.core.id_
  poolEmpty : w.pool = []
  counts : ∀ s, w.gets.count s = (w.released.map Release.span).count s ∨ Live w s
  spans : ∀ s, Live w s → SpanOK cfg w out (fl s) s
  out_nodup : out.Nodup
  outs : ∀ b ∈ out, Live w (SpanHeader.GetFromObject cfg b) ∧
    IsBlock cfg (SpanHeader.GetFromObject cfg b)
      (w.hdrs (SpanHeader.GetFromObject cfg b)).size_class b
  hotOK : ∀ c, w.core.hot_span_ c ≠ 0 →
    Live w (w.core.hot_span_ c) ∧ (w.hdrs (w.core.hot_span_ c)).size_class = c ∧
      (w.hdrs (w.core.hot_span_ c)).aowner = w.core.me_active_
  coolOK : ∀ c, CoolList w c (cool c) ∧
    ∀ s ∈ cool c, Live w s ∧ (w.hdrs s).size_class = c ∧
      (w.hdrs s).aowner = w.core.me_active_ ∧ s ≠ w.core.hot_span_ c
  slowOK : ∀ c, (w.core.slow_spans_ c).Nodup ∧
    ∀ s ∈ w.core.slow_spans_ c, Live w s ∧ (w.hdrs s).size_class = c ∧
      (w.hdrs s).aowner = w.core.me_inactive_
  active : ∀ s, Live w s → (w.hdrs s).aowner = w.core.me_active_ →
    s = w.core.hot_span_ (w.hdrs s).size_class ∨ s ∈ cool (w.hdrs s).size_class
  inactive : ∀ s, Live w s → (w.hdrs s).aowner = w.core.me_inactive_ →
    cfg.REUSE_SLOW_SPANS = true → s ∈ w.core.slow_spans_ (w.hdrs s).size_class
  noslow : cfg.REUSE_SLOW_SPANS = false → ∀ c, w.core.slow_spans_ c = []

/-! ## Runs of one freelist -/

/-- The first `n` calls of `Pop` on a freelist: the pointers they return, in call order,
and the freelist afterwards. `Pop` does not write block memory. -/
def popN : Nat → Freelist → Mem → List Nat × Freelist
  | 0, f, _ => ([], f)
  | n + 1, f, m => ((f.Pop m).1 :: (popN n (f.Pop m).2 m).1, (popN n (f.Pop m).2 m).2)

/-- The addresses `base + i * stride` for `i = count - 1` down to `0`. -/
def blockAddrs (base stride : Nat) : Nat → List Nat
  | 0 => []
  | n + 1 => (base + n * stride) :: blockAddrs base stride n

/-- The states of a freelist after `InitRange(base, stride, count)` and a sequence of `Push`
and `Pop` calls in which every `Push` gives back a block that a `Pop` returned and that has
not been pushed since; the third component lists those blocks. -/
inductive FlReach (base stride count : Nat) (m0 : Mem) : Freelist → Mem → List Nat → Prop where
  | init : FlReach base stride count m0 (Freelist.InitRange base stride count m0).1
      (Freelist.InitRange base stride count m0).2 []
  | pop {f : Freelist} {m : Mem} {out : List Nat} : FlReach base stride count m0 f m out →
      FlReach base stride count m0 (f.Pop m).2 m
        (if (f.Pop m).1 = 0 then out else (f.Pop m).1 :: out)
  | push {f : Freelist} {m : Mem} {out : List Nat} (p : Nat) :
      FlReach base stride count m0 f m out → p ∈ out →
      FlReach base stride count m0 (f.Push p m).1 (f.Push p m).2 (out.erase p)

/-! ## The tagged stack (`stack-inl.h`) -/

/-- Modelled from the spec: the `TaggedAtomic<void*, uint64_t>` of `atomic.h`, which is
absent: the pair `(pointer, tag)` held in one word that is swapped as a whole. -/
structure TaggedAtomic where
  atomic : Nat
  tag : Nat
  deriving DecidableEq, Repr

/-- Modelled from the spec: `TaggedAtomic::Pack` and `WeakPack` (absent); the tag is kept
modulo the tag width `tagMod`. -/
def TaggedAtomic.Pack (tagMod : Nat) (p tag : Nat) : TaggedAtomic :=
  { atomic := p, tag := tag % tagMod }

/-- Modelled from the spec: `TaggedAtomic::AtomicExchange(old, new)` (absent), the
compare-and-swap of the whole word: whether it took place, and the new content. -/
def TaggedAtomic.AtomicExchange (cur old new : TaggedAtomic) : Bool × TaggedAtomic :=
  if cur = old then (true, new) else (false, cur)

structure Stack where
  top_ : TaggedAtomic
  deriving DecidableEq, Repr

namespace Stack

def Init (tagMod : Nat) : Stack := { top_ := TaggedAtomic.Pack tagMod 0 0 }

/-- The `do ... while` of `Push`, for at most `fuel` turns. -/
def Push (tagMod : Nat) : Nat → Stack → Nat → Mem → Except Fault (Stack × Mem)
  | 0, _, _, _ => .error .outOfFuel
  | fuel + 1, s, p, m =>
      let top_old := s.top_
      let m := m.write p top_old.atomic
      let top_new := TaggedAtomic.Pack tagMod p (top_old.tag + 1)
      let r := TaggedAtomic.AtomicExchange s.top_ top_old top_new
      if r.1 then .ok ({ top_ := r.2 }, m) else Push tagMod fuel { top_ := r.2 } p m

/-- The `do ... while` of `Pop`, for at most `fuel` turns. -/
def Pop (tagMod : Nat) : Nat → Stack → Mem → Except Fault (Nat × Stack)
  | 0, _, _ => .error .outOfFuel
  | fuel + 1, s, m =>
      let top_old := s.top_
      if top_old.atomic = 0 then .ok (0, s)
      else
        let top_new := TaggedAtomic.Pack tagMod (m.read top_old.atomic) (top_old.tag + 1)
        let r := TaggedAtomic.AtomicExchange s.top_ top_old top_new
        if r.1 then .ok (top_old.atomic, { top_ := r.2 }) else Pop tagMod fuel { top_ := r.2 } m

def Put (tagMod : Nat) (fuel : Nat) (s : Stack) (p : Nat) (m : Mem) :
    Except Fault (Stack × Mem) :=
  Push tagMod fuel s p m

def Get (tagMod : Nat) (fuel : Nat) (s : Stack) (m : Mem) : Except Fault (Nat × Stack) :=
  Pop tagMod fuel s m

end Stack

/-- The states of a stack used by one thread after `Init`, with the elements pushed and not
yet popped, most recent first: every pushed pointer is a non-null machine address, aligned
to a machine word (what the stack assumes of its entries), and not on the stack. -/
inductive StackReach (tagMod : Nat) : Stack → Mem → List Nat → Prop where
  | init (m : Mem) : StackReach tagMod (Stack.Init tagMod) m []
  | push {s s' : Stack} {m m' : Mem} {l : List Nat} (fuel p : Nat) :
      StackReach tagMod s m l → p ≠ 0 → p < kWord → p % 8 = 0 → p ∉ l →
      Stack.Push tagMod fuel s p m = .ok (s', m') → StackReach tagMod s' m' (p :: l)
  | pop {s s' : Stack} {m : Mem} {l : List Nat} (fuel r : Nat) :
      StackReach tagMod s m l →
      Stack.Pop tagMod fuel s m = .ok (r, s') → StackReach tagMod s' m l.tail

/-! ## Destroy -/

/-- The header of a span whose active bit was cleared. -/
def SpanHeader.inactive (h : SpanHeader) : SpanHeader :=
  { h with aowner := ActiveOwner.clearActive h.aowner }

/-- The header of a span after the cool loop of `Destroy` visited it: links cleared and
active bit cleared. -/
def SpanHeader.floated (h : SpanHeader) : SpanHeader :=
  { h with next := 0, prev := 0, aowner := ActiveOwner.clearActive h.aowner }

/-- The loop of `Destroy` over a cool list that starts at `cur`, for at most `fuel` spans. -/
def DestroyCool : Nat → Nat → World → Except Fault World
  | 0, cur, w => if cur = 0 then .ok w else .error .outOfFuel
  | fuel + 1, cur, w =>
      if cur = 0 then .ok w
      else
        let tmp := cur
        let cur := (w.hdrs cur).next
        let w := w.modHdr tmp (fun h => { h with next := 0 })
        let w := w.modHdr tmp (fun h => { h with prev := 0 })
        let w := w.modHdr tmp (fun h => { h with aowner := ActiveOwner.clearActive h.aowner })
        DestroyCool fuel cur w

/-- The first part of the body of the loop of `Destroy` for the size class `i`: the hot
span is released if its freelist is full and has its active bit cleared if not; the hot
slot is reset. -/
def DestroyHot (cfg : Config) (i : Nat) (w : World) : World :=
  let w :=
    if w.core.hot_span_ i ≠ 0 then
      let cur := w.core.hot_span_ i
      if (w.hdrs cur).flist.Full then releaseSpan cfg cur w
      else
        w.modHdr (w.core.hot_span_ i)
          (fun h => { h with aowner := ActiveOwner.clearActive h.aowner })
    else w
  w.modCore (fun c => { c with hot_span_ := upd c.hot_span_ i 0 })

/-- The last part of the body of the loop of `Destroy` for the size class `i`: the head of
the cool list is reset, and with `REUSE_SLOW_SPANS` the nodes of the slow list are deleted
and its head is reset. -/
def DestroyLists (cfg : Config) (i : Nat) (w : World) : World :=
  let w := w.modCore (fun c => { c with cool_spans_ := upd c.cool_spans_ i 0 })
  if cfg.REUSE_SLOW_SPANS then
    w.modCore (fun c => { c with slow_spans_ := upd c.slow_spans_ i [] })
  else w

/-- The body of the loop of `Destroy` for the size class `i`. -/
def DestroyClass (cfg : Config) (fuel i : Nat) (w : World) : Except Fault World :=
  let w := DestroyHot cfg i w
  match DestroyCool fuel (w.core.cool_spans_ i) w with
  | .ok w => .ok (DestroyLists cfg i w)
  | .error e => .error e

/-- The turns `i`, `i + 1`, ... of the loop of `Destroy`, `n` of them. -/
def DestroyLoop (cfg : Config) (fuel : Nat) : Nat → Nat → World → Except Fault World
  | 0, _, w => .ok w
  | n + 1, i, w =>
      match DestroyClass cfg fuel i w with
      | .ok w => DestroyLoop cfg fuel n (i + 1) w
      | .error e => .error e

/-- `Destroy(thiz)` for `kNumClasses` size classes, each cool list walked for at most
`fuel` spans. The frontend object itself is given back to its allocator, which is not
modelled. -/
def Destroy (cfg : Config) (kNumClasses fuel : Nat) (w : World) : Except Fault World :=
  DestroyLoop cfg fuel kNumClasses 0 w

/-- The test of `Refill` on a slow entry, read in the world `w`: the owner is this
frontend, the class is `sc` and the tag is `me_inactive_`. -/
def Reclaimable (sc : Nat) (w : World) (span : Nat) : Prop :=
  ActiveOwner.owner (w.hdrs span).aowner = w.core.id_ ∧ (w.hdrs span).size_class = sc ∧
    (w.hdrs span).aowner = w.core.me_inactive_

instance (sc : Nat) (w : World) (span : Nat) : Decidable (Reclaimable sc w span) :=
  inferInstanceAs (Decidable (_ ∧ _ ∧ _))

/-- The cool lists of the world `worldCool`: the span at 4096 in class 1. -/
def coolEx (c : Nat) : List Nat := if c = 1 then [4096] else []

/-- The thresholds under which a span that enters a cool list is utilized enough: the reuse
threshold is a percentage, and a hot span that is replaced because its utilization is
above the local reuse threshold reaches the reuse threshold. -/
def ThreshOK (cfg : Config) : Prop :=
  cfg.kSpanReuseThreshold ≤ 100 ∧ cfg.kSpanReuseThreshold ≤ cfg.kLocalReuseThreshold + 1

instance (cfg : Config) : Decidable (ThreshOK cfg) := inferInstanceAs (Decidable (_ ∧ _))

/-- Every span of the cool lists `cool` has a utilization of at least the reuse threshold. -/
def CoolUtil (cfg : Config) (w : World) (cool : Nat → List Nat) : Prop :=
  ∀ c, ∀ s ∈ cool c, ∃ u, (w.hdrs s).Utilization = .ok u ∧ cfg.kSpanReuseThreshold ≤ u

/-- The worlds reached from `New` by `n` calls of `Allocate`, each for a size of the class
`c`, and no call of `Free`, with answers the collaborators can give. -/
inductive AllocRun (cfg : Config) (c : Nat) : Nat → World → Prop where
  | init (id : Nat) (hdrs : Nat → SpanHeader) (mem : Mem) (hid : id < 2 ^ 63) :
      AllocRun cfg c 0 (World.New id hdrs mem)
  | step {n : Nat} {w : World} (size : Nat) (r : Round) (rest : List Round) (p : Nat)
      (w' : World) :
      AllocRun cfg c n w → cfg.SizeToClass size = c → ValidRound cfg w c r →
      Allocate cfg size (r :: rest) w = .ok (p, w') → AllocRun cfg c (n + 1) w'

/-- Four allocations by frontend 1: the span at 4096 is hot and exhausted. -/
def worldFour : World := allocEx 0 (allocEx 0 (allocEx 0 (allocEx 4096 worldNew)))

/-- The small build with the local reuse threshold at 0. -/
def cfgLow : Config := { cfgEx with kLocalReuseThreshold := 0 }

/-- The world after `Allocate(16)` in the build `cfgLow`. -/
def allocLow (s : Nat) (w : World) : World :=
  match Allocate cfgLow 16 [roundEx s] w with
  | .ok r => r.2
  | .error _ => w

/-- The world after `Free(p, hdr)` in the build `cfgLow`. -/
def freeLow (p hdr : Nat) (w : World) : World :=
  match Free cfgLow p hdr w with
  | .ok w' => w'
  | .error _ => w

/-- In the build `cfgLow`: five allocations (the span at 4096 is exhausted and cool, the
span at 8192 is hot with one block handed out), then the blocks 4160 and 4176 of the span
at 4096 are freed. -/
def worldLow : World :=
  freeLow 4176 4096 (freeLow 4160 4096
    (allocLow 8192 (allocLow 0 (allocLow 0 (allocLow 0 (allocLow 4096 worldNew))))))

/-! ## Runs of one frontend among other threads -/

/-- The world with the content of the Block Pool replaced by `q`. -/
def World.setPool (w : World) (q : List PoolEntry) : World := { w with pool := q }

/-- The blocks queued in the Block Pool. -/
def queued (w : World) : List Nat := w.pool.map PoolEntry.block

/-- The worlds one frontend reaches from `New` while other threads free blocks that it
handed out. The frontend calls `Allocate` and `Free` as in `Reachable`; the Block Pool, a
multiset of the remotely freed blocks, answers null or a block it holds, without a span
hint. A remote free is the call of `Free` by a frontend `other` with another id on a
pointer into a block that is handed out, with the header the pointer maps to. -/
inductive Shared (cfg : Config) : World → List Nat → Prop where
  | init (id : Nat) (hdrs : Nat → SpanHeader) (mem : Mem) (hid : id < 2 ^ 63) :
      Shared cfg (World.New id hdrs mem) []
  | alloc {w : World} {out : List Nat} (size : Nat) (r : Round) (rest : List Round)
      (p : Nat) (w' : World) :
      Shared cfg w out → ValidRound cfg w (cfg.SizeToClass size) r → r.bp_span = 0 →
      Allocate cfg size (r :: rest) w = .ok (p, w') →
      Shared cfg w' (if p = 0 then out else p :: out)
  | free {w : World} {out : List Nat} (b k : Nat) (w' : World) :
      Shared cfg w out → b ∈ out →
      k < cfg.ClassToSize (w.hdrs (SpanHeader.GetFromObject cfg b)).size_class →
      Free cfg (b + k) (SpanHeader.GetFromObject cfg b) w = .ok w' →
      Shared cfg w' (out.erase b)
  | remote {w : World} {out : List Nat} (other : ScallocCore) (b k : Nat) (w' : World) :
      Shared cfg w out → b ∈ out →
      k < cfg.ClassToSize (w.hdrs (SpanHeader.GetFromObject cfg b)).size_class →
      other.id_ < 2 ^ 63 → other.id_ ≠ w.core.id_ →
      other.me_active_ = ActiveOwner.Reset true other.id_ →
      other.me_inactive_ = ActiveOwner.Reset false other.id_ →
      Free cfg (b + k) (SpanHeader.GetFromObject cfg b) { w with core := other } = .ok w' →
      Shared cfg { w' with core := w.core } (out.erase b)

/-- The world of frontend 1 after frontend 2 called `Free(p, hdr)` in the small build. -/
def remoteEx (p hdr : Nat) (w : World) : World :=
  match Free cfgEx p hdr { w with core := ScallocCore.New 2 } with
  | .ok w' => { w' with core := w.core }
  | .error _ => w

/-- After `worldSlow` (the span at 4096 is slow, the span at 8192 is hot) frontend 2 frees
the block 4176 of the span at 4096, which goes to the Block Pool. -/
def worldRemote : World := remoteEx 4176 4096 worldSlow

/-- Then frontend 1 allocates three times and exhausts its hot span at 8192. -/
def worldQueued : World := allocEx 0 (allocEx 0 (allocEx 0 worldRemote))

/-- The Block Pool answers with the block 4176 and its span, the span at 4096, as the
hint. -/
def roundSlowHint : Round :=
  { bp_block := 4176, bp_span := 4096, sp_span := 12288, sp_reusable := false }

/-- The world after the allocation in `worldQueued` that the Block Pool answers with
`roundSlowHint`. -/
def worldStolen : World :=
  match Allocate cfgEx 16 [roundSlowHint] worldQueued with
  | .ok r => r.2
  | .error _ => worldQueued

/-- After `worldStolen` frontend 1 allocates once more (the block 4160) and then frees the
four blocks of the span at 4096. -/
def worldGone : World :=
  freeEx 4208 4096 (freeEx 4192 4096 (freeEx 4176 4096 (freeEx 4160 4096
    (allocEx 0 worldStolen))))

/-! ## The typed allocator (`typed_allocator.h`) -/

/-- The members of `TypedAllocator<T>` that `Init` writes. -/
structure TypedAllocator where
  alloc_increment_ : Nat
  tsize_ : Nat
  deriving DecidableEq, Repr

/-- The constant `kNoAlignment` of `TypedAllocator`. -/
def kNoAlignment : Nat := 1

/-- Modelled from the spec: `utils::PadSize(size, multiple)` of `utils.h`, which is absent:
`size` rounded up to a multiple of `multiple`, in `size_t` arithmetic. -/
def PadSize (size multiple : Nat) : Nat :=
  ((size + multiple + kWord - 1) % kWord / multiple * multiple) % kWord

/-- `TypedAllocator<T>::Init(alloc_increment, alignment)` for a type of `sizeofT` bytes and
the page size `kPageSize` of the absent `common.h`; the absent `Fatal` ends the process. -/
def TypedAllocator.Init (sizeofT kPageSize : Nat) (a : TypedAllocator)
    (alloc_increment alignment : Nat) : Except Fault TypedAllocator :=
  let a := { a with alloc_increment_ := alloc_increment }
  let a := { a with tsize_ := sizeofT }
  let padded : Except Fault TypedAllocator :=
    if alignment > kNoAlignment then
      if (a.tsize_ + alignment) % kWord ≤ a.tsize_ then .error .fatal
      else if kPageSize % alignment ≠ 0 then .error .fatal
      else .ok { a with tsize_ := PadSize a.tsize_ alignment }
    else .ok a
  match padded with
  | .error e => .error e
  | .ok a => if a.tsize_ > a.alloc_increment_ then .error .fatal else .ok a

/-- The freelist and the block memory after `InitRange(4160, 16, 1)`, a `Pop`, two calls
of `Push(4160)` and two calls of `Pop`. -/
def flDouble : Freelist × Mem :=
  let r0 := Freelist.InitRange 4160 16 1 Mem.zero
  let f1 := (r0.1.Pop r0.2).2
  let r2 := f1.Push 4160 r0.2
  let r3 := r2.1.Push 4160 r2.2
  let f4 := (r3.1.Pop r3.2).2
  ((f4.Pop r3.2).2, r3.2)

/-- The freelist after `InitRange(4160, 4, 2)` and two calls of `Pop`. -/
def flNarrow : Freelist :=
  (popN 2 (Freelist.InitRange 4160 4 2 Mem.zero).1 (Freelist.InitRange 4160 4 2 Mem.zero).2).2

/-- Nine allocations by frontend 1 (the spans at 4096 and 8192 are exhausted and cool, the
span at 12288 is hot), then the block 4160 of the first span and the block 8256 of the
second span are freed: both spans are demoted, the first one first. -/
def worldTwoSlow : World :=
  freeEx 8256 8192 (freeEx 4160 4096
    (allocEx 12288 (allocEx 0 (allocEx 0 (allocEx 0 worldCool)))))

/-- The world after `Refill(1)` in the small build, or the old one if it traps. -/
def refillEx (w : World) : World :=
  match Refill cfgEx 1 (roundEx 0) w with
  | .ok w' => w'
  | .error _ => w

/-! ## Basic facts about stores -/

@[simp] theorem upd_same {α : Type} (a : Nat → α) (i : Nat) (v : α) : upd a i v i = v := by
  simp [upd]

@[simp] theorem upd_other {α : Type} (a : Nat → α) (i x : Nat) (v : α) (h : x ≠ i) :
    upd a i v x = a x := by
  simp [upd, h]

theorem upd_apply {α : Type} (a : Nat → α) (i x : Nat) (v : α) :
    upd a i v x = if x = i then v else a x := rfl

theorem upd_self {α : Type} (a : Nat → α) (i : Nat) : upd a i (a i) = a := by
  funext x
  by_cases h : x = i <;> simp [upd, h]

@[simp] theorem upd_upd {α : Type} (a : Nat → α) (i : Nat) (u v : α) :
    upd (upd a i u) i v = upd a i v := by
  funext x
  by_cases h : x = i <;> simp [upd, h]

theorem Mem.write_byte_in (m : Mem) (a v i : Nat) (hi : i < 8) :
    ((m.write a v).byte (a + i)).val = v / 256 ^ i % 256 := by
  have h : a ≤ a + i ∧ a + i < a + 8 := ⟨by omega, by omega⟩
  simp only [Mem.write, h, and_self, if_true, Nat.add_sub_cancel_left]

theorem Mem.write_byte_out (m : Mem) (a v x : Nat) (h : x < a ∨ a + 8 ≤ x) :
    (m.write a v).byte x = m.byte x := by
  have h' : ¬ (a ≤ x ∧ x < a + 8) := by omega
  simp only [Mem.write, h', if_false]

/-- A load returns a 64-bit word. -/
theorem Mem.read_lt (m : Mem) (a : Nat) : m.read a < kWord := by
  unfold Mem.read kWord
  have h0 := (m.byte a).isLt
  have h1 := (m.byte (a + 1)).isLt
  have h2 := (m.byte (a + 2)).isLt
  have h3 := (m.byte (a + 3)).isLt
  have h4 := (m.byte (a + 4)).isLt
  have h5 := (m.byte (a + 5)).isLt
  have h6 := (m.byte (a + 6)).isLt
  have h7 := (m.byte (a + 7)).isLt
  omega

/-- A load at the address of the last store returns the stored word. -/
theorem Mem.write_same (m : Mem) (a v : Nat) (hv : v < kWord) : (m.write a v).read a = v := by
  unfold Mem.read
  have e0 := Mem.write_byte_in m a v 0 (by omega)
  have e1 := Mem.write_byte_in m a v 1 (by omega)
  have e2 := Mem.write_byte_in m a v 2 (by omega)
  have e3 := Mem.write_byte_in m a v 3 (by omega)
  have e4 := Mem.write_byte_in m a v 4 (by omega)
  have e5 := Mem.write_byte_in m a v 5 (by omega)
  have e6 := Mem.write_byte_in m a v 6 (by omega)
  have e7 := Mem.write_byte_in m a v 7 (by omega)
  rw [Nat.add_zero] at e0
  norm_num at e0 e1 e2 e3 e4 e5 e6 e7
  rw [e0, e1, e2, e3, e4, e5, e6, e7]
  unfold kWord at hv
  omega

/-- A store leaves the words that lie at least eight bytes away as they were. -/
theorem Mem.write_other (m : Mem) (a v x : Nat) (h : a + 8 ≤ x ∨ x + 8 ≤ a) :
    (m.write a v).read x = m.read x := by
  unfold Mem.read
  rw [Mem.write_byte_out m a v x (by omega), Mem.write_byte_out m a v (x + 1) (by omega),
    Mem.write_byte_out m a v (x + 2) (by omega), Mem.write_byte_out m a v (x + 3) (by omega),
    Mem.write_byte_out m a v (x + 4) (by omega), Mem.write_byte_out m a v (x + 5) (by omega),
    Mem.write_byte_out m a v (x + 6) (by omega), Mem.write_byte_out m a v (x + 7) (by omega)]

/-- Storing the word that a load returned changes nothing. -/
theorem Mem.write_self (m : Mem) (a : Nat) : m.write a (m.read a) = m := by
  cases m with
  | mk byte =>
    simp only [Mem.write, Mem.mk.injEq]
    funext x
    by_cases h : a ≤ x ∧ x < a + 8
    · simp only [h, and_self, if_true]
      apply Fin.ext
      simp only [Mem.read]
      have h0 := (byte a).isLt
      have h1 := (byte (a + 1)).isLt
      have h2 := (byte (a + 2)).isLt
      have h3 := (byte (a + 3)).isLt
      have h4 := (byte (a + 4)).isLt
      have h5 := (byte (a + 5)).isLt
      have h6 := (byte (a + 6)).isLt
      have h7 := (byte (a + 7)).isLt
      obtain ⟨i, hi, rfl⟩ : ∃ i, i < 8 ∧ x = a + i := ⟨x - a, by omega, by omega⟩
      rw [Nat.add_sub_cancel_left]
      interval_cases i <;> norm_num <;> omega
    · simp only [h, if_false]

@[simp] theorem modHdr_core (w : World) (p : Nat) (f : SpanHeader → SpanHeader) :
    (w.modHdr p f).core = w.core := rfl

@[simp] theorem modHdr_mem (w : World) (p : Nat) (f : SpanHeader → SpanHeader) :
    (w.modHdr p f).mem = w.mem := rfl

@[simp] theorem modHdr_pool (w : World) (p : Nat) (f : SpanHeader → SpanHeader) :
    (w.modHdr p f).pool = w.pool := rfl

@[simp] theorem modHdr_released (w : World) (p : Nat) (f : SpanHeader → SpanHeader) :
    (w.modHdr p f).released = w.released := rfl

@[simp] theorem modHdr_gets (w : World) (p : Nat) (f : SpanHeader → SpanHeader) :
    (w.modHdr p f).gets = w.gets := rfl

theorem modHdr_hdrs (w : World) (p : Nat) (f : SpanHeader → SpanHeader) :
    (w.modHdr p f).hdrs = upd w.hdrs p (f (w.hdrs p)) := rfl

@[simp] theorem modHdr_hdrs_same (w : World) (p : Nat) (f : SpanHeader → SpanHeader) :
    (w.modHdr p f).hdrs p = f (w.hdrs p) := by
  simp [World.modHdr]

@[simp] theorem modHdr_hdrs_other (w : World) (p x : Nat) (f : SpanHeader → SpanHeader)
    (h : x ≠ p) : (w.modHdr p f).hdrs x = w.hdrs x := by
  simp [World.modHdr, h]

@[simp] theorem modCore_hdrs (w : World) (f : ScallocCore → ScallocCore) :
    (w.modCore f).hdrs = w.hdrs := rfl

@[simp] theorem modCore_mem (w : World) (f : ScallocCore → ScallocCore) :
    (w.modCore f).mem = w.mem := rfl

@[simp] theorem modCore_pool (w : World) (f : ScallocCore → ScallocCore) :
    (w.modCore f).pool = w.pool := rfl

@[simp] theorem modCore_released (w : World) (f : ScallocCore → ScallocCore) :
    (w.modCore f).released = w.released := rfl

@[simp] theorem modCore_gets (w : World) (f : ScallocCore → ScallocCore) :
    (w.modCore f).gets = w.gets := rfl

@[simp] theorem modCore_core (w : World) (f : ScallocCore → ScallocCore) :
    (w.modCore f).core = f w.core := rfl

/-- The tags of a frontend differ: they differ in the active bit. -/
theorem Reset_true_ne_false (id : Nat) :
    ActiveOwner.Reset true id ≠ ActiveOwner.Reset false id := by
  simp [ActiveOwner.Reset]

/-- Clearing the active bit of `me_active_` gives `me_inactive_`. -/
theorem clearActive_Reset (b : Bool) (id : Nat) :
    ActiveOwner.clearActive (ActiveOwner.Reset b id) = ActiveOwner.Reset false id := by
  cases b <;> simp [ActiveOwner.clearActive, ActiveOwner.Reset]; omega

/-! ## Pointer canonicalization -/

theorem canonical_base (off B b k : Nat) (hoff : off ≤ b)
    (hal : (b - off) % B = 0) (hk : k < B) (hfit : b + k < kWord) :
    canonical off B (b + k) = b := by
  have hoffm : off % kWord = off := Nat.mod_eq_of_lt (by omega)
  have h1 : (b + k + kWord - off) % kWord = b + k - off := by
    have : b + k + kWord - off = (b + k - off) + kWord := by omega
    rw [this, Nat.add_mod_right]
    exact Nat.mod_eq_of_lt (by omega)
  have h2 : (b + k - off) % B = k := by
    have : b + k - off = (b - off) + k := by omega
    rw [this, Nat.add_mod, hal, Nat.zero_add, Nat.mod_mod, Nat.mod_eq_of_lt hk]
  unfold canonical
  simp only [hoffm, h1, h2]
  have : b + k + kWord - k = b + kWord := by omega
  rw [this, Nat.add_mod_right]
  exact Nat.mod_eq_of_lt (by omega)

/-! ## What the list operations leave alone -/

theorem unlinked_eq_iff (h h' : SpanHeader) :
    h'.unlinked = h.unlinked ↔
      h'.size_class = h.size_class ∧ h'.aowner = h.aowner ∧ h'.flist = h.flist ∧
      h'.remote_flist = h.remote_flist ∧
      h'.flist_aligned_blocksize_offset = h.flist_aligned_blocksize_offset := by
  cases h; cases h'
  simp [SpanHeader.unlinked]

@[simp] theorem unlinked_set_prev (h : SpanHeader) (v : Nat) :
    SpanHeader.unlinked { h with prev := v } = h.unlinked := rfl

@[simp] theorem unlinked_set_next (h : SpanHeader) (v : Nat) :
    SpanHeader.unlinked { h with next := v } = h.unlinked := rfl

theorem modHdr_prev_unlinked (w : World) (p x v : Nat) :
    ((w.modHdr p (fun h => { h with prev := v })).hdrs x).unlinked = (w.hdrs x).unlinked := by
  by_cases h : x = p
  · subst h; simp
  · simp [h]

theorem modHdr_next_unlinked (w : World) (p x v : Nat) :
    ((w.modHdr p (fun h => { h with next := v })).hdrs x).unlinked = (w.hdrs x).unlinked := by
  by_cases h : x = p
  · subst h; simp
  · simp [h]

theorem AddCoolSpan_unlinked (sc : Nat) (span : Nat) (w : World) (x : Nat) :
    ((AddCoolSpan sc span w).hdrs x).unlinked = (w.hdrs x).unlinked := by
  unfold AddCoolSpan
  simp only [modCore_hdrs]
  split_ifs <;> simp only [modHdr_prev_unlinked, modHdr_next_unlinked]

theorem RemoveCoolSpan_unlinked (sc : Nat) (span : Nat) (w : World) (x : Nat) :
    ((RemoveCoolSpan sc span w).hdrs x).unlinked = (w.hdrs x).unlinked := by
  unfold RemoveCoolSpan
  simp only [modHdr_prev_unlinked, modHdr_next_unlinked]
  split_ifs <;> simp only [modCore_hdrs, modHdr_prev_unlinked, modHdr_next_unlinked]

@[simp] theorem AddCoolSpan_mem (sc : Nat) (span : Nat) (w : World) :
    (AddCoolSpan sc span w).mem = w.mem := by
  unfold AddCoolSpan; simp only [modCore_mem]; split_ifs <;> rfl

@[simp] theorem AddCoolSpan_pool (sc : Nat) (span : Nat) (w : World) :
    (AddCoolSpan sc span w).pool = w.pool := by
  unfold AddCoolSpan; simp only [modCore_pool]; split_ifs <;> rfl

@[simp] theorem AddCoolSpan_released (sc : Nat) (span : Nat) (w : World) :
    (AddCoolSpan sc span w).released = w.released := by
  unfold AddCoolSpan; simp only [modCore_released]; split_ifs <;> rfl

@[simp] theorem AddCoolSpan_gets (sc : Nat) (span : Nat) (w : World) :
    (AddCoolSpan sc span w).gets = w.gets := by
  unfold AddCoolSpan; simp only [modCore_gets]; split_ifs <;> rfl

theorem AddCoolSpan_core (sc : Nat) (span : Nat) (w : World) :
    (AddCoolSpan sc span w).core = { w.core with cool_spans_ := upd w.core.cool_spans_ sc span } := by
  unfold AddCoolSpan; simp only [modCore_core]; split_ifs <;> rfl

@[simp] theorem RemoveCoolSpan_mem (sc : Nat) (span : Nat) (w : World) :
    (RemoveCoolSpan sc span w).mem = w.mem := by
  unfold RemoveCoolSpan; simp only [modHdr_mem]; split_ifs <;> rfl

@[simp] theorem RemoveCoolSpan_pool (sc : Nat) (span : Nat) (w : World) :
    (RemoveCoolSpan sc span w).pool = w.pool := by
  unfold RemoveCoolSpan; simp only [modHdr_pool]; split_ifs <;> rfl

@[simp] theorem RemoveCoolSpan_released (sc : Nat) (span : Nat) (w : World) :
    (RemoveCoolSpan sc span w).released = w.released := by
  unfold RemoveCoolSpan; simp only [modHdr_released]; split_ifs <;> rfl

@[simp] theorem RemoveCoolSpan_gets (sc : Nat) (span : Nat) (w : World) :
    (RemoveCoolSpan sc span w).gets = w.gets := by
  unfold RemoveCoolSpan; simp only [modHdr_gets]; split_ifs <;> rfl

@[simp] theorem RemoveCoolSpan_hot (sc : Nat) (span : Nat) (w : World) :
    (RemoveCoolSpan sc span w).core.hot_span_ = w.core.hot_span_ := by
  unfold RemoveCoolSpan; simp only [modHdr_core]; split_ifs <;> rfl

@[simp] theorem RemoveCoolSpan_slow (sc : Nat) (span : Nat) (w : World) :
    (RemoveCoolSpan sc span w).core.slow_spans_ = w.core.slow_spans_ := by
  unfold RemoveCoolSpan; simp only [modHdr_core]; split_ifs <;> rfl

@[simp] theorem RemoveCoolSpan_id (sc : Nat) (span : Nat) (w : World) :
    (RemoveCoolSpan sc span w).core.id_ = w.core.id_ := by
  unfold RemoveCoolSpan; simp only [modHdr_core]; split_ifs <;> rfl

@[simp] theorem RemoveCoolSpan_me_active (sc : Nat) (span : Nat) (w : World) :
    (RemoveCoolSpan sc span w).core.me_active_ = w.core.me_active_ := by
  unfold RemoveCoolSpan; simp only [modHdr_core]; split_ifs <;> rfl

@[simp] theorem RemoveCoolSpan_me_inactive (sc : Nat) (span : Nat) (w : World) :
    (RemoveCoolSpan sc span w).core.me_inactive_ = w.core.me_inactive_ := by
  unfold RemoveCoolSpan; simp only [modHdr_core]; split_ifs <;> rfl

theorem RemoveCoolSpan_cool_other (sc c : Nat) (span : Nat) (w : World) (h : c ≠ sc) :
    (RemoveCoolSpan sc span w).core.cool_spans_ c = w.core.cool_spans_ c := by
  unfold RemoveCoolSpan; simp only [modHdr_core]; split_ifs <;> simp [h]

@[simp] theorem SetActiveSlab_mem (sc : Nat) (hdr : Nat) (w : World) :
    (SetActiveSlab sc hdr w).mem = w.mem := by
  unfold SetActiveSlab; simp only [modCore_mem]; split_ifs <;> simp

@[simp] theorem SetActiveSlab_pool (sc : Nat) (hdr : Nat) (w : World) :
    (SetActiveSlab sc hdr w).pool = w.pool := by
  unfold SetActiveSlab; simp only [modCore_pool]; split_ifs <;> simp

@[simp] theorem SetActiveSlab_released (sc : Nat) (hdr : Nat) (w : World) :
    (SetActiveSlab sc hdr w).released = w.released := by
  unfold SetActiveSlab; simp only [modCore_released]; split_ifs <;> simp

@[simp] theorem SetActiveSlab_gets (sc : Nat) (hdr : Nat) (w : World) :
    (SetActiveSlab sc hdr w).gets = w.gets := by
  unfold SetActiveSlab; simp only [modCore_gets]; split_ifs <;> simp

theorem SetActiveSlab_unlinked (sc : Nat) (hdr : Nat) (w : World) (x : Nat) :
    ((SetActiveSlab sc hdr w).hdrs x).unlinked = (w.hdrs x).unlinked := by
  unfold SetActiveSlab; simp only [modCore_hdrs]; split_ifs
  · exact AddCoolSpan_unlinked _ _ _ _
  · rfl

@[simp] theorem SetActiveSlab_hot_same (sc : Nat) (hdr : Nat) (w : World) :
    (SetActiveSlab sc hdr w).core.hot_span_ sc = hdr := by
  simp [SetActiveSlab]

theorem SetActiveSlab_hot_other (sc c : Nat) (hdr : Nat) (w : World) (h : c ≠ sc) :
    (SetActiveSlab sc hdr w).core.hot_span_ c = w.core.hot_span_ c := by
  unfold SetActiveSlab; simp only [modCore_core]
  split_ifs <;> simp [h, AddCoolSpan_core]

@[simp] theorem SetActiveSlab_slow (sc : Nat) (hdr : Nat) (w : World) :
    (SetActiveSlab sc hdr w).core.slow_spans_ = w.core.slow_spans_ := by
  unfold SetActiveSlab; simp only [modCore_core]
  split_ifs <;> simp [AddCoolSpan_core]

@[simp] theorem SetActiveSlab_id (sc : Nat) (hdr : Nat) (w : World) :
    (SetActiveSlab sc hdr w).core.id_ = w.core.id_ := by
  unfold SetActiveSlab; simp only [modCore_core]
  split_ifs <;> simp [AddCoolSpan_core]

@[simp] theorem SetActiveSlab_me_active (sc : Nat) (hdr : Nat) (w : World) :
    (SetActiveSlab sc hdr w).core.me_active_ = w.core.me_active_ := by
  unfold SetActiveSlab; simp only [modCore_core]
  split_ifs <;> simp [AddCoolSpan_core]

@[simp] theorem SetActiveSlab_me_inactive (sc : Nat) (hdr : Nat) (w : World) :
    (SetActiveSlab sc hdr w).core.me_inactive_ = w.core.me_inactive_ := by
  unfold SetActiveSlab; simp only [modCore_core]
  split_ifs <;> simp [AddCoolSpan_core]

theorem SetActiveSlab_cool_other (sc c : Nat) (hdr : Nat) (w : World) (h : c ≠ sc) :
    (SetActiveSlab sc hdr w).core.cool_spans_ c = w.core.cool_spans_ c := by
  unfold SetActiveSlab; simp only [modCore_core]
  split_ifs <;> simp [h, AddCoolSpan_core]

/-- The fields of a header other than the links, read off an equation of blanked headers. -/
theorem fields_of_unlinked {h h' : SpanHeader} (e : h'.unlinked = h.unlinked) :
    h'.size_class = h.size_class ∧ h'.aowner = h.aowner ∧ h'.flist = h.flist ∧
      h'.remote_flist = h.remote_flist ∧
      h'.flist_aligned_blocksize_offset = h.flist_aligned_blocksize_offset :=
  (unlinked_eq_iff h h').1 e

/-! ## Remote free and canonicalization (C6, C7) -/

/-- The remote branch of `Free`: the canonical block goes to `BlockPool::Free`. -/
theorem Free_remote (cfg : Config) (w : World) (p hdr : Nat) (hnull : hdr ≠ 0)
    (hsz : cfg.ClassToSize (w.hdrs hdr).size_class ≠ 0)
    (ha : (w.hdrs hdr).aowner ≠ w.core.me_active_)
    (hi : (w.hdrs hdr).aowner ≠ w.core.me_inactive_) :
    Free cfg p hdr w = .ok (BlockPoolFree
      (canonical (w.hdrs hdr).flist_aligned_blocksize_offset
        (cfg.ClassToSize (w.hdrs hdr).size_class) p)
      (w.hdrs hdr).size_class (w.hdrs hdr).remote_flist w) := by
  simp [Free, FreeInSizeClass, hnull, hsz, ha, hi]
  rfl

/-- C7: a free on a span whose owner tag is neither `me_active_` nor `me_inactive_` of the
freeing frontend returns normally, hands the canonical block to `BlockPool::Free` with the
span's size class and remote freelist exactly once (the pool gains exactly that entry), and
leaves every span header (so the local freelist and the owner tag of `hdr`), the block
memory, the frontend's hot, cool and slow structures and the release and get logs
unchanged. -/
theorem remote_free_frame (cfg : Config) (w : World) (p hdr : Nat) (hnull : hdr ≠ 0)
    (hsz : cfg.ClassToSize (w.hdrs hdr).size_class ≠ 0)
    (ha : (w.hdrs hdr).aowner ≠ w.core.me_active_)
    (hi : (w.hdrs hdr).aowner ≠ w.core.me_inactive_) :
    ∃ w', Free cfg p hdr w = .ok w' ∧
      w'.pool = { block := canonical (w.hdrs hdr).flist_aligned_blocksize_offset
                    (cfg.ClassToSize (w.hdrs hdr).size_class) p
                  size_class := (w.hdrs hdr).size_class
                  remote_flist := (w.hdrs hdr).remote_flist } :: w.pool ∧
      w'.hdrs = w.hdrs ∧ w'.mem = w.mem ∧
      w'.core.hot_span_ = w.core.hot_span_ ∧ w'.core.cool_spans_ = w.core.cool_spans_ ∧
      w'.core.slow_spans_ = w.core.slow_spans_ ∧
      w'.released = w.released ∧ w'.gets = w.gets :=
  ⟨_, Free_remote cfg w p hdr hnull hsz ha hi, rfl, rfl, rfl, rfl, rfl, rfl, rfl, rfl⟩

theorem remote_free_frame_witness :
    ∃ w', Free cfgEx 4165 4096 worldForeign = .ok w' ∧
      w'.pool = [{ block := 4160, size_class := 1, remote_flist := 1 }] ∧
      w'.hdrs = worldForeign.hdrs :=
  have h := remote_free_frame cfgEx worldForeign 4165 4096 (by decide) (by decide) (by decide)
    (by decide)
  h.imp (fun _ hw => ⟨hw.1, hw.2.1, hw.2.2.1⟩)

/-! ## The branches of `Free` -/

theorem compareAndSwap_same (old new : Nat) : compareAndSwap old old new = (true, new) := by
  simp [compareAndSwap]

@[simp] theorem pushBlock_core (hdr p : Nat) (w : World) : (pushBlock hdr p w).core = w.core := rfl

@[simp] theorem pushBlock_pool (hdr p : Nat) (w : World) : (pushBlock hdr p w).pool = w.pool := rfl

@[simp] theorem pushBlock_released (hdr p : Nat) (w : World) :
    (pushBlock hdr p w).released = w.released := rfl

@[simp] theorem pushBlock_gets (hdr p : Nat) (w : World) : (pushBlock hdr p w).gets = w.gets := rfl

theorem pushBlock_mem (hdr p : Nat) (w : World) :
    (pushBlock hdr p w).mem = w.mem.write p (w.hdrs hdr).flist.list_ := rfl

theorem pushBlock_hdrs (hdr p : Nat) (w : World) :
    (pushBlock hdr p w).hdrs = upd w.hdrs hdr
      { w.hdrs hdr with flist := ((w.hdrs hdr).flist.Push p w.mem).1 } := rfl

/-- Active branch, nothing more to do: the span is the hot span of its class. -/
theorem Free_active_hot (cfg : Config) (w : World) (p hdr : Nat) (hnull : hdr ≠ 0)
    (hsz : cfg.ClassToSize (w.hdrs hdr).size_class ≠ 0)
    (ha : (w.hdrs hdr).aowner = w.core.me_active_)
    (hhot : hdr = w.core.hot_span_ (w.hdrs hdr).size_class) :
    Free cfg p hdr w = .ok (afterActivePush cfg w p hdr) := by
  simp only [Free, FreeInSizeClass, hnull, hsz, ha, if_false, if_true]
  simp only [← hhot, ne_eq, not_true_eq_false, if_false]
  rfl

/-- Active branch, nothing more to do: the utilization is not below the threshold. -/
theorem Free_active_keep (cfg : Config) (w : World) (p hdr : Nat) (u : Nat) (hnull : hdr ≠ 0)
    (hsz : cfg.ClassToSize (w.hdrs hdr).size_class ≠ 0)
    (ha : (w.hdrs hdr).aowner = w.core.me_active_)
    (hu : ((afterActivePush cfg w p hdr).hdrs hdr).Utilization = .ok u)
    (hge : ¬ u < cfg.kSpanReuseThreshold) :
    Free cfg p hdr w = .ok (afterActivePush cfg w p hdr) := by
  by_cases hhot : hdr = w.core.hot_span_ (w.hdrs hdr).size_class
  · exact Free_active_hot cfg w p hdr hnull hsz ha hhot
  · simp only [afterActivePush, blockBase] at hu
    simp only [Free, FreeInSizeClass, hnull, hsz, ha, if_false, if_true, ne_eq, hhot,
      not_false_eq_true, hu]
    simp [bind, Except.bind, pure, Except.pure, hge]
    rfl

/-- Active branch, release: the span is not hot, below the threshold and entirely free. -/
theorem Free_active_release (cfg : Config) (w : World) (p hdr : Nat) (u : Nat)
    (hnull : hdr ≠ 0) (hsz : cfg.ClassToSize (w.hdrs hdr).size_class ≠ 0)
    (ha : (w.hdrs hdr).aowner = w.core.me_active_)
    (hhot : hdr ≠ w.core.hot_span_ (w.hdrs hdr).size_class)
    (hu : ((afterActivePush cfg w p hdr).hdrs hdr).Utilization = .ok u)
    (hlt : u < cfg.kSpanReuseThreshold)
    (hfull : ((afterActivePush cfg w p hdr).hdrs hdr).flist.Full = true) :
    Free cfg p hdr w = .ok (releaseSpan cfg hdr
      (RemoveCoolSpan (w.hdrs hdr).size_class hdr (afterActivePush cfg w p hdr))) := by
  simp only [afterActivePush, blockBase] at hu hfull
  simp only [Free, FreeInSizeClass, hnull, hsz, ha, if_false, if_true, ne_eq, hhot,
    not_false_eq_true, hu]
  simp [bind, Except.bind, pure, Except.pure, hlt, hfull]
  rfl

/-- Active branch, demotion: the span is not hot, below the threshold and not entirely
free. -/
theorem Free_active_demote (cfg : Config) (w : World) (p hdr : Nat) (u : Nat)
    (hnull : hdr ≠ 0) (hsz : cfg.ClassToSize (w.hdrs hdr).size_class ≠ 0)
    (ha : (w.hdrs hdr).aowner = w.core.me_active_)
    (hhot : hdr ≠ w.core.hot_span_ (w.hdrs hdr).size_class)
    (hu : ((afterActivePush cfg w p hdr).hdrs hdr).Utilization = .ok u)
    (hlt : u < cfg.kSpanReuseThreshold)
    (hfull : ((afterActivePush cfg w p hdr).hdrs hdr).flist.Full = false) :
    Free cfg p hdr w = .ok
      ((AddSlowSpan cfg (w.hdrs hdr).size_class hdr
          (RemoveCoolSpan (w.hdrs hdr).size_class hdr (afterActivePush cfg w p hdr))).modHdr hdr
        (fun h => { h with aowner := ActiveOwner.clearActive h.aowner })) := by
  simp only [afterActivePush, blockBase] at hu hfull
  simp only [Free, FreeInSizeClass, hnull, hsz, ha, if_false, if_true, ne_eq, hhot,
    not_false_eq_true, hu]
  simp [bind, Except.bind, pure, Except.pure, hlt, hfull]
  rfl

/-- Inactive branch up to the decision: the tag is swapped, the block pushed, and the
utilization `u` of the current hot span read. -/
theorem Free_inactive (cfg : Config) (w : World) (p hdr : Nat) (u : Nat)
    (hnull : hdr ≠ 0) (hsz : cfg.ClassToSize (w.hdrs hdr).size_class ≠ 0)
    (hi : (w.hdrs hdr).aowner = w.core.me_inactive_)
    (ha : (w.hdrs hdr).aowner ≠ w.core.me_active_)
    (hcur : w.core.hot_span_ (w.hdrs hdr).size_class ≠ 0)
    (hu : ((afterInactivePush cfg w p hdr).hdrs
            (w.core.hot_span_ (w.hdrs hdr).size_class)).Utilization = .ok u) :
    Free cfg p hdr w =
      if u > cfg.kLocalReuseThreshold then
        (RemoveSlowSpan cfg (w.hdrs hdr).size_class hdr (afterInactivePush cfg w p hdr)).map
          (SetActiveSlab (w.hdrs hdr).size_class hdr)
      else if ((afterInactivePush cfg w p hdr).hdrs hdr).flist.Full then
        (RemoveSlowSpan cfg (w.hdrs hdr).size_class hdr (afterInactivePush cfg w p hdr)).map
          (releaseSpan cfg hdr)
      else
        .ok ((afterInactivePush cfg w p hdr).modHdr hdr
          (fun h => { h with aowner := ActiveOwner.clearActive h.aowner })) := by
  have hcas : ∀ h : SpanHeader, h.aowner = w.core.me_inactive_ →
      (compareAndSwap h.aowner w.core.me_inactive_ w.core.me_active_) = (true, w.core.me_active_) := by
    intro h e; rw [e]; exact compareAndSwap_same _ _
  have hw : w.modHdr hdr (fun h =>
      { h with aowner := (compareAndSwap h.aowner w.core.me_inactive_ w.core.me_active_).2 })
      = w.modHdr hdr (fun h => { h with aowner := w.core.me_active_ }) := by
    simp only [World.modHdr, hcas _ hi]
  simp only [afterInactivePush, blockBase] at hu ⊢
  have hne : w.core.me_inactive_ ≠ w.core.me_active_ := hi ▸ ha
  simp only [Free, FreeInSizeClass, hnull, hsz, hne, hi, if_false, if_true, hcas _ hi,
    compareAndSwap_same, and_self, hw]
  simp only [bind, Except.bind, pure, Except.pure, hcur, if_false, hu]
  split_ifs <;> rfl

/-- Inactive branch with no hot span of the class: the dereference of `cur_sc_hdr` traps. -/
theorem Free_inactive_null (cfg : Config) (w : World) (p hdr : Nat)
    (hnull : hdr ≠ 0) (hsz : cfg.ClassToSize (w.hdrs hdr).size_class ≠ 0)
    (hi : (w.hdrs hdr).aowner = w.core.me_inactive_)
    (ha : (w.hdrs hdr).aowner ≠ w.core.me_active_)
    (hcur : w.core.hot_span_ (w.hdrs hdr).size_class = 0) :
    Free cfg p hdr w = .error .nullDeref := by
  have hne : w.core.me_inactive_ ≠ w.core.me_active_ := hi ▸ ha
  simp only [Free, FreeInSizeClass, hnull, hsz, hne, hi, if_false, if_true,
    compareAndSwap_same, and_self]
  simp only [bind, Except.bind, pure, Except.pure, hcur, if_true]

/-- Inactive branch when the utilization of the hot span traps. -/
theorem Free_inactive_fault (cfg : Config) (w : World) (p hdr : Nat) (e : Fault)
    (hnull : hdr ≠ 0) (hsz : cfg.ClassToSize (w.hdrs hdr).size_class ≠ 0)
    (hi : (w.hdrs hdr).aowner = w.core.me_inactive_)
    (ha : (w.hdrs hdr).aowner ≠ w.core.me_active_)
    (hcur : w.core.hot_span_ (w.hdrs hdr).size_class ≠ 0)
    (hu : ((afterInactivePush cfg w p hdr).hdrs
            (w.core.hot_span_ (w.hdrs hdr).size_class)).Utilization = .error e) :
    Free cfg p hdr w = .error e := by
  have hcas : ∀ h : SpanHeader, h.aowner = w.core.me_inactive_ →
      (compareAndSwap h.aowner w.core.me_inactive_ w.core.me_active_) = (true, w.core.me_active_) := by
    intro h e; rw [e]; exact compareAndSwap_same _ _
  have hw : w.modHdr hdr (fun h =>
      { h with aowner := (compareAndSwap h.aowner w.core.me_inactive_ w.core.me_active_).2 })
      = w.modHdr hdr (fun h => { h with aowner := w.core.me_active_ }) := by
    simp only [World.modHdr, hcas _ hi]
  simp only [afterInactivePush, blockBase] at hu ⊢
  have hne : w.core.me_inactive_ ≠ w.core.me_active_ := hi ▸ ha
  simp only [Free, FreeInSizeClass, hnull, hsz, hne, hi, if_false, if_true, hcas _ hi,
    compareAndSwap_same, and_self, hw]
  simp only [bind, Except.bind, pure, Except.pure, hcur, if_false, hu]

/-- Active branch when the utilization of the span traps. -/
theorem Free_active_fault (cfg : Config) (w : World) (p hdr : Nat) (e : Fault)
    (hnull : hdr ≠ 0) (hsz : cfg.ClassToSize (w.hdrs hdr).size_class ≠ 0)
    (ha : (w.hdrs hdr).aowner = w.core.me_active_)
    (hhot : hdr ≠ w.core.hot_span_ (w.hdrs hdr).size_class)
    (hu : ((afterActivePush cfg w p hdr).hdrs hdr).Utilization = .error e) :
    Free cfg p hdr w = .error e := by
  simp only [afterActivePush, blockBase] at hu
  simp only [Free, FreeInSizeClass, hnull, hsz, ha, if_false, if_true, ne_eq, hhot,
    not_false_eq_true, hu]
  simp [bind, Except.bind]

/-- Every returning `Free` went one of the seven ways. -/
theorem Free_inv (cfg : Config) (w w' : World) (p hdr : Nat)
    (h : Free cfg p hdr w = .ok w') :
    hdr ≠ 0 ∧ cfg.ClassToSize (w.hdrs hdr).size_class ≠ 0 ∧ FreeCase cfg w p hdr w' := by
  have hnull : hdr ≠ 0 := by
    intro e; simp [Free, e] at h
  have hsz : cfg.ClassToSize (w.hdrs hdr).size_class ≠ 0 := by
    intro e; simp [Free, FreeInSizeClass, hnull, e] at h
  refine ⟨hnull, hsz, ?_⟩
  by_cases ha : (w.hdrs hdr).aowner = w.core.me_active_
  · by_cases hhot : hdr = w.core.hot_span_ (w.hdrs hdr).size_class
    · rw [Free_active_hot cfg w p hdr hnull hsz ha hhot] at h
      cases h
      exact .keep ha (Or.inl hhot)
    · cases hu : ((afterActivePush cfg w p hdr).hdrs hdr).Utilization with
      | error e => rw [Free_active_fault cfg w p hdr e hnull hsz ha hhot hu] at h; cases h
      | ok u =>
        by_cases hlt : u < cfg.kSpanReuseThreshold
        · cases hfull : ((afterActivePush cfg w p hdr).hdrs hdr).flist.Full with
          | true =>
            rw [Free_active_release cfg w p hdr u hnull hsz ha hhot hu hlt hfull] at h
            cases h
            exact .release u ha hhot hu hlt hfull
          | false =>
            rw [Free_active_demote cfg w p hdr u hnull hsz ha hhot hu hlt hfull] at h
            cases h
            exact .demote u ha hhot hu hlt hfull
        · rw [Free_active_keep cfg w p hdr u hnull hsz ha hu hlt] at h
          cases h
          exact .keep ha (Or.inr ⟨u, hu, hlt⟩)
  · by_cases hi : (w.hdrs hdr).aowner = w.core.me_inactive_
    · by_cases hcur : w.core.hot_span_ (w.hdrs hdr).size_class = 0
      · rw [Free_inactive_null cfg w p hdr hnull hsz hi ha hcur] at h; cases h
      · cases hu : ((afterInactivePush cfg w p hdr).hdrs
            (w.core.hot_span_ (w.hdrs hdr).size_class)).Utilization with
        | error e => rw [Free_inactive_fault cfg w p hdr e hnull hsz hi ha hcur hu] at h; cases h
        | ok u =>
          rw [Free_inactive cfg w p hdr u hnull hsz hi ha hcur hu] at h
          by_cases hgt : u > cfg.kLocalReuseThreshold
          · rw [if_pos hgt] at h
            cases hrm : RemoveSlowSpan cfg (w.hdrs hdr).size_class hdr
                (afterInactivePush cfg w p hdr) with
            | error e => rw [hrm] at h; cases h
            | ok w3 =>
              rw [hrm] at h; cases h
              exact .promote u w3 ha hi hcur hu hgt hrm
          · rw [if_neg hgt] at h
            cases hfull : ((afterInactivePush cfg w p hdr).hdrs hdr).flist.Full with
            | true =>
              rw [hfull, if_pos rfl] at h
              cases hrm : RemoveSlowSpan cfg (w.hdrs hdr).size_class hdr
                  (afterInactivePush cfg w p hdr) with
              | error e => rw [hrm] at h; cases h
              | ok w3 =>
                rw [hrm] at h; cases h
                exact .retire u w3 ha hi hcur hu hgt hfull hrm
            | false =>
              rw [hfull] at h
              simp only [Bool.false_eq_true, if_false] at h
              cases h
              exact .stay u ha hi hcur hu hgt hfull
    · rw [Free_remote cfg w p hdr hnull hsz ha hi] at h
      cases h
      exact .remote ha hi

/-! ## What the slow-list operations and a release leave alone -/

@[simp] theorem AddSlowSpan_hdrs (cfg : Config) (sc : Nat) (span : Nat) (w : World) :
    (AddSlowSpan cfg sc span w).hdrs = w.hdrs := by
  unfold AddSlowSpan; split_ifs <;> rfl

@[simp] theorem AddSlowSpan_mem (cfg : Config) (sc : Nat) (span : Nat) (w : World) :
    (AddSlowSpan cfg sc span w).mem = w.mem := by
  unfold AddSlowSpan; split_ifs <;> rfl

@[simp] theorem AddSlowSpan_pool (cfg : Config) (sc : Nat) (span : Nat) (w : World) :
    (AddSlowSpan cfg sc span w).pool = w.pool := by
  unfold AddSlowSpan; split_ifs <;> rfl

@[simp] theorem AddSlowSpan_released (cfg : Config) (sc : Nat) (span : Nat) (w : World) :
    (AddSlowSpan cfg sc span w).released = w.released := by
  unfold AddSlowSpan; split_ifs <;> rfl

@[simp] theorem AddSlowSpan_gets (cfg : Config) (sc : Nat) (span : Nat) (w : World) :
    (AddSlowSpan cfg sc span w).gets = w.gets := by
  unfold AddSlowSpan; split_ifs <;> rfl

@[simp] theorem AddSlowSpan_hot (cfg : Config) (sc : Nat) (span : Nat) (w : World) :
    (AddSlowSpan cfg sc span w).core.hot_span_ = w.core.hot_span_ := by
  unfold AddSlowSpan; split_ifs <;> rfl

@[simp] theorem AddSlowSpan_cool (cfg : Config) (sc : Nat) (span : Nat) (w : World) :
    (AddSlowSpan cfg sc span w).core.cool_spans_ = w.core.cool_spans_ := by
  unfold AddSlowSpan; split_ifs <;> rfl

@[simp] theorem AddSlowSpan_id (cfg : Config) (sc : Nat) (span : Nat) (w : World) :
    (AddSlowSpan cfg sc span w).core.id_ = w.core.id_ := by
  unfold AddSlowSpan; split_ifs <;> rfl

@[simp] theorem AddSlowSpan_me_active (cfg : Config) (sc : Nat) (span : Nat) (w : World) :
    (AddSlowSpan cfg sc span w).core.me_active_ = w.core.me_active_ := by
  unfold AddSlowSpan; split_ifs <;> rfl

@[simp] theorem AddSlowSpan_me_inactive (cfg : Config) (sc : Nat) (span : Nat) (w : World) :
    (AddSlowSpan cfg sc span w).core.me_inactive_ = w.core.me_inactive_ := by
  unfold AddSlowSpan; split_ifs <;> rfl

theorem AddSlowSpan_slow (cfg : Config) (sc : Nat) (span : Nat) (w : World) :
    (AddSlowSpan cfg sc span w).core.slow_spans_ =
      if cfg.REUSE_SLOW_SPANS then upd w.core.slow_spans_ sc (span :: w.core.slow_spans_ sc)
      else w.core.slow_spans_ := by
  unfold AddSlowSpan; split_ifs <;> rfl

/-- What a returning `RemoveSlowSpan` did. -/
theorem RemoveSlowSpan_ok (cfg : Config) (sc : Nat) (span : Nat) (w w3 : World)
    (h : RemoveSlowSpan cfg sc span w = .ok w3) :
    w3.hdrs = w.hdrs ∧ w3.mem = w.mem ∧ w3.pool = w.pool ∧ w3.released = w.released ∧
      w3.gets = w.gets ∧ w3.core.hot_span_ = w.core.hot_span_ ∧
      w3.core.cool_spans_ = w.core.cool_spans_ ∧ w3.core.id_ = w.core.id_ ∧
      w3.core.me_active_ = w.core.me_active_ ∧ w3.core.me_inactive_ = w.core.me_inactive_ ∧
      ((cfg.REUSE_SLOW_SPANS = false ∧ w3.core.slow_spans_ = w.core.slow_spans_) ∨
       (cfg.REUSE_SLOW_SPANS = true ∧ ∃ l, removeFirst span (w.core.slow_spans_ sc) = some l ∧
          w3.core.slow_spans_ = upd w.core.slow_spans_ sc l)) := by
  unfold RemoveSlowSpan at h
  cases hf : cfg.REUSE_SLOW_SPANS with
  | false =>
    simp only [hf, Bool.false_eq_true, if_false] at h
    cases h
    simp
  | true =>
    simp only [hf, if_true] at h
    cases hr : removeFirst span (w.core.slow_spans_ sc) with
    | none => simp [hr] at h
    | some l =>
      simp only [hr] at h
      cases h
      simp

@[simp] theorem releaseSpan_hdrs (cfg : Config) (hdr : Nat) (w : World) :
    (releaseSpan cfg hdr w).hdrs = w.hdrs := by
  unfold releaseSpan; split_ifs <;> rfl

@[simp] theorem releaseSpan_mem (cfg : Config) (hdr : Nat) (w : World) :
    (releaseSpan cfg hdr w).mem = w.mem := by
  unfold releaseSpan; split_ifs <;> rfl

@[simp] theorem releaseSpan_pool (cfg : Config) (hdr : Nat) (w : World) :
    (releaseSpan cfg hdr w).pool = w.pool := by
  unfold releaseSpan; split_ifs <;> rfl

@[simp] theorem releaseSpan_gets (cfg : Config) (hdr : Nat) (w : World) :
    (releaseSpan cfg hdr w).gets = w.gets := by
  unfold releaseSpan; split_ifs <;> rfl

@[simp] theorem releaseSpan_core (cfg : Config) (hdr : Nat) (w : World) :
    (releaseSpan cfg hdr w).core = w.core := by
  unfold releaseSpan; split_ifs <;> rfl

/-- A release adds exactly one entry, for the span, to the log. -/
theorem releaseSpan_released (cfg : Config) (hdr : Nat) (w : World) :
    ∃ r, r.span = hdr ∧ (releaseSpan cfg hdr w).released = r :: w.released := by
  unfold releaseSpan; split_ifs
  · exact ⟨.spanPoolPut hdr _ _, rfl, rfl⟩
  · exact ⟨.collectorPut hdr, rfl, rfl⟩

/-! ## Canonicalization in `Free` (C6) -/

theorem unlinked_flist {h h' : SpanHeader} (e : h'.unlinked = h.unlinked) : h'.flist = h.flist :=
  (fields_of_unlinked e).2.2.1

theorem unlinked_aowner {h h' : SpanHeader} (e : h'.unlinked = h.unlinked) :
    h'.aowner = h.aowner :=
  (fields_of_unlinked e).2.1

theorem unlinked_size_class {h h' : SpanHeader} (e : h'.unlinked = h.unlinked) :
    h'.size_class = h.size_class :=
  (fields_of_unlinked e).1

/-- After a local free the head of the span's freelist is the block base computed for `p`,
and the first word of that block holds the previous head. -/
theorem FreeCase_local_head (cfg : Config) (w w' : World) (p hdr : Nat)
    (hc : FreeCase cfg w p hdr w')
    (hloc : (w.hdrs hdr).aowner = w.core.me_active_ ∨
      (w.hdrs hdr).aowner = w.core.me_inactive_) :
    (w'.hdrs hdr).flist.list_ = blockBase cfg w p hdr ∧
      w'.mem = w.mem.write (blockBase cfg w p hdr) (w.hdrs hdr).flist.list_ := by
  have hA : ((afterActivePush cfg w p hdr).hdrs hdr).flist.list_ = blockBase cfg w p hdr := by
    simp [afterActivePush, pushBlock_hdrs, Freelist.Push]
  have hI : ((afterInactivePush cfg w p hdr).hdrs hdr).flist.list_ = blockBase cfg w p hdr := by
    simp [afterInactivePush, pushBlock_hdrs, Freelist.Push]
  have hIm : (afterInactivePush cfg w p hdr).mem
      = w.mem.write (blockBase cfg w p hdr) (w.hdrs hdr).flist.list_ := by
    simp [afterInactivePush, pushBlock_mem]
  cases hc with
  | remote ha hi => rcases hloc with h | h <;> contradiction
  | keep ha hk => exact ⟨hA, rfl⟩
  | release u ha hhot hu hlt hfull =>
    refine ⟨?_, by simp [afterActivePush, pushBlock_mem]⟩
    rw [releaseSpan_hdrs, unlinked_flist (RemoveCoolSpan_unlinked _ _ _ _), hA]
  | demote u ha hhot hu hlt hfull =>
    refine ⟨?_, by simp [afterActivePush, pushBlock_mem]⟩
    rw [modHdr_hdrs_same]
    simp only [AddSlowSpan_hdrs]
    rw [unlinked_flist (RemoveCoolSpan_unlinked _ _ _ _), hA]
  | promote u w3 ha hi hcur hu hgt hrm =>
    obtain ⟨h1, h2, -⟩ := RemoveSlowSpan_ok _ _ _ _ _ hrm
    refine ⟨?_, by rw [SetActiveSlab_mem, h2, hIm]⟩
    rw [unlinked_flist (SetActiveSlab_unlinked _ _ _ _), h1, hI]
  | retire u w3 ha hi hcur hu hle hfull hrm =>
    obtain ⟨h1, h2, -⟩ := RemoveSlowSpan_ok _ _ _ _ _ hrm
    refine ⟨?_, by rw [releaseSpan_mem, h2, hIm]⟩
    rw [releaseSpan_hdrs, h1, hI]
  | stay u ha hi hcur hu hle hfull =>
    refine ⟨?_, by rw [modHdr_mem, hIm]⟩
    rw [modHdr_hdrs_same]
    exact hI

/-- C6: on a span whose block size `B = ClassToSize[sc]` is positive, for a block base `b`
with `b >= flist_aligned_blocksize_offset` and `(b - offset) mod B = 0` and an offset
`k < B` into the block (the pointer `b + k` being a machine address), `Free(b + k, hdr)`
computes the block base `b`, canonicalizing `b` itself gives `b`, `Free(b + k, hdr)` does
exactly what `Free(b, hdr)` does, and whenever it returns, a local free has pushed `b` (it
is the head of the span's freelist, linked to the previous head) and a remote free has
handed `b` to the Block Pool. -/
theorem free_canonicalizes (cfg : Config) (w : World) (hdr b k : Nat)
    (hB : 0 < cfg.ClassToSize (w.hdrs hdr).size_class)
    (hoff : (w.hdrs hdr).flist_aligned_blocksize_offset ≤ b)
    (hal : (b - (w.hdrs hdr).flist_aligned_blocksize_offset)
      % cfg.ClassToSize (w.hdrs hdr).size_class = 0)
    (hk : k < cfg.ClassToSize (w.hdrs hdr).size_class)
    (hfit : b + k < kWord) :
    canonical (w.hdrs hdr).flist_aligned_blocksize_offset
        (cfg.ClassToSize (w.hdrs hdr).size_class) (b + k) = b ∧
    canonical (w.hdrs hdr).flist_aligned_blocksize_offset
        (cfg.ClassToSize (w.hdrs hdr).size_class) b = b ∧
    Free cfg (b + k) hdr w = Free cfg b hdr w ∧
    ∀ w', Free cfg (b + k) hdr w = .ok w' →
      (((w.hdrs hdr).aowner = w.core.me_active_ ∨ (w.hdrs hdr).aowner = w.core.me_inactive_) →
        (w'.hdrs hdr).flist.list_ = b ∧
          w'.mem = w.mem.write b (w.hdrs hdr).flist.list_) ∧
      (((w.hdrs hdr).aowner ≠ w.core.me_active_ ∧ (w.hdrs hdr).aowner ≠ w.core.me_inactive_) →
        w'.pool = { block := b, size_class := (w.hdrs hdr).size_class,
                    remote_flist := (w.hdrs hdr).remote_flist } :: w.pool) := by
  have e1 := canonical_base _ _ b k hoff hal hk hfit
  have e2 := canonical_base _ _ b 0 hoff hal hB (by omega)
  rw [Nat.add_zero] at e2
  have e3 : Free cfg (b + k) hdr w = Free cfg b hdr w := by
    simp only [Free, FreeInSizeClass, e1, e2]
  refine ⟨e1, e2, e3, ?_⟩
  intro w' h
  obtain ⟨hnull, hsz, hc⟩ := Free_inv cfg w w' (b + k) hdr h
  have eb : blockBase cfg w (b + k) hdr = b := e1
  constructor
  · intro hloc
    obtain ⟨h1, h2⟩ := FreeCase_local_head cfg w w' (b + k) hdr hc hloc
    rw [eb] at h1 h2
    exact ⟨h1, h2⟩
  · rintro ⟨ha, hi⟩
    rw [Free_remote cfg w (b + k) hdr hnull hsz ha hi] at h
    cases h
    simp only [BlockPoolFree]
    rw [e1]

theorem free_canonicalizes_witness :
    canonical 0 16 (4160 + 5) = 4160 ∧ Free cfgEx (4160 + 5) 4096 worldInit
      = Free cfgEx 4160 4096 worldInit :=
  have h := free_canonicalizes cfgEx worldInit 4096 4160 5 (by decide) (by decide) (by decide)
    (by decide) (by decide)
  ⟨h.1, h.2.2.1⟩

/-! ## Free then allocate, allocate then free (C4, C5) -/

/-- The fast path of `AllocateInSizeClass`: a hot span with a non-empty freelist serves the
request, whatever the collaborators would answer. -/
theorem AllocateInSizeClass_hot (cfg : Config) (sc : Nat) (rs : List Round) (w : World)
    (hhot : w.core.hot_span_ sc ≠ 0)
    (hne : (w.hdrs (w.core.hot_span_ sc)).flist.list_ ≠ 0) :
    AllocateInSizeClass cfg sc rs w =
      .ok ((w.hdrs (w.core.hot_span_ sc)).flist.list_,
        w.modHdr (w.core.hot_span_ sc) (fun h =>
          { h with flist := ((w.hdrs (w.core.hot_span_ sc)).flist.Pop w.mem).2 })) := by
  simp [AllocateInSizeClass, AllocateInSizeClassWith, hhot, Freelist.Pop, hne]

theorem Utilization_ok (f : Freelist) (h : f.cap_ ≠ 0) : ∃ u, f.Utilization = .ok u := by
  simp [Freelist.Utilization, h]

/-- C4: if `hdr` is the hot span of class `c` and carries the tag `me_active_` (its block
size and capacity being non-zero and the block base of `p` non-null), then `Free(p, hdr)`
returns and an immediately following `Allocate` of any size of class `c` returns the block
base of `p`, whatever the collaborators would answer. -/
theorem free_then_allocate (cfg : Config) (w : World) (p hdr c size : Nat) (rs : List Round)
    (hhot : w.core.hot_span_ c = hdr) (hnull : hdr ≠ 0)
    (ha : (w.hdrs hdr).aowner = w.core.me_active_)
    (hsz : cfg.ClassToSize (w.hdrs hdr).size_class ≠ 0)
    (hcap : (w.hdrs hdr).flist.cap_ ≠ 0)
    (hb : blockBase cfg w p hdr ≠ 0)
    (hsc : cfg.SizeToClass size = c) :
    ∃ w1 w2, Free cfg p hdr w = .ok w1 ∧
      Allocate cfg size rs w1 = .ok (blockBase cfg w p hdr, w2) := by
  have key : ∀ w1, FreeCase cfg w p hdr w1 → w1.core.hot_span_ = w.core.hot_span_ →
      ∃ w2, Allocate cfg size rs w1 = .ok (blockBase cfg w p hdr, w2) := by
    intro w1 hc hh
    obtain ⟨h1, -⟩ := FreeCase_local_head cfg w w1 p hdr hc (Or.inl ha)
    have hhot1 : w1.core.hot_span_ c = hdr := by rw [hh, hhot]
    have := AllocateInSizeClass_hot cfg c rs w1 (by rw [hhot1]; exact hnull)
      (by rw [hhot1, h1]; exact hb)
    rw [hhot1, h1] at this
    exact ⟨_, by rw [Allocate, hsc]; exact this⟩
  by_cases hcur : hdr = w.core.hot_span_ (w.hdrs hdr).size_class
  · refine ⟨_, ?_, Free_active_hot cfg w p hdr hnull hsz ha hcur, ?_⟩
    exact (key _ (.keep ha (Or.inl hcur)) rfl).choose
    exact (key _ (.keep ha (Or.inl hcur)) rfl).choose_spec
  · have hcap' : ((afterActivePush cfg w p hdr).hdrs hdr).flist.cap_ ≠ 0 := by
      simpa [afterActivePush, pushBlock_hdrs, Freelist.Push] using hcap
    obtain ⟨u, hu⟩ := Utilization_ok _ hcap'
    have hu' : ((afterActivePush cfg w p hdr).hdrs hdr).Utilization = .ok u := hu
    by_cases hlt : u < cfg.kSpanReuseThreshold
    · cases hfull : ((afterActivePush cfg w p hdr).hdrs hdr).flist.Full with
      | true =>
        have hc := FreeCase.release u ha hcur hu' hlt hfull
        obtain ⟨w2, h2⟩ := key _ hc (by simp [afterActivePush])
        exact ⟨_, w2, Free_active_release cfg w p hdr u hnull hsz ha hcur hu' hlt hfull, h2⟩
      | false =>
        have hc := FreeCase.demote u ha hcur hu' hlt hfull
        obtain ⟨w2, h2⟩ := key _ hc (by simp [afterActivePush])
        exact ⟨_, w2, Free_active_demote cfg w p hdr u hnull hsz ha hcur hu' hlt hfull, h2⟩
    · have hc : FreeCase cfg w p hdr (afterActivePush cfg w p hdr) :=
        FreeCase.keep ha (Or.inr ⟨u, hu', hlt⟩)
      obtain ⟨w2, h2⟩ := key _ hc rfl
      exact ⟨_, w2, Free_active_keep cfg w p hdr u hnull hsz ha hu' hlt, h2⟩

/-- Popping the head of a freelist and pushing it back restores the list and the memory. -/
theorem Push_Pop (f : Freelist) (m : Mem) (hne : f.list_ ≠ 0) (hlen : f.len_ < kWord) :
    (f.Pop m).2.Push (f.Pop m).1 m = (f, m) := by
  have hl : ((f.len_ + kWord - 1) % kWord + 1) % kWord = f.len_ := by
    by_cases h0 : f.len_ = 0
    · rw [h0]; decide
    · have e1 : f.len_ + kWord - 1 = (f.len_ - 1) + kWord := by omega
      have e2 : (f.len_ - 1) % kWord = f.len_ - 1 := Nat.mod_eq_of_lt (by omega)
      have e3 : f.len_ - 1 + 1 = f.len_ := by omega
      rw [e1, Nat.add_mod_right, e2, e3, Nat.mod_eq_of_lt hlen]
  cases f with
  | mk cap len list =>
    simp only [Freelist.Pop, Freelist.Push] at *
    simp only [hne, ne_eq, not_false_eq_true, if_true, hl, Mem.write_self]

/-- C5: in a frontend state where `hot[c]` is a span of class `c` with tag `me_active_` and
a non-empty freelist whose head is a block base of the span (block size non-zero, length a
`size_t`), `p = Allocate(n)` for a size of class `c` returns the head of that freelist, and
`Free(p, hot[c])` then returns and leaves the whole world (so hot, cool and slow of every
class and the freelist chain and length of every span) exactly as it was before the
`Allocate`. -/
theorem allocate_then_free (cfg : Config) (w : World) (hdr c n : Nat) (rs : List Round)
    (hhot : w.core.hot_span_ c = hdr) (hnull : hdr ≠ 0)
    (hcls : (w.hdrs hdr).size_class = c)
    (ha : (w.hdrs hdr).aowner = w.core.me_active_)
    (hne : (w.hdrs hdr).flist.list_ ≠ 0)
    (hlen : (w.hdrs hdr).flist.len_ < kWord)
    (hsz : cfg.ClassToSize c ≠ 0)
    (hbase : blockBase cfg w (w.hdrs hdr).flist.list_ hdr = (w.hdrs hdr).flist.list_)
    (hsc : cfg.SizeToClass n = c) :
    ∃ w1, Allocate cfg n rs w = .ok ((w.hdrs hdr).flist.list_, w1) ∧
      Free cfg (w.hdrs hdr).flist.list_ hdr w1 = .ok w := by
  have hal := AllocateInSizeClass_hot cfg c rs w (by rw [hhot]; exact hnull)
    (by rw [hhot]; exact hne)
  rw [hhot] at hal
  refine ⟨_, by rw [Allocate, hsc]; exact hal, ?_⟩
  set w1 := w.modHdr hdr (fun h => { h with flist := ((w.hdrs hdr).flist.Pop w.mem).2 })
    with hw1
  have h1c : (w1.hdrs hdr).size_class = c := by simp [hw1, hcls]
  have h1a : (w1.hdrs hdr).aowner = w1.core.me_active_ := by simp [hw1, ha]
  have h1hot : hdr = w1.core.hot_span_ (w1.hdrs hdr).size_class := by
    rw [h1c]; simp [hw1, hhot]
  rw [Free_active_hot cfg w1 _ hdr hnull (by rw [h1c]; exact hsz) h1a h1hot]
  have hb1 : blockBase cfg w1 (w.hdrs hdr).flist.list_ hdr = (w.hdrs hdr).flist.list_ := by
    have e : blockBase cfg w1 (w.hdrs hdr).flist.list_ hdr
        = blockBase cfg w (w.hdrs hdr).flist.list_ hdr := by
      simp [blockBase, hw1]
    exact e.trans hbase
  have hpp := Push_Pop (w.hdrs hdr).flist w.mem hne hlen
  have hp1 : ((w.hdrs hdr).flist.Pop w.mem).1 = (w.hdrs hdr).flist.list_ := by
    simp [Freelist.Pop, hne]
  rw [hp1] at hpp
  congr 1
  simp only [afterActivePush, hb1, pushBlock]
  have e1 : (w1.hdrs hdr).flist = ((w.hdrs hdr).flist.Pop w.mem).2 := by simp [hw1]
  have e2 : w1.mem = w.mem := rfl
  rw [e1, e2, hpp]
  cases w with
  | mk core hdrs mem pool released gets =>
    simp only [hw1, World.modHdr, upd_upd, upd_same]
    congr 1
    exact upd_self hdrs hdr

theorem free_then_allocate_witness :
    ∃ w1 w2, Free cfgEx 4211 4096 worldOne = .ok w1 ∧
      Allocate cfgEx 10 [] w1 = .ok (4208, w2) :=
  free_then_allocate cfgEx worldOne 4211 4096 1 10 [] (by decide) (by decide) (by decide)
    (by decide) (by decide) (by decide) (by decide)

theorem allocate_then_free_witness :
    ∃ w1, Allocate cfgEx 16 [] worldHot = .ok (4208, w1) ∧
      Free cfgEx 4208 4096 w1 = .ok worldHot :=
  allocate_then_free cfgEx worldHot 4096 1 16 [] (by decide) (by decide) (by decide)
    (by decide) (by decide) (by decide) (by decide) (by decide) (by decide)

/-! ## The cool list as a doubly linked list -/

theorem DLL_nonzero {hdrs : Nat → SpanHeader} :
    ∀ {l : List Nat} {prev p : Nat}, DLL hdrs prev p l → ∀ x ∈ l, x ≠ 0
  | [], _, _, _, x, hx => by simp at hx
  | y :: ys, _, _, h, x, hx => by
    rcases List.mem_cons.1 hx with e | hx'
    · rw [e]; exact h.2.1
    · exact DLL_nonzero h.2.2.2 x hx'

/-- A chain only depends on the links of its own entries. -/
theorem DLL_congr {hdrs hdrs' : Nat → SpanHeader} :
    ∀ {l : List Nat} {prev p : Nat},
      (∀ x ∈ l, (hdrs' x).prev = (hdrs x).prev ∧ (hdrs' x).next = (hdrs x).next) →
      DLL hdrs prev p l → DLL hdrs' prev p l
  | [], _, _, _, h => h
  | y :: ys, _, _, hl, h => by
    obtain ⟨h1, h2, h3, h4⟩ := h
    have hy := hl y (List.mem_cons_self _ _)
    refine ⟨h1, h2, by rw [hy.1]; exact h3, ?_⟩
    rw [hy.2]
    exact DLL_congr (fun x hx => hl x (List.mem_cons_of_mem _ hx)) h4

/-- The head pointer of a chain is its first entry, or `NULL`. -/
theorem DLL_head {hdrs : Nat → SpanHeader} {l : List Nat} {prev p : Nat}
    (h : DLL hdrs prev p l) : p = l.headD 0 := by
  cases l with
  | nil => exact h
  | cons x xs => exact h.1

/-- The links of the headers after `AddCoolSpan(sc, span)`, for a span that is not the
current head. -/
theorem AddCoolSpan_links (sc : Nat) (span : Nat) (w : World)
    (hne : w.core.cool_spans_ sc ≠ span) (x : Nat) :
    ((AddCoolSpan sc span w).hdrs x).prev =
        (if x = span then 0
         else if x = w.core.cool_spans_ sc ∧ w.core.cool_spans_ sc ≠ 0 then span
         else (w.hdrs x).prev) ∧
    ((AddCoolSpan sc span w).hdrs x).next =
        (if x = span then w.core.cool_spans_ sc else (w.hdrs x).next) := by
  unfold AddCoolSpan
  simp only [modCore_hdrs, modHdr_core]
  by_cases h0 : w.core.cool_spans_ sc = 0
  · simp only [h0, ne_eq, not_true_eq_false, if_false, and_false]
    by_cases hx : x = span
    · subst hx; simp
    · simp [hx]
  · simp only [h0, ne_eq, not_false_eq_true, if_true, and_true]
    by_cases hx : x = span
    · subst hx
      simp [modHdr_hdrs_other _ _ _ _ (Ne.symm hne)]
    · by_cases hx2 : x = w.core.cool_spans_ sc
      · subst hx2; simp [hx]
      · simp [hx, hx2]

/-- `AddCoolSpan(sc, s)` on a well-formed cool list that does not hold `s` makes `s` the
head, followed by the old list. -/
theorem AddCoolSpan_CoolList (sc : Nat) (s : Nat) (w : World) (l : List Nat)
    (h : CoolList w sc l) (hs0 : s ≠ 0) (hs : s ∉ l) :
    CoolList (AddCoolSpan sc s w) sc (s :: l) := by
  obtain ⟨hd, hn⟩ := h
  have hhead := DLL_head hd
  have hne : w.core.cool_spans_ sc ≠ s := by
    intro e
    cases l with
    | nil => simp at hhead; exact hs0 (e ▸ hhead)
    | cons y ys => simp at hhead; exact hs (by rw [← e, hhead]; exact List.mem_cons_self _ _)
  have hl := AddCoolSpan_links sc s w hne
  refine ⟨⟨?_, hs0, ?_, ?_⟩, List.nodup_cons.2 ⟨hs, hn⟩⟩
  · simp [AddCoolSpan_core]
  · rw [(hl s).1]; simp
  · rw [(hl s).2, if_pos rfl]
    cases l with
    | nil => exact hd
    | cons y ys =>
      obtain ⟨h1, h2, h3, h4⟩ := hd
      have hys : y ≠ s := fun e => hs (e ▸ List.mem_cons_self _ _)
      refine ⟨h1, h2, ?_, ?_⟩
      · rw [(hl y).1, if_neg hys, if_pos ⟨h1.symm, h1 ▸ h2⟩]
      · rw [(hl y).2, if_neg hys]
        refine DLL_congr (fun x hx => ?_) h4
        have hxs : x ≠ s := fun e => hs (e ▸ List.mem_cons_of_mem _ hx)
        have hxy : x ≠ y := fun e => (List.nodup_cons.1 hn).1 (e ▸ hx)
        rw [(hl x).1, (hl x).2, if_neg hxs, if_neg hxs, if_neg (fun c => hxy (c.1.trans h1))]
        exact ⟨rfl, rfl⟩

theorem modHdr_apply (w : World) (p x : Nat) (f : SpanHeader → SpanHeader) :
    (w.modHdr p f).hdrs x = if x = p then f (w.hdrs p) else w.hdrs x := by
  by_cases h : x = p
  · subst h; simp
  · simp [h]

/-- The links of the headers and the head pointer after `RemoveCoolSpan(sc, s)`, for a span
that is neither its own predecessor nor its own successor and whose predecessor and
successor differ unless both are `NULL`. -/
theorem RemoveCoolSpan_links (sc : Nat) (s : Nat) (w : World)
    (hP : (w.hdrs s).prev ≠ s) (hN : (w.hdrs s).next ≠ s)
    (hPN : (w.hdrs s).prev = 0 ∨ (w.hdrs s).prev ≠ (w.hdrs s).next) :
    (∀ x, ((RemoveCoolSpan sc s w).hdrs x).next =
        (if x = s then 0
         else if x = (w.hdrs s).prev ∧ (w.hdrs s).prev ≠ 0 then (w.hdrs s).next
         else (w.hdrs x).next)) ∧
    (∀ x, ((RemoveCoolSpan sc s w).hdrs x).prev =
        (if x = s then 0
         else if x = (w.hdrs s).next ∧ (w.hdrs s).next ≠ 0 then (w.hdrs s).prev
         else (w.hdrs x).prev)) ∧
    (RemoveCoolSpan sc s w).core.cool_spans_ sc =
        (if w.core.cool_spans_ sc = s then (w.hdrs s).next else w.core.cool_spans_ sc) := by
  have hsP : s ≠ (w.hdrs s).prev := Ne.symm hP
  have hsN : s ≠ (w.hdrs s).next := Ne.symm hN
  unfold RemoveCoolSpan
  refine ⟨fun x => ?_, fun x => ?_, ?_⟩
  all_goals
    by_cases hP0 : (w.hdrs s).prev = 0 <;> by_cases hN0 : (w.hdrs s).next = 0 <;>
      by_cases hh : w.core.cool_spans_ sc = s
  all_goals
    simp only [hP0, hN0, hh, ne_eq, not_true_eq_false, not_false_eq_true, if_true, if_false,
      modHdr_apply, modHdr_core, modCore_hdrs, modCore_core, hsP, hsN, upd_same, and_true,
      and_false]
  all_goals first
    | rfl
    | (by_cases hx : x = s <;> by_cases hxP : x = (w.hdrs s).prev <;>
        by_cases hxN : x = (w.hdrs s).next <;> simp_all)

/-- The links of an entry in the middle of a chain. -/
theorem DLL_mid {hdrs : Nat → SpanHeader} (s : Nat) (l2 : List Nat) :
    ∀ (l1 : List Nat) (prev0 p : Nat), DLL hdrs prev0 p (l1 ++ s :: l2) →
      (hdrs s).prev = l1.getLastD prev0 ∧ (hdrs s).next = l2.headD 0
  | [], _, _, h => ⟨h.2.2.1, DLL_head h.2.2.2⟩
  | a :: l1, _, _, h => by
    have ih := DLL_mid s l2 l1 a _ h.2.2.2
    rw [List.getLastD_cons]
    exact ih

theorem getLastD_mem_or (l : List Nat) (d : Nat) : l.getLastD d = d ∧ l = [] ∨ l.getLastD d ∈ l := by
  cases l with
  | nil => exact Or.inl ⟨rfl, rfl⟩
  | cons a t =>
    right
    rw [List.getLastD_cons]
    induction t generalizing a with
    | nil => simp
    | cons b t ih =>
      rw [List.getLastD_cons]
      exact List.mem_cons_of_mem _ (ih b)

theorem headD_mem_or (l : List Nat) (d : Nat) : l.headD d = d ∧ l = [] ∨ l.headD d ∈ l := by
  cases l with
  | nil => exact Or.inl ⟨rfl, rfl⟩
  | cons a t => exact Or.inr (List.mem_cons_self _ _)

/-- Unlinking `s` from a chain: with the successor of `s` linked to its predecessor and back,
the chain visits the remaining entries in the old order. -/
theorem DLL_remove {hdrs hdrs' : Nat → SpanHeader} (s : Nat) (l2 : List Nat)
    (hnext : ∀ x, (hdrs' x).next =
      if x = s then 0
      else if x = (hdrs s).prev ∧ (hdrs s).prev ≠ 0 then (hdrs s).next else (hdrs x).next)
    (hprev : ∀ x, (hdrs' x).prev =
      if x = s then 0
      else if x = (hdrs s).next ∧ (hdrs s).next ≠ 0 then (hdrs s).prev else (hdrs x).prev) :
    ∀ (l1 : List Nat) (prev0 p : Nat), DLL hdrs prev0 p (l1 ++ s :: l2) →
      (l1 ++ s :: l2).Nodup → prev0 ∉ l1 ++ s :: l2 →
      DLL hdrs' prev0 (if l1 = [] then (hdrs s).next else p) (l1 ++ l2)
  | [], prev0, p, h, hn, hp => by
    obtain ⟨h1, h2, h3, h4⟩ := h
    simp only [List.nil_append, if_true] at hn hp ⊢
    cases l2 with
    | nil => exact h4
    | cons y ys =>
      obtain ⟨k1, k2, k3, k4⟩ := h4
      have hys : y ≠ s := fun e => (List.nodup_cons.1 hn).1 (e ▸ List.mem_cons_self _ _)
      have hyp : y ≠ prev0 := fun e => hp (e ▸ List.mem_cons_of_mem _ (List.mem_cons_self _ _))
      refine ⟨k1, k2, ?_, ?_⟩
      · rw [hprev y, if_neg hys, if_pos ⟨k1.symm, k1 ▸ k2⟩, h3]
      · rw [hnext y, if_neg hys, if_neg (fun c => hyp (c.1.trans h3))]
        refine DLL_congr (fun x hx => ?_) k4
        have hxs : x ≠ s := fun e =>
          (List.nodup_cons.1 hn).1 (e ▸ List.mem_cons_of_mem _ hx)
        have hxy : x ≠ y := fun e =>
          (List.nodup_cons.1 (List.nodup_cons.1 hn).2).1 (e ▸ hx)
        have hxp : x ≠ prev0 := fun e =>
          hp (e ▸ List.mem_cons_of_mem _ (List.mem_cons_of_mem _ hx))
        rw [hprev x, hnext x, if_neg hxs, if_neg hxs,
          if_neg (fun c => hxy (c.1.trans k1)), if_neg (fun c => hxp (c.1.trans h3))]
        exact ⟨rfl, rfl⟩
  | a :: l1, prev0, p, h, hn, hp => by
    obtain ⟨h1, h2, h3, h4⟩ := h
    have hmid := DLL_mid s l2 l1 a _ h4
    have hn' : (l1 ++ s :: l2).Nodup := (List.nodup_cons.1 hn).2
    have ha : a ∉ l1 ++ s :: l2 := (List.nodup_cons.1 hn).1
    have has : a ≠ s := fun e => ha (e ▸ List.mem_append_right _ (List.mem_cons_self _ _))
    have ih := DLL_remove s l2 hnext hprev l1 a _ h4 hn' ha
    simp only [List.cons_append, reduceCtorEq, if_false]
    have haN : ¬ (a = (hdrs s).next ∧ (hdrs s).next ≠ 0) := by
      rintro ⟨c1, c2⟩
      rcases headD_mem_or l2 0 with ⟨e, -⟩ | hm
      · exact c2 (hmid.2.trans e)
      · exact ha (by
          rw [c1, hmid.2]
          exact List.mem_append_right _ (List.mem_cons_of_mem _ hm))
    refine ⟨h1, h2, ?_, ?_⟩
    · rw [hprev a, if_neg has, if_neg haN, h3]
    · rw [hnext a, if_neg has]
      by_cases hl1 : l1 = []
      · subst hl1
        simp only [List.getLastD_nil] at hmid
        simp only [if_true] at ih
        rw [if_pos ⟨hmid.1.symm, hmid.1 ▸ h2⟩]
        exact ih
      · simp only [hl1, if_false] at ih
        have : ¬ (a = (hdrs s).prev ∧ (hdrs s).prev ≠ 0) := by
          rintro ⟨c1, -⟩
          rcases getLastD_mem_or l1 a with ⟨-, e⟩ | hm
          · exact hl1 e
          · exact ha (by rw [c1, hmid.1]; exact List.mem_append_left _ hm)
        rw [if_neg this]
        exact ih

/-- `RemoveCoolSpan(sc, s)` for a member `s` of a well-formed cool list (head, middle or
tail): the list is the old one without `s`, in the old order and well formed, and the links
of `s` are cleared. -/
theorem RemoveCoolSpan_CoolList (sc : Nat) (s : Nat) (w : World) (l : List Nat)
    (h : CoolList w sc l) (hs : s ∈ l) :
    CoolList (RemoveCoolSpan sc s w) sc (l.erase s) ∧
      ((RemoveCoolSpan sc s w).hdrs s).prev = 0 ∧ ((RemoveCoolSpan sc s w).hdrs s).next = 0 ∧
      (∀ x, x ∉ l → ((RemoveCoolSpan sc s w).hdrs x).prev = (w.hdrs x).prev ∧
        ((RemoveCoolSpan sc s w).hdrs x).next = (w.hdrs x).next) := by
  obtain ⟨hd, hn⟩ := h
  obtain ⟨l1, l2, rfl⟩ := List.append_of_mem hs
  have hs0 : s ≠ 0 := DLL_nonzero hd s hs
  have hmid := DLL_mid s l2 l1 0 _ hd
  have hn2 := hn
  rw [List.nodup_append] at hn2
  obtain ⟨hn1, hnl2, hdisj⟩ := hn2
  have hs1 : s ∉ l1 := fun c => hdisj c (List.mem_cons_self _ _)
  have hs2 : s ∉ l2 := (List.nodup_cons.1 hnl2).1
  have hP : (w.hdrs s).prev ≠ s := by
    rw [hmid.1]
    rcases getLastD_mem_or l1 0 with ⟨e, -⟩ | hm
    · rw [e]; exact Ne.symm hs0
    · exact fun c => hs1 (c ▸ hm)
  have hN : (w.hdrs s).next ≠ s := by
    rw [hmid.2]
    rcases headD_mem_or l2 0 with ⟨e, -⟩ | hm
    · rw [e]; exact Ne.symm hs0
    · exact fun c => hs2 (c ▸ hm)
  have hPN : (w.hdrs s).prev = 0 ∨ (w.hdrs s).prev ≠ (w.hdrs s).next := by
    rw [hmid.1, hmid.2]
    rcases getLastD_mem_or l1 0 with ⟨e, -⟩ | hm
    · exact Or.inl e
    · right
      rcases headD_mem_or l2 0 with ⟨e, -⟩ | hm2
      · rw [e]; exact DLL_nonzero hd _ (List.mem_append_left _ hm)
      · exact fun c => hdisj hm (List.mem_cons_of_mem _ (c ▸ hm2))
  obtain ⟨k1, k2, k3⟩ := RemoveCoolSpan_links sc s w hP hN hPN
  have h0 : (0 : Nat) ∉ l1 ++ s :: l2 := fun c => DLL_nonzero hd 0 c rfl
  have hrem := DLL_remove s l2 k1 k2 l1 0 _ hd hn h0
  have herase : (l1 ++ s :: l2).erase s = l1 ++ l2 := by
    rw [List.erase_append_right _ hs1, List.erase_cons_head]
  refine ⟨⟨?_, ?_⟩, ?_, ?_, ?_⟩
  · rw [herase, k3]
    have hhead := DLL_head hd
    cases l1 with
    | nil =>
      simp only [List.nil_append, List.headD_cons] at hhead
      simpa [hhead] using hrem
    | cons a t =>
      simp only [List.cons_append, List.headD_cons] at hhead
      have : w.core.cool_spans_ sc ≠ s := by
        rw [hhead]; exact fun c => hs1 (c ▸ List.mem_cons_self _ _)
      simpa [this] using hrem
  · rw [herase]
    exact List.nodup_append.2 ⟨hn1, (List.nodup_cons.1 hnl2).2,
      fun a ha hb => hdisj ha (List.mem_cons_of_mem _ hb)⟩
  · rw [k2 s, if_pos rfl]
  · rw [k1 s, if_pos rfl]
  · intro x hx
    have hxs : x ≠ s := fun c => hx (c ▸ hs)
    have hxP : ¬ (x = (w.hdrs s).prev ∧ (w.hdrs s).prev ≠ 0) := by
      rintro ⟨c1, c2⟩
      rw [hmid.1] at c1 c2
      rcases getLastD_mem_or l1 0 with ⟨e, -⟩ | hm
      · exact c2 e
      · exact hx (c1 ▸ List.mem_append_left _ hm)
    have hxN : ¬ (x = (w.hdrs s).next ∧ (w.hdrs s).next ≠ 0) := by
      rintro ⟨c1, c2⟩
      rw [hmid.2] at c1 c2
      rcases headD_mem_or l2 0 with ⟨e, -⟩ | hm
      · exact c2 e
      · exact hx (c1 ▸ List.mem_append_right _ (List.mem_cons_of_mem _ hm))
    rw [k2 x, k1 x, if_neg hxs, if_neg hxs, if_neg hxP, if_neg hxN]
    exact ⟨rfl, rfl⟩

/-- `RemoveCoolSpan(sc, s)` for a span with cleared links that is not the head changes no
link and no head pointer. -/
theorem RemoveCoolSpan_unlinked_noop (sc : Nat) (s : Nat) (w : World)
    (hp : (w.hdrs s).prev = 0) (hn : (w.hdrs s).next = 0) (hh : w.core.cool_spans_ sc ≠ s) :
    (RemoveCoolSpan sc s w).hdrs = w.hdrs ∧ (RemoveCoolSpan sc s w).core = w.core := by
  unfold RemoveCoolSpan
  simp only [hp, hn, hh, ne_eq, not_true_eq_false, if_false, modHdr_core, and_true]
  funext x
  simp only [modHdr_apply]
  by_cases hx : x = s
  · subst hx
    simp only [if_true]
    cases hw : w.hdrs x with
    | mk a b c d e f g =>
      rw [hw] at hp hn
      simp only at hp hn
      simp [hp, hn]
  · simp [hx]

/-! ## Local frees (C8, C9) -/

/-- A cool list only depends on its head pointer and on the links of the headers. -/
theorem CoolList_congr {w w' : World} {sc : Nat} {l : List Nat}
    (hh : w'.core.cool_spans_ sc = w.core.cool_spans_ sc)
    (hl : ∀ x ∈ l, (w'.hdrs x).prev = (w.hdrs x).prev ∧ (w'.hdrs x).next = (w.hdrs x).next)
    (h : CoolList w sc l) : CoolList w' sc l :=
  ⟨by rw [hh]; exact DLL_congr hl h.1, h.2⟩

theorem pushBlock_links (hdr p : Nat) (w : World) (x : Nat) :
    ((pushBlock hdr p w).hdrs x).prev = (w.hdrs x).prev ∧
      ((pushBlock hdr p w).hdrs x).next = (w.hdrs x).next := by
  rw [pushBlock_hdrs]
  by_cases hx : x = hdr
  · subst hx; simp
  · simp [hx]

theorem pushBlock_aowner (hdr p : Nat) (w : World) (x : Nat) :
    ((pushBlock hdr p w).hdrs x).aowner = (w.hdrs x).aowner := by
  rw [pushBlock_hdrs]
  by_cases hx : x = hdr
  · subst hx; simp
  · simp [hx]

theorem pushBlock_size_class (hdr p : Nat) (w : World) (x : Nat) :
    ((pushBlock hdr p w).hdrs x).size_class = (w.hdrs x).size_class := by
  rw [pushBlock_hdrs]
  by_cases hx : x = hdr
  · subst hx; simp
  · simp [hx]

theorem pushBlock_cap (hdr p : Nat) (w : World) (x : Nat) :
    ((pushBlock hdr p w).hdrs x).flist.cap_ = (w.hdrs x).flist.cap_ := by
  rw [pushBlock_hdrs]
  by_cases hx : x = hdr
  · subst hx; simp [Freelist.Push]
  · simp [hx]

/-- The cool list after `RemoveCoolSpan(sc, hdr)`, for a member of the list or for a span
with cleared links that is not in it. -/
theorem RemoveCoolSpan_erase (sc : Nat) (hdr : Nat) (w : World) (l : List Nat)
    (h : CoolList w sc l) (hnull : hdr ≠ 0)
    (hin : hdr ∈ l ∨ ((w.hdrs hdr).prev = 0 ∧ (w.hdrs hdr).next = 0 ∧ hdr ∉ l)) :
    CoolList (RemoveCoolSpan sc hdr w) sc (l.erase hdr) ∧ hdr ∉ l.erase hdr := by
  rcases hin with hm | ⟨hp, hn, hm⟩
  · exact ⟨(RemoveCoolSpan_CoolList sc hdr w l h hm).1,
      fun c => ((List.Nodup.mem_erase_iff h.2).1 c).1 rfl⟩
  · rw [List.erase_of_not_mem hm]
    have hh : w.core.cool_spans_ sc ≠ hdr := by
      intro c
      have := DLL_head h.1
      cases l with
      | nil =>
        simp only [List.headD_nil] at this
        exact hnull (c ▸ this)
      | cons y ys =>
        simp only [List.headD_cons] at this
        exact hm (by rw [← c, this]; exact List.mem_cons_self _ _)
    obtain ⟨e1, e2⟩ := RemoveCoolSpan_unlinked_noop sc hdr w hp hn hh
    exact ⟨CoolList_congr (by rw [e2]) (fun x _ => by rw [e1]; exact ⟨rfl, rfl⟩) h, hm⟩

/-- C8: a free on a span `hdr` of class `c` with tag `me_active_` (in a frontend whose tags
are those of its id, with `cool[c]` well formed as the list `l`, `hdr` either in it or with
cleared links, and `hdr` not in `slow[c]`). Let `u` be the utilization of `hdr` after the
push. If `hdr` is not `hot[c]` and `u` is below the reuse threshold, `Free` returns and
`hdr` is no longer in `cool[c]`, which is the old list without `hdr`; if the freelist is
full, `hdr` has been released exactly once and is not in `slow[c]` (which is unchanged);
otherwise nothing is released, the tag of `hdr` is `me_inactive_`, and with slow-span reuse
compiled in `hdr` is the new head of `slow[c]`. If `hdr` is `hot[c]` or `u` is not below the
threshold, `Free` returns and only the freelist of `hdr` has changed: the frontend, the
other headers, the other fields of `hdr`, the pool and the logs are the same. -/
theorem active_free_nonhot (cfg : Config) (w : World) (p hdr : Nat) (l : List Nat)
    (hnull : hdr ≠ 0) (hsz : cfg.ClassToSize (w.hdrs hdr).size_class ≠ 0)
    (hcap : (w.hdrs hdr).flist.cap_ ≠ 0)
    (hA : w.core.me_active_ = ActiveOwner.Reset true w.core.id_)
    (hI : w.core.me_inactive_ = ActiveOwner.Reset false w.core.id_)
    (ha : (w.hdrs hdr).aowner = w.core.me_active_)
    (hcool : CoolList w (w.hdrs hdr).size_class l)
    (hin : hdr ∈ l ∨ ((w.hdrs hdr).prev = 0 ∧ (w.hdrs hdr).next = 0 ∧ hdr ∉ l))
    (hslow : hdr ∉ w.core.slow_spans_ (w.hdrs hdr).size_class) :
    ∃ u, ((afterActivePush cfg w p hdr).hdrs hdr).Utilization = .ok u ∧
      ((hdr ≠ w.core.hot_span_ (w.hdrs hdr).size_class ∧ u < cfg.kSpanReuseThreshold) →
        ∃ w', Free cfg p hdr w = .ok w' ∧
          CoolList w' (w.hdrs hdr).size_class (l.erase hdr) ∧ hdr ∉ l.erase hdr ∧
          (((afterActivePush cfg w p hdr).hdrs hdr).flist.Full = true →
            (∃ r, r.span = hdr ∧ w'.released = r :: w.released) ∧
            w'.core.slow_spans_ = w.core.slow_spans_ ∧
            hdr ∉ w'.core.slow_spans_ (w.hdrs hdr).size_class) ∧
          (((afterActivePush cfg w p hdr).hdrs hdr).flist.Full = false →
            w'.released = w.released ∧
            (w'.hdrs hdr).aowner = w.core.me_inactive_ ∧
            (cfg.REUSE_SLOW_SPANS = true →
              w'.core.slow_spans_ (w.hdrs hdr).size_class
                = hdr :: w.core.slow_spans_ (w.hdrs hdr).size_class))) ∧
      ((hdr = w.core.hot_span_ (w.hdrs hdr).size_class ∨ ¬ u < cfg.kSpanReuseThreshold) →
        ∃ w', Free cfg p hdr w = .ok w' ∧ w'.core = w.core ∧
          w'.hdrs = upd w.hdrs hdr { w.hdrs hdr with
            flist := ((w.hdrs hdr).flist.Push (blockBase cfg w p hdr) w.mem).1 } ∧
          w'.mem = w.mem.write (blockBase cfg w p hdr) (w.hdrs hdr).flist.list_ ∧
          w'.pool = w.pool ∧ w'.released = w.released ∧ w'.gets = w.gets) := by
  have hcap' : ((afterActivePush cfg w p hdr).hdrs hdr).flist.cap_ ≠ 0 := by
    rw [afterActivePush, pushBlock_cap]; exact hcap
  obtain ⟨u, hu⟩ := Utilization_ok _ hcap'
  have hu' : ((afterActivePush cfg w p hdr).hdrs hdr).Utilization = .ok u := hu
  refine ⟨u, hu', ?_, ?_⟩
  · rintro ⟨hhot, hlt⟩
    -- the cool list after the push and after the removal
    have hc2 : CoolList (afterActivePush cfg w p hdr) (w.hdrs hdr).size_class l :=
      @CoolList_congr w (afterActivePush cfg w p hdr) _ _ rfl
        (fun x _ => pushBlock_links _ _ _ x) hcool
    have hin2 : hdr ∈ l ∨ (((afterActivePush cfg w p hdr).hdrs hdr).prev = 0 ∧
        ((afterActivePush cfg w p hdr).hdrs hdr).next = 0 ∧ hdr ∉ l) := by
      rcases hin with h | ⟨h1, h2, h3⟩
      · exact Or.inl h
      · right
        have := pushBlock_links hdr (blockBase cfg w p hdr) w hdr
        exact ⟨this.1.trans h1, this.2.trans h2, h3⟩
    obtain ⟨hc3, hnm⟩ := RemoveCoolSpan_erase _ hdr _ l hc2 hnull hin2
    cases hfull : ((afterActivePush cfg w p hdr).hdrs hdr).flist.Full with
    | true =>
      refine ⟨_, Free_active_release cfg w p hdr u hnull hsz ha hhot hu' hlt hfull, ?_, hnm,
        ?_, by simp⟩
      · exact CoolList_congr (by simp) (fun x _ => by simp) hc3
      · intro _
        refine ⟨?_, by simp [afterActivePush], by simpa [afterActivePush] using hslow⟩
        obtain ⟨r, hr1, hr2⟩ := releaseSpan_released cfg hdr
          (RemoveCoolSpan (w.hdrs hdr).size_class hdr (afterActivePush cfg w p hdr))
        exact ⟨r, hr1, by rw [hr2]; simp [afterActivePush]⟩
    | false =>
      refine ⟨_, Free_active_demote cfg w p hdr u hnull hsz ha hhot hu' hlt hfull, ?_, hnm,
        by simp, ?_⟩
      · refine CoolList_congr (by simp) (fun x _ => ?_) hc3
        simp only [modHdr_apply, AddSlowSpan_hdrs]
        by_cases hx : x = hdr
        · subst hx; simp
        · simp [hx]
      · intro _
        refine ⟨by simp [afterActivePush], ?_, ?_⟩
        · rw [modHdr_hdrs_same]
          simp only [AddSlowSpan_hdrs]
          rw [unlinked_aowner (RemoveCoolSpan_unlinked _ _ _ _), afterActivePush,
            pushBlock_aowner, ha, hA, hI, clearActive_Reset]
        · intro hf
          simp [AddSlowSpan_slow, hf, afterActivePush]
  · intro hk
    have hfree : Free cfg p hdr w = .ok (afterActivePush cfg w p hdr) := by
      rcases hk with h | h
      · exact Free_active_hot cfg w p hdr hnull hsz ha h
      · exact Free_active_keep cfg w p hdr u hnull hsz ha hu' h
    exact ⟨_, hfree, rfl, rfl, rfl, rfl, rfl, rfl⟩

theorem active_free_nonhot_witness :
    ∃ u, ((afterActivePush cfgEx worldCool 4160 4096).hdrs 4096).Utilization = .ok u ∧
      ((4096 ≠ worldCool.core.hot_span_ 1 ∧ u < 80) →
        ∃ w', Free cfgEx 4160 4096 worldCool = .ok w' ∧ CoolList w' 1 []) :=
  have h := active_free_nonhot cfgEx worldCool 4160 4096 [4096] (by decide) (by decide)
    (by decide) (by decide) (by decide) (by decide) (by decide) (by decide) (by decide)
  h.imp (fun _ hu => ⟨hu.1, fun hc => (hu.2.1 hc).imp (fun _ hw => ⟨hw.1, hw.2.1⟩)⟩)

theorem removeFirst_eq_erase (s : Nat) :
    ∀ (l l' : List Nat), removeFirst s l = some l' → s ∈ l ∧ l' = l.erase s
  | [], _, h => by simp [removeFirst] at h
  | d :: rest, l', h => by
    unfold removeFirst at h
    by_cases hd : d = s
    · subst hd
      simp only [if_true, Option.some.injEq] at h
      exact ⟨List.mem_cons_self _ _, by rw [List.erase_cons_head, h]⟩
    · simp only [hd, if_false, Option.map_eq_some'] at h
      obtain ⟨r, hr, rfl⟩ := h
      obtain ⟨hm, he⟩ := removeFirst_eq_erase s rest r hr
      refine ⟨List.mem_cons_of_mem _ hm, ?_⟩
      rw [List.erase_cons_tail (by simpa using hd), he]

theorem removeFirst_of_mem (s : Nat) :
    ∀ (l : List Nat), s ∈ l → removeFirst s l = some (l.erase s)
  | [], h => by simp at h
  | d :: rest, h => by
    unfold removeFirst
    by_cases hd : d = s
    · subst hd; simp
    · have hm : s ∈ rest := by
        rcases List.mem_cons.1 h with e | e
        · exact absurd e.symm hd
        · exact e
      simp only [hd, if_false, removeFirst_of_mem s rest hm, Option.map_some']
      rw [List.erase_cons_tail (by simpa using hd)]

/-- `RemoveSlowSpan` returns when the feature is compiled out or the span is in the list. -/
theorem RemoveSlowSpan_of_mem (cfg : Config) (sc : Nat) (span : Nat) (w : World)
    (h : cfg.REUSE_SLOW_SPANS = true → span ∈ w.core.slow_spans_ sc) :
    ∃ w3, RemoveSlowSpan cfg sc span w = .ok w3 ∧ w3.hdrs = w.hdrs ∧ w3.mem = w.mem ∧
      w3.pool = w.pool ∧ w3.released = w.released ∧ w3.gets = w.gets ∧
      w3.core.hot_span_ = w.core.hot_span_ ∧ w3.core.cool_spans_ = w.core.cool_spans_ ∧
      w3.core.me_active_ = w.core.me_active_ ∧ w3.core.me_inactive_ = w.core.me_inactive_ ∧
      w3.core.id_ = w.core.id_ ∧
      w3.core.slow_spans_ =
        (if cfg.REUSE_SLOW_SPANS then
          upd w.core.slow_spans_ sc ((w.core.slow_spans_ sc).erase span)
         else w.core.slow_spans_) := by
  unfold RemoveSlowSpan
  cases hf : cfg.REUSE_SLOW_SPANS with
  | false => exact ⟨w, by simp⟩
  | true =>
    simp only [if_true, removeFirst_of_mem span _ (h hf)]
    exact ⟨_, rfl, by simp⟩

theorem AddCoolSpan_hot (sc : Nat) (span : Nat) (w : World) :
    (AddCoolSpan sc span w).core.hot_span_ = w.core.hot_span_ := by
  rw [AddCoolSpan_core]

/-- `SetActiveSlab(sc, s)` with a hot span that is not in the well-formed cool list `l`:
the old hot span becomes the head of the cool list, followed by `l`. -/
theorem SetActiveSlab_CoolList (sc : Nat) (s : Nat) (w : World) (l : List Nat)
    (h : CoolList w sc l) (hhot : w.core.hot_span_ sc ≠ 0) (hnl : w.core.hot_span_ sc ∉ l) :
    CoolList (SetActiveSlab sc s w) sc (w.core.hot_span_ sc :: l) := by
  have := AddCoolSpan_CoolList sc (w.core.hot_span_ sc) w l h hhot hnl
  unfold SetActiveSlab
  simp only [hhot, ne_eq, not_false_eq_true, if_true]
  exact CoolList_congr rfl (fun x _ => ⟨rfl, rfl⟩) this

/-- C9: a free on a span `hdr` of class `c` whose tag is `me_inactive_` (in a frontend whose
tags are those of its id, with a hot span of non-zero capacity for the class, `cool[c]` well
formed as the list `l` without the hot span, and, with slow-span reuse compiled in, `hdr` in
`slow[c]`). The compare-and-swap to `me_active_` succeeds and `p` is pushed onto the
freelist of `hdr`; let `u` be the utilization of the current `hot[c]` after that. In this
order: if `u` is greater than the local reuse threshold, `hdr` is removed from `slow[c]` and
becomes `hot[c]`, with the previous hot span at the head of `cool[c]` (the old list
follows), whether `hdr` is entirely free or not, and its tag stays `me_active_`; else if
the freelist of `hdr` is full, `hdr` is removed from `slow[c]` and released exactly once,
hot and cool staying as they were; else the tag of `hdr` is set back to `me_inactive_`, and
hot, cool and `slow[c]` (so `hdr` in it) stay as they were and nothing is released. -/
theorem inactive_free (cfg : Config) (w : World) (p hdr : Nat) (l : List Nat)
    (hnull : hdr ≠ 0) (hsz : cfg.ClassToSize (w.hdrs hdr).size_class ≠ 0)
    (hA : w.core.me_active_ = ActiveOwner.Reset true w.core.id_)
    (hI : w.core.me_inactive_ = ActiveOwner.Reset false w.core.id_)
    (hi : (w.hdrs hdr).aowner = w.core.me_inactive_)
    (hcur : w.core.hot_span_ (w.hdrs hdr).size_class ≠ 0)
    (hcap : (w.hdrs (w.core.hot_span_ (w.hdrs hdr).size_class)).flist.cap_ ≠ 0)
    (hcool : CoolList w (w.hdrs hdr).size_class l)
    (hhotl : w.core.hot_span_ (w.hdrs hdr).size_class ∉ l)
    (hslow : cfg.REUSE_SLOW_SPANS = true → hdr ∈ w.core.slow_spans_ (w.hdrs hdr).size_class) :
    ∃ u, ((afterInactivePush cfg w p hdr).hdrs
        (w.core.hot_span_ (w.hdrs hdr).size_class)).Utilization = .ok u ∧
      ∃ w', Free cfg p hdr w = .ok w' ∧
        (w'.hdrs hdr).flist = ((w.hdrs hdr).flist.Push (blockBase cfg w p hdr) w.mem).1 ∧
        (u > cfg.kLocalReuseThreshold →
          w'.core.hot_span_ (w.hdrs hdr).size_class = hdr ∧
          CoolList w' (w.hdrs hdr).size_class
            (w.core.hot_span_ (w.hdrs hdr).size_class :: l) ∧
          (w'.hdrs hdr).aowner = w.core.me_active_ ∧
          w'.core.slow_spans_ (w.hdrs hdr).size_class =
            (if cfg.REUSE_SLOW_SPANS then (w.core.slow_spans_ (w.hdrs hdr).size_class).erase hdr
             else w.core.slow_spans_ (w.hdrs hdr).size_class) ∧
          w'.released = w.released) ∧
        ((¬ u > cfg.kLocalReuseThreshold ∧
            ((afterInactivePush cfg w p hdr).hdrs hdr).flist.Full = true) →
          (∃ r, r.span = hdr ∧ w'.released = r :: w.released) ∧
          w'.core.slow_spans_ (w.hdrs hdr).size_class =
            (if cfg.REUSE_SLOW_SPANS then (w.core.slow_spans_ (w.hdrs hdr).size_class).erase hdr
             else w.core.slow_spans_ (w.hdrs hdr).size_class) ∧
          w'.core.hot_span_ = w.core.hot_span_ ∧ w'.core.cool_spans_ = w.core.cool_spans_ ∧
          CoolList w' (w.hdrs hdr).size_class l) ∧
        ((¬ u > cfg.kLocalReuseThreshold ∧
            ((afterInactivePush cfg w p hdr).hdrs hdr).flist.Full = false) →
          (w'.hdrs hdr).aowner = w.core.me_inactive_ ∧
          w'.core.slow_spans_ = w.core.slow_spans_ ∧
          w'.core.hot_span_ = w.core.hot_span_ ∧ w'.core.cool_spans_ = w.core.cool_spans_ ∧
          CoolList w' (w.hdrs hdr).size_class l ∧
          w'.released = w.released) := by
  have hne : (w.hdrs hdr).aowner ≠ w.core.me_active_ := by
    rw [hi, hI, hA]; exact (Reset_true_ne_false _).symm
  -- facts about the world after the swap and the push
  have h2links : ∀ x, ((afterInactivePush cfg w p hdr).hdrs x).prev = (w.hdrs x).prev ∧
      ((afterInactivePush cfg w p hdr).hdrs x).next = (w.hdrs x).next := by
    intro x
    have h1 := pushBlock_links hdr (blockBase cfg w p hdr)
      (w.modHdr hdr (fun h => { h with aowner := w.core.me_active_ })) x
    rw [afterInactivePush, h1.1, h1.2, modHdr_apply]
    by_cases hx : x = hdr
    · subst hx; simp
    · simp [hx]
  have h2tag : ((afterInactivePush cfg w p hdr).hdrs hdr).aowner = w.core.me_active_ := by
    rw [afterInactivePush, pushBlock_aowner]; simp
  have h2fl : ((afterInactivePush cfg w p hdr).hdrs hdr).flist
      = ((w.hdrs hdr).flist.Push (blockBase cfg w p hdr) w.mem).1 := by
    simp [afterInactivePush, pushBlock_hdrs]
  have h2cap : ((afterInactivePush cfg w p hdr).hdrs
      (w.core.hot_span_ (w.hdrs hdr).size_class)).flist.cap_ ≠ 0 := by
    rw [afterInactivePush, pushBlock_cap, modHdr_apply]
    by_cases hx : w.core.hot_span_ (w.hdrs hdr).size_class = hdr
    · rw [if_pos hx]; rw [hx] at hcap; exact hcap
    · rw [if_neg hx]; exact hcap
  have h2cool : CoolList (afterInactivePush cfg w p hdr) (w.hdrs hdr).size_class l :=
    @CoolList_congr w (afterInactivePush cfg w p hdr) _ _ rfl (fun x _ => h2links x) hcool
  obtain ⟨u, hu⟩ := Utilization_ok _ h2cap
  have hu' : ((afterInactivePush cfg w p hdr).hdrs
      (w.core.hot_span_ (w.hdrs hdr).size_class)).Utilization = .ok u := hu
  obtain ⟨w3, hrm, r1, r2, r3, r4, r5, r6, r7, r8, r9, r10, r11⟩ :=
    RemoveSlowSpan_of_mem cfg (w.hdrs hdr).size_class hdr (afterInactivePush cfg w p hdr) hslow
  have h3slow : w3.core.slow_spans_ (w.hdrs hdr).size_class =
      (if cfg.REUSE_SLOW_SPANS then (w.core.slow_spans_ (w.hdrs hdr).size_class).erase hdr
       else w.core.slow_spans_ (w.hdrs hdr).size_class) := by
    rw [r11]
    split_ifs
    · simp [afterInactivePush]
    · rfl
  have h3cool : CoolList w3 (w.hdrs hdr).size_class l :=
    CoolList_congr (by rw [r7]) (fun x _ => by rw [r1]; exact ⟨rfl, rfl⟩) h2cool
  have hfree := Free_inactive cfg w p hdr u hnull hsz hi hne hcur hu'
  refine ⟨u, hu', ?_⟩
  by_cases hgt : u > cfg.kLocalReuseThreshold
  · rw [if_pos hgt, hrm] at hfree
    refine ⟨_, hfree, ?_, ?_, fun h => absurd hgt h.1, fun h => absurd hgt h.1⟩
    · rw [unlinked_flist (SetActiveSlab_unlinked _ _ _ _), r1, h2fl]
    · intro _
      refine ⟨by simp, ?_, ?_, ?_, by simp [r4, afterInactivePush]⟩
      · have := SetActiveSlab_CoolList (w.hdrs hdr).size_class hdr w3 l h3cool
          (by rw [r6]; exact hcur) (by rw [r6]; exact hhotl)
        rw [r6] at this
        exact this
      · rw [unlinked_aowner (SetActiveSlab_unlinked _ _ _ _), r1, h2tag]
      · rw [SetActiveSlab_slow, h3slow]
  · rw [if_neg hgt] at hfree
    cases hfull : ((afterInactivePush cfg w p hdr).hdrs hdr).flist.Full with
    | true =>
      rw [hfull, if_pos rfl, hrm] at hfree
      refine ⟨_, hfree, ?_, fun h => absurd h hgt, ?_, fun h => by simp at h⟩
      · rw [releaseSpan_hdrs, r1, h2fl]
      · intro _
        obtain ⟨r, hr1, hr2⟩ := releaseSpan_released cfg hdr w3
        refine ⟨⟨r, hr1, by rw [hr2, r4]; simp [afterInactivePush]⟩, ?_, ?_, ?_, ?_⟩
        · rw [releaseSpan_core, h3slow]
        · rw [releaseSpan_core, r6]; simp [afterInactivePush]
        · rw [releaseSpan_core, r7]; simp [afterInactivePush]
        · exact CoolList_congr (by simp) (fun x _ => by simp) h3cool
    | false =>
      rw [hfull] at hfree
      simp only [Bool.false_eq_true, if_false] at hfree
      refine ⟨_, hfree, ?_, fun h => absurd h hgt, fun h => by simp at h, ?_⟩
      · rw [modHdr_hdrs_same]; exact h2fl
      · intro _
        refine ⟨?_, by simp [afterInactivePush], by simp [afterInactivePush],
          by simp [afterInactivePush], ?_, by simp [afterInactivePush]⟩
        · rw [modHdr_hdrs_same]
          show ActiveOwner.clearActive ((afterInactivePush cfg w p hdr).hdrs hdr).aowner = _
          rw [h2tag, hA, hI, clearActive_Reset]
        · refine CoolList_congr (by simp) (fun x _ => ?_) h2cool
          simp only [modHdr_apply]
          by_cases hx : x = hdr
          · subst hx; simp
          · simp [hx]

theorem inactive_free_witness :
    ∃ u, ((afterInactivePush cfgEx worldSlow 4176 4096).hdrs
        (worldSlow.core.hot_span_ 1)).Utilization = .ok u ∧
      ∃ w', Free cfgEx 4176 4096 worldSlow = .ok w' ∧
        (w'.hdrs 4096).flist = ((worldSlow.hdrs 4096).flist.Push 4176 worldSlow.mem).1 :=
  have h := inactive_free cfgEx worldSlow 4176 4096 [] (by decide) (by decide) (by decide)
    (by decide) (by decide) (by decide) (by decide) (by decide) (by decide) (by decide)
  h.imp (fun _ hu => ⟨hu.1, hu.2.imp (fun _ hw => ⟨hw.1, hw.2.1⟩)⟩)

/-! ## Moves between the hot slot and the lists (C12) -/

theorem AddCoolSpan_flist (sc span : Nat) (w : World) (x : Nat) :
    ((AddCoolSpan sc span w).hdrs x).flist = (w.hdrs x).flist :=
  (fields_of_unlinked (AddCoolSpan_unlinked sc span w x)).2.2.1

theorem RemoveCoolSpan_flist (sc span : Nat) (w : World) (x : Nat) :
    ((RemoveCoolSpan sc span w).hdrs x).flist = (w.hdrs x).flist :=
  (fields_of_unlinked (RemoveCoolSpan_unlinked sc span w x)).2.2.1

theorem SetActiveSlab_flist (sc span : Nat) (w : World) (x : Nat) :
    ((SetActiveSlab sc span w).hdrs x).flist = (w.hdrs x).flist :=
  (fields_of_unlinked (SetActiveSlab_unlinked sc span w x)).2.2.1

/-- `AddCoolSpan(sc, span)` writes the links of `span` and of the old head only. -/
theorem AddCoolSpan_hdrs_other (sc span : Nat) (w : World) (x : Nat) (h1 : x ≠ span)
    (h2 : x ≠ w.core.cool_spans_ sc) : (AddCoolSpan sc span w).hdrs x = w.hdrs x := by
  unfold AddCoolSpan
  simp only [modCore_hdrs, modHdr_core]
  split_ifs <;> simp [modHdr_apply, h1, h2]

theorem SetActiveSlab_hdrs_other (sc s : Nat) (w : World) (x : Nat)
    (h1 : x ≠ w.core.hot_span_ sc) (h2 : x ≠ w.core.cool_spans_ sc) :
    (SetActiveSlab sc s w).hdrs x = w.hdrs x := by
  unfold SetActiveSlab
  simp only [modCore_hdrs]
  split_ifs
  · exact AddCoolSpan_hdrs_other sc _ w x h1 h2
  · rfl

theorem SetActiveSlab_cool_same (sc s : Nat) (w : World) (h : w.core.hot_span_ sc = 0) :
    SetActiveSlab sc s w = w.modCore (fun c => { c with hot_span_ := upd c.hot_span_ sc s }) := by
  unfold SetActiveSlab
  simp [h]

/-- The loop of `Refill` over the slow list changes no freelist and no block memory. -/
theorem RefillSlow_frame (sc : Nat) : ∀ (l : List Nat) (w : World) (b : Bool) (w3 : World),
    RefillSlow sc l w = .ok (b, w3) →
    (∀ x, (w3.hdrs x).flist = (w.hdrs x).flist) ∧ w3.mem = w.mem := by
  intro l
  induction l with
  | nil =>
    intro w b w3 h
    simp only [RefillSlow, Except.ok.injEq, Prod.mk.injEq] at h
    obtain ⟨-, rfl⟩ := h
    exact ⟨fun _ => rfl, rfl⟩
  | cons s rest ih =>
    intro w b w3 h
    unfold RefillSlow at h
    simp only at h
    split_ifs at h with h0 hq
    · simp only [Except.ok.injEq, Prod.mk.injEq] at h
      obtain ⟨-, rfl⟩ := h
      refine ⟨fun x => ?_, by simp⟩
      rw [SetActiveSlab_flist]
      by_cases hx : x = s
      · subst hx; simp
      · simp [hx]
    · have := ih _ b w3 h
      simpa using this

/-- C12: `SetActiveSlab(c, s)`, for a frontend whose `cool[c]` is well formed as the list
`l` without the hot span, sets `hot[c]` to `s`; a non-null previous `hot[c]` becomes the
head of `cool[c]`, followed by `l` in unchanged order, and with a null one `cool[c]` stays
`l`; no span's freelist and no block memory changes; the slow lists, and the hot slot, the
cool head and every well-formed cool list of another class that holds neither the previous
hot span nor a span of `l`, stay as they were. Likewise `AddCoolSpan`, `RemoveCoolSpan`,
`AddSlowSpan`, a returning `RemoveSlowSpan` and the loop of `Refill` over the slow list
leave every freelist and the block memory, so the free blocks and their addresses,
unchanged. -/
theorem set_active_slab_frame (cfg : Config) (c s : Nat) (w : World) (l : List Nat)
    (h : CoolList w c l) (hnl : w.core.hot_span_ c ∉ l) :
    (SetActiveSlab c s w).core.hot_span_ c = s ∧
    (w.core.hot_span_ c ≠ 0 → CoolList (SetActiveSlab c s w) c (w.core.hot_span_ c :: l)) ∧
    (w.core.hot_span_ c = 0 → CoolList (SetActiveSlab c s w) c l) ∧
    (∀ x, ((SetActiveSlab c s w).hdrs x).flist = (w.hdrs x).flist) ∧
    (SetActiveSlab c s w).mem = w.mem ∧
    (SetActiveSlab c s w).core.slow_spans_ = w.core.slow_spans_ ∧
    (∀ d, d ≠ c → (SetActiveSlab c s w).core.hot_span_ d = w.core.hot_span_ d ∧
      (SetActiveSlab c s w).core.cool_spans_ d = w.core.cool_spans_ d ∧
      ∀ l2, CoolList w d l2 → w.core.hot_span_ c ∉ l2 → l.Disjoint l2 →
        CoolList (SetActiveSlab c s w) d l2) ∧
    (∀ d y x, ((AddCoolSpan d y w).hdrs x).flist = (w.hdrs x).flist ∧
      (AddCoolSpan d y w).mem = w.mem ∧
      ((RemoveCoolSpan d y w).hdrs x).flist = (w.hdrs x).flist ∧
      (RemoveCoolSpan d y w).mem = w.mem ∧
      ((AddSlowSpan cfg d y w).hdrs x).flist = (w.hdrs x).flist ∧
      (AddSlowSpan cfg d y w).mem = w.mem ∧
      (∀ w3, RemoveSlowSpan cfg d y w = .ok w3 →
        (w3.hdrs x).flist = (w.hdrs x).flist ∧ w3.mem = w.mem) ∧
      (∀ b w3, RefillSlow d (w.core.slow_spans_ d) w = .ok (b, w3) →
        (w3.hdrs x).flist = (w.hdrs x).flist ∧ w3.mem = w.mem)) := by
  refine ⟨SetActiveSlab_hot_same c s w, fun h0 => SetActiveSlab_CoolList c s w l h h0 hnl,
    ?_, SetActiveSlab_flist c s w, SetActiveSlab_mem c s w, SetActiveSlab_slow c s w, ?_, ?_⟩
  · intro h0
    rw [SetActiveSlab_cool_same c s w h0]
    exact CoolList_congr rfl (fun x _ => ⟨rfl, rfl⟩) h
  · intro d hd
    refine ⟨SetActiveSlab_hot_other c d s w hd, SetActiveSlab_cool_other c d s w hd, ?_⟩
    intro l2 hl2 hh hdis
    refine CoolList_congr (SetActiveSlab_cool_other c d s w hd) (fun x hx => ?_) hl2
    have h1 : x ≠ w.core.hot_span_ c := fun e => hh (e ▸ hx)
    have h2 : x ≠ w.core.cool_spans_ c := by
      intro e
      have hhead := DLL_head h.1
      cases l with
      | nil =>
        have : x = 0 := by rw [e, hhead]; rfl
        exact DLL_nonzero hl2.1 x hx this
      | cons a as =>
        have : x = a := by rw [e, hhead]; rfl
        exact hdis (List.mem_cons_self a as) (this ▸ hx)
    rw [SetActiveSlab_hdrs_other c s w x h1 h2]
    exact ⟨rfl, rfl⟩
  · intro d y x
    refine ⟨AddCoolSpan_flist d y w x, AddCoolSpan_mem d y w, RemoveCoolSpan_flist d y w x,
      RemoveCoolSpan_mem d y w, by simp, AddSlowSpan_mem cfg d y w, ?_, ?_⟩
    · intro w3 h3
      obtain ⟨hh, hm, -⟩ := RemoveSlowSpan_ok cfg d y w w3 h3
      exact ⟨by rw [hh], hm⟩
    · intro b w3 h3
      exact ⟨(RefillSlow_frame d _ w b w3 h3).1 x, (RefillSlow_frame d _ w b w3 h3).2⟩

theorem set_active_slab_frame_witness :
    CoolList (SetActiveSlab 1 12288 worldCool) 1 [8192, 4096] :=
  (set_active_slab_frame cfgEx 1 12288 worldCool [4096] (by decide) (by decide)).2.1
    (by decide)

/-! ## Refill (C14) -/

theorem modCore_slow_twice (w : World) (sc : Nat) (l1 l2 : List Nat) :
    (w.modCore (fun c => { c with slow_spans_ := upd c.slow_spans_ sc l1 })).modCore
        (fun c => { c with slow_spans_ := upd c.slow_spans_ sc l2 }) =
      w.modCore (fun c => { c with slow_spans_ := upd c.slow_spans_ sc l2 }) := by
  simp [World.modCore]

theorem RefillSlow_cons (sc span : Nat) (rest : List Nat) (w : World) :
    RefillSlow sc (span :: rest) w =
      if span = 0 then .error .assertion
      else if ActiveOwner.owner (w.hdrs span).aowner = w.core.id_ ∧
          (w.hdrs span).size_class = sc ∧
          (compareAndSwap (w.hdrs span).aowner w.core.me_inactive_ w.core.me_active_).1 = true
        then .ok (true, SetActiveSlab sc span
          ((w.modCore (fun c => { c with slow_spans_ := upd c.slow_spans_ sc rest })).modHdr span
            (fun h => { h with aowner :=
              (compareAndSwap h.aowner w.core.me_inactive_ w.core.me_active_).2 })))
      else RefillSlow sc rest
        (w.modCore (fun c => { c with slow_spans_ := upd c.slow_spans_ sc rest })) := rfl

theorem not_reclaimable_test {sc : Nat} {w : World} {x : Nat} (h : ¬ Reclaimable sc w x) :
    ¬ (ActiveOwner.owner (w.hdrs x).aowner = w.core.id_ ∧ (w.hdrs x).size_class = sc ∧
      (compareAndSwap (w.hdrs x).aowner w.core.me_inactive_ w.core.me_active_).1 = true) := by
  rintro ⟨a, b, c⟩
  refine h ⟨a, b, ?_⟩
  unfold compareAndSwap at c
  by_contra hne
  simp [hne] at c

/-- The loop of `Refill` over a slow list whose first reclaimable entry is `s`: the entries
before `s` are dropped, the tag of `s` becomes `me_active_` and `s` becomes the hot span. -/
theorem RefillSlow_found (sc s : Nat) (post : List Nat) : ∀ (pre : List Nat) (w : World),
    (∀ x ∈ pre, x ≠ 0 ∧ ¬ Reclaimable sc w x) → s ≠ 0 → Reclaimable sc w s →
    RefillSlow sc (pre ++ s :: post) w =
      .ok (true, SetActiveSlab sc s
        ((w.modCore (fun c => { c with slow_spans_ := upd c.slow_spans_ sc post })).modHdr s
          (fun h => { h with aowner := w.core.me_active_ }))) := by
  intro pre
  induction pre with
  | nil =>
    intro w _ hs0 hq
    obtain ⟨h1, h2, h3⟩ := hq
    have hc : (compareAndSwap (w.hdrs s).aowner w.core.me_inactive_ w.core.me_active_).1
        = true := by rw [h3, compareAndSwap_same]
    rw [List.nil_append, RefillSlow_cons, if_neg hs0, if_pos ⟨h1, h2, hc⟩]
    simp only [World.modHdr, modCore_hdrs, h3, compareAndSwap_same]
  | cons x pre ih =>
    intro w hpre hs0 hq
    have hx := hpre x (List.mem_cons_self x pre)
    rw [List.cons_append, RefillSlow_cons, if_neg hx.1, if_neg (not_reclaimable_test hx.2),
      ih (w.modCore (fun c => { c with slow_spans_ := upd c.slow_spans_ sc (pre ++ s :: post) }))
        (fun y hy => hpre y (List.mem_cons_of_mem x hy)) hs0 hq, modCore_slow_twice]
    rfl

/-- The loop of `Refill` over a slow list without a reclaimable entry empties the list. -/
theorem RefillSlow_none (sc : Nat) : ∀ (l : List Nat) (w : World),
    (∀ x ∈ l, x ≠ 0 ∧ ¬ Reclaimable sc w x) →
    RefillSlow sc l w =
      .ok (false, if l = [] then w
        else w.modCore (fun c => { c with slow_spans_ := upd c.slow_spans_ sc [] })) := by
  intro l
  induction l with
  | nil => intro w _; rfl
  | cons x rest ih =>
    intro w hl
    have hx := hl x (List.mem_cons_self x rest)
    rw [RefillSlow_cons, if_neg hx.1, if_neg (not_reclaimable_test hx.2),
      ih (w.modCore (fun c => { c with slow_spans_ := upd c.slow_spans_ sc rest }))
        (fun y hy => hl y (List.mem_cons_of_mem x hy))]
    by_cases hr : rest = []
    · subst hr; simp
    · simp only [hr, if_false, modCore_slow_twice]
      simp

/-- C14: `Refill(c)` with slow-span reuse. If `slow[c]` is `pre ++ s :: post`, with no
entry of `pre` reclaimable (owner this frontend, class `c`, tag `me_inactive_`) and `s`
reclaimable, `Refill` returns with `hot[c] = s`, the tag of `s` set to `me_active_`, and
`slow[c] = post`; no span is fetched from the Span Pool. If no entry of `slow[c]` is
reclaimable, `Refill` returns with `slow[c]` empty and `hot[c]` the span of
`SpanPool::Get`, which is fetched once and initialised for class `c` and this owner. In
both cases a non-null previous `hot[c]` is the new head of `cool[c]`, and with a null one
the head of `cool[c]` is unchanged. The entries of the slow list and the span of the pool
are non-null. -/
theorem refill_slow_first (cfg : Config) (c : Nat) (r : Round) (w : World)
    (hreuse : cfg.REUSE_SLOW_SPANS = true) :
    (∀ pre s post, w.core.slow_spans_ c = pre ++ s :: post →
      (∀ x ∈ pre, x ≠ 0 ∧ ¬ Reclaimable c w x) → s ≠ 0 → Reclaimable c w s →
      ∃ w2, Refill cfg c r w = .ok w2 ∧ w2.core.hot_span_ c = s ∧
        (w2.hdrs s).aowner = w.core.me_active_ ∧ w2.core.slow_spans_ c = post ∧
        w2.gets = w.gets ∧
        (w.core.hot_span_ c ≠ 0 → w2.core.cool_spans_ c = w.core.hot_span_ c) ∧
        (w.core.hot_span_ c = 0 → w2.core.cool_spans_ c = w.core.cool_spans_ c)) ∧
    ((∀ x ∈ w.core.slow_spans_ c, x ≠ 0 ∧ ¬ Reclaimable c w x) → r.sp_span ≠ 0 →
      ∃ w2, Refill cfg c r w = .ok w2 ∧ w2.core.hot_span_ c = r.sp_span ∧
        w2.core.slow_spans_ c = [] ∧ w2.gets = r.sp_span :: w.gets ∧
        (w2.hdrs r.sp_span).size_class = c ∧
        (w2.hdrs r.sp_span).aowner = ActiveOwner.Reset true w.core.id_ ∧
        (w2.hdrs r.sp_span).flist =
          (Freelist.InitRange (r.sp_span + cfg.kSpanHeaderSize) (cfg.ClassToSize c)
            (cfg.ClassToObjects c) w.mem).1 ∧
        (w.core.hot_span_ c ≠ 0 → w2.core.cool_spans_ c = w.core.hot_span_ c) ∧
        (w.core.hot_span_ c = 0 → w2.core.cool_spans_ c = w.core.cool_spans_ c)) := by
  constructor
  · intro pre s post hsl hpre hs0 hq
    have hR : Refill cfg c r w = .ok (SetActiveSlab c s
        ((w.modCore (fun c2 => { c2 with slow_spans_ := upd c2.slow_spans_ c post })).modHdr s
          (fun h => { h with aowner := w.core.me_active_ }))) := by
      unfold Refill
      simp only [hreuse, if_true, hsl, RefillSlow_found c s post pre w hpre hs0 hq]
      rfl
    refine ⟨_, hR, ?_⟩
    · refine ⟨SetActiveSlab_hot_same _ _ _, ?_, ?_, ?_, ?_, ?_⟩
      · have := (fields_of_unlinked (SetActiveSlab_unlinked c s
          ((w.modCore (fun c2 => { c2 with slow_spans_ := upd c2.slow_spans_ c post })).modHdr s
          (fun h => { h with aowner := w.core.me_active_ })) s)).2.1
        rw [this]; simp
      · simp
      · simp
      · intro h0
        unfold SetActiveSlab
        simp [h0, AddCoolSpan_core]
      · intro h0
        unfold SetActiveSlab
        simp [h0]
  · intro hall hsp
    have hR : Refill cfg c r w = .ok (SetActiveSlab c r.sp_span
        (SpanHeader.Init cfg r.sp_span c w.core.id_ r.sp_reusable
          { (if w.core.slow_spans_ c = [] then w
              else w.modCore (fun c2 => { c2 with slow_spans_ := upd c2.slow_spans_ c [] })) with
            gets := r.sp_span :: w.gets })) := by
      unfold Refill
      simp only [hreuse, if_true, RefillSlow_none c _ w hall]
      simp only [bind, Except.bind, pure, Except.pure, Bool.false_eq_true, if_false, hsp]
      split_ifs <;> rfl
    refine ⟨_, hR, ?_⟩
    · have hf := fun (i0 : Nat) (w0 : World) => fields_of_unlinked (SetActiveSlab_unlinked c
        r.sp_span (SpanHeader.Init cfg r.sp_span c i0 r.sp_reusable w0) r.sp_span)
      by_cases hl : w.core.slow_spans_ c = []
      · simp only [hl, if_true]
        refine ⟨SetActiveSlab_hot_same _ _ _, ?_, ?_, ?_, ?_, ?_, ?_, ?_⟩
        · simp [SpanHeader.Init, hl]
        · simp [SpanHeader.Init]
        · rw [(hf _ _).1]; simp [SpanHeader.Init]
        · rw [(hf _ _).2.1]; simp [SpanHeader.Init]
        · rw [(hf _ _).2.2.1]; simp [SpanHeader.Init]
        · intro h0
          unfold SetActiveSlab
          simp [h0, AddCoolSpan_core, SpanHeader.Init]
        · intro h0
          unfold SetActiveSlab
          simp [h0, SpanHeader.Init]
      · simp only [hl, if_false]
        refine ⟨SetActiveSlab_hot_same _ _ _, ?_, ?_, ?_, ?_, ?_, ?_, ?_⟩
        · simp [SpanHeader.Init]
        · simp [SpanHeader.Init]
        · rw [(hf _ _).1]; simp [SpanHeader.Init]
        · rw [(hf _ _).2.1]; simp [SpanHeader.Init]
        · rw [(hf _ _).2.2.1]; simp [SpanHeader.Init]
        · intro h0
          unfold SetActiveSlab
          simp [h0, AddCoolSpan_core, SpanHeader.Init]
        · intro h0
          unfold SetActiveSlab
          simp [h0, SpanHeader.Init]

theorem refill_slow_first_witness :
    ∃ w2, Refill cfgEx 1 (roundEx 0) worldSlow = .ok w2 ∧ w2.core.hot_span_ 1 = 4096 ∧
      w2.core.slow_spans_ 1 = [] := by
  obtain ⟨w2, h1, h2, -, h4, -⟩ :=
    (refill_slow_first cfgEx 1 (roundEx 0) worldSlow rfl).1 [] 4096 [] (by decide) (by decide)
      (by decide) (by decide)
  exact ⟨w2, h1, h2, h4⟩

/-! ## Freelist chains in block memory -/

theorem kWord_pos : 0 < kWord := by decide

/-- A chain only depends on the first words of its own blocks. -/
theorem Chain_congr {m m' : Mem} :
    ∀ {l : List Nat} {p : Nat}, (∀ x ∈ l, m'.read x = m.read x) → Chain m p l → Chain m' p l
  | [], _, _, h => h
  | y :: ys, _, hl, h => by
    refine ⟨h.1, h.2.1, ?_⟩
    rw [hl y (List.mem_cons_self _ _)]
    exact Chain_congr (fun x hx => hl x (List.mem_cons_of_mem _ hx)) h.2.2

theorem Chain_nonzero {m : Mem} :
    ∀ {l : List Nat} {p : Nat}, Chain m p l → ∀ x ∈ l, x ≠ 0
  | [], _, _, x, hx => by simp at hx
  | y :: ys, _, h, x, hx => by
    rcases List.mem_cons.1 hx with e | hx'
    · rw [e]; exact h.2.1
    · exact Chain_nonzero h.2.2 x hx'

/-- The head pointer of a chain is null exactly when the chain is empty. -/
theorem Chain_null_iff {m : Mem} {l : List Nat} {p : Nat} (h : Chain m p l) :
    p = 0 ↔ l = [] := by
  cases l with
  | nil => exact ⟨fun _ => rfl, fun _ => h⟩
  | cons y ys => exact ⟨fun e => absurd (h.1 ▸ e) h.2.1, fun e => by simp at e⟩

theorem mem_threaded (size : Nat) :
    ∀ (n start : Nat) (acc : List Nat) (x : Nat),
      x ∈ threaded n start size acc ↔ x ∈ acc ∨ ∃ i, i < n ∧ x = start + i * size
  | 0, _, _, _ => by simp [threaded]
  | n + 1, start, acc, x => by
    rw [threaded, mem_threaded size n (start + size) (start :: acc) x]
    constructor
    · rintro (h | ⟨i, hi, rfl⟩)
      · rcases List.mem_cons.1 h with e | e
        · exact Or.inr ⟨0, by omega, by simp [e]⟩
        · exact Or.inl e
      · exact Or.inr ⟨i + 1, by omega, by ring⟩
    · rintro (h | ⟨i, hi, rfl⟩)
      · exact Or.inl (List.mem_cons_of_mem _ h)
      · cases i with
        | zero => exact Or.inl (by simp)
        | succ j => exact Or.inr ⟨j, by omega, by ring⟩

theorem length_threaded (size : Nat) :
    ∀ (n start : Nat) (acc : List Nat), (threaded n start size acc).length = n + acc.length
  | 0, _, _ => by simp [threaded]
  | n + 1, start, acc => by
    rw [threaded, length_threaded size n (start + size) (start :: acc)]
    simp; omega

theorem nodup_threaded (size : Nat) (hsize : 0 < size) :
    ∀ (n start : Nat) (acc : List Nat), acc.Nodup →
      (∀ i, i < n → start + i * size ∉ acc) → (threaded n start size acc).Nodup
  | 0, _, _, h, _ => by simpa [threaded] using h
  | n + 1, start, acc, h, hd => by
    rw [threaded]
    refine nodup_threaded size hsize n (start + size) (start :: acc)
      (List.nodup_cons.2 ⟨by simpa using hd 0 (by omega), h⟩) ?_
    intro i hi hm
    rcases List.mem_cons.1 hm with e | e
    · have : 0 < (i + 1) * size := Nat.mul_pos (by omega) hsize
      have e' : start + size + i * size = start + (i + 1) * size := by ring
      omega
    · exact hd (i + 1) (by omega) (by
        have e' : start + (i + 1) * size = start + size + i * size := by ring
        rw [e']; exact e)

/-- The loop of `InitRange` without address overflow over blocks that hold a pointer: it
threads the blocks in front of the given chain and writes the first words of those blocks
only. -/
theorem InitRangeLoop_spec (size : Nat) (hsize : 8 ≤ size) :
    ∀ (n start list : Nat) (m : Mem) (acc : List Nat),
      0 < start → start + n * size ≤ kWord → list < kWord → Chain m list acc →
      (∀ i, i < n → ∀ y ∈ acc, y + 8 ≤ start + i * size ∨ start + i * size + 8 ≤ y) →
      Chain (Freelist.InitRangeLoop n start size list m).2
          (Freelist.InitRangeLoop n start size list m).1 (threaded n start size acc) ∧
        ∀ x, (∀ i, i < n → x + 8 ≤ start + i * size ∨ start + i * size + 8 ≤ x) →
          (Freelist.InitRangeLoop n start size list m).2.read x = m.read x
  | 0, _, _, _, _, _, _, _, h, _ => ⟨h, fun _ _ => rfl⟩
  | n + 1, start, list, m, acc, hs, hfit, hlist, h, hd => by
    have hmul : (n + 1) * size = size + n * size := by ring
    rw [hmul] at hfit
    have hlt : start + size < kWord ∨ n = 0 := by
      by_cases hn : n = 0
      · exact Or.inr hn
      · left
        have : 0 < n * size := Nat.mul_pos (by omega) (by omega)
        omega
    have hstart : ∀ y ∈ acc, y + 8 ≤ start ∨ start + 8 ≤ y := by
      intro y hy
      simpa using hd 0 (by omega) y hy
    have hc1 : Chain (m.write start list) start (start :: acc) :=
      ⟨rfl, Nat.pos_iff_ne_zero.1 hs, by
        rw [Mem.write_same _ _ _ hlist]
        exact Chain_congr (fun x hx => Mem.write_other _ _ _ _ (by
          have := hstart x hx
          omega)) h⟩
    simp only [Freelist.InitRangeLoop, threaded]
    rcases hlt with hlt | hn
    · rw [Nat.mod_eq_of_lt hlt]
      have ih := InitRangeLoop_spec size hsize n (start + size) start (m.write start list)
        (start :: acc) (by omega) (by omega) (by omega) hc1 (by
          intro i hi y hy
          rcases List.mem_cons.1 hy with e | e
          · subst e
            left
            have : 0 ≤ i * size := Nat.zero_le _
            omega
          · have := hd (i + 1) (by omega) y e
            have e' : start + (i + 1) * size = start + size + i * size := by ring
            rw [e'] at this
            exact this)
      refine ⟨ih.1, fun x hx => ?_⟩
      rw [ih.2 x (fun i hi => by
        have := hx (i + 1) (by omega)
        have e' : start + (i + 1) * size = start + size + i * size := by ring
        rw [e'] at this; exact this)]
      exact Mem.write_other _ _ _ _ (by
        have := hx 0 (by omega)
        simp only [Nat.zero_mul, Nat.add_zero] at this
        omega)
    · subst hn
      simp only [Freelist.InitRangeLoop, threaded]
      exact ⟨hc1, fun x hx => Mem.write_other _ _ _ _ (by
        have := hx 0 (by omega)
        simp only [Nat.zero_mul, Nat.add_zero] at this
        omega)⟩

/-- A block of an aligned span maps back to the header of the span. -/
theorem GetFromObject_block (cfg : Config) (hcfg : WFConfig cfg) (s c b : Nat) (hc : c ≠ 0)
    (hal : s % cfg.kVirtualSpanSize = 0) (hb : IsBlock cfg s c b) :
    SpanHeader.GetFromObject cfg b = s := by
  obtain ⟨i, hi, rfl⟩ := hb
  have h1 := hcfg.fits c hc
  have h2 := hcfg.size c hc
  have hlt : cfg.kSpanHeaderSize + i * cfg.ClassToSize c < cfg.kVirtualSpanSize := by
    have : (i + 1) * cfg.ClassToSize c ≤ cfg.ClassToObjects c * cfg.ClassToSize c :=
      Nat.mul_le_mul_right _ (by omega)
    have e : (i + 1) * cfg.ClassToSize c = i * cfg.ClassToSize c + cfg.ClassToSize c := by ring
    omega
  unfold SpanHeader.GetFromObject
  have hmod : (s + cfg.kSpanHeaderSize + i * cfg.ClassToSize c) % cfg.kVirtualSpanSize
      = cfg.kSpanHeaderSize + i * cfg.ClassToSize c := by
    rw [Nat.add_assoc, Nat.add_mod, hal, Nat.zero_add, Nat.mod_mod, Nat.mod_eq_of_lt hlt]
  rw [hmod, Nat.add_assoc]
  exact Nat.add_sub_cancel ..

/-! ## The invariant of the runs: transfer lemmas -/

theorem me_ne (cfg : Config) {w : World} {out : List Nat} {cool : Nat → List Nat}
    {fl : Nat → List Nat} (h : Inv cfg w out cool fl) :
    w.core.me_active_ ≠ w.core.me_inactive_ := by
  rw [h.tagA, h.tagI]; exact Reset_true_ne_false _

/-- The state of a span carries over to a world that agrees on the header up to the links,
on the tags of the frontend, on the blocks of the freelist, and has a hot span for the
class. -/
theorem SpanOK_transfer {cfg : Config} {w w' : World} {out : List Nat} {fl : List Nat}
    {s : Nat} (h : SpanOK cfg w out fl s)
    (hh : (w'.hdrs s).unlinked = (w.hdrs s).unlinked)
    (hA : w'.core.me_active_ = w.core.me_active_)
    (hI : w'.core.me_inactive_ = w.core.me_inactive_)
    (hm : ∀ x ∈ fl, w'.mem.read x = w.mem.read x)
    (hhot : w'.core.hot_span_ (w.hdrs s).size_class ≠ 0) :
    SpanOK cfg w' out fl s := by
  obtain ⟨e1, e2, e3, e4, e5⟩ := fields_of_unlinked hh
  exact
    { nonnull := h.nonnull
      aligned := h.aligned
      inside := h.inside
      cls := by rw [e1]; exact h.cls
      tag := by rw [e2, hA, hI]; exact h.tag
      cap := by rw [e3, e1]; exact h.cap
      off := by rw [e5, e1]; exact h.off
      len := by rw [e3]; exact h.len
      chain := by rw [e3]; exact Chain_congr hm h.chain
      nodup := h.nodup
      blocks := by rw [e1]; exact h.blocks
      total := by rw [e1]; exact h.total
      hot := by rw [e1]; exact hhot
      inactive := by rw [e2, hI]; exact h.inactive }

theorem Live_congr {w w' : World} (hg : w'.gets = w.gets) (hr : w'.released = w.released)
    (s : Nat) : Live w' s ↔ Live w s := by
  unfold Live; rw [hg, hr]

/-- The class of a held span in the cool list of class `c` is `c`, and so on: the spans of
the lists of different classes differ. -/
theorem Inv.cool_class {cfg : Config} {w : World} {out : List Nat} {cool : Nat → List Nat}
    {fl : Nat → List Nat} (h : Inv cfg w out cool fl) {c : Nat} {s : Nat} (hs : s ∈ cool c) :
    (w.hdrs s).size_class = c :=
  ((h.coolOK c).2 s hs).2.1

theorem Inv.class_ne_zero {cfg : Config} {w : World} {out : List Nat} {cool : Nat → List Nat}
    {fl : Nat → List Nat} (h : Inv cfg w out cool fl) {s : Nat} (hs : Live w s) :
    (w.hdrs s).size_class ≠ 0 :=
  (h.spans s hs).cls

/-- No hot span, no cool span and no slow span for class 0. -/
theorem Inv.hot_zero {cfg : Config} {w : World} {out : List Nat} {cool : Nat → List Nat}
    {fl : Nat → List Nat} (h : Inv cfg w out cool fl) : w.core.hot_span_ 0 = 0 := by
  by_contra hne
  obtain ⟨hl, hc, -⟩ := h.hotOK 0 hne
  exact h.class_ne_zero hl hc

/-- The state of a span carries over to another set of handed-out blocks that avoids its
freelist and has as many blocks in the span. -/
theorem SpanOK_out {cfg : Config} {w : World} {out out' : List Nat} {fl : List Nat}
    {s : Nat} (h : SpanOK cfg w out fl s) (hb : ∀ b ∈ fl, b ∉ out')
    (ht : outIn cfg out' s = outIn cfg out s) : SpanOK cfg w out' fl s :=
  { h with
    blocks := fun b hb' => ⟨(h.blocks b hb').1, hb b hb'⟩
    total := by rw [ht]; exact h.total }

theorem countP_erase_mem {α : Type} [DecidableEq α] (p : α → Bool) (l : List α) (a : α)
    (h : a ∈ l) : (l.erase a).countP p + (if p a then 1 else 0) = l.countP p := by
  rw [(List.perm_cons_erase h).countP_eq p, List.countP_cons]

theorem outIn_erase_same (cfg : Config) (out : List Nat) (b : Nat) (hb : b ∈ out) :
    outIn cfg (out.erase b) (SpanHeader.GetFromObject cfg b) + 1
      = outIn cfg out (SpanHeader.GetFromObject cfg b) := by
  unfold outIn
  rw [← countP_erase_mem _ out b hb]
  simp

theorem outIn_erase_other (cfg : Config) (out : List Nat) (b s : Nat)
    (hs : SpanHeader.GetFromObject cfg b ≠ s) :
    outIn cfg (out.erase b) s = outIn cfg out s := by
  unfold outIn
  by_cases hb : b ∈ out
  · rw [← countP_erase_mem _ out b hb]
    simp [hs]
  · rw [List.erase_of_not_mem hb]

theorem outIn_cons_same (cfg : Config) (out : List Nat) (b : Nat) :
    outIn cfg (b :: out) (SpanHeader.GetFromObject cfg b)
      = outIn cfg out (SpanHeader.GetFromObject cfg b) + 1 := by
  unfold outIn
  rw [List.countP_cons]
  simp

theorem outIn_cons_other (cfg : Config) (out : List Nat) (b s : Nat)
    (hs : SpanHeader.GetFromObject cfg b ≠ s) :
    outIn cfg (b :: out) s = outIn cfg out s := by
  unfold outIn
  rw [List.countP_cons]
  simp [hs]

/-- The blocks of a span are fewer than a machine word can count, and lie inside the span. -/
theorem objects_lt (cfg : Config) (hcfg : WFConfig cfg) (s c : Nat) (hc : c ≠ 0) (hs : s ≠ 0)
    (hin : s + cfg.kVirtualSpanSize ≤ kWord) : cfg.ClassToObjects c < kWord := by
  have h1 := hcfg.fits c hc
  have h2 := hcfg.size c hc
  have : cfg.ClassToObjects c ≤ cfg.ClassToObjects c * cfg.ClassToSize c :=
    Nat.le_mul_of_pos_right _ (by omega)
  omega

theorem block_bounds (cfg : Config) (hcfg : WFConfig cfg) (s c b : Nat) (hc : c ≠ 0)
    (hb : IsBlock cfg s c b) :
    s + cfg.kSpanHeaderSize ≤ b ∧ b + cfg.ClassToSize c ≤ s + cfg.kVirtualSpanSize ∧
      (b - (s + cfg.kSpanHeaderSize)) % cfg.ClassToSize c = 0 := by
  obtain ⟨i, hi, rfl⟩ := hb
  have h1 := hcfg.fits c hc
  have : (i + 1) * cfg.ClassToSize c ≤ cfg.ClassToObjects c * cfg.ClassToSize c :=
    Nat.mul_le_mul_right _ (by omega)
  have e : (i + 1) * cfg.ClassToSize c = i * cfg.ClassToSize c + cfg.ClassToSize c := by ring
  refine ⟨by omega, by omega, ?_⟩
  rw [Nat.add_sub_cancel_left]
  exact Nat.mul_mod_left _ _

/-- The pointer `Free` computes from a pointer into a block of a held span is the base of
the block. -/
theorem blockBase_block (cfg : Config) (hcfg : WFConfig cfg) (w : World) (out fl : List Nat)
    (s b k : Nat) (h : SpanOK cfg w out fl s) (hb : IsBlock cfg s (w.hdrs s).size_class b)
    (hk : k < cfg.ClassToSize (w.hdrs s).size_class) :
    blockBase cfg w (b + k) s = b := by
  obtain ⟨h1, h2, h3⟩ := block_bounds cfg hcfg s _ b h.cls hb
  have hB := hcfg.size _ h.cls
  have hin : s + cfg.kVirtualSpanSize ≤ kWord := h.inside
  unfold blockBase
  rw [h.off]
  have hmod : (s + cfg.kSpanHeaderSize) % cfg.ClassToSize (w.hdrs s).size_class
      ≤ s + cfg.kSpanHeaderSize := Nat.mod_le _ _
  have hal : (b - (s + cfg.kSpanHeaderSize) % cfg.ClassToSize (w.hdrs s).size_class)
      % cfg.ClassToSize (w.hdrs s).size_class = 0 := by
    have e : b - (s + cfg.kSpanHeaderSize) % cfg.ClassToSize (w.hdrs s).size_class
        = (b - (s + cfg.kSpanHeaderSize)) + ((s + cfg.kSpanHeaderSize)
          - (s + cfg.kSpanHeaderSize) % cfg.ClassToSize (w.hdrs s).size_class) := by omega
    have e2 : ((s + cfg.kSpanHeaderSize)
        - (s + cfg.kSpanHeaderSize) % cfg.ClassToSize (w.hdrs s).size_class)
        % cfg.ClassToSize (w.hdrs s).size_class = 0 :=
      Nat.sub_mod_eq_zero_of_mod_eq (by simp)
    rw [e, Nat.add_mod, h3, e2]
    simp
  exact canonical_base _ _ b k (by omega) hal hk (by omega)

/-- Two spans at different multiples of the span size do not overlap. -/
theorem spans_disjoint (S s t : Nat) (hs : s % S = 0) (ht : t % S = 0) (hne : s ≠ t) :
    s + S ≤ t ∨ t + S ≤ s := by
  obtain ⟨a, rfl⟩ := Nat.dvd_of_mod_eq_zero hs
  obtain ⟨b, rfl⟩ := Nat.dvd_of_mod_eq_zero ht
  rcases Nat.lt_trichotomy a b with h | h | h
  · left
    have : S * (a + 1) ≤ S * b := Nat.mul_le_mul_left _ h
    rw [Nat.mul_add, Nat.mul_one] at this
    exact this
  · exact absurd (by rw [h]) hne
  · right
    have : S * (b + 1) ≤ S * a := Nat.mul_le_mul_left _ h
    rw [Nat.mul_add, Nat.mul_one] at this
    exact this

/-- Different blocks, of one span or of two, lie at least a pointer apart: a store of a
pointer to one does not reach the other. -/
theorem IsBlock_apart (cfg : Config) (hcfg : WFConfig cfg) (s c b t d y : Nat) (hc : c ≠ 0)
    (hd : d ≠ 0) (hs : s % cfg.kVirtualSpanSize = 0) (ht : t % cfg.kVirtualSpanSize = 0)
    (hcd : s = t → c = d) (hb : IsBlock cfg s c b) (hy : IsBlock cfg t d y) (hne : y ≠ b) :
    b + 8 ≤ y ∨ y + 8 ≤ b := by
  by_cases hst : s = t
  · subst hst
    have e := hcd rfl
    subst e
    obtain ⟨i, -, rfl⟩ := hb
    obtain ⟨j, -, rfl⟩ := hy
    have h8 := hcfg.size c hc
    rcases Nat.lt_trichotomy i j with h | h | h
    · left
      have : (i + 1) * cfg.ClassToSize c ≤ j * cfg.ClassToSize c := Nat.mul_le_mul_right _ h
      rw [Nat.add_mul, Nat.one_mul] at this
      omega
    · exact absurd (by rw [h]) hne
    · right
      have : (j + 1) * cfg.ClassToSize c ≤ i * cfg.ClassToSize c := Nat.mul_le_mul_right _ h
      rw [Nat.add_mul, Nat.one_mul] at this
      omega
  · obtain ⟨b1, b2, -⟩ := block_bounds cfg hcfg s c b hc hb
    obtain ⟨y1, y2, -⟩ := block_bounds cfg hcfg t d y hd hy
    have h8 := hcfg.size c hc
    have h8' := hcfg.size d hd
    rcases spans_disjoint _ s t hs ht hst with h | h
    · left; omega
    · right; omega

/-- A free block of a held span and a block of a held span, if different, lie at least a
pointer apart. -/
theorem Inv.apart {cfg : Config} (hcfg : WFConfig cfg) {w : World} {out : List Nat}
    {cool : Nat → List Nat} {fl : Nat → List Nat} (h : Inv cfg w out cool fl)
    {x y s b : Nat} (hx : Live w x) (hy : y ∈ fl x) (hs : Live w s)
    (hb : IsBlock cfg s (w.hdrs s).size_class b) (hne : y ≠ b) :
    b + 8 ≤ y ∨ y + 8 ≤ b :=
  IsBlock_apart cfg hcfg s _ b x _ y (h.spans s hs).cls (h.spans x hx).cls (h.spans s hs).aligned
    (h.spans x hx).aligned (fun e => by rw [e]) hb ((h.spans x hx).blocks y hy).1 hne

/-- The head of a chain of pointers is a pointer. -/
theorem Chain_head_lt {m : Mem} {l : List Nat} {p : Nat} (h : Chain m p l)
    (hl : ∀ x ∈ l, x < kWord) : p < kWord := by
  cases l with
  | nil =>
    have e : p = 0 := h
    rw [e]; exact kWord_pos
  | cons y ys => rw [h.1]; exact hl y (List.mem_cons_self _ _)

/-- The head of the freelist of a held span is a pointer. -/
theorem SpanOK.head_lt {cfg : Config} (hcfg : WFConfig cfg) {w : World} {out fl : List Nat}
    {s : Nat} (h : SpanOK cfg w out fl s) : (w.hdrs s).flist.list_ < kWord := by
  refine Chain_head_lt h.chain (fun x hx => ?_)
  obtain ⟨-, b2, -⟩ := block_bounds cfg hcfg s _ x h.cls (h.blocks x hx).1
  have := hcfg.size _ h.cls
  have := h.inside
  omega

/-! ## The steps of `Free` and `Allocate` keep the invariant -/

theorem pushBlock_unlinked_other (hdr p : Nat) (w : World) (x : Nat) (hx : x ≠ hdr) :
    ((pushBlock hdr p w).hdrs x).unlinked = (w.hdrs x).unlinked := by
  rw [pushBlock_hdrs, upd_other _ _ _ _ hx]

/-- The push of a handed-out block onto the freelist of its span keeps the invariant. -/
theorem Inv_push {cfg : Config} (hcfg : WFConfig cfg) {w : World} {out : List Nat}
    {cool : Nat → List Nat} {fl : Nat → List Nat} (h : Inv cfg w out cool fl)
    (b : Nat) (hb : b ∈ out) :
    Inv cfg (pushBlock (SpanHeader.GetFromObject cfg b) b w) (out.erase b) cool
      (upd fl (SpanHeader.GetFromObject cfg b) (b :: fl (SpanHeader.GetFromObject cfg b))) := by
  obtain ⟨hlive, hblk⟩ := h.outs b hb
  set s := SpanHeader.GetFromObject cfg b with hs
  have hok := h.spans s hlive
  have hbfl : ∀ x, Live w x → b ∉ fl x := fun x hx hm => ((h.spans x hx).blocks b hm).2 hb
  have hfields : ∀ x, ((pushBlock s b w).hdrs x).size_class = (w.hdrs x).size_class ∧
      ((pushBlock s b w).hdrs x).aowner = (w.hdrs x).aowner :=
    fun x => ⟨pushBlock_size_class _ _ _ _, pushBlock_aowner _ _ _ _⟩
  have hlv : ∀ x, Live (pushBlock s b w) x ↔ Live w x := fun x => Live_congr rfl rfl x
  have hb0 : b ≠ 0 := by
    have := (block_bounds cfg hcfg s _ b hok.cls hblk).1
    have hs0 : s ≠ 0 := hok.nonnull
    omega
  have hnlt := objects_lt cfg hcfg s _ hok.cls hok.nonnull hok.inside
  have hout1 : outIn cfg (out.erase b) s + 1 = outIn cfg out s := outIn_erase_same cfg out b hb
  exact
    { id_small := h.id_small
      tagA := h.tagA
      tagI := h.tagI
      poolEmpty := h.poolEmpty
      counts := fun x => (h.counts x).imp id (hlv x).2
      spans := by
        intro x hx
        have hx' := (hlv x).1 hx
        by_cases hxs : x = s
        · subst hxs
          have hold := h.spans s hx'
          have htot : (fl s).length + outIn cfg out s
              = cfg.ClassToObjects (w.hdrs s).size_class := hold.total
          have hlen : (w.hdrs s).flist.len_ = (fl s).length := hold.len
          rw [upd_same]
          exact
            { nonnull := hold.nonnull
              aligned := hold.aligned
              inside := hold.inside
              cls := by rw [(hfields s).1]; exact hold.cls
              tag := by rw [(hfields s).2]; exact hold.tag
              cap := by rw [pushBlock_cap, (hfields s).1]; exact hold.cap
              off := by
                rw [(hfields s).1]
                simp only [pushBlock_hdrs, upd_same]
                exact hold.off
              len := by
                simp only [pushBlock_hdrs, upd_same, Freelist.Push, List.length_cons]
                rw [hlen]
                exact Nat.mod_eq_of_lt (by omega)
              chain := by
                simp only [pushBlock_hdrs, upd_same, Freelist.Push, pushBlock_mem]
                refine ⟨rfl, hb0, ?_⟩
                rw [Mem.write_same _ _ _ (hold.head_lt hcfg)]
                exact Chain_congr (fun y hy => Mem.write_other _ _ _ _
                  (h.apart hcfg hx' hy hlive hblk (fun e => hbfl s hx' (e ▸ hy)))) hold.chain
              nodup := List.nodup_cons.2 ⟨hbfl s hx', hold.nodup⟩
              blocks := by
                rw [(hfields s).1]
                intro y hy
                rcases List.mem_cons.1 hy with e | e
                · subst e
                  exact ⟨hblk, fun c => (List.Nodup.mem_erase_iff h.out_nodup).1 c |>.1 rfl⟩
                · exact ⟨(hold.blocks y e).1, fun c => (hold.blocks y e).2 (List.mem_of_mem_erase c)⟩
              total := by
                rw [(hfields s).1, List.length_cons]
                omega
              hot := by rw [(hfields s).1]; exact hold.hot
              inactive := fun _ => by simp }
        · rw [upd_other _ _ _ _ hxs]
          have hold := h.spans x hx'
          refine SpanOK_out (SpanOK_transfer hold (pushBlock_unlinked_other _ _ _ _ hxs) rfl rfl
            (fun y hy => ?_) hold.hot) (fun y hy c => (hold.blocks y hy).2
              (List.mem_of_mem_erase c)) (outIn_erase_other cfg out b x (Ne.symm hxs))
          rw [pushBlock_mem]
          exact Mem.write_other _ _ _ _
            (h.apart hcfg hx' hy hlive hblk (fun e => hbfl x hx' (e ▸ hy)))
      out_nodup := h.out_nodup.erase b
      outs := by
        intro y hy
        have := h.outs y (List.mem_of_mem_erase hy)
        rw [(hfields _).1]
        exact ⟨(hlv _).2 this.1, this.2⟩
      hotOK := by
        intro c hc
        have := h.hotOK c hc
        exact ⟨(hlv _).2 this.1, by rw [(hfields _).1]; exact this.2.1,
          by rw [(hfields _).2]; exact this.2.2⟩
      coolOK := by
        intro c
        refine ⟨@CoolList_congr w (pushBlock s b w) c _ rfl
          (fun x _ => pushBlock_links _ _ _ x) (h.coolOK c).1, fun x hx => ?_⟩
        have := (h.coolOK c).2 x hx
        exact ⟨(hlv _).2 this.1, by rw [(hfields _).1]; exact this.2.1,
          by rw [(hfields _).2]; exact this.2.2.1, this.2.2.2⟩
      slowOK := by
        intro c
        refine ⟨(h.slowOK c).1, fun x hx => ?_⟩
        have := (h.slowOK c).2 x hx
        exact ⟨(hlv _).2 this.1, by rw [(hfields _).1]; exact this.2.1,
          by rw [(hfields _).2]; exact this.2.2⟩
      active := by
        intro x hx ht
        rw [(hfields _).2] at ht
        rw [(hfields _).1]
        exact h.active x ((hlv x).1 hx) ht
      inactive := by
        intro x hx ht hf
        rw [(hfields _).2] at ht
        rw [(hfields _).1]
        exact h.inactive x ((hlv x).1 hx) ht hf
      noslow := h.noslow }

theorem World.ext_fields {w w' : World} (h1 : w'.core = w.core) (h2 : w'.hdrs = w.hdrs)
    (h3 : w'.mem = w.mem) (h4 : w'.pool = w.pool) (h5 : w'.released = w.released)
    (h6 : w'.gets = w.gets) : w' = w := by
  cases w; cases w'
  simp only at h1 h2 h3 h4 h5 h6
  subst h1 h2 h3 h4 h5 h6
  rfl

theorem Pop_of_ne (f : Freelist) (m : Mem) (h : f.list_ ≠ 0) :
    f.Pop m = (f.list_, Freelist.mk f.cap_ ((f.len_ + kWord - 1) % kWord) (m.read f.list_)) := by
  simp [Freelist.Pop, h]

theorem pred_mod_kWord (n : Nat) (h : n + 1 < kWord) : (n + 1 + kWord - 1) % kWord = n := by
  have e : n + 1 + kWord - 1 = n + kWord := by omega
  rw [e, Nat.add_mod_right]
  exact Nat.mod_eq_of_lt (by omega)

/-- The pop of the head of the freelist of the hot span keeps the invariant, the popped
block being handed out. -/
theorem Inv_pop {cfg : Config} (hcfg : WFConfig cfg) {w : World} {out : List Nat}
    {cool : Nat → List Nat} {fl : Nat → List Nat} (h : Inv cfg w out cool fl)
    (c : Nat) (hhot : w.core.hot_span_ c ≠ 0)
    (hne : (w.hdrs (w.core.hot_span_ c)).flist.list_ ≠ 0) :
    Inv cfg
      (w.modHdr (w.core.hot_span_ c) (fun h =>
        { h with flist := ((w.hdrs (w.core.hot_span_ c)).flist.Pop w.mem).2 }))
      ((w.hdrs (w.core.hot_span_ c)).flist.list_ :: out) cool
      (upd fl (w.core.hot_span_ c) (fl (w.core.hot_span_ c)).tail) := by
  obtain ⟨hlive, hcls, htag⟩ := h.hotOK c hhot
  generalize hsdef : w.core.hot_span_ c = s at *
  have hok := h.spans s hlive
  -- the freelist is p :: t
  obtain ⟨p, t, hfl⟩ : ∃ p t, fl s = p :: t := by
    cases hf : fl s with
    | nil =>
      have := hok.chain
      rw [hf] at this
      exact absurd this hne
    | cons p t => exact ⟨p, t, rfl⟩
  have hch := hok.chain
  rw [hfl] at hch
  obtain ⟨hp, hp0, hch'⟩ := hch
  have hpblk := hok.blocks p (by rw [hfl]; exact List.mem_cons_self _ _)
  have hG : SpanHeader.GetFromObject cfg p = s :=
    GetFromObject_block cfg hcfg s _ p hok.cls hok.aligned hpblk.1
  have hnd := hok.nodup
  rw [hfl] at hnd
  have hpt : p ∉ t := (List.nodup_cons.1 hnd).1
  have hlen : (w.hdrs s).flist.len_ = t.length + 1 := by rw [hok.len, hfl]; rfl
  have htot : t.length + 1 + outIn cfg out s = cfg.ClassToObjects (w.hdrs s).size_class := by
    have := hok.total
    rw [hfl] at this
    exact this
  have hnlt := objects_lt cfg hcfg s _ hok.cls hok.nonnull hok.inside
  have hpopeq : ((w.hdrs s).flist.Pop w.mem).2
      = Freelist.mk (w.hdrs s).flist.cap_ t.length (w.mem.read p) := by
    rw [Pop_of_ne _ _ hne, hlen, pred_mod_kWord _ (by omega), hp]
  rw [hp]
  set w' := w.modHdr s (fun h => { h with flist := ((w.hdrs s).flist.Pop w.mem).2 }) with hw'
  have hun : ∀ x, x ≠ s → (w'.hdrs x).unlinked = (w.hdrs x).unlinked := by
    intro x hx; rw [hw', modHdr_hdrs_other _ _ _ _ hx]
  have hfields : ∀ x, (w'.hdrs x).size_class = (w.hdrs x).size_class ∧
      (w'.hdrs x).aowner = (w.hdrs x).aowner ∧ (w'.hdrs x).prev = (w.hdrs x).prev ∧
      (w'.hdrs x).next = (w.hdrs x).next := by
    intro x
    rw [hw', modHdr_apply]
    by_cases hx : x = s
    · subst hx; simp
    · simp [hx]
  have hlv : ∀ x, Live w' x ↔ Live w x := fun x => Live_congr rfl rfl x
  have hpout : ∀ x, Live w x → x ≠ s → p ∉ fl x := by
    intro x hx hxs hm
    have := GetFromObject_block cfg hcfg x _ p (h.spans x hx).cls (h.spans x hx).aligned
      ((h.spans x hx).blocks p hm).1
    exact hxs (this.symm.trans hG)
  exact
    { id_small := h.id_small
      tagA := h.tagA
      tagI := h.tagI
      poolEmpty := h.poolEmpty
      counts := fun x => (h.counts x).imp id (hlv x).2
      spans := by
        intro x hx
        have hx' := (hlv x).1 hx
        by_cases hxs : x = s
        · subst hxs
          rw [upd_same, hfl, List.tail_cons]
          exact
            { nonnull := hok.nonnull
              aligned := hok.aligned
              inside := hok.inside
              cls := by rw [(hfields x).1]; exact hok.cls
              tag := by rw [(hfields x).2.1]; exact hok.tag
              cap := by
                rw [(hfields x).1, hw', modHdr_hdrs_same, hpopeq]
                exact hok.cap
              off := by
                rw [(hfields x).1, hw', modHdr_hdrs_same]
                exact hok.off
              len := by
                rw [hw', modHdr_hdrs_same, hpopeq]
              chain := by
                rw [hw', modHdr_hdrs_same, hpopeq]
                exact hch'
              nodup := (List.nodup_cons.1 hnd).2
              blocks := by
                rw [(hfields x).1]
                intro y hy
                have := hok.blocks y (by rw [hfl]; exact List.mem_cons_of_mem _ hy)
                refine ⟨this.1, fun c => ?_⟩
                rcases List.mem_cons.1 c with e | e
                · exact hpt (e ▸ hy)
                · exact this.2 e
              total := by
                rw [(hfields x).1]
                have := outIn_cons_same cfg out p
                rw [hG] at this
                omega
              hot := by rw [(hfields x).1]; exact hok.hot
              inactive := by
                rw [(hfields x).2.1]
                intro hi
                exact absurd (htag.symm.trans hi) (me_ne cfg h) }
        · rw [upd_other _ _ _ _ hxs]
          have hold := h.spans x hx'
          refine SpanOK_out (SpanOK_transfer hold (hun x hxs) rfl rfl
            (fun y _ => rfl) hold.hot) (fun y hy c => ?_)
            (outIn_cons_other cfg out _ x (by rw [hG]; exact Ne.symm hxs))
          rcases List.mem_cons.1 c with e | e
          · exact hpout x hx' hxs (e ▸ hy)
          · exact (hold.blocks y hy).2 e
      out_nodup := List.nodup_cons.2 ⟨hpblk.2, h.out_nodup⟩
      outs := by
        intro y hy
        rw [(hfields _).1]
        rcases List.mem_cons.1 hy with e | e
        · rw [e, hG]
          exact ⟨(hlv _).2 hlive, hpblk.1⟩
        · have := h.outs y e
          exact ⟨(hlv _).2 this.1, this.2⟩
      hotOK := by
        intro c' hc
        have := h.hotOK c' hc
        exact ⟨(hlv _).2 this.1, by rw [(hfields _).1]; exact this.2.1,
          by rw [(hfields _).2.1]; exact this.2.2⟩
      coolOK := by
        intro c'
        refine ⟨@CoolList_congr w w' c' _ rfl
          (fun x _ => ⟨(hfields x).2.2.1, (hfields x).2.2.2⟩) (h.coolOK c').1, fun x hx => ?_⟩
        have := (h.coolOK c').2 x hx
        exact ⟨(hlv _).2 this.1, by rw [(hfields _).1]; exact this.2.1,
          by rw [(hfields _).2.1]; exact this.2.2.1, this.2.2.2⟩
      slowOK := by
        intro c'
        refine ⟨(h.slowOK c').1, fun x hx => ?_⟩
        have := (h.slowOK c').2 x hx
        exact ⟨(hlv _).2 this.1, by rw [(hfields _).1]; exact this.2.1,
          by rw [(hfields _).2.1]; exact this.2.2⟩
      active := by
        intro x hx ht
        rw [(hfields _).2.1] at ht
        rw [(hfields _).1]
        exact h.active x ((hlv x).1 hx) ht
      inactive := by
        intro x hx ht hf
        rw [(hfields _).2.1] at ht
        rw [(hfields _).1]
        exact h.inactive x ((hlv x).1 hx) ht hf
      noslow := h.noslow }

/-- The invariant carries over to a world that differs only in tags, links, list heads and
logs, once the facts about the lists are re-established: the state of every span that is
still held follows from its old state. -/
theorem Inv_restructure {cfg : Config} {w w' : World} {out : List Nat}
    {cool cool' : Nat → List Nat} {fl : Nat → List Nat} (h : Inv cfg w out cool fl)
    (hid : w'.core.id_ = w.core.id_)
    (hA : w'.core.me_active_ = w.core.me_active_)
    (hI : w'.core.me_inactive_ = w.core.me_inactive_)
    (hpool : w'.pool = w.pool) (hmem : w'.mem = w.mem)
    (hsc : ∀ x, (w'.hdrs x).size_class = (w.hdrs x).size_class)
    (hfl : ∀ x, (w'.hdrs x).flist = (w.hdrs x).flist)
    (hoff : ∀ x, (w'.hdrs x).flist_aligned_blocksize_offset
      = (w.hdrs x).flist_aligned_blocksize_offset)
    (hcounts : ∀ s, w'.gets.count s = (w'.released.map Release.span).count s ∨ Live w' s)
    (hlive : ∀ x, Live w' x → Live w x)
    (htag : ∀ x, Live w' x →
      ((w'.hdrs x).aowner = w.core.me_active_ ∨ (w'.hdrs x).aowner = w.core.me_inactive_) ∧
      ((w'.hdrs x).aowner = w.core.me_inactive_ → 1 ≤ (fl x).length))
    (hhot : ∀ x, Live w' x → w'.core.hot_span_ (w.hdrs x).size_class ≠ 0)
    (houts : ∀ b ∈ out, Live w' (SpanHeader.GetFromObject cfg b))
    (hotOK : ∀ c, w'.core.hot_span_ c ≠ 0 →
      Live w' (w'.core.hot_span_ c) ∧ (w.hdrs (w'.core.hot_span_ c)).size_class = c ∧
        (w'.hdrs (w'.core.hot_span_ c)).aowner = w.core.me_active_)
    (coolOK : ∀ c, CoolList w' c (cool' c) ∧
      ∀ s ∈ cool' c, Live w' s ∧ (w.hdrs s).size_class = c ∧
        (w'.hdrs s).aowner = w.core.me_active_ ∧ s ≠ w'.core.hot_span_ c)
    (slowOK : ∀ c, (w'.core.slow_spans_ c).Nodup ∧
      ∀ s ∈ w'.core.slow_spans_ c, Live w' s ∧ (w.hdrs s).size_class = c ∧
        (w'.hdrs s).aowner = w.core.me_inactive_)
    (active : ∀ s, Live w' s → (w'.hdrs s).aowner = w.core.me_active_ →
      s = w'.core.hot_span_ (w.hdrs s).size_class ∨ s ∈ cool' (w.hdrs s).size_class)
    (inactive : ∀ s, Live w' s → (w'.hdrs s).aowner = w.core.me_inactive_ →
      cfg.REUSE_SLOW_SPANS = true → s ∈ w'.core.slow_spans_ (w.hdrs s).size_class)
    (noslow : cfg.REUSE_SLOW_SPANS = false → ∀ c, w'.core.slow_spans_ c = []) :
    Inv cfg w' out cool' fl :=
  { id_small := by rw [hid]; exact h.id_small
    tagA := by rw [hA, hid]; exact h.tagA
    tagI := by rw [hI, hid]; exact h.tagI
    poolEmpty := by rw [hpool]; exact h.poolEmpty
    counts := hcounts
    spans := by
      intro x hx
      have hold := h.spans x (hlive x hx)
      exact
        { nonnull := hold.nonnull
          aligned := hold.aligned
          inside := hold.inside
          cls := by rw [hsc]; exact hold.cls
          tag := by rw [hA, hI]; exact (htag x hx).1
          cap := by rw [hfl, hsc]; exact hold.cap
          off := by rw [hoff, hsc]; exact hold.off
          len := by rw [hfl]; exact hold.len
          chain := by rw [hfl, hmem]; exact hold.chain
          nodup := hold.nodup
          blocks := by rw [hsc]; exact hold.blocks
          total := by rw [hsc]; exact hold.total
          hot := by rw [hsc]; exact hhot x hx
          inactive := by rw [hI]; exact (htag x hx).2 }
    out_nodup := h.out_nodup
    outs := fun b hb => ⟨houts b hb, by rw [hsc]; exact (h.outs b hb).2⟩
    hotOK := fun c hc => by rw [hsc, hA]; exact hotOK c hc
    coolOK := fun c => ⟨(coolOK c).1, fun s hs => by rw [hsc, hA]; exact (coolOK c).2 s hs⟩
    slowOK := fun c => ⟨(slowOK c).1, fun s hs => by rw [hsc, hI]; exact (slowOK c).2 s hs⟩
    active := fun s hs ht => by
      rw [hsc]; rw [hA] at ht; exact active s hs ht
    inactive := fun s hs ht hf => by
      rw [hsc]; rw [hI] at ht; exact inactive s hs ht hf
    noslow := noslow }

/-- The cool list of another class is untouched by `RemoveCoolSpan(sc, s)`. -/
theorem RemoveCoolSpan_CoolList_other (sc c : Nat) (s : Nat) (w : World) (l l' : List Nat)
    (h : CoolList w sc l) (hs : s ∈ l) (hc : c ≠ sc) (h' : CoolList w c l')
    (hdisj : ∀ x ∈ l', x ∉ l) : CoolList (RemoveCoolSpan sc s w) c l' :=
  CoolList_congr (RemoveCoolSpan_cool_other sc c s w hc)
    (fun x hx => (RemoveCoolSpan_CoolList sc s w l h hs).2.2.2 x (hdisj x hx)) h'

/-- The cool list of another class is untouched by `SetActiveSlab(sc, s)`, if it holds
neither the hot span nor the head of the cool list of the class `sc`. -/
theorem SetActiveSlab_CoolList_other (sc c : Nat) (s : Nat) (w : World) (l' : List Nat)
    (hc : c ≠ sc) (h' : CoolList w c l') (h1 : w.core.hot_span_ sc ∉ l')
    (h2 : w.core.cool_spans_ sc ∉ l')
    (hne : w.core.cool_spans_ sc ≠ w.core.hot_span_ sc ∨ w.core.hot_span_ sc = 0) :
    CoolList (SetActiveSlab sc s w) c l' := by
  refine CoolList_congr (SetActiveSlab_cool_other sc c s w hc) (fun x hx => ?_) h'
  unfold SetActiveSlab
  simp only [modCore_hdrs]
  split_ifs with hh
  · have hne' : w.core.cool_spans_ sc ≠ w.core.hot_span_ sc := by
      rcases hne with e | e
      · exact e
      · exact absurd e hh
    have := AddCoolSpan_links sc (w.core.hot_span_ sc) w hne' x
    have hx1 : x ≠ w.core.hot_span_ sc := fun e => h1 (e ▸ hx)
    have hx2 : x ≠ w.core.cool_spans_ sc := fun e => h2 (e ▸ hx)
    rw [this.1, this.2, if_neg hx1, if_neg hx1, if_neg (fun c => hx2 c.1)]
    exact ⟨rfl, rfl⟩
  · exact ⟨rfl, rfl⟩

theorem Live_release {w w' : World} {r : Release} {s : Nat} (hg : w'.gets = w.gets)
    (hr : w'.released = r :: w.released) (hs : r.span = s) (hl : Live w s) :
    (∀ x, Live w' x ↔ Live w x ∧ x ≠ s) ∧
      w'.gets.count s = (w'.released.map Release.span).count s := by
  unfold Live at *
  rw [hg, hr, List.map_cons, hs]
  refine ⟨fun x => ?_, ?_⟩
  · rw [List.count_cons]
    by_cases hx : x = s
    · subst hx
      simp only [beq_self_eq_true, if_true, ne_eq, not_true_eq_false, and_false, iff_false]
      omega
    · have : (s == x) = false := by simpa using Ne.symm hx
      simp [this, hx]
  · rw [List.count_cons_self]
    exact hl

theorem outIn_zero {cfg : Config} {out : List Nat} {s : Nat} (h : outIn cfg out s = 0) :
    ∀ b ∈ out, SpanHeader.GetFromObject cfg b ≠ s := by
  intro b hb e
  have := (List.countP_eq_zero.1 h) b hb
  simp [e] at this

/-- An active span that is not hot and whose blocks are all free is unlinked from the cool
list and released: the invariant is kept, the span being no longer held. -/
theorem Inv_release_cool {cfg : Config} {w : World} {out : List Nat}
    {cool : Nat → List Nat} {fl : Nat → List Nat} (h : Inv cfg w out cool fl)
    (s : Nat) (hlive : Live w s) (htag : (w.hdrs s).aowner = w.core.me_active_)
    (hnhot : s ≠ w.core.hot_span_ (w.hdrs s).size_class)
    (hfull : (fl s).length = cfg.ClassToObjects (w.hdrs s).size_class) :
    Inv cfg (releaseSpan cfg s (RemoveCoolSpan (w.hdrs s).size_class s w)) out
      (upd cool (w.hdrs s).size_class ((cool (w.hdrs s).size_class).erase s)) fl := by
  generalize hc : (w.hdrs s).size_class = c at *
  have hscool : s ∈ cool c := by
    rcases h.active s hlive htag with e | e
    · rw [hc] at e; exact absurd e hnhot
    · rw [hc] at e; exact e
  obtain ⟨r, hr1, hr2⟩ := releaseSpan_released cfg s (RemoveCoolSpan c s w)
  rw [RemoveCoolSpan_released] at hr2
  obtain ⟨hlv, hcnt⟩ := @Live_release w (releaseSpan cfg s (RemoveCoolSpan c s w)) r s
    (by simp) hr2 hr1 hlive
  have hun : ∀ x, ((releaseSpan cfg s (RemoveCoolSpan c s w)).hdrs x).unlinked
      = (w.hdrs x).unlinked := by
    intro x; rw [releaseSpan_hdrs]; exact RemoveCoolSpan_unlinked _ _ _ _
  have hout0 : outIn cfg out s = 0 := by
    have := (h.spans s hlive).total
    rw [hc] at this
    omega
  have hrm := RemoveCoolSpan_CoolList c s w (cool c) (h.coolOK c).1 hscool
  refine Inv_restructure h (by simp) (by simp) (by simp) (by simp) (by simp)
    (fun x => unlinked_size_class (hun x)) (fun x => unlinked_flist (hun x))
    (fun x => (fields_of_unlinked (hun x)).2.2.2.2) ?_ (fun x hx => ((hlv x).1 hx).1) ?_ ?_ ?_
    ?_ ?_ ?_ ?_ ?_ ?_
  · intro x
    by_cases hx : x = s
    · subst hx; exact Or.inl hcnt
    · rcases h.counts x with e | e
      · left
        rw [releaseSpan_gets, RemoveCoolSpan_gets, hr2, List.map_cons, hr1,
          List.count_cons_of_ne hx]
        exact e
      · exact Or.inr ((hlv x).2 ⟨e, hx⟩)
  · intro x hx
    have hold := h.spans x ((hlv x).1 hx).1
    rw [unlinked_aowner (hun x)]
    exact ⟨hold.tag, hold.inactive⟩
  · intro x hx
    rw [releaseSpan_core, RemoveCoolSpan_hot]
    exact (h.spans x ((hlv x).1 hx).1).hot
  · intro b hb
    exact (hlv _).2 ⟨(h.outs b hb).1, outIn_zero hout0 b hb⟩
  · intro c' hc'
    rw [releaseSpan_core, RemoveCoolSpan_hot] at hc' ⊢
    obtain ⟨k1, k2, k3⟩ := h.hotOK c' hc'
    refine ⟨(hlv _).2 ⟨k1, fun e => ?_⟩, k2, by rw [unlinked_aowner (hun _)]; exact k3⟩
    rw [e, hc] at k2
    exact hnhot (by rw [k2]; exact e.symm)
  · intro c'
    rw [releaseSpan_core, RemoveCoolSpan_hot]
    by_cases hcc : c' = c
    · subst hcc
      rw [upd_same]
      refine ⟨CoolList_congr (by simp) (fun x _ => by simp) hrm.1, fun x hx => ?_⟩
      have hxc := List.mem_of_mem_erase hx
      have hxs : x ≠ s := fun e =>
        ((List.Nodup.mem_erase_iff (h.coolOK c').1.2).1 hx).1 e
      obtain ⟨k1, k2, k3, k4⟩ := (h.coolOK c').2 x hxc
      exact ⟨(hlv _).2 ⟨k1, hxs⟩, k2, by rw [unlinked_aowner (hun _)]; exact k3, k4⟩
    · rw [upd_other _ _ _ _ hcc]
      have hother := RemoveCoolSpan_CoolList_other c c' s w (cool c) (cool c')
        (h.coolOK c).1 hscool hcc (h.coolOK c').1
        (fun x hx hx' => hcc ((h.cool_class hx).symm.trans (h.cool_class hx')))
      refine ⟨CoolList_congr (by simp) (fun x _ => by simp) hother, fun x hx => ?_⟩
      obtain ⟨k1, k2, k3, k4⟩ := (h.coolOK c').2 x hx
      have hxs : x ≠ s := fun e => hcc (by rw [← k2, e, hc])
      exact ⟨(hlv _).2 ⟨k1, hxs⟩, k2, by rw [unlinked_aowner (hun _)]; exact k3, k4⟩
  · intro c'
    rw [releaseSpan_core, RemoveCoolSpan_slow]
    refine ⟨(h.slowOK c').1, fun x hx => ?_⟩
    obtain ⟨k1, k2, k3⟩ := (h.slowOK c').2 x hx
    have hxs : x ≠ s := fun e => me_ne cfg h (by rw [← htag, ← k3, e])
    exact ⟨(hlv _).2 ⟨k1, hxs⟩, k2, by rw [unlinked_aowner (hun _)]; exact k3⟩
  · intro x hx ht
    rw [unlinked_aowner (hun _)] at ht
    obtain ⟨k1, k2⟩ := (hlv x).1 hx
    rw [releaseSpan_core, RemoveCoolSpan_hot]
    rcases h.active x k1 ht with e | e
    · exact Or.inl e
    · right
      by_cases hcc : (w.hdrs x).size_class = c
      · rw [hcc, upd_same]
        rw [hcc] at e
        exact (List.mem_erase_of_ne k2).2 e
      · rw [upd_other _ _ _ _ hcc]; exact e
  · intro x hx ht hf
    rw [unlinked_aowner (hun _)] at ht
    rw [releaseSpan_core, RemoveCoolSpan_slow]
    exact h.inactive x ((hlv x).1 hx).1 ht hf
  · intro hf c'
    rw [releaseSpan_core, RemoveCoolSpan_slow]
    exact h.noslow hf c'

/-- An active span that is not hot and has a free block is demoted: unlinked from the cool
list, put on the slow list (when compiled in) and its active bit cleared. The invariant is
kept. -/
theorem Inv_demote {cfg : Config} {w : World} {out : List Nat}
    {cool : Nat → List Nat} {fl : Nat → List Nat} (h : Inv cfg w out cool fl)
    (s : Nat) (hlive : Live w s) (htag : (w.hdrs s).aowner = w.core.me_active_)
    (hnhot : s ≠ w.core.hot_span_ (w.hdrs s).size_class)
    (hlen : 1 ≤ (fl s).length) :
    Inv cfg
      ((AddSlowSpan cfg (w.hdrs s).size_class s
          (RemoveCoolSpan (w.hdrs s).size_class s w)).modHdr s
        (fun h => { h with aowner := ActiveOwner.clearActive h.aowner })) out
      (upd cool (w.hdrs s).size_class ((cool (w.hdrs s).size_class).erase s)) fl := by
  generalize hc : (w.hdrs s).size_class = c at *
  have hscool : s ∈ cool c := by
    rcases h.active s hlive htag with e | e
    · rw [hc] at e; exact absurd e hnhot
    · rw [hc] at e; exact e
  set w' := (AddSlowSpan cfg c s (RemoveCoolSpan c s w)).modHdr s
    (fun h => { h with aowner := ActiveOwner.clearActive h.aowner }) with hw'
  have hrm := RemoveCoolSpan_CoolList c s w (cool c) (h.coolOK c).1 hscool
  have hun : ∀ x, x ≠ s → (w'.hdrs x).unlinked = (w.hdrs x).unlinked := by
    intro x hx
    rw [hw', modHdr_hdrs_other _ _ _ _ hx, AddSlowSpan_hdrs]
    exact RemoveCoolSpan_unlinked _ _ _ _
  have hs' : w'.hdrs s = { (RemoveCoolSpan c s w).hdrs s with
      aowner := ActiveOwner.clearActive ((RemoveCoolSpan c s w).hdrs s).aowner } := by
    rw [hw', modHdr_hdrs_same, AddSlowSpan_hdrs]
  have hsun := RemoveCoolSpan_unlinked c s w s
  have hsc : ∀ x, (w'.hdrs x).size_class = (w.hdrs x).size_class := by
    intro x
    by_cases hx : x = s
    · subst hx; rw [hs']; have := unlinked_size_class hsun; exact this
    · exact unlinked_size_class (hun x hx)
  have hflx : ∀ x, (w'.hdrs x).flist = (w.hdrs x).flist := by
    intro x
    by_cases hx : x = s
    · subst hx; rw [hs']; have := unlinked_flist hsun; exact this
    · exact unlinked_flist (hun x hx)
  have hoff : ∀ x, (w'.hdrs x).flist_aligned_blocksize_offset
      = (w.hdrs x).flist_aligned_blocksize_offset := by
    intro x
    by_cases hx : x = s
    · subst hx; rw [hs']; have := (fields_of_unlinked hsun).2.2.2.2; exact this
    · exact (fields_of_unlinked (hun x hx)).2.2.2.2
  have htags : (w'.hdrs s).aowner = w.core.me_inactive_ := by
    rw [hs']
    show ActiveOwner.clearActive ((RemoveCoolSpan c s w).hdrs s).aowner = _
    rw [unlinked_aowner hsun, htag, h.tagA, h.tagI, clearActive_Reset]
  have htago : ∀ x, x ≠ s → (w'.hdrs x).aowner = (w.hdrs x).aowner :=
    fun x hx => unlinked_aowner (hun x hx)
  have hlinks : ∀ x, (w'.hdrs x).prev = ((RemoveCoolSpan c s w).hdrs x).prev ∧
      (w'.hdrs x).next = ((RemoveCoolSpan c s w).hdrs x).next := by
    intro x
    rw [hw', modHdr_apply, AddSlowSpan_hdrs]
    by_cases hx : x = s
    · subst hx; simp
    · simp [hx]
  have hlv : ∀ x, Live w' x ↔ Live w x := fun x => Live_congr (by simp [hw']) (by simp [hw']) x
  have hhot' : w'.core.hot_span_ = w.core.hot_span_ := by simp [hw']
  have hcool' : w'.core.cool_spans_ = (RemoveCoolSpan c s w).core.cool_spans_ := by simp [hw']
  have hslow' : w'.core.slow_spans_ =
      if cfg.REUSE_SLOW_SPANS then upd w.core.slow_spans_ c (s :: w.core.slow_spans_ c)
      else w.core.slow_spans_ := by
    simp [hw', AddSlowSpan_slow]
  have hsslow : s ∉ w.core.slow_spans_ c := fun hm =>
    me_ne cfg h (htag.symm.trans ((h.slowOK c).2 s hm).2.2)
  have hneAI := me_ne cfg h
  refine Inv_restructure h (by simp [hw']) (by simp [hw']) (by simp [hw']) (by simp [hw'])
    (by simp [hw']) hsc hflx hoff ?_ (fun x hx => (hlv x).1 hx) ?_ ?_ ?_ ?_ ?_ ?_ ?_ ?_ ?_
  · intro x
    rcases h.counts x with e | e
    · left; simpa [hw'] using e
    · exact Or.inr ((hlv x).2 e)
  · intro x hx
    by_cases hxs : x = s
    · subst hxs
      exact ⟨Or.inr htags, fun _ => hlen⟩
    · have hold := h.spans x ((hlv x).1 hx)
      rw [htago x hxs]
      exact ⟨hold.tag, hold.inactive⟩
  · intro x hx
    rw [hhot']
    exact (h.spans x ((hlv x).1 hx)).hot
  · intro b hb
    exact (hlv _).2 (h.outs b hb).1
  · intro c' hc'
    rw [hhot'] at hc' ⊢
    obtain ⟨k1, k2, k3⟩ := h.hotOK c' hc'
    have hne : w.core.hot_span_ c' ≠ s := by
      intro e
      rw [e, hc] at k2
      exact hnhot (by rw [k2]; exact e.symm)
    exact ⟨(hlv _).2 k1, k2, by rw [htago _ hne]; exact k3⟩
  · intro c'
    rw [hhot']
    by_cases hcc : c' = c
    · subst hcc
      rw [upd_same]
      refine ⟨CoolList_congr (by rw [hcool']) (fun x _ => hlinks x) hrm.1, fun x hx => ?_⟩
      have hxc := List.mem_of_mem_erase hx
      have hxs : x ≠ s := fun e =>
        ((List.Nodup.mem_erase_iff (h.coolOK c').1.2).1 hx).1 e
      obtain ⟨k1, k2, k3, k4⟩ := (h.coolOK c').2 x hxc
      exact ⟨(hlv _).2 k1, k2, by rw [htago _ hxs]; exact k3, k4⟩
    · rw [upd_other _ _ _ _ hcc]
      have hother := RemoveCoolSpan_CoolList_other c c' s w (cool c) (cool c')
        (h.coolOK c).1 hscool hcc (h.coolOK c').1
        (fun x hx hx' => hcc ((h.cool_class hx).symm.trans (h.cool_class hx')))
      refine ⟨CoolList_congr (by rw [hcool']) (fun x _ => hlinks x) hother, fun x hx => ?_⟩
      obtain ⟨k1, k2, k3, k4⟩ := (h.coolOK c').2 x hx
      have hxs : x ≠ s := fun e => hcc (by rw [← k2, e, hc])
      exact ⟨(hlv _).2 k1, k2, by rw [htago _ hxs]; exact k3, k4⟩
  · intro c'
    rw [hslow']
    have hold : ∀ x ∈ w.core.slow_spans_ c', Live w' x ∧ (w.hdrs x).size_class = c' ∧
        (w'.hdrs x).aowner = w.core.me_inactive_ := by
      intro x hx
      obtain ⟨k1, k2, k3⟩ := (h.slowOK c').2 x hx
      have hxs : x ≠ s := fun e => hneAI (by rw [← htag, ← k3, e])
      exact ⟨(hlv _).2 k1, k2, by rw [htago _ hxs]; exact k3⟩
    cases hf : cfg.REUSE_SLOW_SPANS with
    | false => exact ⟨(h.slowOK c').1, hold⟩
    | true =>
      simp only [if_true]
      by_cases hcc : c' = c
      · subst hcc
        rw [upd_same]
        refine ⟨List.nodup_cons.2 ⟨hsslow, (h.slowOK c').1⟩, fun x hx => ?_⟩
        rcases List.mem_cons.1 hx with e | e
        · subst e
          exact ⟨(hlv _).2 hlive, hc, htags⟩
        · exact hold x e
      · rw [upd_other _ _ _ _ hcc]
        exact ⟨(h.slowOK c').1, hold⟩
  · intro x hx ht
    have hxs : x ≠ s := fun e => hneAI (by rw [← ht, e, htags])
    rw [htago x hxs] at ht
    rw [hhot']
    rcases h.active x ((hlv x).1 hx) ht with e | e
    · exact Or.inl e
    · right
      by_cases hcc : (w.hdrs x).size_class = c
      · rw [hcc, upd_same]
        rw [hcc] at e
        exact (List.mem_erase_of_ne hxs).2 e
      · rw [upd_other _ _ _ _ hcc]; exact e
  · intro x hx ht hf
    rw [hslow', hf]
    simp only [if_true]
    by_cases hxs : x = s
    · subst hxs
      rw [hc, upd_same]
      exact List.mem_cons_self _ _
    · rw [htago x hxs] at ht
      have := h.inactive x ((hlv x).1 hx) ht hf
      by_cases hcc : (w.hdrs x).size_class = c
      · rw [hcc, upd_same]
        rw [hcc] at this
        exact List.mem_cons_of_mem _ this
      · rw [upd_other _ _ _ _ hcc]; exact this
  · intro hf c'
    rw [hslow', hf]
    simp only [Bool.false_eq_true, if_false]
    exact h.noslow hf c'

/-- An inactive span is taken back: its tag becomes `me_active_`, it leaves the slow list
(when compiled in) and becomes the hot span, the old hot span going to the cool list. The
invariant is kept. The world `w2` is the one before `SetActiveSlab`. -/
theorem Inv_activate {cfg : Config} {w : World} {out : List Nat}
    {cool : Nat → List Nat} {fl : Nat → List Nat} (h : Inv cfg w out cool fl)
    (s : Nat) (hlive : Live w s) (htag : (w.hdrs s).aowner = w.core.me_inactive_)
    (w2 : World)
    (h2h : ∀ x, w2.hdrs x =
      if x = s then { w.hdrs s with aowner := w.core.me_active_ } else w.hdrs x)
    (h2m : w2.mem = w.mem) (h2p : w2.pool = w.pool) (h2r : w2.released = w.released)
    (h2g : w2.gets = w.gets) (h2hot : w2.core.hot_span_ = w.core.hot_span_)
    (h2cool : w2.core.cool_spans_ = w.core.cool_spans_)
    (h2A : w2.core.me_active_ = w.core.me_active_)
    (h2I : w2.core.me_inactive_ = w.core.me_inactive_)
    (h2id : w2.core.id_ = w.core.id_)
    (h2slow : w2.core.slow_spans_ =
      if cfg.REUSE_SLOW_SPANS then
        upd w.core.slow_spans_ (w.hdrs s).size_class
          ((w.core.slow_spans_ (w.hdrs s).size_class).erase s)
      else w.core.slow_spans_) :
    Inv cfg (SetActiveSlab (w.hdrs s).size_class s w2) out
      (upd cool (w.hdrs s).size_class
        (w.core.hot_span_ (w.hdrs s).size_class :: cool (w.hdrs s).size_class)) fl := by
  have hok := h.spans s hlive
  have hhot0 : w.core.hot_span_ (w.hdrs s).size_class ≠ 0 := hok.hot
  generalize hc : (w.hdrs s).size_class = c at *
  have hneAI := me_ne cfg h
  obtain ⟨hhl, hhc, hht⟩ := h.hotOK c hhot0
  have hsne : ∀ x, (w.hdrs x).aowner = w.core.me_active_ → x ≠ s :=
    fun x hx e => hneAI (by rw [← hx, e, htag])
  have hhs : w.core.hot_span_ c ≠ s := hsne _ hht
  obtain ⟨w', hw'⟩ : ∃ w', w' = SetActiveSlab c s w2 := ⟨_, rfl⟩
  rw [← hw']
  have hun : ∀ x, (w'.hdrs x).unlinked = (w2.hdrs x).unlinked := by
    intro x; rw [hw']; exact SetActiveSlab_unlinked c s w2 x
  have hsc2 : ∀ x, (w2.hdrs x).size_class = (w.hdrs x).size_class := by
    intro x; rw [h2h]; split_ifs with e
    · rw [e]
    · rfl
  have hsc : ∀ x, (w'.hdrs x).size_class = (w.hdrs x).size_class :=
    fun x => (unlinked_size_class (hun x)).trans (hsc2 x)
  have hflx : ∀ x, (w'.hdrs x).flist = (w.hdrs x).flist := by
    intro x; rw [unlinked_flist (hun x), h2h]; split_ifs with e
    · rw [e]
    · rfl
  have hoff : ∀ x, (w'.hdrs x).flist_aligned_blocksize_offset
      = (w.hdrs x).flist_aligned_blocksize_offset := by
    intro x; rw [(fields_of_unlinked (hun x)).2.2.2.2, h2h]; split_ifs with e
    · rw [e]
    · rfl
  have htags : (w'.hdrs s).aowner = w.core.me_active_ := by
    rw [unlinked_aowner (hun s), h2h, if_pos rfl]
  have htago : ∀ x, x ≠ s → (w'.hdrs x).aowner = (w.hdrs x).aowner := by
    intro x hx; rw [unlinked_aowner (hun x), h2h, if_neg hx]
  have hlv : ∀ x, Live w' x ↔ Live w x := fun x =>
    Live_congr (by rw [hw', SetActiveSlab_gets, h2g])
      (by rw [hw', SetActiveSlab_released, h2r]) x
  have hhotc : w'.core.hot_span_ c = s := by rw [hw']; exact SetActiveSlab_hot_same c s w2
  have hhoto : ∀ d, d ≠ c → w'.core.hot_span_ d = w.core.hot_span_ d := by
    intro d hd; rw [hw', SetActiveSlab_hot_other c d s w2 hd, h2hot]
  have hslow' : w'.core.slow_spans_ = w2.core.slow_spans_ := by
    rw [hw']; exact SetActiveSlab_slow c s w2
  have hcl2 : ∀ d, CoolList w2 d (cool d) := fun d =>
    CoolList_congr (by rw [h2cool]) (fun x _ => by
      rw [h2h]; split_ifs with e
      · rw [e]; exact ⟨rfl, rfl⟩
      · exact ⟨rfl, rfl⟩) (h.coolOK d).1
  have hs0 : s ≠ 0 := hok.nonnull
  refine Inv_restructure h (by rw [hw', SetActiveSlab_id, h2id])
    (by rw [hw', SetActiveSlab_me_active, h2A]) (by rw [hw', SetActiveSlab_me_inactive, h2I])
    (by rw [hw', SetActiveSlab_pool, h2p]) (by rw [hw', SetActiveSlab_mem, h2m])
    hsc hflx hoff ?_ (fun x hx => (hlv x).1 hx) ?_ ?_ ?_ ?_ ?_ ?_ ?_ ?_ ?_
  · intro x
    rcases h.counts x with e | e
    · left; rw [hw', SetActiveSlab_gets, SetActiveSlab_released, h2g, h2r]; exact e
    · exact Or.inr ((hlv x).2 e)
  · intro x hx
    by_cases hxs : x = s
    · rw [hxs]
      exact ⟨Or.inl htags, fun e => absurd (htags.symm.trans e) hneAI⟩
    · have hold := h.spans x ((hlv x).1 hx)
      rw [htago x hxs]
      exact ⟨hold.tag, hold.inactive⟩
  · intro x hx
    by_cases hd : (w.hdrs x).size_class = c
    · rw [hd, hhotc]; exact hs0
    · rw [hhoto _ hd]; exact (h.spans x ((hlv x).1 hx)).hot
  · intro b hb
    exact (hlv _).2 (h.outs b hb).1
  · intro d hd
    by_cases hdc : d = c
    · rw [hdc, hhotc]
      exact ⟨(hlv _).2 hlive, hc, htags⟩
    · rw [hhoto d hdc] at hd ⊢
      obtain ⟨k1, k2, k3⟩ := h.hotOK d hd
      exact ⟨(hlv _).2 k1, k2, by rw [htago _ (hsne _ k3)]; exact k3⟩
  · intro d
    by_cases hdc : d = c
    · rw [hdc, upd_same, hhotc]
      have hnl : w2.core.hot_span_ c ∉ cool c := by
        rw [h2hot]; exact fun hm => ((h.coolOK c).2 _ hm).2.2.2 rfl
      have hcl := SetActiveSlab_CoolList c s w2 (cool c) (hcl2 c) (by rw [h2hot]; exact hhot0) hnl
      rw [h2hot] at hcl
      refine ⟨by rw [hw']; exact hcl, fun x hx => ?_⟩
      rcases List.mem_cons.1 hx with e | e
      · rw [e]
        exact ⟨(hlv _).2 hhl, hhc, by rw [htago _ hhs]; exact hht, hhs⟩
      · obtain ⟨k1, k2, k3, k4⟩ := (h.coolOK c).2 x e
        exact ⟨(hlv _).2 k1, k2, by rw [htago _ (hsne _ k3)]; exact k3, hsne _ k3⟩
    · rw [upd_other _ _ _ _ hdc, hhoto d hdc]
      have h1 : w2.core.hot_span_ c ∉ cool d := by
        rw [h2hot]; intro hm
        exact hdc ((h.cool_class hm).symm.trans hhc)
      have hhead := DLL_head (h.coolOK c).1.1
      have h2 : w2.core.cool_spans_ c ∉ cool d := by
        rw [h2cool]; intro hm
        rcases headD_mem_or (cool c) 0 with ⟨e, -⟩ | e
        · rw [hhead, e] at hm
          exact DLL_nonzero (h.coolOK d).1.1 0 hm rfl
        · rw [← hhead] at e
          exact hdc ((h.cool_class hm).symm.trans (h.cool_class e))
      have h3 : w2.core.cool_spans_ c ≠ w2.core.hot_span_ c ∨ w2.core.hot_span_ c = 0 := by
        left
        rw [h2cool, h2hot]
        rcases headD_mem_or (cool c) 0 with ⟨e, -⟩ | e
        · rw [hhead, e]; exact Ne.symm hhot0
        · rw [← hhead] at e
          exact ((h.coolOK c).2 _ e).2.2.2
      have hcl := SetActiveSlab_CoolList_other c d s w2 (cool d) hdc (hcl2 d) h1 h2 h3
      refine ⟨by rw [hw']; exact hcl, fun x hx => ?_⟩
      obtain ⟨k1, k2, k3, k4⟩ := (h.coolOK d).2 x hx
      exact ⟨(hlv _).2 k1, k2, by rw [htago _ (hsne _ k3)]; exact k3, k4⟩
  · intro d
    rw [hslow', h2slow]
    have hold : ∀ x ∈ w.core.slow_spans_ d, x ≠ s → Live w' x ∧ (w.hdrs x).size_class = d ∧
        (w'.hdrs x).aowner = w.core.me_inactive_ := by
      intro x hx hxs
      obtain ⟨k1, k2, k3⟩ := (h.slowOK d).2 x hx
      exact ⟨(hlv _).2 k1, k2, by rw [htago _ hxs]; exact k3⟩
    cases hf : cfg.REUSE_SLOW_SPANS with
    | false =>
      simp only [Bool.false_eq_true, if_false]
      rw [h.noslow hf d]
      exact ⟨List.nodup_nil, fun x hx => by simp at hx⟩
    | true =>
      simp only [if_true]
      by_cases hdc : d = c
      · rw [hdc, upd_same]
        refine ⟨(h.slowOK c).1.erase s, fun x hx => ?_⟩
        have hxs : x ≠ s := ((List.Nodup.mem_erase_iff (h.slowOK c).1).1 hx).1
        have := hold x (by rw [hdc]; exact List.mem_of_mem_erase hx) hxs
        rw [hdc] at this
        exact this
      · rw [upd_other _ _ _ _ hdc]
        refine ⟨(h.slowOK d).1, fun x hx => hold x hx ?_⟩
        intro e
        exact hdc (by rw [← ((h.slowOK d).2 x hx).2.1, e, hc])
  · intro x hx ht
    by_cases hxs : x = s
    · left; rw [hxs, hc, hhotc]
    · rw [htago x hxs] at ht
      by_cases hd : (w.hdrs x).size_class = c
      · right
        rw [hd, upd_same]
        rcases h.active x ((hlv x).1 hx) ht with e | e
        · rw [hd] at e; rw [e]; exact List.mem_cons_self _ _
        · rw [hd] at e; exact List.mem_cons_of_mem _ e
      · rw [hhoto _ hd, upd_other _ _ _ _ hd]
        exact h.active x ((hlv x).1 hx) ht
  · intro x hx ht hf
    have hxs : x ≠ s := fun e => hneAI (by rw [← ht, e, htags])
    rw [htago x hxs] at ht
    have := h.inactive x ((hlv x).1 hx) ht hf
    rw [hslow', h2slow, hf]
    simp only [if_true]
    by_cases hd : (w.hdrs x).size_class = c
    · rw [hd, upd_same]
      rw [hd] at this
      exact (List.mem_erase_of_ne hxs).2 this
    · rw [upd_other _ _ _ _ hd]; exact this
  · intro hf d
    rw [hslow', h2slow, hf]
    simp only [Bool.false_eq_true, if_false]
    exact h.noslow hf d

/-- An inactive span whose blocks are all free is taken back and released: its tag
becomes `me_active_`, it leaves the slow list (when compiled in) and is handed to the Span
Pool. The invariant is kept, the span being no longer held. The world `w2` is the one
before the release. -/
theorem Inv_retire {cfg : Config} {w : World} {out : List Nat}
    {cool : Nat → List Nat} {fl : Nat → List Nat} (h : Inv cfg w out cool fl)
    (s : Nat) (hlive : Live w s) (htag : (w.hdrs s).aowner = w.core.me_inactive_)
    (hfull : (fl s).length = cfg.ClassToObjects (w.hdrs s).size_class)
    (w2 : World)
    (h2h : ∀ x, w2.hdrs x =
      if x = s then { w.hdrs s with aowner := w.core.me_active_ } else w.hdrs x)
    (h2m : w2.mem = w.mem) (h2p : w2.pool = w.pool) (h2r : w2.released = w.released)
    (h2g : w2.gets = w.gets) (h2hot : w2.core.hot_span_ = w.core.hot_span_)
    (h2cool : w2.core.cool_spans_ = w.core.cool_spans_)
    (h2A : w2.core.me_active_ = w.core.me_active_)
    (h2I : w2.core.me_inactive_ = w.core.me_inactive_)
    (h2id : w2.core.id_ = w.core.id_)
    (h2slow : w2.core.slow_spans_ =
      if cfg.REUSE_SLOW_SPANS then
        upd w.core.slow_spans_ (w.hdrs s).size_class
          ((w.core.slow_spans_ (w.hdrs s).size_class).erase s)
      else w.core.slow_spans_) :
    Inv cfg (releaseSpan cfg s w2) out cool fl := by
  have hok := h.spans s hlive
  generalize hc : (w.hdrs s).size_class = c at *
  have hneAI := me_ne cfg h
  have hsne : ∀ x, (w.hdrs x).aowner = w.core.me_active_ → x ≠ s :=
    fun x hx e => hneAI (by rw [← hx, e, htag])
  obtain ⟨w', hw'⟩ : ∃ w', w' = releaseSpan cfg s w2 := ⟨_, rfl⟩
  rw [← hw']
  have hhd : w'.hdrs = w2.hdrs := by rw [hw']; exact releaseSpan_hdrs cfg s w2
  have hcore : w'.core = w2.core := by rw [hw']; exact releaseSpan_core cfg s w2
  have hsc : ∀ x, (w'.hdrs x).size_class = (w.hdrs x).size_class := by
    intro x; rw [hhd, h2h]; split_ifs with e
    · rw [e]
    · rfl
  have hflx : ∀ x, (w'.hdrs x).flist = (w.hdrs x).flist := by
    intro x; rw [hhd, h2h]; split_ifs with e
    · rw [e]
    · rfl
  have hoff : ∀ x, (w'.hdrs x).flist_aligned_blocksize_offset
      = (w.hdrs x).flist_aligned_blocksize_offset := by
    intro x; rw [hhd, h2h]; split_ifs with e
    · rw [e]
    · rfl
  have htago : ∀ x, x ≠ s → (w'.hdrs x).aowner = (w.hdrs x).aowner := by
    intro x hx; rw [hhd, h2h, if_neg hx]
  have hlinks : ∀ x, (w'.hdrs x).prev = (w.hdrs x).prev ∧ (w'.hdrs x).next = (w.hdrs x).next := by
    intro x; rw [hhd, h2h]; split_ifs with e
    · rw [e]; exact ⟨rfl, rfl⟩
    · exact ⟨rfl, rfl⟩
  obtain ⟨r, hr1, hr2⟩ := releaseSpan_released cfg s w2
  rw [← hw', h2r] at hr2
  obtain ⟨hlv, hcnt⟩ := @Live_release w w' r s
    (by rw [hw', releaseSpan_gets, h2g]) hr2 hr1 hlive
  have hout0 : outIn cfg out s = 0 := by
    have := hok.total
    rw [hc] at this
    omega
  refine Inv_restructure h (by rw [hcore, h2id]) (by rw [hcore, h2A]) (by rw [hcore, h2I])
    (by rw [hw', releaseSpan_pool, h2p]) (by rw [hw', releaseSpan_mem, h2m])
    hsc hflx hoff ?_ (fun x hx => ((hlv x).1 hx).1) ?_ ?_ ?_ ?_ ?_ ?_ ?_ ?_ ?_
  · intro x
    by_cases hxs : x = s
    · left; rw [hxs]; exact hcnt
    · rcases h.counts x with e | e
      · left
        rw [hr2, List.map_cons, hr1, List.count_cons_of_ne hxs, hw', releaseSpan_gets, h2g]
        exact e
      · exact Or.inr ((hlv x).2 ⟨e, hxs⟩)
  · intro x hx
    obtain ⟨hx1, hxs⟩ := (hlv x).1 hx
    have hold := h.spans x hx1
    rw [htago x hxs]
    exact ⟨hold.tag, hold.inactive⟩
  · intro x hx
    rw [hcore, h2hot]
    exact (h.spans x ((hlv x).1 hx).1).hot
  · intro b hb
    exact (hlv _).2 ⟨(h.outs b hb).1, outIn_zero hout0 b hb⟩
  · intro d hd
    rw [hcore, h2hot] at hd ⊢
    obtain ⟨k1, k2, k3⟩ := h.hotOK d hd
    exact ⟨(hlv _).2 ⟨k1, hsne _ k3⟩, k2, by rw [htago _ (hsne _ k3)]; exact k3⟩
  · intro d
    refine ⟨CoolList_congr (by rw [hcore, h2cool]) (fun x _ => hlinks x) (h.coolOK d).1,
      fun x hx => ?_⟩
    obtain ⟨k1, k2, k3, k4⟩ := (h.coolOK d).2 x hx
    rw [hcore, h2hot]
    exact ⟨(hlv _).2 ⟨k1, hsne _ k3⟩, k2, by rw [htago _ (hsne _ k3)]; exact k3, k4⟩
  · intro d
    rw [hcore, h2slow]
    have hold : ∀ x ∈ w.core.slow_spans_ d, x ≠ s → Live w' x ∧ (w.hdrs x).size_class = d ∧
        (w'.hdrs x).aowner = w.core.me_inactive_ := by
      intro x hx hxs
      obtain ⟨k1, k2, k3⟩ := (h.slowOK d).2 x hx
      exact ⟨(hlv _).2 ⟨k1, hxs⟩, k2, by rw [htago _ hxs]; exact k3⟩
    cases hf : cfg.REUSE_SLOW_SPANS with
    | false =>
      simp only [Bool.false_eq_true, if_false]
      rw [h.noslow hf d]
      exact ⟨List.nodup_nil, fun x hx => by simp at hx⟩
    | true =>
      simp only [if_true]
      by_cases hdc : d = c
      · rw [hdc, upd_same]
        refine ⟨(h.slowOK c).1.erase s, fun x hx => ?_⟩
        have hxs : x ≠ s := ((List.Nodup.mem_erase_iff (h.slowOK c).1).1 hx).1
        have := hold x (by rw [hdc]; exact List.mem_of_mem_erase hx) hxs
        rw [hdc] at this
        exact this
      · rw [upd_other _ _ _ _ hdc]
        refine ⟨(h.slowOK d).1, fun x hx => hold x hx ?_⟩
        intro e
        exact hdc (by rw [← ((h.slowOK d).2 x hx).2.1, e, hc])
  · intro x hx ht
    obtain ⟨hx1, hxs⟩ := (hlv x).1 hx
    rw [htago x hxs] at ht
    rw [hcore, h2hot]
    exact h.active x hx1 ht
  · intro x hx ht hf
    obtain ⟨hx1, hxs⟩ := (hlv x).1 hx
    rw [htago x hxs] at ht
    have := h.inactive x hx1 ht hf
    rw [hcore, h2slow, hf]
    simp only [if_true]
    by_cases hd : (w.hdrs x).size_class = c
    · rw [hd, upd_same]
      rw [hd] at this
      exact (List.mem_erase_of_ne hxs).2 this
    · rw [upd_other _ _ _ _ hd]; exact this
  · intro hf d
    rw [hcore, h2slow, hf]
    simp only [Bool.false_eq_true, if_false]
    exact h.noslow hf d

/-! ## A span from the Span Pool -/

theorem Init_hdrs_other (cfg : Config) (sp c id : Nat) (re : Bool) (w : World) (x : Nat)
    (hx : x ≠ sp) : (SpanHeader.Init cfg sp c id re w).hdrs x = w.hdrs x := by
  simp [SpanHeader.Init, modHdr_apply, hx]

theorem Init_hdrs_same (cfg : Config) (sp c id : Nat) (re : Bool) (w : World) :
    (SpanHeader.Init cfg sp c id re w).hdrs sp =
      { w.hdrs sp with
        size_class := c
        aowner := ActiveOwner.Reset true id
        flist := (Freelist.InitRange (sp + cfg.kSpanHeaderSize) (cfg.ClassToSize c)
          (cfg.ClassToObjects c) w.mem).1
        remote_flist := id % cfg.Cpus
        flist_aligned_blocksize_offset := (sp + cfg.kSpanHeaderSize) % cfg.ClassToSize c } := by
  simp [SpanHeader.Init, modHdr_apply]

theorem Init_mem (cfg : Config) (sp c id : Nat) (re : Bool) (w : World) :
    (SpanHeader.Init cfg sp c id re w).mem =
      (Freelist.InitRangeLoop (cfg.ClassToObjects c) (sp + cfg.kSpanHeaderSize)
        (cfg.ClassToSize c) 0 w.mem).2 := rfl

theorem Init_core (cfg : Config) (sp c id : Nat) (re : Bool) (w : World) :
    (SpanHeader.Init cfg sp c id re w).core = w.core := rfl

theorem Init_pool (cfg : Config) (sp c id : Nat) (re : Bool) (w : World) :
    (SpanHeader.Init cfg sp c id re w).pool = w.pool := rfl

theorem Init_released (cfg : Config) (sp c id : Nat) (re : Bool) (w : World) :
    (SpanHeader.Init cfg sp c id re w).released = w.released := rfl

theorem Init_gets (cfg : Config) (sp c id : Nat) (re : Bool) (w : World) :
    (SpanHeader.Init cfg sp c id re w).gets = w.gets := rfl

/-- A span that the frontend does not hold is fetched from the Span Pool, initialised for
the class `c` and made the hot span, the old hot span (if any) going to the cool list. The
invariant is kept; the freelist of the new span holds all its blocks. -/
theorem Inv_fresh {cfg : Config} (hcfg : WFConfig cfg) {w : World} {out : List Nat}
    {cool : Nat → List Nat} {fl : Nat → List Nat} (h : Inv cfg w out cool fl)
    (c sp : Nat) (re : Bool) (hc : c ≠ 0) (hfresh : FreshSpan cfg w sp) :
    Inv cfg
      (SetActiveSlab c sp
        (SpanHeader.Init cfg sp c w.core.id_ re { w with gets := sp :: w.gets })) out
      (upd cool c (if w.core.hot_span_ c = 0 then cool c else w.core.hot_span_ c :: cool c))
      (upd fl sp (threaded (cfg.ClassToObjects c) (sp + cfg.kSpanHeaderSize)
        (cfg.ClassToSize c) [])) := by
  obtain ⟨hsp0, hspal, hspin, hspcnt⟩ := hfresh
  have hneAI := me_ne cfg h
  have hsize : 0 < cfg.ClassToSize c := by have := hcfg.size c hc; omega
  have hfits := hcfg.fits c hc
  obtain ⟨wi, hwi⟩ : ∃ wi, wi =
    SpanHeader.Init cfg sp c w.core.id_ re { w with gets := sp :: w.gets } := ⟨_, rfl⟩
  obtain ⟨w', hw'⟩ : ∃ w', w' = SetActiveSlab c sp wi := ⟨_, rfl⟩
  rw [← hwi, ← hw']
  have hnlive : ¬ Live w sp := by unfold Live; omega
  have hlne : ∀ x, Live w x → x ≠ sp := fun x hx e => hnlive (e ▸ hx)
  have hgets : w'.gets = sp :: w.gets := by rw [hw', SetActiveSlab_gets, hwi]; rfl
  have hrel : w'.released = w.released := by rw [hw', SetActiveSlab_released, hwi]; rfl
  have hlv : ∀ x, Live w' x ↔ Live w x ∨ x = sp := by
    intro x
    unfold Live
    rw [hgets, hrel]
    by_cases hx : x = sp
    · rw [hx, List.count_cons_self]
      constructor
      · intro _; exact Or.inr rfl
      · intro _; omega
    · rw [List.count_cons_of_ne hx]
      constructor
      · intro e; exact Or.inl e
      · rintro (e | e)
        · exact e
        · exact absurd e hx
  have hun : ∀ x, (w'.hdrs x).unlinked = (wi.hdrs x).unlinked := by
    intro x; rw [hw']; exact SetActiveSlab_unlinked c sp wi x
  have hio : ∀ x, x ≠ sp → wi.hdrs x = w.hdrs x := by
    intro x hx; rw [hwi]; exact Init_hdrs_other _ _ _ _ _ _ _ hx
  have huno : ∀ x, x ≠ sp → (w'.hdrs x).unlinked = (w.hdrs x).unlinked := by
    intro x hx; rw [hun x, hio x hx]
  have hsco : ∀ x, x ≠ sp → (w'.hdrs x).size_class = (w.hdrs x).size_class :=
    fun x hx => unlinked_size_class (huno x hx)
  have htago : ∀ x, x ≠ sp → (w'.hdrs x).aowner = (w.hdrs x).aowner :=
    fun x hx => unlinked_aowner (huno x hx)
  have hscs : (w'.hdrs sp).size_class = c := by
    rw [unlinked_size_class (hun sp), hwi, Init_hdrs_same]
  have htags : (w'.hdrs sp).aowner = w.core.me_active_ := by
    rw [unlinked_aowner (hun sp), hwi, Init_hdrs_same, h.tagA]
  have hfls : (w'.hdrs sp).flist = (Freelist.InitRange (sp + cfg.kSpanHeaderSize)
      (cfg.ClassToSize c) (cfg.ClassToObjects c) w.mem).1 := by
    rw [unlinked_flist (hun sp), hwi, Init_hdrs_same]
  have hoffs : (w'.hdrs sp).flist_aligned_blocksize_offset
      = (sp + cfg.kSpanHeaderSize) % cfg.ClassToSize c := by
    rw [(fields_of_unlinked (hun sp)).2.2.2.2, hwi, Init_hdrs_same]
  have hmem : w'.mem = (Freelist.InitRangeLoop (cfg.ClassToObjects c)
      (sp + cfg.kSpanHeaderSize) (cfg.ClassToSize c) 0 w.mem).2 := by
    rw [hw', SetActiveSlab_mem, hwi]; rfl
  have hcoreA : w'.core.me_active_ = w.core.me_active_ := by
    rw [hw', SetActiveSlab_me_active, hwi]; rfl
  have hcoreI : w'.core.me_inactive_ = w.core.me_inactive_ := by
    rw [hw', SetActiveSlab_me_inactive, hwi]; rfl
  have hcoreid : w'.core.id_ = w.core.id_ := by
    rw [hw', SetActiveSlab_id, hwi]; rfl
  have hhotc : w'.core.hot_span_ c = sp := by rw [hw']; exact SetActiveSlab_hot_same c sp wi
  have hhoto : ∀ d, d ≠ c → w'.core.hot_span_ d = w.core.hot_span_ d := by
    intro d hd; rw [hw', SetActiveSlab_hot_other c d sp wi hd, hwi]; rfl
  have hslow' : w'.core.slow_spans_ = w.core.slow_spans_ := by
    rw [hw', SetActiveSlab_slow, hwi]; rfl
  have hspec := InitRangeLoop_spec (cfg.ClassToSize c) (hcfg.size c hc) (cfg.ClassToObjects c)
    (sp + cfg.kSpanHeaderSize) 0 w.mem [] (by omega) (by omega) kWord_pos rfl
    (fun i _ y hy => by simp at hy)
  rw [← hmem] at hspec
  obtain ⟨hchain, hframe⟩ := hspec
  have hblk : ∀ y, y ∈ threaded (cfg.ClassToObjects c) (sp + cfg.kSpanHeaderSize)
      (cfg.ClassToSize c) [] ↔ IsBlock cfg sp c y := by
    intro y
    rw [mem_threaded]
    simp [IsBlock]
  have hgfo : ∀ y, IsBlock cfg sp c y → SpanHeader.GetFromObject cfg y = sp :=
    fun y hy => GetFromObject_block cfg hcfg sp c y hc hspal hy
  have hmemo : ∀ x, Live w x → ∀ y ∈ fl x, w'.mem.read y = w.mem.read y := by
    intro x hx y hy
    have hold := h.spans x hx
    have hyb := (hold.blocks y hy).1
    have hyx := GetFromObject_block cfg hcfg x _ y hold.cls hold.aligned hyb
    apply hframe
    intro i hi
    have hib : IsBlock cfg sp c (sp + cfg.kSpanHeaderSize + i * cfg.ClassToSize c) :=
      ⟨i, hi, rfl⟩
    have hne : y ≠ sp + cfg.kSpanHeaderSize + i * cfg.ClassToSize c := by
      intro e
      have := hgfo y ⟨i, hi, e⟩
      exact hlne x hx (hyx.symm.trans this)
    have := IsBlock_apart cfg hcfg sp c _ x _ y hc hold.cls hspal hold.aligned
      (fun e => absurd e.symm (hlne x hx)) hib hyb hne
    omega
  have hout_sp : ∀ b ∈ out, SpanHeader.GetFromObject cfg b ≠ sp :=
    fun b hb => hlne _ (h.outs b hb).1
  have hcli : ∀ d, CoolList wi d (cool d) := fun d =>
    CoolList_congr (by rw [hwi]; rfl) (fun x hx => by
      rw [hio x (hlne x ((h.coolOK d).2 x hx).1)]; exact ⟨rfl, rfl⟩) (h.coolOK d).1
  have hihot : wi.core.hot_span_ = w.core.hot_span_ := by rw [hwi]; rfl
  have hicool : wi.core.cool_spans_ = w.core.cool_spans_ := by rw [hwi]; rfl
  exact
    { id_small := by rw [hcoreid]; exact h.id_small
      tagA := by rw [hcoreA, hcoreid]; exact h.tagA
      tagI := by rw [hcoreI, hcoreid]; exact h.tagI
      poolEmpty := by rw [hw', SetActiveSlab_pool, hwi]; exact h.poolEmpty
      counts := by
        intro x
        by_cases hx : x = sp
        · exact Or.inr ((hlv x).2 (Or.inr hx))
        · rcases h.counts x with e | e
          · left; rw [hgets, hrel, List.count_cons_of_ne hx]; exact e
          · exact Or.inr ((hlv x).2 (Or.inl e))
      spans := by
        intro x hx
        by_cases hxs : x = sp
        · rw [hxs, upd_same]
          exact
            { nonnull := hsp0
              aligned := hspal
              inside := hspin
              cls := by rw [hscs]; exact hc
              tag := Or.inl (by rw [htags, hcoreA])
              cap := by rw [hfls, hscs]; rfl
              off := by rw [hoffs, hscs]
              len := by rw [hfls, length_threaded]; rfl
              chain := by rw [hfls]; exact hchain
              nodup := nodup_threaded _ hsize _ _ [] List.nodup_nil (fun i _ => by simp)
              blocks := by
                intro y hy
                rw [hscs]
                have hyb := (hblk y).1 hy
                exact ⟨hyb, fun hyo => hout_sp y hyo (hgfo y hyb)⟩
              total := by
                rw [hscs, length_threaded]
                have : outIn cfg out sp = 0 := by
                  unfold outIn
                  rw [List.countP_eq_zero]
                  intro b hb
                  simpa using hout_sp b hb
                rw [this]; rfl
              hot := by rw [hscs, hhotc]; exact hsp0
              inactive := fun e => absurd (htags.symm.trans (e.trans hcoreI)) hneAI }
        · have hx' : Live w x := ((hlv x).1 hx).resolve_right hxs
          rw [upd_other _ _ _ _ hxs]
          refine SpanOK_transfer (h.spans x hx') (huno x hxs) hcoreA hcoreI (hmemo x hx') ?_
          by_cases hd : (w.hdrs x).size_class = c
          · rw [hd, hhotc]; exact hsp0
          · rw [hhoto _ hd]; exact (h.spans x hx').hot
      out_nodup := h.out_nodup
      outs := by
        intro b hb
        obtain ⟨k1, k2⟩ := h.outs b hb
        exact ⟨(hlv _).2 (Or.inl k1), by rw [hsco _ (hlne _ k1)]; exact k2⟩
      hotOK := by
        intro d hd
        by_cases hdc : d = c
        · rw [hdc, hhotc]
          exact ⟨(hlv _).2 (Or.inr rfl), hscs, by rw [htags, hcoreA]⟩
        · rw [hhoto d hdc] at hd ⊢
          obtain ⟨k1, k2, k3⟩ := h.hotOK d hd
          exact ⟨(hlv _).2 (Or.inl k1), by rw [hsco _ (hlne _ k1)]; exact k2,
            by rw [htago _ (hlne _ k1), hcoreA]; exact k3⟩
      coolOK := by
        intro d
        have hold : ∀ x ∈ cool d, Live w' x ∧ (w'.hdrs x).size_class = d ∧
            (w'.hdrs x).aowner = w'.core.me_active_ := by
          intro x hx
          obtain ⟨k1, k2, k3, -⟩ := (h.coolOK d).2 x hx
          exact ⟨(hlv _).2 (Or.inl k1), by rw [hsco _ (hlne _ k1)]; exact k2,
            by rw [htago _ (hlne _ k1), hcoreA]; exact k3⟩
        by_cases hdc : d = c
        · rw [hdc, upd_same, hhotc]
          by_cases hh0 : w.core.hot_span_ c = 0
          · rw [if_pos hh0]
            refine ⟨?_, fun x hx => ?_⟩
            · rw [hw', SetActiveSlab_cool_same c sp wi (by rw [hihot]; exact hh0)]
              exact CoolList_congr rfl (fun x _ => ⟨rfl, rfl⟩) (hcli c)
            · have := hold x (by rw [hdc]; exact hx)
              rw [hdc] at this
              exact ⟨this.1, this.2.1, this.2.2, hlne x ((h.coolOK c).2 x hx).1⟩
          · rw [if_neg hh0]
            obtain ⟨k1, k2, k3⟩ := h.hotOK c hh0
            have hnl : wi.core.hot_span_ c ∉ cool c := by
              rw [hihot]; exact fun hm => ((h.coolOK c).2 _ hm).2.2.2 rfl
            have hcl := SetActiveSlab_CoolList c sp wi (cool c) (hcli c)
              (by rw [hihot]; exact hh0) hnl
            rw [hihot] at hcl
            refine ⟨by rw [hw']; exact hcl, fun x hx => ?_⟩
            rcases List.mem_cons.1 hx with e | e
            · rw [e]
              exact ⟨(hlv _).2 (Or.inl k1), by rw [hsco _ (hlne _ k1)]; exact k2,
                by rw [htago _ (hlne _ k1), hcoreA]; exact k3, hlne _ k1⟩
            · have := hold x (by rw [hdc]; exact e)
              rw [hdc] at this
              exact ⟨this.1, this.2.1, this.2.2, hlne x ((h.coolOK c).2 x e).1⟩
        · rw [upd_other _ _ _ _ hdc, hhoto d hdc]
          have hhead := DLL_head (h.coolOK c).1.1
          have h1 : wi.core.hot_span_ c ∉ cool d := by
            rw [hihot]; intro hm
            have hh0 : w.core.hot_span_ c ≠ 0 := DLL_nonzero (h.coolOK d).1.1 _ hm
            exact hdc ((h.cool_class hm).symm.trans (h.hotOK c hh0).2.1)
          have h2 : wi.core.cool_spans_ c ∉ cool d := by
            rw [hicool]; intro hm
            rcases headD_mem_or (cool c) 0 with ⟨e, -⟩ | e
            · rw [hhead, e] at hm
              exact DLL_nonzero (h.coolOK d).1.1 0 hm rfl
            · rw [← hhead] at e
              exact hdc ((h.cool_class hm).symm.trans (h.cool_class e))
          have h3 : wi.core.cool_spans_ c ≠ wi.core.hot_span_ c ∨ wi.core.hot_span_ c = 0 := by
            rw [hicool, hihot]
            by_cases hh0 : w.core.hot_span_ c = 0
            · exact Or.inr hh0
            · left
              rcases headD_mem_or (cool c) 0 with ⟨e, -⟩ | e
              · rw [hhead, e]; exact Ne.symm hh0
              · rw [← hhead] at e
                exact ((h.coolOK c).2 _ e).2.2.2
          have hcl := SetActiveSlab_CoolList_other c d sp wi (cool d) hdc (hcli d) h1 h2 h3
          refine ⟨by rw [hw']; exact hcl, fun x hx => ?_⟩
          have := hold x hx
          exact ⟨this.1, this.2.1, this.2.2, ((h.coolOK d).2 x hx).2.2.2⟩
      slowOK := by
        intro d
        rw [hslow']
        refine ⟨(h.slowOK d).1, fun x hx => ?_⟩
        obtain ⟨k1, k2, k3⟩ := (h.slowOK d).2 x hx
        exact ⟨(hlv _).2 (Or.inl k1), by rw [hsco _ (hlne _ k1)]; exact k2,
          by rw [htago _ (hlne _ k1), hcoreI]; exact k3⟩
      active := by
        intro x hx ht
        by_cases hxs : x = sp
        · left; rw [hxs, hscs, hhotc]
        · have hx' : Live w x := ((hlv x).1 hx).resolve_right hxs
          rw [htago x hxs, hcoreA] at ht
          rw [hsco x hxs]
          by_cases hd : (w.hdrs x).size_class = c
          · right
            rw [hd, upd_same]
            rcases h.active x hx' ht with e | e
            · rw [hd] at e
              have hh0 : w.core.hot_span_ c ≠ 0 := by
                rw [← e]; exact (h.spans x hx').nonnull
              rw [if_neg hh0, ← e]; exact List.mem_cons_self _ _
            · rw [hd] at e
              split_ifs
              · exact e
              · exact List.mem_cons_of_mem _ e
          · rw [hhoto _ hd, upd_other _ _ _ _ hd]
            exact h.active x hx' ht
      inactive := by
        intro x hx ht hf
        have hxs : x ≠ sp := by
          intro e
          have h1 := htags
          rw [← e, ht, hcoreI] at h1
          exact hneAI h1.symm
        have hx' : Live w x := ((hlv x).1 hx).resolve_right hxs
        rw [htago x hxs, hcoreI] at ht
        rw [hsco x hxs, hslow']
        exact h.inactive x hx' ht hf
      noslow := by
        intro hf d
        rw [hslow']
        exact h.noslow hf d }

/-! ## The invariant along `Free` -/

theorem Utilization_congr {f g : Freelist} (hc : f.cap_ = g.cap_) (hl : f.len_ = g.len_) :
    f.Utilization = g.Utilization := by
  unfold Freelist.Utilization; rw [hc, hl]

/-- The utilization of a held span only depends on its class and on the number of its
free blocks. -/
theorem SpanOK_util {cfg : Config} {w w' : World} {out out' fl fl' : List Nat} {s : Nat}
    (h : SpanOK cfg w out fl s) (h' : SpanOK cfg w' out' fl' s)
    (hc : (w'.hdrs s).size_class = (w.hdrs s).size_class) (hl : fl'.length = fl.length) :
    (w'.hdrs s).Utilization = (w.hdrs s).Utilization := by
  unfold SpanHeader.Utilization
  exact Utilization_congr (by rw [h'.cap, h.cap, hc]) (by rw [h'.len, h.len, hl])

/-- The utilization bound of the cool spans carries over from one world of a run to
another: for the spans that stay cool with as many free blocks, and for spans that enter a
cool list with enough utilization. -/
theorem CoolUtil_step {cfg : Config} {w w' : World} {out out' : List Nat}
    {cool cool' : Nat → List Nat} {fl fl' : Nat → List Nat}
    (h : Inv cfg w out cool fl) (h' : Inv cfg w' out' cool' fl') (hU : CoolUtil cfg w cool)
    (hstep : ∀ d, ∀ x ∈ cool' d, (x ∈ cool d ∧ (fl' x).length = (fl x).length) ∨
      ∃ u, (w'.hdrs x).Utilization = .ok u ∧ cfg.kSpanReuseThreshold ≤ u) :
    CoolUtil cfg w' cool' := by
  intro d x hx
  rcases hstep d x hx with ⟨hxc, hl⟩ | hnew
  · obtain ⟨k1, k2, -, -⟩ := (h.coolOK d).2 x hxc
    obtain ⟨j1, j2, -, -⟩ := (h'.coolOK d).2 x hx
    rw [SpanOK_util (h.spans x k1) (h'.spans x j1) (j2.trans k2.symm) hl]
    exact hU d x hxc
  · exact hnew

theorem pushBlock_modHdr_aowner (s b a : Nat) (w : World) :
    pushBlock s b (w.modHdr s (fun h => { h with aowner := a })) =
      (pushBlock s b w).modHdr s (fun h => { h with aowner := a }) := by
  apply World.ext_fields
  · rfl
  · funext x
    simp only [pushBlock_hdrs, modHdr_hdrs, upd_upd, modHdr_mem, upd_same]
  · simp only [pushBlock_mem, modHdr_mem, modHdr_hdrs, upd_same]
  · rfl
  · rfl
  · rfl

theorem modHdr_aowner_self (s a : Nat) (w : World) (ha : (w.hdrs s).aowner = a) :
    w.modHdr s (fun h => { h with aowner := a }) = w := by
  apply World.ext_fields
  · rfl
  · funext x
    rw [modHdr_apply]
    split_ifs with e
    · rw [e, ← ha]
    · rfl
  · rfl
  · rfl
  · rfl
  · rfl

theorem modHdr_modHdr_aowner (s a a2 : Nat) (w : World) (f : Nat → Nat) (hf : f a = a2) :
    (w.modHdr s (fun h => { h with aowner := a })).modHdr s
        (fun h => { h with aowner := f h.aowner }) =
      w.modHdr s (fun h => { h with aowner := a2 }) := by
  apply World.ext_fields
  · rfl
  · funext x
    simp only [modHdr_hdrs, upd_upd, upd_same, hf]
  · rfl
  · rfl
  · rfl
  · rfl

theorem Full_iff (f : Freelist) : f.Full = true ↔ f.len_ = f.cap_ := by
  simp [Freelist.Full]

/-- `Free` of a handed-out block keeps the invariant; it fetches no span, and it keeps the
utilization bound of the cool spans under the thresholds of `ThreshOK`. The tag it reads is
one of the two tags of the frontend. -/
theorem Inv_Free {cfg : Config} (hcfg : WFConfig cfg) {w : World} {out : List Nat}
    {cool : Nat → List Nat} {fl : Nat → List Nat} (h : Inv cfg w out cool fl)
    (b k : Nat) (hb : b ∈ out)
    (hk : k < cfg.ClassToSize (w.hdrs (SpanHeader.GetFromObject cfg b)).size_class)
    (w' : World)
    (hF : Free cfg (b + k) (SpanHeader.GetFromObject cfg b) w = .ok w') :
    ∃ cool' fl', Inv cfg w' (out.erase b) cool' fl' ∧
      (ThreshOK cfg → CoolUtil cfg w cool → CoolUtil cfg w' cool') := by
  obtain ⟨hlive, hblk⟩ := h.outs b hb
  generalize hs : SpanHeader.GetFromObject cfg b = s at *
  have hok := h.spans s hlive
  have hbase : blockBase cfg w (b + k) s = b :=
    blockBase_block cfg hcfg w out (fl s) s b k hok hblk hk
  have h1 : Inv cfg (pushBlock s b w) (out.erase b) cool (upd fl s (b :: fl s)) := by
    have := Inv_push hcfg h b hb
    rw [hs] at this
    exact this
  have hneAI := me_ne cfg h
  have hlive1 : Live (pushBlock s b w) s := (Live_congr rfl rfl s).2 hlive
  have hcls1 : ((pushBlock s b w).hdrs s).size_class = (w.hdrs s).size_class :=
    pushBlock_size_class s b w s
  have htag1 : ((pushBlock s b w).hdrs s).aowner = (w.hdrs s).aowner :=
    pushBlock_aowner s b w s
  have hok1 := h1.spans s hlive1
  have hfl1 : (upd fl s (b :: fl s)) s = b :: fl s := upd_same _ _ _
  have hflo : ∀ x, x ≠ s → (upd fl s (b :: fl s)) x = fl x := fun x hx => upd_other _ _ _ _ hx
  have hAP : afterActivePush cfg w (b + k) s = pushBlock s b w := by
    unfold afterActivePush; rw [hbase]
  have hIP : afterInactivePush cfg w (b + k) s =
      (pushBlock s b w).modHdr s (fun h => { h with aowner := w.core.me_active_ }) := by
    unfold afterInactivePush; rw [hbase, pushBlock_modHdr_aowner]
  have hfullen : ((pushBlock s b w).hdrs s).flist.Full = true →
      ((upd fl s (b :: fl s)) s).length
        = cfg.ClassToObjects ((pushBlock s b w).hdrs s).size_class := by
    intro hf
    rw [Full_iff, hok1.len, hok1.cap] at hf
    exact hf
  have hcoolne : ∀ d, ∀ x ∈ cool d, (w.hdrs s).aowner = w.core.me_inactive_ → x ≠ s := by
    intro d x hx hi e
    exact hneAI (by rw [← ((h.coolOK d).2 x hx).2.2.1, e, hi])
  obtain ⟨-, -, hcase⟩ := Free_inv cfg w w' (b + k) s hF
  cases hcase with
  | remote ha hi => exact absurd hok.tag (by rintro (e | e); exact ha e; exact hi e)
  | keep ha hk2 =>
    rw [hAP] at hk2 ⊢
    refine ⟨cool, _, h1, fun _ hU => CoolUtil_step h h1 hU (fun d x hx => ?_)⟩
    by_cases hxs : x = s
    · right
      rcases hk2 with e | e
      · exfalso
        obtain ⟨-, k2, -, k4⟩ := (h.coolOK d).2 x hx
        rw [hxs] at k2 k4
        rw [k2] at e
        exact k4 e
      · obtain ⟨u, hu, hnlt⟩ := e
        rw [hxs]
        exact ⟨u, hu, by omega⟩
    · exact Or.inl ⟨hx, by rw [hflo x hxs]⟩
  | release u ha hhot hu hlt hfull =>
    rw [hAP] at hfull ⊢
    have hrel := Inv_release_cool h1 s hlive1 (by rw [htag1]; exact ha)
      (by rw [hcls1]; exact hhot) (hfullen hfull)
    rw [hcls1] at hrel
    refine ⟨_, _, hrel, fun _ hU => CoolUtil_step h hrel hU (fun d x hx => ?_)⟩
    left
    by_cases hd : d = (w.hdrs s).size_class
    · rw [hd, upd_same] at hx
      have hxs : x ≠ s :=
        ((List.Nodup.mem_erase_iff (h.coolOK (w.hdrs s).size_class).1.2).1 hx).1
      exact ⟨by rw [hd]; exact List.mem_of_mem_erase hx, by rw [hflo x hxs]⟩
    · rw [upd_other _ _ _ _ hd] at hx
      have hxs : x ≠ s := fun e => hd (by rw [← h.cool_class hx, e])
      exact ⟨hx, by rw [hflo x hxs]⟩
  | demote u ha hhot hu hlt hfull =>
    rw [hAP]
    have hdem := Inv_demote h1 s hlive1 (by rw [htag1]; exact ha)
      (by rw [hcls1]; exact hhot) (by rw [hfl1]; simp)
    rw [hcls1] at hdem
    refine ⟨_, _, hdem, fun _ hU => CoolUtil_step h hdem hU (fun d x hx => ?_)⟩
    left
    by_cases hd : d = (w.hdrs s).size_class
    · rw [hd, upd_same] at hx
      have hxs : x ≠ s :=
        ((List.Nodup.mem_erase_iff (h.coolOK (w.hdrs s).size_class).1.2).1 hx).1
      exact ⟨by rw [hd]; exact List.mem_of_mem_erase hx, by rw [hflo x hxs]⟩
    · rw [upd_other _ _ _ _ hd] at hx
      have hxs : x ≠ s := fun e => hd (by rw [← h.cool_class hx, e])
      exact ⟨hx, by rw [hflo x hxs]⟩
  | promote u w3 ha hi hcur hu hgt hrm =>
    rw [hIP] at hrm hu
    obtain ⟨w3', e3, k1, k2, k3, k4, k5, k6, k7, k8, k9, k10, k11⟩ :=
      RemoveSlowSpan_of_mem cfg (w.hdrs s).size_class s
        ((pushBlock s b w).modHdr s (fun h => { h with aowner := w.core.me_active_ }))
        (fun hf => h.inactive s hlive hi hf)
    rw [hrm] at e3
    cases e3
    have hact := Inv_activate h1 s hlive1 (by rw [htag1]; exact hi) w3
      (fun x => by rw [k1, modHdr_apply]; rfl) k2 k3 k4 k5 k6 k7 k8 k9 k10
      (by rw [k11, hcls1]; rfl)
    rw [hcls1] at hact
    simp only [pushBlock_core] at hact
    refine ⟨_, _, hact, fun hT hU => CoolUtil_step h hact hU (fun d x hx => ?_)⟩
    have hold : ∀ x ∈ cool d, x ∈ cool d ∧
        ((upd fl s (b :: fl s)) x).length = (fl x).length :=
      fun x hx => ⟨hx, by rw [hflo x (hcoolne d x hx hi)]⟩
    by_cases hd : d = (w.hdrs s).size_class
    · rw [hd, upd_same] at hx
      rcases List.mem_cons.1 hx with e | e
      · right
        have hhs : w.core.hot_span_ (w.hdrs s).size_class ≠ s := by
          intro e2
          exact ha (by rw [← (h.hotOK _ hcur).2.2, e2])
        have hxs : x ≠ s := by rw [e]; exact hhs
        have hxl : Live w x := by rw [e]; exact (h.hotOK _ hcur).1
        have hxc : (w.hdrs x).size_class = (w.hdrs s).size_class := by
          rw [e]; exact (h.hotOK _ hcur).2.1
        have hx' := ((hact.coolOK (w.hdrs s).size_class).2 x (by rw [upd_same]; exact hx))
        have hutil : (w3.hdrs x).Utilization = .ok u := by
          rw [← hu, k1, e]
        refine ⟨u, ?_, by have := hT.2; omega⟩
        rw [← hutil]
        unfold SpanHeader.Utilization
        exact Utilization_congr
          (by rw [(hact.spans x hx'.1).cap, hx'.2.1, k1, modHdr_apply, if_neg hxs,
            pushBlock_cap, (h.spans x hxl).cap, hxc])
          (by rw [(hact.spans x hx'.1).len, hflo x hxs, k1, modHdr_apply,
            if_neg hxs, pushBlock_hdrs, upd_other _ _ _ _ hxs, (h.spans x hxl).len])
      · rw [← hd] at e
        exact Or.inl (hold x e)
    · rw [upd_other _ _ _ _ hd] at hx
      exact Or.inl (hold x hx)
  | retire u w3 ha hi hcur hu hle hfull hrm =>
    rw [hIP] at hrm hfull
    obtain ⟨w3', e3, k1, k2, k3, k4, k5, k6, k7, k8, k9, k10, k11⟩ :=
      RemoveSlowSpan_of_mem cfg (w.hdrs s).size_class s
        ((pushBlock s b w).modHdr s (fun h => { h with aowner := w.core.me_active_ }))
        (fun hf => h.inactive s hlive hi hf)
    rw [hrm] at e3
    cases e3
    have hfull1 : ((pushBlock s b w).hdrs s).flist.Full = true := by
      rw [← hfull, modHdr_hdrs_same]
    have hret := Inv_retire h1 s hlive1 (by rw [htag1]; exact hi) (hfullen hfull1) w3
      (fun x => by rw [k1, modHdr_apply]; rfl) k2 k3 k4 k5 k6 k7 k8 k9 k10
      (by rw [k11, hcls1]; rfl)
    refine ⟨_, _, hret, fun _ hU => CoolUtil_step h hret hU (fun d x hx => ?_)⟩
    exact Or.inl ⟨hx, by rw [hflo x (hcoolne d x hx hi)]⟩
  | stay u ha hi hcur hu hle hfull =>
    rw [hIP]
    have hcl : ActiveOwner.clearActive w.core.me_active_ = w.core.me_inactive_ := by
      rw [h.tagA, h.tagI, clearActive_Reset]
    rw [modHdr_modHdr_aowner s _ _ _ ActiveOwner.clearActive hcl,
      modHdr_aowner_self s _ _ (by rw [htag1]; exact hi)]
    refine ⟨cool, _, h1, fun _ hU => CoolUtil_step h h1 hU (fun d x hx => ?_)⟩
    exact Or.inl ⟨hx, by rw [hflo x (hcoolne d x hx hi)]⟩

/-! ## The invariant along `Allocate` -/

theorem modHdr_flist_self (s : Nat) (w : World) (f : Freelist) (hf : f = (w.hdrs s).flist) :
    w.modHdr s (fun h => { h with flist := f }) = w := by
  apply World.ext_fields
  · rfl
  · funext x
    rw [modHdr_apply]
    split_ifs with e
    · rw [e, hf]
    · rfl
  · rfl
  · rfl
  · rfl
  · rfl

theorem AllocateInSizeClassWith_pop (noSlab : World → Except Fault (Nat × World)) (sc : Nat)
    (w : World) (hhot : w.core.hot_span_ sc ≠ 0)
    (hne : (w.hdrs (w.core.hot_span_ sc)).flist.list_ ≠ 0) :
    AllocateInSizeClassWith noSlab sc w =
      .ok ((w.hdrs (w.core.hot_span_ sc)).flist.list_,
        w.modHdr (w.core.hot_span_ sc) (fun h =>
          { h with flist := ((w.hdrs (w.core.hot_span_ sc)).flist.Pop w.mem).2 })) := by
  simp [AllocateInSizeClassWith, hhot, Freelist.Pop, hne]

theorem AllocateInSizeClassWith_empty (noSlab : World → Except Fault (Nat × World)) (sc : Nat)
    (w : World)
    (h : w.core.hot_span_ sc = 0 ∨ (w.hdrs (w.core.hot_span_ sc)).flist.list_ = 0) :
    AllocateInSizeClassWith noSlab sc w = noSlab w := by
  unfold AllocateInSizeClassWith
  by_cases hhot : w.core.hot_span_ sc = 0
  · simp [hhot]
  · have hl : (w.hdrs (w.core.hot_span_ sc)).flist.list_ = 0 := h.resolve_left hhot
    have hpop : (w.hdrs (w.core.hot_span_ sc)).flist.Pop w.mem
        = (0, (w.hdrs (w.core.hot_span_ sc)).flist) := by
      simp [Freelist.Pop, hl]
    simp only [hhot, if_false, hpop, ne_eq, not_true_eq_false]
    rw [modHdr_flist_self _ _ _ rfl]

theorem AllocateNoSlab_refill (cfg : Config) (sc : Nat) (r : Round) (rs : List Round)
    (w w2 : World) (hsc : sc ≠ 0) (hbp : r.bp_block = 0) (hre : Refill cfg sc r w = .ok w2) :
    AllocateNoSlab cfg sc (r :: rs) w =
      AllocateInSizeClassWith (AllocateNoSlab cfg sc rs) sc w2 := by
  simp [AllocateNoSlab, hsc, hbp, BlockPoolAllocate, hre]

theorem Refill_slow (cfg : Config) (sc : Nat) (r : Round) (w : World) (s : Nat)
    (post : List Nat) (hf : cfg.REUSE_SLOW_SPANS = true)
    (hsl : w.core.slow_spans_ sc = s :: post) (hs0 : s ≠ 0) (hq : Reclaimable sc w s) :
    Refill cfg sc r w = .ok (SetActiveSlab sc s
      ((w.modCore (fun c2 => { c2 with slow_spans_ := upd c2.slow_spans_ sc post })).modHdr s
        (fun h => { h with aowner := w.core.me_active_ }))) := by
  have := RefillSlow_found sc s post [] w (fun x hx => by simp at hx) hs0 hq
  rw [List.nil_append] at this
  unfold Refill
  simp only [hf, if_true, hsl, this]
  rfl

theorem Refill_fresh (cfg : Config) (sc : Nat) (r : Round) (w : World)
    (hsl : cfg.REUSE_SLOW_SPANS = true → w.core.slow_spans_ sc = []) (hsp : r.sp_span ≠ 0) :
    Refill cfg sc r w = .ok (SetActiveSlab sc r.sp_span
      (SpanHeader.Init cfg r.sp_span sc w.core.id_ r.sp_reusable
        { w with gets := r.sp_span :: w.gets })) := by
  unfold Refill
  cases hf : cfg.REUSE_SLOW_SPANS with
  | false =>
    simp only [Bool.false_eq_true, if_false]
    simp only [bind, Except.bind, pure, Except.pure, Bool.false_eq_true, if_false, hsp]
  | true =>
    simp only [if_true, hsl hf, RefillSlow]
    simp only [bind, Except.bind, pure, Except.pure, Bool.false_eq_true, if_false, hsp]

theorem owner_Reset (b : Bool) (id : Nat) (h : id < 2 ^ 63) :
    ActiveOwner.owner (ActiveOwner.Reset b id) = id := by
  unfold ActiveOwner.owner ActiveOwner.Reset
  have : id % 2 ^ 63 = id := Nat.mod_eq_of_lt h
  rw [this]
  cases b
  · simp
  · simp; omega

theorem Utilization_empty (f : Freelist) (hc : f.cap_ ≠ 0) (hl : f.len_ = 0) :
    f.Utilization = .ok 100 := by
  unfold Freelist.Utilization
  rw [if_neg hc, hl]
  simp [kWord]

theorem Chain_nil_iff {m : Mem} {p : Nat} {l : List Nat} (h : Chain m p l) :
    p = 0 ↔ l = [] := by
  cases l with
  | nil => exact ⟨fun _ => rfl, fun _ => h⟩
  | cons x xs => exact ⟨fun e => absurd (h.1 ▸ e) h.2.1, fun e => by cases e⟩

/-- `Refill` in a world of a run: it returns with a hot span that has a free block, and
the invariant is kept. The old hot span, if any, is the only span that enters a cool list. -/
theorem Inv_Refill {cfg : Config} (hcfg : WFConfig cfg) {w : World} {out : List Nat}
    {cool : Nat → List Nat} {fl : Nat → List Nat} (h : Inv cfg w out cool fl)
    (sc : Nat) (hsc : sc ≠ 0) (r : Round) (hfresh : FreshSpan cfg w r.sp_span) :
    ∃ w2 cool2 fl2, Refill cfg sc r w = .ok w2 ∧ Inv cfg w2 out cool2 fl2 ∧
      w2.core.hot_span_ sc ≠ 0 ∧ fl2 (w2.core.hot_span_ sc) ≠ [] ∧
      (∀ d, ∀ x ∈ cool2 d, fl2 x = fl x ∧ w2.core.hot_span_ sc ≠ x ∧
        (x ∈ cool d ∨ (x = w.core.hot_span_ sc ∧ Live w x))) ∧
      ((w2.gets = r.sp_span :: w.gets ∧ w2.core.slow_spans_ = w.core.slow_spans_ ∧
          (cfg.REUSE_SLOW_SPANS = true → w.core.slow_spans_ sc = []) ∧
          (fl2 (w2.core.hot_span_ sc)).length = cfg.ClassToObjects sc) ∨
        (cfg.REUSE_SLOW_SPANS = true ∧ w.core.slow_spans_ sc ≠ [] ∧ w2.gets = w.gets)) := by
  by_cases hfs : cfg.REUSE_SLOW_SPANS = true ∧ w.core.slow_spans_ sc ≠ []
  · obtain ⟨hf, hne⟩ := hfs
    obtain ⟨s, post, hsl⟩ : ∃ s post, w.core.slow_spans_ sc = s :: post := by
      cases hl : w.core.slow_spans_ sc with
      | nil => exact absurd hl hne
      | cons s post => exact ⟨s, post, rfl⟩
    obtain ⟨k1, k2, k3⟩ := (h.slowOK sc).2 s (by rw [hsl]; exact List.mem_cons_self _ _)
    have hok := h.spans s k1
    have hq : Reclaimable sc w s :=
      ⟨by rw [k3, h.tagI]; exact owner_Reset false _ h.id_small, k2, k3⟩
    have hre := Refill_slow cfg sc r w s post hf hsl hok.nonnull hq
    have hact := Inv_activate h s k1 k3
      ((w.modCore (fun c2 => { c2 with slow_spans_ := upd c2.slow_spans_ sc post })).modHdr s
        (fun h => { h with aowner := w.core.me_active_ }))
      (fun x => by rw [modHdr_apply]; rfl) rfl rfl rfl rfl rfl rfl rfl rfl rfl
      (by rw [k2, hsl, if_pos hf, List.erase_cons_head]; rfl)
    rw [k2] at hact
    have hhot2 : (SetActiveSlab sc s
        ((w.modCore (fun c2 => { c2 with slow_spans_ := upd c2.slow_spans_ sc post })).modHdr s
          (fun h => { h with aowner := w.core.me_active_ }))).core.hot_span_ sc = s :=
      SetActiveSlab_hot_same _ _ _
    have hneAI := me_ne cfg h
    have hhot0 : w.core.hot_span_ sc ≠ 0 := by have := hok.hot; rw [k2] at this; exact this
    refine ⟨_, _, fl, hre, hact, by rw [hhot2]; exact hok.nonnull, ?_, ?_, Or.inr ⟨hf, hne, ?_⟩⟩
    · rw [hhot2]
      intro e
      have := hok.inactive k3
      rw [e] at this
      simp at this
    · intro d x hx
      rw [hhot2]
      by_cases hd : d = sc
      · rw [hd, upd_same] at hx
        rcases List.mem_cons.1 hx with e | e
        · have hxa := (h.hotOK sc hhot0)
          refine ⟨rfl, ?_, Or.inr ⟨e, by rw [e]; exact hxa.1⟩⟩
          intro e2
          exact hneAI (by rw [← hxa.2.2, ← e, ← e2, k3])
        · refine ⟨rfl, ?_, Or.inl (by rw [hd]; exact e)⟩
          intro e2
          exact hneAI (by rw [← ((h.coolOK sc).2 x e).2.2.1, ← e2, k3])
      · rw [upd_other _ _ _ _ hd] at hx
        refine ⟨rfl, ?_, Or.inl hx⟩
        intro e2
        exact hneAI (by rw [← ((h.coolOK d).2 x hx).2.2.1, ← e2, k3])
    · rw [SetActiveSlab_gets]; rfl
  · have hsl : cfg.REUSE_SLOW_SPANS = true → w.core.slow_spans_ sc = [] := by
      intro hf
      by_contra hne
      exact hfs ⟨hf, hne⟩
    have hre := Refill_fresh cfg sc r w hsl hfresh.1
    have hfr := Inv_fresh hcfg h sc r.sp_span r.sp_reusable hsc hfresh
    have hhot2 : (SetActiveSlab sc r.sp_span
        (SpanHeader.Init cfg r.sp_span sc w.core.id_ r.sp_reusable
          { w with gets := r.sp_span :: w.gets })).core.hot_span_ sc = r.sp_span :=
      SetActiveSlab_hot_same _ _ _
    have hnlive : ¬ Live w r.sp_span := by
      have := hfresh.2.2.2
      unfold Live; omega
    have hobj := hcfg.objects sc hsc
    refine ⟨_, _, _, hre, hfr, by rw [hhot2]; exact hfresh.1, ?_, ?_, Or.inl ⟨?_, ?_, hsl, ?_⟩⟩
    · rw [hhot2, upd_same]
      intro e
      have := congrArg List.length e
      rw [length_threaded] at this
      simp at this
      omega
    · intro d x hx
      rw [hhot2]
      have hmem : x ∈ cool d ∨ (x = w.core.hot_span_ sc ∧ Live w x) := by
        by_cases hd : d = sc
        · rw [hd, upd_same] at hx
          by_cases hh0 : w.core.hot_span_ sc = 0
          · rw [if_pos hh0] at hx; left; rw [hd]; exact hx
          · rw [if_neg hh0] at hx
            rcases List.mem_cons.1 hx with e | e
            · exact Or.inr ⟨e, by rw [e]; exact (h.hotOK sc hh0).1⟩
            · left; rw [hd]; exact e
        · rw [upd_other _ _ _ _ hd] at hx
          exact Or.inl hx
      have hxl : Live w x := by
        rcases hmem with e | e
        · exact ((h.coolOK d).2 x e).1
        · exact e.2
      have hxs : x ≠ r.sp_span := fun e => hnlive (e ▸ hxl)
      exact ⟨upd_other _ _ _ _ hxs, Ne.symm hxs, hmem⟩
    · rw [SetActiveSlab_gets]; rfl
    · rw [SetActiveSlab_slow]; rfl
    · rw [hhot2, upd_same, length_threaded]; rfl

/-- `Allocate` in a world of a run, with answers the collaborators can give: it returns,
with null exactly for class 0, and the invariant is kept with the returned block handed
out. For a class other than 0 the hot span is non-null afterwards and one of three things
happened: a block was popped from the hot span; or the hot span was missing or exhausted,
no slow span was there, and a span was fetched from the Span Pool; or a slow span was
taken back. The utilization bound of the cool spans is kept under `ThreshOK`. -/
theorem Inv_Allocate {cfg : Config} (hcfg : WFConfig cfg) {w : World} {out : List Nat}
    {cool : Nat → List Nat} {fl : Nat → List Nat} (h : Inv cfg w out cool fl)
    (size : Nat) (r : Round) (rest : List Round)
    (hr : ValidRound cfg w (cfg.SizeToClass size) r) :
    ∃ p w', Allocate cfg size (r :: rest) w = .ok (p, w') ∧
      (p = 0 ↔ cfg.SizeToClass size = 0) ∧
      ∃ cool' fl', Inv cfg w' (if p = 0 then out else p :: out) cool' fl' ∧
        (ThreshOK cfg → CoolUtil cfg w cool → CoolUtil cfg w' cool') ∧
        (cfg.SizeToClass size ≠ 0 →
          w'.core.hot_span_ (cfg.SizeToClass size) ≠ 0 ∧
          ((w.core.hot_span_ (cfg.SizeToClass size) ≠ 0 ∧
              fl (w.core.hot_span_ (cfg.SizeToClass size)) ≠ [] ∧
              w'.gets = w.gets ∧ w'.core.slow_spans_ = w.core.slow_spans_ ∧
              w'.core.hot_span_ (cfg.SizeToClass size)
                = w.core.hot_span_ (cfg.SizeToClass size) ∧
              (fl' (w'.core.hot_span_ (cfg.SizeToClass size))).length + 1
                = (fl (w.core.hot_span_ (cfg.SizeToClass size))).length) ∨
            (w'.gets = r.sp_span :: w.gets ∧ w'.core.slow_spans_ = w.core.slow_spans_ ∧
              (w.core.hot_span_ (cfg.SizeToClass size) ≠ 0 →
                fl (w.core.hot_span_ (cfg.SizeToClass size)) = []) ∧
              (fl' (w'.core.hot_span_ (cfg.SizeToClass size))).length + 1
                = cfg.ClassToObjects (cfg.SizeToClass size)) ∨
            (cfg.REUSE_SLOW_SPANS = true ∧ w.core.slow_spans_ (cfg.SizeToClass size) ≠ [] ∧
              w'.gets = w.gets))) := by
  unfold Allocate AllocateInSizeClass
  generalize cfg.SizeToClass size = sc at *
  by_cases hsc : sc = 0
  · refine ⟨0, w, ?_, by simp [hsc], cool, fl, by simpa using h, fun _ hU => hU,
      fun hne => absurd hsc hne⟩
    rw [AllocateInSizeClassWith_empty _ _ _ (Or.inl (by rw [hsc]; exact h.hot_zero))]
    simp [AllocateNoSlab, hsc]
  · by_cases hpop : w.core.hot_span_ sc ≠ 0 ∧ fl (w.core.hot_span_ sc) ≠ []
    · obtain ⟨hhot, hfl⟩ := hpop
      obtain ⟨hl, hc, ht⟩ := h.hotOK sc hhot
      have hok := h.spans _ hl
      have hne : (w.hdrs (w.core.hot_span_ sc)).flist.list_ ≠ 0 :=
        fun e => hfl ((Chain_nil_iff hok.chain).1 e)
      have hinv := Inv_pop hcfg h sc hhot hne
      refine ⟨_, _, AllocateInSizeClassWith_pop _ sc w hhot hne, by simp [hne, hsc], cool, _,
        by rw [if_neg hne]; exact hinv, fun _ hU => CoolUtil_step h hinv hU (fun d x hx => ?_),
        fun _ => ⟨hhot, Or.inl ⟨hhot, hfl, rfl, rfl, rfl, ?_⟩⟩⟩
      · left
        refine ⟨hx, ?_⟩
        have hxs : x ≠ w.core.hot_span_ sc := by
          intro e
          obtain ⟨-, k2, -, k4⟩ := (h.coolOK d).2 x hx
          rw [e, hc] at k2
          rw [← k2] at k4
          exact k4 e
        rw [upd_other _ _ _ _ hxs]
      · show (upd fl (w.core.hot_span_ sc) (fl (w.core.hot_span_ sc)).tail
          (w.core.hot_span_ sc)).length + 1 = _
        rw [upd_same]
        cases hh : fl (w.core.hot_span_ sc) with
        | nil => exact absurd hh hfl
        | cons a t => simp
    · have hE : w.core.hot_span_ sc ≠ 0 → fl (w.core.hot_span_ sc) = [] := by
        intro h0
        by_contra hne
        exact hpop ⟨h0, hne⟩
      have hE2 : w.core.hot_span_ sc = 0 ∨ (w.hdrs (w.core.hot_span_ sc)).flist.list_ = 0 := by
        by_cases h0 : w.core.hot_span_ sc = 0
        · exact Or.inl h0
        · right
          have hok := h.spans _ (h.hotOK sc h0).1
          exact (Chain_nil_iff hok.chain).2 (hE h0)
      have hbp : r.bp_block = 0 := by
        by_contra hne
        obtain ⟨e, he, -⟩ := hr.1 hne
        rw [h.poolEmpty] at he
        simp at he
      obtain ⟨w2, cool2, fl2, hre, hinv2, hhot2, hfl2, hcool2, hgets⟩ :=
        Inv_Refill hcfg h sc hsc r hr.2.2
      obtain ⟨hl2, hc2, ht2⟩ := hinv2.hotOK sc hhot2
      have hok2 := hinv2.spans _ hl2
      have hne2 : (w2.hdrs (w2.core.hot_span_ sc)).flist.list_ ≠ 0 :=
        fun e => hfl2 ((Chain_nil_iff hok2.chain).1 e)
      have hinv := Inv_pop hcfg hinv2 sc hhot2 hne2
      have hres : AllocateInSizeClassWith (AllocateNoSlab cfg sc (r :: rest)) sc w =
          .ok ((w2.hdrs (w2.core.hot_span_ sc)).flist.list_,
            w2.modHdr (w2.core.hot_span_ sc) (fun h =>
              { h with flist := ((w2.hdrs (w2.core.hot_span_ sc)).flist.Pop w2.mem).2 })) := by
        rw [AllocateInSizeClassWith_empty _ _ _ hE2,
          AllocateNoSlab_refill cfg sc r rest w w2 hsc hbp hre,
          AllocateInSizeClassWith_pop _ sc w2 hhot2 hne2]
      have hlen2 : (upd fl2 (w2.core.hot_span_ sc) (fl2 (w2.core.hot_span_ sc)).tail
          (w2.core.hot_span_ sc)).length + 1 = (fl2 (w2.core.hot_span_ sc)).length := by
        rw [upd_same]
        cases hh : fl2 (w2.core.hot_span_ sc) with
        | nil => exact absurd hh hfl2
        | cons a t => simp
      refine ⟨_, _, hres, by simp [hne2, hsc], cool2, _, by rw [if_neg hne2]; exact hinv,
        fun hT hU => CoolUtil_step h hinv hU (fun d x hx => ?_), fun _ => ⟨hhot2, ?_⟩⟩
      · obtain ⟨e1, e2, e3⟩ := hcool2 d x hx
        have hflx : (upd fl2 (w2.core.hot_span_ sc) (fl2 (w2.core.hot_span_ sc)).tail) x
            = fl x := by
          rw [upd_other _ _ _ _ (Ne.symm e2), e1]
        rcases e3 with e3 | ⟨e3, hxl⟩
        · exact Or.inl ⟨e3, by rw [hflx]⟩
        · right
          have hx0 : w.core.hot_span_ sc ≠ 0 := by
            rw [← e3]; exact (h.spans x hxl).nonnull
          have hflnil : fl x = [] := by rw [e3]; exact hE hx0
          obtain ⟨j1, -, -, -⟩ := (hinv.coolOK d).2 x hx
          have hokx := hinv.spans x j1
          refine ⟨100, ?_, hT.1⟩
          unfold SpanHeader.Utilization
          apply Utilization_empty
          · rw [hokx.cap]
            have := hcfg.objects _ hokx.cls
            omega
          · rw [hokx.len, hflx, hflnil]; rfl
      · rcases hgets with ⟨g1, g2, g3, g4⟩ | ⟨g1, g2, g3⟩
        · right; left
          exact ⟨g1, g2, hE, by
            show (upd fl2 (w2.core.hot_span_ sc) (fl2 (w2.core.hot_span_ sc)).tail
              (w2.core.hot_span_ sc)).length + 1 = _
            rw [hlen2, g4]⟩
        · right; right
          exact ⟨g1, g2, g3⟩

/-! ## Runs of one frontend -/

theorem DLL_unique {hdrs : Nat → SpanHeader} :
    ∀ {l l2 : List Nat} {prev p : Nat}, DLL hdrs prev p l → DLL hdrs prev p l2 → l = l2
  | [], [], _, _, _, _ => rfl
  | [], y :: ys, _, _, h, h2 => absurd (h2.1.symm.trans h) h2.2.1
  | x :: xs, [], _, _, h, h2 => absurd (h.1.symm.trans h2) h.2.1
  | x :: xs, y :: ys, _, _, h, h2 => by
    have e : x = y := h.1.symm.trans h2.1
    subst e
    rw [DLL_unique h.2.2.2 h2.2.2.2]

theorem Inv_New (cfg : Config) (id : Nat) (hdrs : Nat → SpanHeader) (mem : Mem)
    (hid : id < 2 ^ 63) :
    Inv cfg (World.New id hdrs mem) [] (fun _ => []) (fun _ => []) :=
  { id_small := hid
    tagA := rfl
    tagI := rfl
    poolEmpty := rfl
    counts := fun _ => Or.inl rfl
    spans := fun s hs => by simp [Live, World.New] at hs
    out_nodup := List.nodup_nil
    outs := fun b hb => by simp at hb
    hotOK := fun c hc => absurd rfl hc
    coolOK := fun c => ⟨⟨rfl, List.nodup_nil⟩, fun s hs => by simp at hs⟩
    slowOK := fun c => ⟨List.nodup_nil, fun s hs => by simp [World.New, ScallocCore.New] at hs⟩
    active := fun s hs => by simp [Live, World.New] at hs
    inactive := fun s hs => by simp [Live, World.New] at hs
    noslow := fun _ _ => rfl }

/-- Every world of a run of one frontend satisfies the invariant, for some cool lists and
freelists; under `ThreshOK` the cool spans are utilized up to the reuse threshold. -/
theorem Reachable_Inv {cfg : Config} (hcfg : WFConfig cfg) {w : World} {out : List Nat}
    (h : Reachable cfg w out) :
    ∃ cool fl, Inv cfg w out cool fl ∧ (ThreshOK cfg → CoolUtil cfg w cool) := by
  induction h with
  | init id hdrs mem hid =>
    exact ⟨_, _, Inv_New cfg id hdrs mem hid, fun _ c s hs => by simp at hs⟩
  | @alloc w out size r rest p w' _ hr hA ih =>
    obtain ⟨cool, fl, hinv, hU⟩ := ih
    obtain ⟨p2, w2, hA2, -, cool', fl', hinv', hU', -⟩ :=
      Inv_Allocate hcfg hinv size r rest hr
    rw [hA] at hA2
    cases hA2
    exact ⟨cool', fl', hinv', fun hT => hU' hT (hU hT)⟩
  | @free w out b k w' _ hb hk hF ih =>
    obtain ⟨cool, fl, hinv, hU⟩ := ih
    obtain ⟨cool', fl', hinv', hU'⟩ := Inv_Free hcfg hinv b k hb hk w' hF
    exact ⟨cool', fl', hinv', fun hT => hU' hT (hU hT)⟩

theorem Free_gets (cfg : Config) (w w' : World) (p hdr : Nat)
    (h : Free cfg p hdr w = .ok w') : w'.gets = w.gets := by
  obtain ⟨-, -, hcase⟩ := Free_inv cfg w w' p hdr h
  cases hcase with
  | remote ha hi => rfl
  | keep ha hk => rfl
  | release u ha hhot hu hlt hfull => simp [afterActivePush]
  | demote u ha hhot hu hlt hfull => simp [afterActivePush]
  | promote u w3 ha hi hcur hu hgt hrm =>
    rw [SetActiveSlab_gets, (RemoveSlowSpan_ok _ _ _ _ _ hrm).2.2.2.2.1]; rfl
  | retire u w3 ha hi hcur hu hle hfull hrm =>
    rw [releaseSpan_gets, (RemoveSlowSpan_ok _ _ _ _ _ hrm).2.2.2.2.1]; rfl
  | stay u ha hi hcur hu hle hfull => rfl

theorem wfEx : WFConfig cfgEx :=
  { span_pos := by decide
    objects := fun c hc => by simp [cfgEx, hc]
    size := fun c hc => by simp [cfgEx, hc]
    fits := fun c hc => by simp [cfgEx, hc] }

theorem validEx (w : World) (s : Nat) (hf : FreshSpan cfgEx w s) :
    ValidRound cfgEx w 1 (roundEx s) :=
  ⟨fun h => absurd rfl h, fun h => absurd rfl h, hf⟩

theorem reachNew : Reachable cfgEx worldNew [] :=
  Reachable.init 1 _ _ (by decide)

theorem reachOne : Reachable cfgEx (allocEx 4096 worldNew) [4208] :=
  Reachable.alloc 16 (roundEx 4096) [] 4208 _ reachNew
    (validEx _ _ (by decide)) rfl

theorem reachTwo : Reachable cfgEx (allocEx 0 (allocEx 4096 worldNew)) [4192, 4208] :=
  Reachable.alloc 16 (roundEx 8192) [] 4192 (allocEx 0 (allocEx 4096 worldNew)) reachOne
    (validEx _ _ (by decide)) rfl

theorem reachThree :
    Reachable cfgEx (allocEx 0 (allocEx 0 (allocEx 4096 worldNew))) [4176, 4192, 4208] :=
  Reachable.alloc 16 (roundEx 8192) [] 4176 (allocEx 0 (allocEx 0 (allocEx 4096 worldNew)))
    reachTwo (validEx _ _ (by decide)) rfl

theorem reachFour : Reachable cfgEx worldFour [4160, 4176, 4192, 4208] :=
  Reachable.alloc 16 (roundEx 8192) [] 4160 worldFour reachThree
    (validEx _ _ (by decide)) rfl

theorem reachCool : Reachable cfgEx worldCool [8304, 4160, 4176, 4192, 4208] :=
  Reachable.alloc 16 (roundEx 8192) [] 8304 worldCool reachFour
    (validEx _ _ (by decide)) rfl

/-- C1: in every world reached from `New` by `Allocate` and `Free` calls of one frontend
(the tables giving every class but class 0 at least one block per span, and the
collaborators answering as they can), `Allocate(size)` returns, and it returns null if and
only if `SizeToClass(size) == 0`. -/
theorem allocate_null_iff (cfg : Config) (hcfg : WFConfig cfg) (w : World) (out : List Nat)
    (h : Reachable cfg w out) (size : Nat) (r : Round) (rest : List Round)
    (hr : ValidRound cfg w (cfg.SizeToClass size) r) :
    ∃ p w', Allocate cfg size (r :: rest) w = .ok (p, w') ∧
      (p = 0 ↔ cfg.SizeToClass size = 0) := by
  obtain ⟨cool, fl, hinv, -⟩ := Reachable_Inv hcfg h
  obtain ⟨p, w', hA, hp, -⟩ := Inv_Allocate hcfg hinv size r rest hr
  exact ⟨p, w', hA, hp⟩

theorem allocate_null_iff_witness :
    ∃ p w', Allocate cfgEx 16 [roundEx 4096] worldNew = .ok (p, w') ∧
      (p = 0 ↔ cfgEx.SizeToClass 16 = 0) :=
  allocate_null_iff cfgEx wfEx worldNew [] reachNew 16 (roundEx 4096) []
    (validEx _ _ (by decide))

/-- After `n` allocations of one class other than 0 and no free: no span is slow, and the
spans fetched so far hold the `n` blocks handed out and the free blocks of the hot span,
which are fewer than a span holds. -/
theorem AllocRun_inv {cfg : Config} (hcfg : WFConfig cfg) {c n : Nat} {w : World}
    (hsc : c ≠ 0) (h : AllocRun cfg c n w) :
    ∃ out cool fl, Inv cfg w out cool fl ∧ (∀ d, w.core.slow_spans_ d = []) ∧
      (n = 0 → w.gets = [] ∧ w.core.hot_span_ c = 0) ∧
      (n ≠ 0 → w.core.hot_span_ c ≠ 0 ∧
        w.gets.length * cfg.ClassToObjects c = n + (fl (w.core.hot_span_ c)).length ∧
        (fl (w.core.hot_span_ c)).length < cfg.ClassToObjects c) := by
  induction h with
  | init id hdrs mem hid =>
    exact ⟨_, _, _, Inv_New cfg id hdrs mem hid, fun _ => rfl, fun _ => ⟨rfl, rfl⟩,
      fun hn => absurd rfl hn⟩
  | @step n w size r rest p w' _ hsz hr hA ih =>
    obtain ⟨out, cool, fl, hinv, hslow, h0, hn⟩ := ih
    obtain ⟨p2, w2, hA2, -, cool', fl', hinv', -, hstep⟩ :=
      Inv_Allocate hcfg hinv size r rest (by rw [hsz]; exact hr)
    rw [hA] at hA2
    cases hA2
    rw [hsz] at hstep
    obtain ⟨hhot', hcase⟩ := hstep hsc
    have hobj := hcfg.objects _ hsc
    rcases hcase with ⟨c1, c2, c3, c4, c5, c6⟩ | ⟨c1, c2, c3, c4⟩ | ⟨c1, c2, c3⟩
    · have hn0 : n ≠ 0 := fun e => c1 (h0 e).2
      obtain ⟨-, j2, j3⟩ := hn hn0
      refine ⟨_, cool', fl', hinv', fun d => by rw [c4]; exact hslow d,
        fun e => absurd e (Nat.succ_ne_zero n), fun _ => ⟨hhot', ?_, ?_⟩⟩
      · rw [c3, j2]; omega
      · omega
    · refine ⟨_, cool', fl', hinv', fun d => by rw [c2]; exact hslow d,
        fun e => absurd e (Nat.succ_ne_zero n), fun _ => ⟨hhot', ?_, by omega⟩⟩
      rw [c1, List.length_cons, Nat.succ_mul]
      by_cases hn0 : n = 0
      · rw [(h0 hn0).1, hn0]
        simp
        omega
      · obtain ⟨j1, j2, -⟩ := hn hn0
        rw [c3 j1] at j2
        rw [j2]
        simp
        omega
    · exact absurd (hslow _) c2

/-- C11: after `N` consecutive `Allocate` calls of one class `c` other than 0 on a fresh
frontend, with an empty Block Pool and no `Free` in between, `SpanPool::Get` was called
exactly `ceil(N / ClassToObjects c)` times, so at most that often; and no `Free`, in any
world, calls it: the spans obtained stay the same. -/
theorem span_gets_bound (cfg : Config) (hcfg : WFConfig cfg) (c N : Nat) (w : World)
    (hsc : c ≠ 0) (h : AllocRun cfg c N w) :
    w.gets.length = (N + cfg.ClassToObjects c - 1) / cfg.ClassToObjects c ∧
    ∀ (w1 w2 : World) (p hdr : Nat), Free cfg p hdr w1 = .ok w2 → w2.gets = w1.gets := by
  refine ⟨?_, fun w1 w2 p hdr hF => Free_gets cfg w1 w2 p hdr hF⟩
  obtain ⟨out, cool, fl, -, -, h0, hn⟩ := AllocRun_inv hcfg hsc h
  have hobj := hcfg.objects _ hsc
  by_cases hN : N = 0
  · rw [(h0 hN).1, hN]
    symm
    apply Nat.div_eq_of_lt
    omega
  · obtain ⟨-, j2, j3⟩ := hn hN
    symm
    apply Nat.div_eq_of_lt_le
    · omega
    · rw [Nat.succ_mul]; omega

theorem span_gets_bound_witness :
    (allocEx 4096 worldNew).gets.length = (1 + cfgEx.ClassToObjects 1 - 1)
      / cfgEx.ClassToObjects 1 :=
  (span_gets_bound cfgEx wfEx 1 1 (allocEx 4096 worldNew) (by decide)
    (AllocRun.step 16 (roundEx 4096) [] 4208 (allocEx 4096 worldNew)
      (AllocRun.init 1 _ _ (by decide)) rfl (validEx _ _ (by decide)) rfl)).1

/-- C13 (amended): for thresholds with `kSpanReuseThreshold ≤ 100` and
`kSpanReuseThreshold ≤ kLocalReuseThreshold + 1`, in every world reached from `New` by
`Allocate` and `Free` calls of one frontend, every span of the cool list of a class has a
utilization of at least the reuse threshold and carries the tag `me_active_` of the
frontend. -/
theorem cool_spans_utilized (cfg : Config) (hcfg : WFConfig cfg) (hT : ThreshOK cfg)
    (w : World) (out : List Nat) (h : Reachable cfg w out) (c : Nat) (l : List Nat)
    (hl : CoolList w c l) (s : Nat) (hs : s ∈ l) :
    (∃ u, (w.hdrs s).Utilization = .ok u ∧ cfg.kSpanReuseThreshold ≤ u) ∧
      (w.hdrs s).aowner = w.core.me_active_ := by
  obtain ⟨cool, fl, hinv, hU⟩ := Reachable_Inv hcfg h
  have e : l = cool c := DLL_unique hl.1 (hinv.coolOK c).1.1
  subst e
  exact ⟨hU hT c s hs, ((hinv.coolOK c).2 s hs).2.2.1⟩

theorem cool_spans_utilized_witness :
    (∃ u, (worldCool.hdrs 4096).Utilization = .ok u ∧ cfgEx.kSpanReuseThreshold ≤ u) ∧
      (worldCool.hdrs 4096).aowner = worldCool.core.me_active_ :=
  cool_spans_utilized cfgEx wfEx (by decide) worldCool _ reachCool 1 [4096] (by decide) 4096
    (by decide)

/-- C13 fails for a local reuse threshold below the reuse threshold: in the small build
with `kLocalReuseThreshold = 0` and `kSpanReuseThreshold = 80`, after five allocations and
the frees of two blocks of the first span, that span is hot again and the span at 8192 is
in the cool list with a utilization of 25. -/
theorem cool_span_underused_counterexample :
    CoolList worldLow 1 [8192] ∧ (worldLow.hdrs 8192).Utilization = .ok 25 ∧
      cfgLow.kSpanReuseThreshold = 80 ∧ worldLow.core.hot_span_ 1 = 4096 :=
  ⟨by decide, rfl, rfl, by decide⟩

/-! ## The freelist on its own (C16, C17, C18) -/

theorem blockAddrs_shift (base stride : Nat) :
    ∀ n, blockAddrs (base + stride) stride n ++ [base] = blockAddrs base stride (n + 1)
  | 0 => by simp [blockAddrs]
  | n + 1 => by
    have ih := blockAddrs_shift base stride n
    rw [blockAddrs, List.cons_append, ih]
    conv_rhs => rw [blockAddrs]
    congr 1
    ring

theorem threaded_eq (size : Nat) :
    ∀ (n start : Nat) (acc : List Nat),
      threaded n start size acc = blockAddrs start size n ++ acc
  | 0, _, _ => rfl
  | n + 1, start, acc => by
    rw [threaded, threaded_eq size n (start + size) (start :: acc), ← blockAddrs_shift]
    simp

/-- `InitRange` on a range of blocks that hold a pointer, that starts above `NULL` and does
not leave the address space: the chain holds the blocks, last block first. -/
theorem InitRange_chain (base stride count : Nat) (m0 : Mem) (hb : 0 < base)
    (hs : 8 ≤ stride) (hfit : base + count * stride ≤ kWord) :
    Chain (Freelist.InitRange base stride count m0).2
        (Freelist.InitRange base stride count m0).1.list_ (blockAddrs base stride count) ∧
      (Freelist.InitRange base stride count m0).1.len_ = count ∧
      (Freelist.InitRange base stride count m0).1.cap_ = count := by
  have h := InitRangeLoop_spec stride hs count base 0 m0 [] hb hfit kWord_pos rfl
    (fun i _ y hy => by simp at hy)
  rw [threaded_eq, List.append_nil] at h
  exact ⟨h.1, rfl, rfl⟩

theorem length_blockAddrs (base stride : Nat) : ∀ n, (blockAddrs base stride n).length = n
  | 0 => rfl
  | n + 1 => by rw [blockAddrs, List.length_cons, length_blockAddrs base stride n]

theorem count_lt_kWord (base stride count : Nat) (hb : 0 < base) (hs : 0 < stride)
    (hfit : base + count * stride ≤ kWord) : count < kWord := by
  have : count ≤ count * stride := Nat.le_mul_of_pos_right _ hs
  omega

/-- Popping a well-formed freelist `n` times, for `n` the length of its chain, returns the
blocks of the chain in order and leaves the empty list of length 0. -/
theorem popN_chain (m : Mem) :
    ∀ (l : List Nat) (f : Freelist), Chain m f.list_ l → f.len_ = l.length →
      l.length < kWord →
      popN l.length f m = (l, Freelist.mk f.cap_ 0 0)
  | [], f, hc, hl, _ => by
    cases f with
    | mk cap len list =>
      have hc' : list = 0 := hc
      have hl' : len = 0 := hl
      subst hc' hl'
      rfl
  | x :: xs, f, hc, hl, hlt => by
    obtain ⟨h1, h2, h3⟩ := hc
    have hne : f.list_ ≠ 0 := h1 ▸ h2
    have hpop : f.Pop m = (x, Freelist.mk f.cap_ xs.length (m.read x)) := by
      rw [Pop_of_ne _ _ hne, hl, List.length_cons, pred_mod_kWord _ (by simpa using hlt), h1]
    have ih := popN_chain m xs (Freelist.mk f.cap_ xs.length (m.read x)) h3 rfl
      (by simp only [List.length_cons] at hlt; omega)
    simp only [List.length_cons, popN, hpop, ih]

/-- C16 (amended): for a non-null `base`, a `stride` of at least 8 bytes (a block holds
the link, a pointer) and a `count` with `base + count * stride` inside the address space,
after `InitRange(base, stride, count)` the list has `Size() = count` and `Full()` holds, the
next `count` calls of `Pop` return exactly the addresses `base + i * stride` for
`i = count - 1` down to `0`, and the following `Pop` returns null. -/
theorem initrange_then_pops (base stride count : Nat) (m0 : Mem) (hb : 0 < base)
    (hs : 8 ≤ stride) (hfit : base + count * stride ≤ kWord) :
    (Freelist.InitRange base stride count m0).1.Size = count ∧
    (Freelist.InitRange base stride count m0).1.Full = true ∧
    (popN count (Freelist.InitRange base stride count m0).1
      (Freelist.InitRange base stride count m0).2).1 = blockAddrs base stride count ∧
    ((popN count (Freelist.InitRange base stride count m0).1
      (Freelist.InitRange base stride count m0).2).2.Pop
        (Freelist.InitRange base stride count m0).2).1 = 0 := by
  obtain ⟨hc, hl, hcap⟩ := InitRange_chain base stride count m0 hb hs hfit
  have hlen := length_blockAddrs base stride count
  have hp := popN_chain (Freelist.InitRange base stride count m0).2
    (blockAddrs base stride count) (Freelist.InitRange base stride count m0).1 hc
    (by rw [hl, hlen])
    (by rw [hlen]; exact count_lt_kWord base stride count hb (by omega) hfit)
  rw [hlen] at hp
  refine ⟨hl, ?_, ?_, ?_⟩
  · simp [Freelist.Full, hl, hcap]
  · rw [hp]
  · rw [hp]; rfl

theorem initrange_then_pops_witness :
    (popN 3 (Freelist.InitRange 4160 16 3 Mem.zero).1
      (Freelist.InitRange 4160 16 3 Mem.zero).2).1 = [4192, 4176, 4160] :=
  (initrange_then_pops 4160 16 3 Mem.zero (by decide) (by decide) (by decide)).2.2.1

/-- C16 as stated fails for a stride below the size of a pointer: `InitRange(4160, 4, 3)`
stores the link of each block over the upper half of the link of the block before. The
first two calls of `Pop` return 4168 and 4164 and leave `4164 * 2^32 + 4160` as the head
of the list, which is what the third call returns instead of the block 4160. -/
theorem initrange_narrow_counterexample :
    (popN 3 (Freelist.InitRange 4160 4 3 Mem.zero).1
        (Freelist.InitRange 4160 4 3 Mem.zero).2).1 ≠ blockAddrs 4160 4 3 ∧
      (popN 2 (Freelist.InitRange 4160 4 3 Mem.zero).1
        (Freelist.InitRange 4160 4 3 Mem.zero).2).1 = [4168, 4164] ∧
      (popN 2 (Freelist.InitRange 4160 4 3 Mem.zero).1
        (Freelist.InitRange 4160 4 3 Mem.zero).2).2.list_ = 4164 * 2 ^ 32 + 4160 ∧
      (popN 3 (Freelist.InitRange 4160 4 3 Mem.zero).1
        (Freelist.InitRange 4160 4 3 Mem.zero).2).1 = [4168, 4164, 4164 * 2 ^ 32 + 4160] ∧
      blockAddrs 4160 4 3 = [4168, 4164, 4160] := by
  decide

theorem mem_blockAddrs (base stride : Nat) (n x : Nat) :
    x ∈ blockAddrs base stride n ↔ ∃ i, i < n ∧ x = base + i * stride := by
  have h := mem_threaded stride n base [] x
  rw [threaded_eq, List.append_nil] at h
  simpa using h

/-- Different blocks of a range of stride at least 8 lie at least a pointer apart. -/
theorem range_apart (base stride i j : Nat) (hs : 8 ≤ stride)
    (hne : base + i * stride ≠ base + j * stride) :
    base + i * stride + 8 ≤ base + j * stride ∨ base + j * stride + 8 ≤ base + i * stride := by
  rcases Nat.lt_trichotomy i j with h | h | h
  · left
    have : (i + 1) * stride ≤ j * stride := Nat.mul_le_mul_right _ h
    rw [Nat.add_mul, Nat.one_mul] at this
    omega
  · exact absurd (by rw [h]) hne
  · right
    have : (j + 1) * stride ≤ i * stride := Nat.mul_le_mul_right _ h
    rw [Nat.add_mul, Nat.one_mul] at this
    omega

/-- The invariant of the runs of a freelist over a valid range: the chain holds distinct
blocks of the range, as many as the length field says, none of them handed out, and the
chain and the handed-out blocks together are `count` blocks. -/
theorem FlReach_inv (base stride count : Nat) (m0 : Mem) (hb : 0 < base)
    (hs : 8 ≤ stride) (hfit : base + count * stride ≤ kWord)
    {f : Freelist} {m : Mem} {out : List Nat} (h : FlReach base stride count m0 f m out) :
    ∃ L, Chain m f.list_ L ∧ f.len_ = L.length ∧ f.cap_ = count ∧ L.Nodup ∧
      (∀ x ∈ L, x ∉ out) ∧ out.Nodup ∧ (∀ x ∈ out, x ≠ 0) ∧
      L.length + out.length = count ∧
      (∀ x, x ∈ L ∨ x ∈ out → ∃ i, i < count ∧ x = base + i * stride) := by
  have hs0 : 0 < stride := by omega
  have hcnt := count_lt_kWord base stride count hb hs0 hfit
  induction h with
  | init =>
    obtain ⟨hc, hl, hcap⟩ := InitRange_chain base stride count m0 hb hs hfit
    refine ⟨blockAddrs base stride count, hc, by rw [hl, length_blockAddrs], hcap, ?_,
      by simp, by simp, by simp, by simp [length_blockAddrs], ?_⟩
    · have := nodup_threaded stride hs0 count base [] List.nodup_nil (by simp)
      rw [threaded_eq, List.append_nil] at this
      exact this
    · rintro x (hx | hx)
      · exact (mem_blockAddrs base stride count x).1 hx
      · simp at hx
  | @pop f m out _ ih =>
    obtain ⟨L, hc, hl, hcap, hnd, hdis, hon, hnz, htot, hrng⟩ := ih
    cases L with
    | nil =>
      have h0 : f.list_ = 0 := hc
      have hp : f.Pop m = (0, f) := by simp [Freelist.Pop, h0]
      rw [hp]
      exact ⟨[], hc, hl, hcap, hnd, by simp, hon, hnz, htot, hrng⟩
    | cons x xs =>
      obtain ⟨h1, h2, h3⟩ := hc
      have hne : f.list_ ≠ 0 := h1 ▸ h2
      simp only [List.length_cons] at hl htot
      have hp : f.Pop m = (x, Freelist.mk f.cap_ xs.length (m.read x)) := by
        rw [Pop_of_ne _ _ hne, hl, pred_mod_kWord _ (by omega), h1]
      rw [hp]
      simp only [h2, if_false]
      have hx : x ∉ out := hdis x (List.mem_cons_self _ _)
      refine ⟨xs, h3, rfl, hcap, (List.nodup_cons.1 hnd).2, ?_, List.nodup_cons.2 ⟨hx, hon⟩,
        ?_, by simp only [List.length_cons]; omega, ?_⟩
      · intro y hy hm
        rcases List.mem_cons.1 hm with e | e
        · exact (List.nodup_cons.1 hnd).1 (e ▸ hy)
        · exact hdis y (List.mem_cons_of_mem _ hy) e
      · intro y hy
        rcases List.mem_cons.1 hy with e | e
        · rw [e]; exact h2
        · exact hnz y e
      · rintro y (hy | hy)
        · exact hrng y (Or.inl (List.mem_cons_of_mem _ hy))
        · rcases List.mem_cons.1 hy with e | e
          · exact hrng y (Or.inl (e ▸ List.mem_cons_self _ _))
          · exact hrng y (Or.inr e)
  | @push f m out p _ hp ih =>
    obtain ⟨L, hc, hl, hcap, hnd, hdis, hon, hnz, htot, hrng⟩ := ih
    have hpL : p ∉ L := fun hm => hdis p hm hp
    have hlen1 : 1 ≤ out.length := List.length_pos_of_mem hp
    have hlt : ∀ x, x ∈ L → x < kWord := by
      intro x hx
      obtain ⟨i, hi, rfl⟩ := hrng x (Or.inl hx)
      have : (i + 1) * stride ≤ count * stride := Nat.mul_le_mul_right _ hi
      rw [Nat.add_mul, Nat.one_mul] at this
      omega
    refine ⟨p :: L, ?_, ?_, hcap, List.nodup_cons.2 ⟨hpL, hnd⟩, ?_, hon.erase p,
      fun y hy => hnz y (List.mem_of_mem_erase hy), ?_, ?_⟩
    · refine ⟨rfl, hnz p hp, ?_⟩
      simp only [Freelist.Push]
      rw [Mem.write_same _ _ _ (Chain_head_lt hc hlt)]
      refine Chain_congr (fun y hy => Mem.write_other _ _ _ _ ?_) hc
      obtain ⟨i, -, ei⟩ := hrng p (Or.inr hp)
      obtain ⟨j, -, ej⟩ := hrng y (Or.inl hy)
      have hne : base + i * stride ≠ base + j * stride := by
        rw [← ei, ← ej]
        exact fun e => hpL (e ▸ hy)
      rw [ei, ej]
      exact range_apart base stride i j hs hne
    · simp only [Freelist.Push, List.length_cons]
      rw [hl]
      exact Nat.mod_eq_of_lt (by omega)
    · intro y hy hm
      rcases List.mem_cons.1 hy with e | e
      · rw [e] at hm
        exact ((List.Nodup.mem_erase_iff hon).1 hm).1 rfl
      · exact hdis y e (List.mem_of_mem_erase hm)
    · rw [List.length_erase_of_mem hp, List.length_cons]
      omega
    · rintro y (hy | hy)
      · rcases List.mem_cons.1 hy with e | e
        · exact hrng y (Or.inr (e ▸ hp))
        · exact hrng y (Or.inl e)
      · exact hrng y (Or.inr (List.mem_of_mem_erase hy))

/-- C17 (amended): for a freelist initialised by `InitRange` over a range that starts above
`NULL`, has a stride of at least 8 bytes (a block holds the link, a pointer) and stays
inside the address space, and every sequence of `Push` and `Pop` calls in which each
`Push` gives back a block that a `Pop` returned and that has not been pushed since,
`Size() <= capacity` holds after each call, the capacity being `count`. -/
theorem size_le_capacity (base stride count : Nat) (m0 : Mem) (hb : 0 < base)
    (hs : 8 ≤ stride) (hfit : base + count * stride ≤ kWord)
    (f : Freelist) (m : Mem) (out : List Nat) (h : FlReach base stride count m0 f m out) :
    f.Size ≤ f.cap_ ∧ f.cap_ = count := by
  obtain ⟨L, -, hl, hcap, -, -, -, -, htot, -⟩ :=
    FlReach_inv base stride count m0 hb hs hfit h
  simp only [Freelist.Size]
  omega

theorem size_le_capacity_witness :
    ((Freelist.InitRange 4160 16 3 Mem.zero).1.Pop
      (Freelist.InitRange 4160 16 3 Mem.zero).2).2.Size ≤ 3 :=
  (size_le_capacity 4160 16 3 Mem.zero (by decide) (by decide) (by decide) _ _ _
    (FlReach.pop FlReach.init)).1

/-- C17 as stated fails: `Push` counts every call, so the `Push` of a block of the range
that is still in the list (`InitRange(4160, 16, 1)`, then `Push(4160)`) leaves a length
greater than the capacity. -/
theorem push_beyond_capacity_counterexample :
    ¬ (((Freelist.InitRange 4160 16 1 Mem.zero).1.Push 4160
        (Freelist.InitRange 4160 16 1 Mem.zero).2).1.Size
      ≤ ((Freelist.InitRange 4160 16 1 Mem.zero).1.Push 4160
        (Freelist.InitRange 4160 16 1 Mem.zero).2).1.cap_) := by
  decide

/-- C18 (amended): for a freelist with `capacity > 0`, `length <= capacity` and
`length * 100` below `2^64`, `Utilization()` returns `100 - floor(length*100/capacity)`,
which lies between 0 and 100 and is 0 exactly when `Full()` holds. -/
theorem utilization_value (f : Freelist) (hcap : 0 < f.cap_) (hlen : f.len_ ≤ f.cap_)
    (hmul : f.len_ * 100 < kWord) :
    f.Utilization = .ok (100 - f.len_ * 100 / f.cap_) ∧
      100 - f.len_ * 100 / f.cap_ ≤ 100 ∧
      (100 - f.len_ * 100 / f.cap_ = 0 ↔ f.Full = true) := by
  have hq : f.len_ * 100 / f.cap_ ≤ 100 :=
    Nat.div_le_of_le_mul (by nlinarith)
  refine ⟨?_, Nat.sub_le _ _, ?_⟩
  · unfold Freelist.Utilization
    rw [if_neg (by omega), Nat.mod_eq_of_lt hmul]
    have e : 100 + kWord - f.len_ * 100 / f.cap_ = (100 - f.len_ * 100 / f.cap_) + kWord := by
      omega
    have h100 : 100 < kWord := by decide
    rw [e, Nat.add_mod_right, Nat.mod_eq_of_lt (lt_of_le_of_lt (Nat.sub_le _ _) h100)]
  · simp only [Freelist.Full, beq_iff_eq]
    constructor
    · intro h0
      have h100 : 100 ≤ f.len_ * 100 / f.cap_ := by omega
      have := (Nat.le_div_iff_mul_le hcap).1 h100
      nlinarith
    · intro he
      rw [he, Nat.mul_div_cancel_left _ hcap]

theorem utilization_value_witness :
    (Freelist.mk 4 1 4160).Utilization = .ok 75 :=
  (utilization_value (Freelist.mk 4 1 4160) (by decide) (by decide) (by decide)).1

/-- C18 as stated fails when `length * 100` wraps around: a full list of `2^63` blocks has
utilization 100, not 0. -/
theorem utilization_wraps_counterexample :
    (Freelist.mk (2 ^ 63) (2 ^ 63) 0).Utilization = .ok 100 ∧
      (Freelist.mk (2 ^ 63) (2 ^ 63) 0).Full = true ∧
      (Freelist.mk (2 ^ 63) (2 ^ 63) 0).len_ ≤ (Freelist.mk (2 ^ 63) (2 ^ 63) 0).cap_ := by
  refine ⟨rfl, rfl, ?_⟩
  decide

/-! ## The tagged stack, used by one thread (C19) -/

theorem AtomicExchange_same (old new : TaggedAtomic) :
    TaggedAtomic.AtomicExchange old old new = (true, new) := by
  simp [TaggedAtomic.AtomicExchange]

/-- Without interference the compare-and-swap of `Push` succeeds on the first turn. -/
theorem Stack.Push_eq (tagMod fuel : Nat) (s : Stack) (p : Nat) (m : Mem) :
    Stack.Push tagMod (fuel + 1) s p m =
      .ok ({ top_ := { atomic := p, tag := (s.top_.tag + 1) % tagMod } },
        m.write p s.top_.atomic) := by
  simp [Stack.Push, AtomicExchange_same, TaggedAtomic.Pack]

/-- Without interference the compare-and-swap of `Pop` succeeds on the first turn. -/
theorem Stack.Pop_eq (tagMod fuel : Nat) (s : Stack) (m : Mem) :
    Stack.Pop tagMod (fuel + 1) s m =
      if s.top_.atomic = 0 then .ok (0, s)
      else .ok (s.top_.atomic,
        { top_ := { atomic := m.read s.top_.atomic, tag := (s.top_.tag + 1) % tagMod } }) := by
  simp [Stack.Pop, AtomicExchange_same, TaggedAtomic.Pack]

/-- The elements of a stack used by one thread form the chain that starts at the top
pointer; they are distinct word-aligned machine addresses. -/
theorem StackReach_chain {tagMod : Nat} {s : Stack} {m : Mem} {l : List Nat}
    (h : StackReach tagMod s m l) :
    Chain m s.top_.atomic l ∧ l.Nodup ∧ ∀ x ∈ l, x < kWord ∧ x % 8 = 0 := by
  induction h with
  | init m => exact ⟨rfl, List.nodup_nil, by simp⟩
  | @push s s' m m' l fuel p _ hp0 hplt hpal hpl hpush ih =>
    cases fuel with
    | zero => simp [Stack.Push] at hpush
    | succ n =>
      rw [Stack.Push_eq] at hpush
      cases hpush
      refine ⟨⟨rfl, hp0, ?_⟩, List.nodup_cons.2 ⟨hpl, ih.2.1⟩, ?_⟩
      · rw [Mem.write_same _ _ _ (Chain_head_lt ih.1 (fun x hx => (ih.2.2 x hx).1))]
        refine Chain_congr (fun y hy => Mem.write_other _ _ _ _ ?_) ih.1
        have hne : y ≠ p := fun e => hpl (e ▸ hy)
        have := (ih.2.2 y hy).2
        omega
      · intro x hx
        rcases List.mem_cons.1 hx with e | e
        · rw [e]; exact ⟨hplt, hpal⟩
        · exact ih.2.2 x e
  | @pop s s' m l fuel r _ hpop ih =>
    cases fuel with
    | zero => simp [Stack.Pop] at hpop
    | succ n =>
      rw [Stack.Pop_eq] at hpop
      cases l with
      | nil =>
        have h0 : s.top_.atomic = 0 := ih.1
        rw [if_pos h0] at hpop
        cases hpop
        exact ⟨ih.1, List.nodup_nil, by simp⟩
      | cons x xs =>
        obtain ⟨h1, h2, h3⟩ := ih.1
        rw [if_neg (h1 ▸ h2)] at hpop
        cases hpop
        exact ⟨by rw [h1]; exact h3, (List.nodup_cons.1 ih.2.1).2,
          fun y hy => ih.2.2 y (List.mem_cons_of_mem _ hy)⟩

/-- C19: a tagged stack used by one thread behaves as a LIFO list. In every state reached
after `Init` by `Push` and `Pop` calls with distinct live pointers (non-null machine
addresses aligned to a machine word, which is what the stack assumes of its entries), with
`l` the elements pushed and not yet popped (most recent first): `Pop` returns, and returns
the head of `l`,
or null when `l` is empty; a `Pop` on the empty stack leaves pointer and tag unchanged; a
`Pop` that returns non-null leaves the next element on top and the tag increased by 1
modulo the tag width; and `Push(p)` returns with `p` on top, linked to the old top, and
the tag increased by 1 modulo the tag width. -/
theorem stack_lifo (tagMod : Nat) (s : Stack) (m : Mem) (l : List Nat)
    (h : StackReach tagMod s m l) (fuel p : Nat) :
    s.top_.atomic = l.headD 0 ∧
    (l = [] → Stack.Pop tagMod (fuel + 1) s m = .ok (0, s)) ∧
    (∀ x xs, l = x :: xs → x ≠ 0 ∧
      Stack.Pop tagMod (fuel + 1) s m =
        .ok (x, { top_ := { atomic := xs.headD 0, tag := (s.top_.tag + 1) % tagMod } })) ∧
    Stack.Push tagMod (fuel + 1) s p m =
      .ok ({ top_ := { atomic := p, tag := (s.top_.tag + 1) % tagMod } },
        m.write p s.top_.atomic) := by
  obtain ⟨hc, -⟩ := StackReach_chain h
  refine ⟨?_, ?_, ?_, Stack.Push_eq tagMod fuel s p m⟩
  · cases l with
    | nil => exact hc
    | cons x xs => exact hc.1
  · intro hl
    subst hl
    have h0 : s.top_.atomic = 0 := hc
    rw [Stack.Pop_eq, if_pos h0]
  · intro x xs hl
    subst hl
    obtain ⟨h1, h2, h3⟩ := hc
    refine ⟨h2, ?_⟩
    rw [Stack.Pop_eq, if_neg (h1 ▸ h2), h1]
    have : m.read x = xs.headD 0 := by
      cases xs with
      | nil => exact h3
      | cons y ys => exact h3.1
    rw [this]

theorem stack_lifo_witness :
    Stack.Pop 65536 1 (Stack.mk (TaggedAtomic.mk 4160 1)) (Mem.write Mem.zero 4160 0)
      = .ok (4160, Stack.mk (TaggedAtomic.mk 0 2)) :=
  ((stack_lifo 65536 (Stack.mk (TaggedAtomic.mk 4160 1)) (Mem.write Mem.zero 4160 0)
    [4160] (StackReach.push 1 4160 (StackReach.init Mem.zero) (by decide) (by decide)
      (by decide) (by decide) rfl)
    0 0).2.2.1 4160 [] rfl).2
/-! ## Destroy (C15) -/

theorem clearActive_idem (raw : Nat) :
    ActiveOwner.clearActive (ActiveOwner.clearActive raw) = ActiveOwner.clearActive raw := by
  unfold ActiveOwner.clearActive; omega

theorem clearActive_active (raw : Nat) :
    ActiveOwner.active (ActiveOwner.clearActive raw) = false := by
  simp [ActiveOwner.active, ActiveOwner.clearActive]

theorem clearActive_owner (raw : Nat) :
    ActiveOwner.owner (ActiveOwner.clearActive raw) = ActiveOwner.owner raw := by
  unfold ActiveOwner.owner ActiveOwner.clearActive; omega

theorem inactive_inactive (h : SpanHeader) : h.inactive.inactive = h.inactive := by
  simp [SpanHeader.inactive, clearActive_idem]

/-- The cool loop of `Destroy` on a well-formed list within the fuel: it returns, and
exactly the spans of the list have their links and their active bit cleared. -/
theorem DestroyCool_spec : ∀ (l : List Nat) (fuel prev cur : Nat) (w : World),
    DLL w.hdrs prev cur l → l.Nodup → l.length ≤ fuel →
    ∃ w2, DestroyCool fuel cur w = .ok w2 ∧ w2.core = w.core ∧ w2.mem = w.mem ∧
      w2.released = w.released ∧
      (∀ x, x ∈ l → w2.hdrs x = (w.hdrs x).floated) ∧ (∀ x, x ∉ l → w2.hdrs x = w.hdrs x) := by
  intro l
  induction l with
  | nil =>
    intro fuel prev cur w hd _ _
    have h0 : cur = 0 := hd
    subst h0
    refine ⟨w, ?_, rfl, rfl, rfl, by simp, fun _ _ => rfl⟩
    cases fuel <;> simp [DestroyCool]
  | cons a as ih =>
    intro fuel prev cur w hd hn hlen
    obtain ⟨hcur, ha0, -, hrest⟩ := hd
    subst hcur
    obtain ⟨hna, hnas⟩ := List.nodup_cons.1 hn
    cases fuel with
    | zero => simp at hlen
    | succ n =>
      obtain ⟨w1, hw1⟩ : ∃ w1 : World, w1 =
          (((w.modHdr cur (fun h => { h with next := 0 })).modHdr cur
            (fun h => { h with prev := 0 })).modHdr cur
            (fun h => { h with aowner := ActiveOwner.clearActive h.aowner })) := ⟨_, rfl⟩
      have hstep : DestroyCool (n + 1) cur w = DestroyCool n (w.hdrs cur).next w1 := by
        rw [hw1]; simp [DestroyCool, ha0]
      have h1a : w1.hdrs cur = (w.hdrs cur).floated := by
        rw [hw1]; simp [SpanHeader.floated]
      have h1o : ∀ x, x ≠ cur → w1.hdrs x = w.hdrs x := by
        intro x hx; rw [hw1]; simp [hx]
      have hd1 : DLL w1.hdrs cur (w.hdrs cur).next as :=
        DLL_congr (fun x hx => by rw [h1o x (fun e => hna (e ▸ hx))]; exact ⟨rfl, rfl⟩) hrest
      have hc1 : w1.core = w.core := by rw [hw1]; rfl
      have hm1 : w1.mem = w.mem := by rw [hw1]; rfl
      have hr1 : w1.released = w.released := by rw [hw1]; rfl
      obtain ⟨w2, h2, hc, hm, hr, hin, hout⟩ := ih n cur _ w1 hd1 hnas (by simpa using hlen)
      refine ⟨w2, by rw [hstep]; exact h2, hc.trans hc1, hm.trans hm1, hr.trans hr1, ?_, ?_⟩
      · intro x hx
        rcases List.mem_cons.1 hx with e | hx'
        · subst e; rw [hout x hna, h1a]
        · rw [hin x hx', h1o x (fun e => hna (e ▸ hx'))]
      · intro x hx
        have hxa : x ≠ cur := fun e => hx (e ▸ List.mem_cons_self _ _)
        rw [hout x (fun h => hx (List.mem_cons_of_mem _ h)), h1o x hxa]

theorem DestroyHot_core (cfg : Config) (i : Nat) (w : World) :
    (DestroyHot cfg i w).core = { w.core with hot_span_ := upd w.core.hot_span_ i 0 } := by
  unfold DestroyHot
  simp only [modCore_core]
  split_ifs <;> simp

theorem DestroyHot_mem (cfg : Config) (i : Nat) (w : World) :
    (DestroyHot cfg i w).mem = w.mem := by
  unfold DestroyHot
  simp only [modCore_mem]
  split_ifs <;> simp

theorem DestroyHot_hdrs (cfg : Config) (i : Nat) (w : World) (x : Nat) :
    (DestroyHot cfg i w).hdrs x =
      if x = w.core.hot_span_ i ∧ x ≠ 0 ∧ (w.hdrs x).flist.Full = false then (w.hdrs x).inactive
      else w.hdrs x := by
  unfold DestroyHot
  simp only [modCore_hdrs]
  by_cases h0 : w.core.hot_span_ i = 0
  · have : ¬ (x = w.core.hot_span_ i ∧ x ≠ 0 ∧ (w.hdrs x).flist.Full = false) := by
      rintro ⟨e, hx, -⟩; exact hx (e.trans h0)
    have hR : (if x = w.core.hot_span_ i ∧ x ≠ 0 ∧ (w.hdrs x).flist.Full = false
        then (w.hdrs x).inactive else w.hdrs x) = w.hdrs x := if_neg this
    rw [hR]; simp [h0]
  · by_cases hf : (w.hdrs (w.core.hot_span_ i)).flist.Full = true
    · have : ¬ (x = w.core.hot_span_ i ∧ x ≠ 0 ∧ (w.hdrs x).flist.Full = false) := by
        rintro ⟨e, -, hx⟩; rw [e, hf] at hx; cases hx
      have hR : (if x = w.core.hot_span_ i ∧ x ≠ 0 ∧ (w.hdrs x).flist.Full = false
          then (w.hdrs x).inactive else w.hdrs x) = w.hdrs x := if_neg this
      rw [hR]; simp [h0, hf]
    · by_cases hx : x = w.core.hot_span_ i
      · have hf2 : (w.hdrs x).flist.Full = false := by rw [hx]; simpa using hf
        have hx0 : x ≠ 0 := by rw [hx]; exact h0
        have hR : (if x = w.core.hot_span_ i ∧ x ≠ 0 ∧ (w.hdrs x).flist.Full = false
            then (w.hdrs x).inactive else w.hdrs x) = (w.hdrs x).inactive :=
          if_pos ⟨hx, hx0, hf2⟩
        rw [hR, hx]
        simp [h0, hf, SpanHeader.inactive]
      · have hR : (if x = w.core.hot_span_ i ∧ x ≠ 0 ∧ (w.hdrs x).flist.Full = false
            then (w.hdrs x).inactive else w.hdrs x) = w.hdrs x :=
          if_neg (fun h => hx h.1)
        rw [hR]
        simp [h0, hf, hx]

theorem DestroyHot_released (cfg : Config) (i : Nat) (w : World) :
    (∀ r ∈ w.released, r ∈ (DestroyHot cfg i w).released) ∧
    (w.core.hot_span_ i ≠ 0 → (w.hdrs (w.core.hot_span_ i)).flist.Full = true →
      ∃ r ∈ (DestroyHot cfg i w).released, r.span = w.core.hot_span_ i) := by
  unfold DestroyHot
  simp only [modCore_released]
  constructor
  · intro r hr
    split_ifs
    · obtain ⟨r2, -, h2⟩ := releaseSpan_released cfg (w.core.hot_span_ i) w
      rw [h2]; exact List.mem_cons_of_mem _ hr
    · exact hr
    · exact hr
  · intro h0 hf
    obtain ⟨r2, h1, h2⟩ := releaseSpan_released cfg (w.core.hot_span_ i) w
    simp only [ne_eq, h0, not_false_eq_true, if_true, hf]
    exact ⟨r2, by rw [h2]; exact List.mem_cons_self _ _, h1⟩

/-- One turn of the loop of `Destroy`, for a class whose cool list is well formed, within
the fuel and without the hot span. -/
theorem DestroyClass_spec (cfg : Config) (fuel i : Nat) (w : World) (l : List Nat)
    (hcl : CoolList w i l) (hlen : l.length ≤ fuel) (hhot : w.core.hot_span_ i ∉ l) :
    ∃ w2, DestroyClass cfg fuel i w = .ok w2 ∧
      w2.core.hot_span_ = upd w.core.hot_span_ i 0 ∧
      w2.core.cool_spans_ = upd w.core.cool_spans_ i 0 ∧
      w2.core.slow_spans_ =
        (if cfg.REUSE_SLOW_SPANS then upd w.core.slow_spans_ i [] else w.core.slow_spans_) ∧
      w2.mem = w.mem ∧
      (∀ x, x ∈ l → w2.hdrs x = (w.hdrs x).floated) ∧
      (∀ x, x ∉ l → w2.hdrs x =
        if x = w.core.hot_span_ i ∧ x ≠ 0 ∧ (w.hdrs x).flist.Full = false
        then (w.hdrs x).inactive else w.hdrs x) ∧
      (∀ r ∈ w.released, r ∈ w2.released) ∧
      (w.core.hot_span_ i ≠ 0 → (w.hdrs (w.core.hot_span_ i)).flist.Full = true →
        ∃ r ∈ w2.released, r.span = w.core.hot_span_ i) := by
  have hsame : ∀ x ∈ l, (DestroyHot cfg i w).hdrs x = w.hdrs x := by
    intro x hx
    rw [DestroyHot_hdrs, if_neg]
    rintro ⟨e, -, -⟩
    exact hhot (e ▸ hx)
  have hcoolhead : (DestroyHot cfg i w).core.cool_spans_ i = w.core.cool_spans_ i := by
    rw [DestroyHot_core]
  have hd1 : DLL (DestroyHot cfg i w).hdrs 0 ((DestroyHot cfg i w).core.cool_spans_ i) l := by
    rw [hcoolhead]
    exact DLL_congr (fun x hx => by rw [hsame x hx]; exact ⟨rfl, rfl⟩) hcl.1
  obtain ⟨w1, h1, hc, hm, hr, hin, hout⟩ := DestroyCool_spec l fuel 0 _ _ hd1 hcl.2 hlen
  have hres : DestroyClass cfg fuel i w = .ok (DestroyLists cfg i w1) := by
    unfold DestroyClass
    simp only [h1]
  have hLh : (DestroyLists cfg i w1).hdrs = w1.hdrs := by
    unfold DestroyLists; split_ifs <;> rfl
  have hLm : (DestroyLists cfg i w1).mem = w1.mem := by
    unfold DestroyLists; split_ifs <;> rfl
  have hLr : (DestroyLists cfg i w1).released = w1.released := by
    unfold DestroyLists; split_ifs <;> rfl
  refine ⟨_, hres, ?_, ?_, ?_, ?_, ?_, ?_, ?_, ?_⟩
  · unfold DestroyLists; split_ifs <;> simp [hc, DestroyHot_core]
  · unfold DestroyLists; split_ifs <;> simp [hc, DestroyHot_core]
  · unfold DestroyLists; split_ifs <;> simp [hc, DestroyHot_core]
  · rw [hLm, hm, DestroyHot_mem]
  · intro x hx
    rw [hLh, hin x hx, hsame x hx]
  · intro x hx
    rw [hLh, hout x hx, DestroyHot_hdrs]
  · intro r hr0
    rw [hLr, hr]
    exact (DestroyHot_released cfg i w).1 r hr0
  · intro h0 hf
    rw [hLr, hr]
    exact (DestroyHot_released cfg i w).2 h0 hf

/-- The turns `i`, ..., `i + n - 1` of the loop of `Destroy`, for classes whose cool lists
are well formed, within the fuel, pairwise disjoint and without the hot spans. -/
theorem DestroyLoop_spec (cfg : Config) (fuel : Nat) (cool : Nat → List Nat) :
    ∀ (n i : Nat) (w : World),
    (∀ c, i ≤ c → c < i + n → CoolList w c (cool c) ∧ (cool c).length ≤ fuel) →
    (∀ c d, i ≤ c → c < i + n → i ≤ d → d < i + n → c ≠ d → (cool c).Disjoint (cool d)) →
    (∀ c d, i ≤ c → c < i + n → i ≤ d → d < i + n → w.core.hot_span_ c ∉ cool d) →
    ∃ w2, DestroyLoop cfg fuel n i w = .ok w2 ∧
      (∀ c, i ≤ c → c < i + n → w2.core.hot_span_ c = 0 ∧ w2.core.cool_spans_ c = 0 ∧
        (cfg.REUSE_SLOW_SPANS = true → w2.core.slow_spans_ c = [])) ∧
      (∀ c, ¬ (i ≤ c ∧ c < i + n) → w2.core.hot_span_ c = w.core.hot_span_ c ∧
        w2.core.cool_spans_ c = w.core.cool_spans_ c ∧
        w2.core.slow_spans_ c = w.core.slow_spans_ c) ∧
      (cfg.REUSE_SLOW_SPANS = false → w2.core.slow_spans_ = w.core.slow_spans_) ∧
      w2.mem = w.mem ∧
      (∀ x, (w2.hdrs x).flist = (w.hdrs x).flist) ∧
      (∀ x c, i ≤ c → c < i + n → x ∈ cool c → w2.hdrs x = (w.hdrs x).floated) ∧
      (∀ x, (∀ c, i ≤ c → c < i + n → x ∉ cool c) → ∀ c, i ≤ c → c < i + n →
        x = w.core.hot_span_ c → x ≠ 0 → (w.hdrs x).flist.Full = false →
        w2.hdrs x = (w.hdrs x).inactive) ∧
      (∀ x, (∀ c, i ≤ c → c < i + n → x ∉ cool c) →
        (∀ c, i ≤ c → c < i + n → x = w.core.hot_span_ c →
          x = 0 ∨ (w.hdrs x).flist.Full = true) →
        w2.hdrs x = w.hdrs x) ∧
      (∀ r ∈ w.released, r ∈ w2.released) ∧
      (∀ c, i ≤ c → c < i + n → w.core.hot_span_ c ≠ 0 →
        (w.hdrs (w.core.hot_span_ c)).flist.Full = true →
        ∃ r ∈ w2.released, r.span = w.core.hot_span_ c) := by
  intro n
  induction n with
  | zero =>
    intro i w _ _ _
    refine ⟨w, rfl, ?_, ?_, fun _ => rfl, rfl, fun _ => rfl, ?_, ?_, ?_, fun r hr => hr, ?_⟩
    · intro c h1 h2; omega
    · intro c _; exact ⟨rfl, rfl, rfl⟩
    · intro x c h1 h2; omega
    · intro x _ c h1 h2; omega
    · intro x _ _; rfl
    · intro c h1 h2; omega
  | succ n ih =>
    intro i w H1 H2 H3
    obtain ⟨hcli, hleni⟩ := H1 i le_rfl (by omega)
    obtain ⟨w1, hD, hh1, hc1, hs1, hm1, hin1, hout1, hrel1, hrelhot1⟩ :=
      DestroyClass_spec cfg fuel i w (cool i) hcli hleni
        (H3 i i le_rfl (by omega) le_rfl (by omega))
    have hfl1 : ∀ x, (w1.hdrs x).flist = (w.hdrs x).flist := by
      intro x
      by_cases hx : x ∈ cool i
      · rw [hin1 x hx]; rfl
      · rw [hout1 x hx]; split_ifs <;> rfl
    have hhot1 : ∀ c, c ≠ i → w1.core.hot_span_ c = w.core.hot_span_ c := by
      intro c hc; rw [hh1]; exact upd_other _ _ _ _ hc
    have hcool1 : ∀ c, c ≠ i → w1.core.cool_spans_ c = w.core.cool_spans_ c := by
      intro c hc; rw [hc1]; exact upd_other _ _ _ _ hc
    have hsame1 : ∀ x, x ∉ cool i → x ≠ w.core.hot_span_ i → w1.hdrs x = w.hdrs x := by
      intro x h1 h2; rw [hout1 x h1, if_neg (fun h => h2 h.1)]
    have H1' : ∀ c, i + 1 ≤ c → c < i + 1 + n →
        CoolList w1 c (cool c) ∧ (cool c).length ≤ fuel := by
      intro c h1 h2
      obtain ⟨hcl, hl⟩ := H1 c (by omega) (by omega)
      refine ⟨CoolList_congr (hcool1 c (by omega)) (fun x hx => ?_) hcl, hl⟩
      have hxi : x ∉ cool i := fun hxi =>
        H2 i c le_rfl (by omega) (by omega) (by omega) (by omega) hxi hx
      have hxh : x ≠ w.core.hot_span_ i := fun e =>
        H3 i c le_rfl (by omega) (by omega) (by omega) (e ▸ hx)
      rw [hsame1 x hxi hxh]; exact ⟨rfl, rfl⟩
    have H2' : ∀ c d, i + 1 ≤ c → c < i + 1 + n → i + 1 ≤ d → d < i + 1 + n → c ≠ d →
        (cool c).Disjoint (cool d) := fun c d h1 h2 h3 h4 =>
      H2 c d (by omega) (by omega) (by omega) (by omega)
    have H3' : ∀ c d, i + 1 ≤ c → c < i + 1 + n → i + 1 ≤ d → d < i + 1 + n →
        w1.core.hot_span_ c ∉ cool d := by
      intro c d h1 h2 h3 h4
      rw [hhot1 c (by omega)]
      exact H3 c d (by omega) (by omega) (by omega) (by omega)
    obtain ⟨w2, hL, hA, hB, hS, hM, hF, hin2, hB2, hC2, hrel2, hrelhot2⟩ :=
      ih (i + 1) w1 H1' H2' H3'
    refine ⟨w2, ?_, ?_, ?_, ?_, hM.trans hm1, fun x => (hF x).trans (hfl1 x), ?_, ?_, ?_,
      fun r hr => hrel2 r (hrel1 r hr), ?_⟩
    · simp only [DestroyLoop, hD]; exact hL
    · intro c h1 h2
      by_cases hci : c = i
      · obtain ⟨a, b, s⟩ := hB c (by omega)
        refine ⟨a.trans ?_, b.trans ?_, fun hf => s.trans ?_⟩
        · rw [hh1, hci]; simp
        · rw [hc1, hci]; simp
        · rw [hs1, hci]; simp [hf]
      · exact hA c (by omega) (by omega)
    · intro c hnr
      have hci : c ≠ i := by
        intro e; exact hnr ⟨by omega, by omega⟩
      obtain ⟨a, b, s⟩ := hB c (by omega)
      refine ⟨a.trans (hhot1 c hci), b.trans (hcool1 c hci), s.trans ?_⟩
      rw [hs1]; split_ifs <;> simp [hci]
    · intro hf
      rw [hS hf, hs1]; simp [hf]
    · intro x c h1 h2 hx
      by_cases hci : c = i
      · rw [hci] at hx
        have hno : ∀ d, i + 1 ≤ d → d < i + 1 + n → x ∉ cool d := fun d a b hx2 =>
          H2 i d le_rfl (by omega) (by omega) (by omega) (by omega) hx hx2
        have hnh : ∀ d, i + 1 ≤ d → d < i + 1 + n → x = w1.core.hot_span_ d →
            x = 0 ∨ (w1.hdrs x).flist.Full = true := by
          intro d a b e
          rw [hhot1 d (by omega)] at e
          exact absurd (e ▸ hx) (H3 d i (by omega) (by omega) le_rfl (by omega))
        rw [hC2 x hno hnh, hin1 x hx]
      · have hxi : x ∉ cool i := fun hxi =>
          H2 i c le_rfl (by omega) (by omega) (by omega) (Ne.symm hci) hxi hx
        have hxh : x ≠ w.core.hot_span_ i := fun e =>
          H3 i c le_rfl (by omega) (by omega) (by omega) (e ▸ hx)
        rw [hin2 x c (by omega) (by omega) hx, hsame1 x hxi hxh]
    · intro x hno c h1 h2 hxc hx0 hfull
      have hnoi : x ∉ cool i := hno i le_rfl (by omega)
      have hno2 : ∀ d, i + 1 ≤ d → d < i + 1 + n → x ∉ cool d := fun d a b =>
        hno d (by omega) (by omega)
      by_cases hex : ∃ d, i + 1 ≤ d ∧ d < i + 1 + n ∧ x = w.core.hot_span_ d
      · obtain ⟨d, a, b, e⟩ := hex
        have h2x := hB2 x hno2 d a b (by rw [hhot1 d (by omega)]; exact e) hx0
          (by rw [hfl1 x]; exact hfull)
        rw [h2x, hout1 x hnoi]
        split_ifs
        · exact inactive_inactive _
        · rfl
      · have hci : c = i := by
          by_contra hne
          exact hex ⟨c, by omega, by omega, hxc⟩
        have h1x : w1.hdrs x = (w.hdrs x).inactive := by
          rw [hout1 x hnoi, if_pos ⟨by rw [← hci]; exact hxc, hx0, hfull⟩]
        have hnh : ∀ d, i + 1 ≤ d → d < i + 1 + n → x = w1.core.hot_span_ d →
            x = 0 ∨ (w1.hdrs x).flist.Full = true := by
          intro d a b e
          exact absurd ⟨d, a, b, by rw [← hhot1 d (by omega)]; exact e⟩ hex
        rw [hC2 x hno2 hnh, h1x]
    · intro x hno hC
      have hnoi : x ∉ cool i := hno i le_rfl (by omega)
      have hno2 : ∀ d, i + 1 ≤ d → d < i + 1 + n → x ∉ cool d := fun d a b =>
        hno d (by omega) (by omega)
      have h1x : w1.hdrs x = w.hdrs x := by
        rw [hout1 x hnoi, if_neg]
        rintro ⟨e, hx0, hf⟩
        rcases hC i le_rfl (by omega) e with h | h
        · exact hx0 h
        · rw [hf] at h; cases h
      have hnh : ∀ d, i + 1 ≤ d → d < i + 1 + n → x = w1.core.hot_span_ d →
          x = 0 ∨ (w1.hdrs x).flist.Full = true := by
        intro d a b e
        rw [h1x]
        exact hC d (by omega) (by omega) (by rw [← hhot1 d (by omega)]; exact e)
      rw [hC2 x hno2 hnh, h1x]
    · intro c h1 h2 h0 hf
      by_cases hci : c = i
      · rw [hci] at h0 hf ⊢
        obtain ⟨r, hr, e⟩ := hrelhot1 h0 hf
        exact ⟨r, hrel2 r hr, e⟩
      · have := hrelhot2 c (by omega) (by omega) (by rw [hhot1 c hci]; exact h0)
          (by rw [hhot1 c hci, hfl1]; exact hf)
        rw [hhot1 c hci] at this
        exact this

/-- C15: `Destroy(frontend)` for a frontend with `K` size classes whose cool lists are well
formed as the lists `cool c`, pairwise disjoint, without the hot spans and no longer than
the fuel (and whose slow lists are empty when slow-span reuse is compiled out). It returns,
and then for every class the hot slot is null, the head of the cool list is null and the
slow list is empty; every span that was in a cool list has `prev` and `next` cleared and
its active bit false, with its owner id and its freelist unchanged; every span that was
hot is released with its header unchanged if its freelist was full, and otherwise has only
its active bit cleared. The block memory is unchanged. -/
theorem destroy_gives_up_spans (cfg : Config) (K fuel : Nat) (w : World)
    (cool : Nat → List Nat)
    (hcl : ∀ c, c < K → CoolList w c (cool c) ∧ (cool c).length ≤ fuel)
    (hdis : ∀ c d, c < K → d < K → c ≠ d → (cool c).Disjoint (cool d))
    (hhot : ∀ c d, c < K → d < K → w.core.hot_span_ c ∉ cool d)
    (hslow : cfg.REUSE_SLOW_SPANS = false → ∀ c, c < K → w.core.slow_spans_ c = []) :
    ∃ w2, Destroy cfg K fuel w = .ok w2 ∧
      (∀ c, c < K → w2.core.hot_span_ c = 0 ∧ w2.core.cool_spans_ c = 0 ∧
        w2.core.slow_spans_ c = []) ∧
      (∀ c x, c < K → x ∈ cool c →
        (w2.hdrs x).prev = 0 ∧ (w2.hdrs x).next = 0 ∧
        ActiveOwner.active (w2.hdrs x).aowner = false ∧
        ActiveOwner.owner (w2.hdrs x).aowner = ActiveOwner.owner (w.hdrs x).aowner ∧
        (w2.hdrs x).flist = (w.hdrs x).flist ∧ w2.hdrs x = (w.hdrs x).floated) ∧
      (∀ c, c < K → w.core.hot_span_ c ≠ 0 →
        ((w.hdrs (w.core.hot_span_ c)).flist.Full = true →
          (∃ r ∈ w2.released, r.span = w.core.hot_span_ c) ∧
          w2.hdrs (w.core.hot_span_ c) = w.hdrs (w.core.hot_span_ c)) ∧
        ((w.hdrs (w.core.hot_span_ c)).flist.Full = false →
          w2.hdrs (w.core.hot_span_ c) = (w.hdrs (w.core.hot_span_ c)).inactive ∧
          ActiveOwner.active (w2.hdrs (w.core.hot_span_ c)).aowner = false)) ∧
      w2.mem = w.mem := by
  obtain ⟨w2, hL, hA, -, hS, hM, -, hin, hB, hC, -, hrel⟩ :=
    DestroyLoop_spec cfg fuel cool K 0 w
      (fun c _ h2 => hcl c (by omega))
      (fun c d _ h2 _ h4 => hdis c d (by omega) (by omega))
      (fun c d _ h2 _ h4 => hhot c d (by omega) (by omega))
  have hno : ∀ c, c < K → ∀ d, 0 ≤ d → d < 0 + K → w.core.hot_span_ c ∉ cool d :=
    fun c hc d _ h2 => hhot c d hc (by omega)
  refine ⟨w2, hL, ?_, ?_, ?_, hM⟩
  · intro c hc
    obtain ⟨a, b, s⟩ := hA c (Nat.zero_le c) (by omega)
    refine ⟨a, b, ?_⟩
    by_cases hf : cfg.REUSE_SLOW_SPANS = true
    · exact s hf
    · have hf2 : cfg.REUSE_SLOW_SPANS = false := by simpa using hf
      rw [hS hf2]; exact hslow hf2 c hc
  · intro c x hc hx
    have h := hin x c (Nat.zero_le c) (by omega) hx
    rw [h]
    exact ⟨rfl, rfl, clearActive_active _, clearActive_owner _, rfl, rfl⟩
  · intro c hc h0
    constructor
    · intro hf
      refine ⟨hrel c (Nat.zero_le c) (by omega) h0 hf, ?_⟩
      exact hC _ (hno c hc) (fun _ _ _ _ => Or.inr hf)
    · intro hf
      have h := hB _ (hno c hc) c (Nat.zero_le c) (by omega) rfl h0 hf
      rw [h]
      exact ⟨rfl, clearActive_active _⟩

theorem destroy_gives_up_spans_witness :
    ∃ w2, Destroy cfgEx 2 5 worldCool = .ok w2 ∧ w2.core.hot_span_ 1 = 0 ∧
      w2.core.cool_spans_ 1 = 0 ∧ (w2.hdrs 4096).next = 0 ∧
      w2.hdrs 8192 = (worldCool.hdrs 8192).inactive := by
  obtain ⟨w2, h1, h2, h3, h4, -⟩ := destroy_gives_up_spans cfgEx 2 5 worldCool coolEx
    (by decide)
    (by intro c d hc hd hne; interval_cases c <;> interval_cases d <;> simp [coolEx] at hne ⊢)
    (by intro c d hc hd; interval_cases c <;> interval_cases d <;> decide)
    (by decide)
  exact ⟨w2, h1, (h2 1 (by decide)).1, (h2 1 (by decide)).2.1,
    (h3 1 4096 (by decide) (by decide)).2.1, ((h4 1 (by decide) (by decide)).2 (by decide)).1⟩

/-! ## The cool list stays well formed (C25) -/

/-- C25: if `cool[c]` is well formed as the list `l` (the head has no predecessor, the
links of consecutive entries match, no span twice), then after `AddCoolSpan(c, s)` for a
non-null span `s` not in it the list is `s` followed by `l`; after `RemoveCoolSpan(c, s)`
for a member `s` (head, middle or tail) the list is `l` without `s`, in unchanged order
and well formed, `s` is no longer in it, and `s.prev == s.next == NULL`; and
`RemoveCoolSpan(c, s)` of a span with null links that is not the head changes no header
and nothing of the frontend, so the list stays `l`. -/
theorem cool_list_well_formed (c s : Nat) (w : World) (l : List Nat) (h : CoolList w c l) :
    (s ≠ 0 → s ∉ l → CoolList (AddCoolSpan c s w) c (s :: l)) ∧
    (s ∈ l → CoolList (RemoveCoolSpan c s w) c (l.erase s) ∧ s ∉ l.erase s ∧
      ((RemoveCoolSpan c s w).hdrs s).prev = 0 ∧ ((RemoveCoolSpan c s w).hdrs s).next = 0) ∧
    ((w.hdrs s).prev = 0 → (w.hdrs s).next = 0 → w.core.cool_spans_ c ≠ s →
      (RemoveCoolSpan c s w).hdrs = w.hdrs ∧ (RemoveCoolSpan c s w).core = w.core ∧
      CoolList (RemoveCoolSpan c s w) c l) := by
  refine ⟨fun hs0 hs => AddCoolSpan_CoolList c s w l h hs0 hs, fun hs => ?_, fun hp hn hh => ?_⟩
  · obtain ⟨k1, k2, k3, -⟩ := RemoveCoolSpan_CoolList c s w l h hs
    exact ⟨k1, fun hm => ((List.Nodup.mem_erase_iff h.2).1 hm).1 rfl, k2, k3⟩
  · obtain ⟨e1, e2⟩ := RemoveCoolSpan_unlinked_noop c s w hp hn hh
    exact ⟨e1, e2, CoolList_congr (by rw [e2]) (fun x _ => by rw [e1]; exact ⟨rfl, rfl⟩) h⟩

theorem cool_list_well_formed_witness :
    CoolList (RemoveCoolSpan 1 4096 (SetActiveSlab 1 12288 worldCool)) 1 [8192] :=
  ((cool_list_well_formed 1 4096 (SetActiveSlab 1 12288 worldCool) [8192, 4096]
    (by decide)).2.1 (by decide)).1

/-! ## The length field of a freelist (C26) -/

/-- C26 (amended): for a freelist initialised by `InitRange` over a range that starts above
`NULL`, has a stride of at least 8 bytes (a block holds the link, a pointer) and stays
inside the address space, after every sequence of `Push` and `Pop` calls in which each
`Push` gives back a block that a `Pop` returned and that has not been pushed since:
`Size()` is the length of the chain, `Empty()` holds exactly when `Size() == 0`, `Pop`
returns null exactly when `Size() == 0`, and a `Pop` on the empty list leaves the
freelist, so its length, unchanged. -/
theorem size_is_chain_length (base stride count : Nat) (m0 : Mem) (hb : 0 < base)
    (hs : 8 ≤ stride) (hfit : base + count * stride ≤ kWord)
    (f : Freelist) (m : Mem) (out : List Nat) (h : FlReach base stride count m0 f m out) :
    (∃ L, Chain m f.list_ L ∧ f.Size = L.length) ∧
    (f.Empty = true ↔ f.Size = 0) ∧
    ((f.Pop m).1 = 0 ↔ f.Size = 0) ∧
    (f.Size = 0 → (f.Pop m).2 = f) := by
  obtain ⟨L, hc, hl, -⟩ := FlReach_inv base stride count m0 hb hs hfit h
  have hz : f.list_ = 0 ↔ f.len_ = 0 := by
    rw [Chain_nil_iff hc, hl]
    exact List.length_eq_zero.symm
  have hpop1 : (f.Pop m).1 = f.list_ := by
    unfold Freelist.Pop; split_ifs <;> rfl
  refine ⟨⟨L, hc, hl⟩, ?_, ?_, ?_⟩
  · simp only [Freelist.Empty, Freelist.Size, beq_iff_eq]
    exact hz
  · rw [hpop1]
    exact hz
  · intro h0
    have : f.list_ = 0 := hz.2 h0
    simp [Freelist.Pop, this]

theorem size_is_chain_length_witness :
    (((Freelist.InitRange 4160 16 1 Mem.zero).1.Pop
        (Freelist.InitRange 4160 16 1 Mem.zero).2).2.Empty = true ↔
      ((Freelist.InitRange 4160 16 1 Mem.zero).1.Pop
        (Freelist.InitRange 4160 16 1 Mem.zero).2).2.Size = 0) :=
  (size_is_chain_length 4160 16 1 Mem.zero (by decide) (by decide) (by decide) _ _ _
    (FlReach.pop FlReach.init)).2.1

/-- C26 as stated fails. When a block is pushed twice (`InitRange(4160, 16, 1)`, `Pop`,
`Push(4160)`, `Push(4160)`, `Pop`, `Pop`) the length is 0 while the list is not empty and
`Pop` returns the block again. And for a stride below the size of a pointer
(`InitRange(4160, 4, 2)`, `Pop`, `Pop`) the link of the second block was stored over the
upper half of the link of the first, so the length is 0 while the head of the list is
`4160 * 2^32` and the list is not empty. -/
theorem double_push_counterexample :
    (flDouble.1.Size = 0 ∧ flDouble.1.Empty = false ∧
      (flDouble.1.Pop flDouble.2).1 = 4160) ∧
    (flNarrow.Size = 0 ∧ flNarrow.Empty = false ∧ flNarrow.list_ = 4160 * 2 ^ 32) := by
  decide
/-! ## The typed allocator (C21) -/

/-- Without overflow `PadSize` is the round-up to the next multiple. -/
theorem PadSize_eq (size multiple : Nat) (hm : 0 < multiple)
    (hfit : size + multiple < kWord) :
    PadSize size multiple = (size + multiple - 1) / multiple * multiple := by
  unfold PadSize
  have e1 : size + multiple + kWord - 1 = (size + multiple - 1) + kWord := by omega
  have h1 : (size + multiple - 1) % kWord = size + multiple - 1 :=
    Nat.mod_eq_of_lt (by omega)
  have h2 : (size + multiple - 1) / multiple * multiple ≤ size + multiple - 1 :=
    Nat.div_mul_le_self _ _
  rw [e1, Nat.add_mod_right, h1]
  exact Nat.mod_eq_of_lt (by omega)

/-- The round-up of `size` to a multiple of `multiple`: a multiple, at least `size`, less
than `size + multiple`. -/
theorem roundUp_spec (size multiple : Nat) (hm : 0 < multiple) :
    multiple ∣ (size + multiple - 1) / multiple * multiple ∧
    size ≤ (size + multiple - 1) / multiple * multiple ∧
    (size + multiple - 1) / multiple * multiple < size + multiple := by
  have h2 : (size + multiple - 1) / multiple * multiple ≤ size + multiple - 1 :=
    Nat.div_mul_le_self _ _
  have h3 := Nat.lt_div_mul_add hm (a := size + multiple - 1)
  exact ⟨Dvd.intro_left _ rfl, by omega, by omega⟩

/-- C21: `TypedAllocator<T>::Init(alloc_increment, alignment)` on `size_t` arguments. With
`padded` the object size (`sizeof(T)`, rounded up to a multiple of `alignment` when
`alignment > 1`): `Init` ends in `Fatal` if `alignment > 1` and `alignment` does not
divide the page size, if `alignment > 1` and `sizeof(T) + alignment` overflows, or if
`padded` exceeds `alloc_increment`; in every other case it returns with
`alloc_increment_ = alloc_increment` and `tsize_ = padded`. -/
theorem typed_allocator_init (sizeofT kPageSize : Nat) (a : TypedAllocator)
    (alloc_increment alignment : Nat) (hT : sizeofT < kWord) (hal : alignment < kWord) :
    (((1 < alignment ∧ kPageSize % alignment ≠ 0) ∨
        (1 < alignment ∧ kWord ≤ sizeofT + alignment) ∨
        alloc_increment <
          (if 1 < alignment then (sizeofT + alignment - 1) / alignment * alignment
           else sizeofT)) →
      TypedAllocator.Init sizeofT kPageSize a alloc_increment alignment = .error .fatal) ∧
    (¬ ((1 < alignment ∧ kPageSize % alignment ≠ 0) ∨
        (1 < alignment ∧ kWord ≤ sizeofT + alignment) ∨
        alloc_increment <
          (if 1 < alignment then (sizeofT + alignment - 1) / alignment * alignment
           else sizeofT)) →
      TypedAllocator.Init sizeofT kPageSize a alloc_increment alignment =
        .ok { alloc_increment_ := alloc_increment,
              tsize_ := if 1 < alignment then (sizeofT + alignment - 1) / alignment * alignment
                        else sizeofT }) ∧
    (1 < alignment →
      alignment ∣ (sizeofT + alignment - 1) / alignment * alignment ∧
      sizeofT ≤ (sizeofT + alignment - 1) / alignment * alignment ∧
      (sizeofT + alignment - 1) / alignment * alignment < sizeofT + alignment) := by
  refine ⟨?_, ?_, fun h1 => roundUp_spec sizeofT alignment (by omega)⟩
  · intro hc
    unfold TypedAllocator.Init
    by_cases h1 : 1 < alignment
    · have hk : alignment > kNoAlignment := h1
      simp only [hk, if_true, h1] at hc ⊢
      by_cases hov : kWord ≤ sizeofT + alignment
      · have : (sizeofT + alignment) % kWord ≤ sizeofT := by
          have e : sizeofT + alignment = (sizeofT + alignment - kWord) + kWord := by omega
          rw [e, Nat.add_mod_right, Nat.mod_eq_of_lt (by omega)]
          omega
        simp [this]
      · have hno : ¬ (sizeofT + alignment) % kWord ≤ sizeofT := by
          rw [Nat.mod_eq_of_lt (by omega)]; omega
        by_cases hpg : kPageSize % alignment ≠ 0
        · simp [hno, hpg]
        · have hpg0 : kPageSize % alignment = 0 := by omega
          have hlt : alloc_increment < (sizeofT + alignment - 1) / alignment * alignment := by
            rcases hc with ⟨-, c⟩ | ⟨-, c⟩ | c
            · exact absurd hpg0 c
            · exact absurd c hov
            · exact c
          simp [hno, hpg0, PadSize_eq sizeofT alignment (by omega) (by omega), hlt]
    · have hk : ¬ alignment > kNoAlignment := h1
      simp only [hk, if_false, h1] at hc ⊢
      have hlt : alloc_increment < sizeofT := by
        rcases hc with ⟨c, -⟩ | ⟨c, -⟩ | c
        · exact c.elim
        · exact c.elim
        · exact c
      simp [hlt]
  · intro hc
    unfold TypedAllocator.Init
    by_cases h1 : 1 < alignment
    · have hk : alignment > kNoAlignment := h1
      simp only [h1, if_true, true_and, not_or, not_le, not_lt, ne_eq, not_not] at hc
      obtain ⟨c1, c2, c3⟩ := hc
      have hno : ¬ (sizeofT + alignment) % kWord ≤ sizeofT := by
        rw [Nat.mod_eq_of_lt c2]; omega
      simp [hk, hno, c1, PadSize_eq sizeofT alignment (by omega) c2, h1, Nat.not_lt.2 c3]
    · have hk : ¬ alignment > kNoAlignment := h1
      simp only [h1, if_false, false_and, false_or, not_lt] at hc
      simp [hk, h1, Nat.not_lt.2 hc]

theorem typed_allocator_init_witness :
    TypedAllocator.Init 24 4096 (TypedAllocator.mk 0 0) 4096 64 =
      .ok (TypedAllocator.mk 4096 64) :=
  (typed_allocator_init 24 4096 (TypedAllocator.mk 0 0) 4096 64 (by decide)
    (by decide)).2.1 (by decide)

/-! ## The order of the slow list (C22) -/

/-- C22 (amended): when `Free` demotes a cool span `hdr` of class `c` (active local free,
`hdr` not hot, utilization below the reuse threshold, freelist not full; slow-span reuse
compiled in, the tags of the frontend being those of its id), `Free` returns and `hdr` is
put in front of `slow[c]`: it is the first entry, before every span demoted earlier, and
its tag is `me_inactive_`. The walk of `Refill(c)` starts at that entry: an immediately
following `Refill(c)` takes `hdr` back as `hot[c]` and leaves the spans demoted earlier in
`slow[c]`. -/
theorem demote_prepends (cfg : Config) (w : World) (p hdr u : Nat) (hnull : hdr ≠ 0)
    (hsz : cfg.ClassToSize (w.hdrs hdr).size_class ≠ 0)
    (ha : (w.hdrs hdr).aowner = w.core.me_active_)
    (hhot : hdr ≠ w.core.hot_span_ (w.hdrs hdr).size_class)
    (hu : ((afterActivePush cfg w p hdr).hdrs hdr).Utilization = .ok u)
    (hlt : u < cfg.kSpanReuseThreshold)
    (hfull : ((afterActivePush cfg w p hdr).hdrs hdr).flist.Full = false)
    (hreuse : cfg.REUSE_SLOW_SPANS = true) (hid : w.core.id_ < 2 ^ 63)
    (htagA : w.core.me_active_ = ActiveOwner.Reset true w.core.id_)
    (htagI : w.core.me_inactive_ = ActiveOwner.Reset false w.core.id_) :
    ∃ w', Free cfg p hdr w = .ok w' ∧
      w'.core.slow_spans_ (w.hdrs hdr).size_class
        = hdr :: w.core.slow_spans_ (w.hdrs hdr).size_class ∧
      (w'.hdrs hdr).aowner = w'.core.me_inactive_ ∧
      ∀ r, ∃ w2, Refill cfg (w.hdrs hdr).size_class r w' = .ok w2 ∧
        w2.core.hot_span_ (w.hdrs hdr).size_class = hdr ∧
        w2.core.slow_spans_ (w.hdrs hdr).size_class
          = w.core.slow_spans_ (w.hdrs hdr).size_class := by
  have hF := Free_active_demote cfg w p hdr u hnull hsz ha hhot hu hlt hfull
  generalize hc : (w.hdrs hdr).size_class = c at *
  obtain ⟨w', hw'⟩ : ∃ w', w' = (AddSlowSpan cfg c hdr
      (RemoveCoolSpan c hdr (afterActivePush cfg w p hdr))).modHdr hdr
        (fun h => { h with aowner := ActiveOwner.clearActive h.aowner }) := ⟨_, rfl⟩
  rw [← hw'] at hF
  have hun := RemoveCoolSpan_unlinked c hdr (afterActivePush cfg w p hdr) hdr
  have hslow : w'.core.slow_spans_ c = hdr :: w.core.slow_spans_ c := by
    rw [hw', modHdr_core, AddSlowSpan_slow, if_pos hreuse, upd_same, RemoveCoolSpan_slow]
    rfl
  have htag : (w'.hdrs hdr).aowner = w.core.me_inactive_ := by
    rw [hw', modHdr_hdrs_same, AddSlowSpan_hdrs]
    show ActiveOwner.clearActive ((RemoveCoolSpan c hdr (afterActivePush cfg w p hdr)).hdrs
      hdr).aowner = _
    rw [unlinked_aowner hun]
    show ActiveOwner.clearActive ((pushBlock hdr _ w).hdrs hdr).aowner = _
    rw [pushBlock_aowner, ha, htagA, htagI, clearActive_Reset]
  have hcls : (w'.hdrs hdr).size_class = c := by
    rw [hw', modHdr_hdrs_same, AddSlowSpan_hdrs]
    show ((RemoveCoolSpan c hdr (afterActivePush cfg w p hdr)).hdrs hdr).size_class = _
    rw [unlinked_size_class hun]
    show ((pushBlock hdr _ w).hdrs hdr).size_class = _
    rw [pushBlock_size_class, hc]
  have hcI : w'.core.me_inactive_ = w.core.me_inactive_ := by
    rw [hw', modHdr_core]; simp [afterActivePush]
  have hcid : w'.core.id_ = w.core.id_ := by
    rw [hw', modHdr_core]; simp [afterActivePush]
  have hq : Reclaimable c w' hdr :=
    ⟨by rw [htag, htagI, hcid]; exact owner_Reset false _ hid, hcls, by rw [htag, hcI]⟩
  refine ⟨w', hF, hslow, by rw [htag, hcI], fun r => ?_⟩
  refine ⟨_, Refill_slow cfg c r w' hdr (w.core.slow_spans_ c) hreuse hslow hnull hq,
    SetActiveSlab_hot_same _ _ _, ?_⟩
  rw [SetActiveSlab_slow, modHdr_core, modCore_core]
  exact upd_same _ _ _

theorem demote_prepends_witness :
    ∃ w', Free cfgEx 4160 4096 worldCool = .ok w' ∧ w'.core.slow_spans_ 1 = [4096] := by
  obtain ⟨w', h1, h2, -⟩ := demote_prepends cfgEx worldCool 4160 4096 75 (by decide)
    (by decide) (by decide) (by decide) rfl (by decide) (by decide) rfl (by decide)
    (by decide) (by decide)
  exact ⟨w', h1, h2⟩

/-- C22 as stated fails: the span at 4096 is demoted first and the span at 8192 second;
the span at 8192 is then the first entry of `slow[1]`, not the last one, and `Refill(1)`
takes it back first, leaving the span demoted earlier in the list. -/
theorem demote_order_counterexample :
    worldTwoSlow.core.slow_spans_ 1 = [8192, 4096] ∧
      (refillEx worldTwoSlow).core.hot_span_ 1 = 8192 ∧
      (refillEx worldTwoSlow).core.slow_spans_ 1 = [4096] := by
  decide

/-! ## One round of answers is enough (C23) -/

theorem AllocateInSizeClassWith_mono (f g : World → Except Fault (Nat × World)) (sc : Nat)
    (hfg : ∀ w x, f w = .ok x → g w = .ok x) (w : World) (x : Nat × World)
    (h : AllocateInSizeClassWith f sc w = .ok x) : AllocateInSizeClassWith g sc w = .ok x := by
  unfold AllocateInSizeClassWith at h ⊢
  by_cases hhot : w.core.hot_span_ sc = 0
  · simp only [hhot, if_true] at h ⊢
    exact hfg _ _ h
  · simp only [hhot, if_false] at h ⊢
    split_ifs at h ⊢ with hp
    · exact h
    · exact hfg _ _ h

/-- Answers that are not read do not matter: a call of `AllocateNoSlab` that returns with
the rounds `rs` returns the same with more rounds. -/
theorem AllocateNoSlab_mono (cfg : Config) (sc : Nat) (more : List Round) :
    ∀ (rs : List Round) (w : World) (x : Nat × World),
      AllocateNoSlab cfg sc rs w = .ok x → AllocateNoSlab cfg sc (rs ++ more) w = .ok x := by
  intro rs
  induction rs with
  | nil =>
    intro w x h
    by_cases hsc : sc = 0
    · cases more with
      | nil => exact h
      | cons r rs2 =>
        simp only [AllocateNoSlab, hsc, if_true] at h
        simp only [List.nil_append, AllocateNoSlab, hsc, if_true]
        exact h
    · simp [AllocateNoSlab, hsc] at h
  | cons r rs ih =>
    intro w x h
    rw [List.cons_append]
    unfold AllocateNoSlab at h ⊢
    by_cases hsc : sc = 0
    · simp only [hsc, if_true] at h ⊢
      exact h
    · simp only [hsc, if_false] at h ⊢
      by_cases hbp : r.bp_block ≠ 0
      · rw [if_pos hbp] at h ⊢
        exact h
      · rw [if_neg hbp] at h ⊢
        cases hre : Refill cfg sc r (BlockPoolAllocate r.bp_block w) with
        | error e => rw [hre] at h; cases h
        | ok w2 =>
          rw [hre] at h
          exact AllocateInSizeClassWith_mono _ _ sc (fun w3 x3 h3 => ih w3 x3 h3) w2 x h

theorem SetActiveSlab_hot_ne (sc s : Nat) (w : World) (hs : s ≠ 0) (d : Nat)
    (h : w.core.hot_span_ d ≠ 0) : (SetActiveSlab sc s w).core.hot_span_ d ≠ 0 := by
  by_cases hd : d = sc
  · rw [hd, SetActiveSlab_hot_same]; exact hs
  · rw [SetActiveSlab_hot_other sc d s w hd]; exact h

theorem BlockPoolAllocate_core (b : Nat) (w : World) : (BlockPoolAllocate b w).core = w.core := by
  unfold BlockPoolAllocate; split_ifs <;> rfl

theorem RefillSlow_hot (sc : Nat) : ∀ (l : List Nat) (w : World) (b : Bool) (w3 : World),
    RefillSlow sc l w = .ok (b, w3) →
    ∀ d, w.core.hot_span_ d ≠ 0 → w3.core.hot_span_ d ≠ 0 := by
  intro l
  induction l with
  | nil =>
    intro w b w3 h d hd
    simp only [RefillSlow, Except.ok.injEq, Prod.mk.injEq] at h
    rw [← h.2]; exact hd
  | cons s rest ih =>
    intro w b w3 h d hd
    rw [RefillSlow_cons] at h
    split_ifs at h with h0 hq
    · simp only [Except.ok.injEq, Prod.mk.injEq] at h
      rw [← h.2]
      exact SetActiveSlab_hot_ne sc s _ h0 d hd
    · exact ih _ b w3 h d hd

theorem Refill_hot (cfg : Config) (sc : Nat) (r : Round) (w w2 : World)
    (h : Refill cfg sc r w = .ok w2) :
    ∀ d, w.core.hot_span_ d ≠ 0 → w2.core.hot_span_ d ≠ 0 := by
  intro d hd
  have hfresh : ∀ w1 : World, w1.core.hot_span_ d ≠ 0 →
      (if r.sp_span = 0 then (Except.error Fault.assertion : Except Fault World)
        else .ok (SetActiveSlab sc r.sp_span
          (SpanHeader.Init cfg r.sp_span sc w1.core.id_ r.sp_reusable
            { w1 with gets := r.sp_span :: w1.gets }))) = .ok w2 →
      w2.core.hot_span_ d ≠ 0 := by
    intro w1 h1 hh
    split_ifs at hh with hsp
    simp only [Except.ok.injEq] at hh
    rw [← hh]
    exact SetActiveSlab_hot_ne sc _ _ hsp d h1
  unfold Refill at h
  cases hf : cfg.REUSE_SLOW_SPANS with
  | false =>
    simp only [hf, Bool.false_eq_true, if_false, bind, Except.bind, pure, Except.pure] at h
    exact hfresh w hd h
  | true =>
    simp only [hf, if_true] at h
    cases hRS : RefillSlow sc (w.core.slow_spans_ sc) w with
    | error e =>
      simp only [hRS, bind, Except.bind] at h
      cases h
    | ok bw =>
      obtain ⟨b, w1⟩ := bw
      have h1 := RefillSlow_hot sc _ w b w1 hRS d hd
      cases b with
      | true =>
        simp only [hRS, bind, Except.bind, pure, Except.pure, if_true, Except.ok.injEq] at h
        rw [← h]; exact h1
      | false =>
        simp only [hRS, bind, Except.bind, pure, Except.pure, Bool.false_eq_true, if_false] at h
        exact hfresh w1 h1 h

theorem AllocateInSizeClassWith_hot (f : World → Except Fault (Nat × World)) (sc : Nat)
    (hf : ∀ w p w', f w = .ok (p, w') → ∀ d, w.core.hot_span_ d ≠ 0 → w'.core.hot_span_ d ≠ 0)
    (w : World) (p : Nat) (w' : World) (h : AllocateInSizeClassWith f sc w = .ok (p, w')) :
    ∀ d, w.core.hot_span_ d ≠ 0 → w'.core.hot_span_ d ≠ 0 := by
  intro d hd
  unfold AllocateInSizeClassWith at h
  by_cases hhot : w.core.hot_span_ sc = 0
  · simp only [hhot, if_true] at h
    exact hf _ _ _ h d hd
  · simp only [hhot, if_false] at h
    split_ifs at h with hp
    · simp only [Except.ok.injEq, Prod.mk.injEq] at h
      rw [← h.2]; exact hd
    · exact hf _ _ _ h d hd

theorem AllocateNoSlab_hot (cfg : Config) (sc : Nat) :
    ∀ (rs : List Round) (w : World) (p : Nat) (w' : World),
      AllocateNoSlab cfg sc rs w = .ok (p, w') →
      ∀ d, w.core.hot_span_ d ≠ 0 → w'.core.hot_span_ d ≠ 0 := by
  intro rs
  induction rs with
  | nil =>
    intro w p w' h d hd
    unfold AllocateNoSlab at h
    split_ifs at h
    simp only [Except.ok.injEq, Prod.mk.injEq] at h
    rw [← h.2]; exact hd
  | cons r rs ih =>
    intro w p w' h d hd
    have hd1 : (BlockPoolAllocate r.bp_block w).core.hot_span_ d ≠ 0 := by
      rw [BlockPoolAllocate_core]; exact hd
    unfold AllocateNoSlab at h
    by_cases hsc : sc = 0
    · simp only [hsc, if_true, Except.ok.injEq, Prod.mk.injEq] at h
      rw [← h.2]; exact hd
    · simp only [hsc, if_false] at h
      by_cases hbp : r.bp_block ≠ 0
      · rw [if_pos hbp] at h
        split_ifs at h with hs hc hg ho
        · simp only [Except.ok.injEq, Prod.mk.injEq] at h
          rw [← h.2]
          exact SetActiveSlab_hot_ne sc _ _ hs d hd1
        · cases hre : Refill cfg sc r (BlockPoolAllocate r.bp_block w) with
          | error e => rw [hre] at h; cases h
          | ok w2 =>
            rw [hre] at h
            simp only [Except.map, Except.ok.injEq, Prod.mk.injEq] at h
            rw [← h.2]
            exact Refill_hot cfg sc r _ w2 hre d hd1
        · simp only [Except.ok.injEq, Prod.mk.injEq] at h
          rw [← h.2]; exact hd1
      · rw [if_neg hbp] at h
        cases hre : Refill cfg sc r (BlockPoolAllocate r.bp_block w) with
        | error e => rw [hre] at h; cases h
        | ok w2 =>
          rw [hre] at h
          exact AllocateInSizeClassWith_hot _ sc (fun w3 p3 w4 h3 => ih w3 p3 w4 h3) w2 p w' h d
            (Refill_hot cfg sc r _ w2 hre d hd1)

theorem Allocate_hot (cfg : Config) (size : Nat) (rs : List Round) (w : World) (p : Nat)
    (w' : World) (h : Allocate cfg size rs w = .ok (p, w')) :
    ∀ d, w.core.hot_span_ d ≠ 0 → w'.core.hot_span_ d ≠ 0 := by
  unfold Allocate AllocateInSizeClass at h
  exact AllocateInSizeClassWith_hot _ _
    (fun w3 p3 w4 h3 => AllocateNoSlab_hot cfg _ rs w3 p3 w4 h3) w p w' h

theorem Free_hot (cfg : Config) (w w' : World) (p hdr : Nat)
    (h : Free cfg p hdr w = .ok w') :
    ∀ d, w.core.hot_span_ d ≠ 0 → w'.core.hot_span_ d ≠ 0 := by
  intro d hd
  obtain ⟨hnull, -, hcase⟩ := Free_inv cfg w w' p hdr h
  cases hcase with
  | remote ha hi => exact hd
  | keep ha hk => exact hd
  | release u ha hhot hu hlt hfull =>
    rw [releaseSpan_core, RemoveCoolSpan_hot]; exact hd
  | demote u ha hhot hu hlt hfull =>
    rw [modHdr_core, AddSlowSpan_hot, RemoveCoolSpan_hot]; exact hd
  | promote u w3 ha hi hcur hu hgt hrm =>
    apply SetActiveSlab_hot_ne _ _ _ hnull
    rw [(RemoveSlowSpan_ok _ _ _ _ _ hrm).2.2.2.2.2.1]; exact hd
  | retire u w3 ha hi hcur hu hle hfull hrm =>
    rw [releaseSpan_core, (RemoveSlowSpan_ok _ _ _ _ _ hrm).2.2.2.2.2.1]; exact hd
  | stay u ha hi hcur hu hle hfull => exact hd

/-- `Free` of a handed-out block returns in every world of a run: no null header, no
division by zero, no missing slow entry. -/
theorem Free_returns {cfg : Config} (hcfg : WFConfig cfg) {w : World} {out : List Nat}
    {cool : Nat → List Nat} {fl : Nat → List Nat} (h : Inv cfg w out cool fl)
    (b k : Nat) (hb : b ∈ out)
    (hk : k < cfg.ClassToSize (w.hdrs (SpanHeader.GetFromObject cfg b)).size_class) :
    ∃ w', Free cfg (b + k) (SpanHeader.GetFromObject cfg b) w = .ok w' := by
  obtain ⟨hlive, hblk⟩ := h.outs b hb
  generalize hs : SpanHeader.GetFromObject cfg b = s at *
  have hok := h.spans s hlive
  have hnull : s ≠ 0 := hok.nonnull
  have hsz : cfg.ClassToSize (w.hdrs s).size_class ≠ 0 := by
    have := hcfg.size _ hok.cls; omega
  have hbase : blockBase cfg w (b + k) s = b :=
    blockBase_block cfg hcfg w out (fl s) s b k hok hblk hk
  have h1 : Inv cfg (pushBlock s b w) (out.erase b) cool (upd fl s (b :: fl s)) := by
    have := Inv_push hcfg h b hb
    rw [hs] at this
    exact this
  have hneAI := me_ne cfg h
  have hcap1 : ∀ x, Live w x → ((pushBlock s b w).hdrs x).flist.cap_ ≠ 0 := by
    intro x hx
    rw [pushBlock_cap, (h.spans x hx).cap]
    have := hcfg.objects _ (h.spans x hx).cls
    omega
  have hAP : afterActivePush cfg w (b + k) s = pushBlock s b w := by
    unfold afterActivePush; rw [hbase]
  have hIP : afterInactivePush cfg w (b + k) s =
      (pushBlock s b w).modHdr s (fun h => { h with aowner := w.core.me_active_ }) := by
    unfold afterInactivePush; rw [hbase, pushBlock_modHdr_aowner]
  rcases hok.tag with ha | hi
  · by_cases hhot : s = w.core.hot_span_ (w.hdrs s).size_class
    · exact ⟨_, Free_active_hot cfg w (b + k) s hnull hsz ha hhot⟩
    · obtain ⟨u, hu⟩ := Utilization_ok ((pushBlock s b w).hdrs s).flist (hcap1 s hlive)
      have hu2 : ((afterActivePush cfg w (b + k) s).hdrs s).Utilization = .ok u := by
        rw [hAP]; exact hu
      by_cases hlt : u < cfg.kSpanReuseThreshold
      · cases hfull : ((afterActivePush cfg w (b + k) s).hdrs s).flist.Full with
        | true => exact ⟨_, Free_active_release cfg w (b + k) s u hnull hsz ha hhot hu2 hlt hfull⟩
        | false => exact ⟨_, Free_active_demote cfg w (b + k) s u hnull hsz ha hhot hu2 hlt hfull⟩
      · exact ⟨_, Free_active_keep cfg w (b + k) s u hnull hsz ha hu2 hlt⟩
  · have ha : (w.hdrs s).aowner ≠ w.core.me_active_ := fun e => hneAI (e.symm.trans hi)
    have hcur := hok.hot
    obtain ⟨k1, -, k3⟩ := h.hotOK _ hcur
    have hhs : w.core.hot_span_ (w.hdrs s).size_class ≠ s := fun e => ha (by rw [← k3, e])
    obtain ⟨u, hu⟩ := Utilization_ok
      ((pushBlock s b w).hdrs (w.core.hot_span_ (w.hdrs s).size_class)).flist (hcap1 _ k1)
    have hu2 : ((afterInactivePush cfg w (b + k) s).hdrs
        (w.core.hot_span_ (w.hdrs s).size_class)).Utilization = .ok u := by
      rw [hIP, modHdr_hdrs_other _ _ _ _ hhs]; exact hu
    obtain ⟨w3, e3, -⟩ := RemoveSlowSpan_of_mem cfg (w.hdrs s).size_class s
      (afterInactivePush cfg w (b + k) s) (fun hf => h.inactive s hlive hi hf)
    rw [Free_inactive cfg w (b + k) s u hnull hsz hi ha hcur hu2, e3]
    split_ifs
    · exact ⟨_, rfl⟩
    · exact ⟨_, rfl⟩
    · exact ⟨_, rfl⟩

theorem reachSlow : Reachable cfgEx worldSlow [8304, 4176, 4192, 4208] :=
  Reachable.free 4160 0 worldSlow reachCool (by decide) (by decide) rfl

/-- C24: in every world reached from `New` by `Allocate` and `Free` calls of one frontend,
whenever a span the frontend holds carries the tag `me_inactive_`, the hot slot of its
class is non-null; `Free` of a handed-out block returns, so it never evaluates
`cur_sc_hdr->Utilization()` on a null pointer; and neither `Free` nor `Allocate`, whatever
the collaborators answer, resets a non-null hot slot to null. -/
theorem hot_span_non_null (cfg : Config) (hcfg : WFConfig cfg) (w : World) (out : List Nat)
    (h : Reachable cfg w out) :
    (∀ s, Live w s → (w.hdrs s).aowner = w.core.me_inactive_ →
      w.core.hot_span_ (w.hdrs s).size_class ≠ 0) ∧
    (∀ b k, b ∈ out →
      k < cfg.ClassToSize (w.hdrs (SpanHeader.GetFromObject cfg b)).size_class →
      ∃ w', Free cfg (b + k) (SpanHeader.GetFromObject cfg b) w = .ok w') ∧
    (∀ p hdr w' d, Free cfg p hdr w = .ok w' → w.core.hot_span_ d ≠ 0 →
      w'.core.hot_span_ d ≠ 0) ∧
    (∀ size rs p w' d, Allocate cfg size rs w = .ok (p, w') → w.core.hot_span_ d ≠ 0 →
      w'.core.hot_span_ d ≠ 0) := by
  obtain ⟨cool, fl, hinv, -⟩ := Reachable_Inv hcfg h
  exact ⟨fun s hs _ => (hinv.spans s hs).hot,
    fun b k hb hk => Free_returns hcfg hinv b k hb hk,
    fun p hdr w' d hF hd => Free_hot cfg w w' p hdr hF d hd,
    fun size rs p w' d hA hd => Allocate_hot cfg size rs w p w' hA d hd⟩

theorem hot_span_non_null_witness :
    worldSlow.core.hot_span_ (worldSlow.hdrs 4096).size_class ≠ 0 :=
  (hot_span_non_null cfgEx wfEx worldSlow _ reachSlow).1 4096 (by decide) (by decide)

/-! ## The frontend does not read the Block Pool -/

@[simp] theorem setPool_core (w : World) (q : List PoolEntry) : (w.setPool q).core = w.core :=
  rfl

@[simp] theorem setPool_hdrs (w : World) (q : List PoolEntry) : (w.setPool q).hdrs = w.hdrs :=
  rfl

@[simp] theorem setPool_mem (w : World) (q : List PoolEntry) : (w.setPool q).mem = w.mem := rfl

@[simp] theorem setPool_pool (w : World) (q : List PoolEntry) : (w.setPool q).pool = q := rfl

@[simp] theorem setPool_released (w : World) (q : List PoolEntry) :
    (w.setPool q).released = w.released := rfl

@[simp] theorem setPool_gets (w : World) (q : List PoolEntry) : (w.setPool q).gets = w.gets :=
  rfl

@[simp] theorem setPool_setPool (w : World) (q q2 : List PoolEntry) :
    (w.setPool q).setPool q2 = w.setPool q2 := rfl

theorem setPool_self (w : World) : w.setPool w.pool = w := rfl

theorem modHdr_setPool (w : World) (q : List PoolEntry) (p : Nat)
    (f : SpanHeader → SpanHeader) : (w.setPool q).modHdr p f = (w.modHdr p f).setPool q := rfl

theorem modCore_setPool (w : World) (q : List PoolEntry) (f : ScallocCore → ScallocCore) :
    (w.setPool q).modCore f = (w.modCore f).setPool q := rfl

theorem AddCoolSpan_setPool (sc span : Nat) (w : World) (q : List PoolEntry) :
    AddCoolSpan sc span (w.setPool q) = (AddCoolSpan sc span w).setPool q := by
  cases w
  simp only [AddCoolSpan, World.setPool, World.modHdr, World.modCore]
  split_ifs <;> rfl

theorem RemoveCoolSpan_setPool (sc span : Nat) (w : World) (q : List PoolEntry) :
    RemoveCoolSpan sc span (w.setPool q) = (RemoveCoolSpan sc span w).setPool q := by
  cases w
  simp only [RemoveCoolSpan, World.setPool, World.modHdr, World.modCore]
  split_ifs <;> rfl

theorem AddSlowSpan_setPool (cfg : Config) (sc span : Nat) (w : World) (q : List PoolEntry) :
    AddSlowSpan cfg sc span (w.setPool q) = (AddSlowSpan cfg sc span w).setPool q := by
  unfold AddSlowSpan
  split_ifs <;> rfl

theorem RemoveSlowSpan_setPool (cfg : Config) (sc span : Nat) (w : World)
    (q : List PoolEntry) :
    RemoveSlowSpan cfg sc span (w.setPool q)
      = (RemoveSlowSpan cfg sc span w).map (fun w' => w'.setPool q) := by
  unfold RemoveSlowSpan
  split_ifs
  · simp only [setPool_core]
    cases removeFirst span (w.core.slow_spans_ sc) <;> rfl
  · rfl

theorem SetActiveSlab_setPool (sc hdr : Nat) (w : World) (q : List PoolEntry) :
    SetActiveSlab sc hdr (w.setPool q) = (SetActiveSlab sc hdr w).setPool q := by
  unfold SetActiveSlab
  simp only [setPool_core]
  split_ifs
  · rw [AddCoolSpan_setPool]; rfl
  · rfl

theorem pushBlock_setPool (hdr p : Nat) (w : World) (q : List PoolEntry) :
    pushBlock hdr p (w.setPool q) = (pushBlock hdr p w).setPool q := rfl

theorem releaseSpan_setPool (cfg : Config) (hdr : Nat) (w : World) (q : List PoolEntry) :
    releaseSpan cfg hdr (w.setPool q) = (releaseSpan cfg hdr w).setPool q := by
  unfold releaseSpan
  split_ifs <;> rfl

theorem Init_setPool (cfg : Config) (span sc id : Nat) (re : Bool) (w : World)
    (q : List PoolEntry) :
    SpanHeader.Init cfg span sc id re (w.setPool q)
      = (SpanHeader.Init cfg span sc id re w).setPool q := rfl

theorem RefillSlow_setPool (sc : Nat) (q : List PoolEntry) :
    ∀ (l : List Nat) (w : World),
      RefillSlow sc l (w.setPool q)
        = (RefillSlow sc l w).map (fun r => (r.1, r.2.setPool q))
  | [], _ => rfl
  | span :: rest, w => by
    unfold RefillSlow
    simp only [modCore_setPool, setPool_hdrs, setPool_core, modHdr_setPool,
      SetActiveSlab_setPool]
    split_ifs
    · rfl
    · rfl
    · exact RefillSlow_setPool sc q rest _

theorem Refill_setPool (cfg : Config) (sc : Nat) (r : Round) (w : World) (q : List PoolEntry) :
    Refill cfg sc r (w.setPool q) = (Refill cfg sc r w).map (fun w' => w'.setPool q) := by
  unfold Refill
  cases hf : cfg.REUSE_SLOW_SPANS with
  | false =>
    simp only [Bool.false_eq_true, if_false, bind, Except.bind, pure, Except.pure]
    split_ifs
    · rfl
    · exact congrArg Except.ok (SetActiveSlab_setPool sc r.sp_span
        (SpanHeader.Init cfg r.sp_span sc w.core.id_ r.sp_reusable
          { w with gets := r.sp_span :: w.gets }) q)
  | true =>
    simp only [if_true, setPool_core, RefillSlow_setPool]
    cases hR : RefillSlow sc (w.core.slow_spans_ sc) w with
    | error e => rfl
    | ok x =>
      obtain ⟨found, w1⟩ := x
      simp only [Except.map, bind, Except.bind, pure, Except.pure]
      cases found with
      | true => rfl
      | false =>
        simp only [Bool.false_eq_true, if_false]
        split_ifs
        · rfl
        · exact congrArg Except.ok (SetActiveSlab_setPool sc r.sp_span
            (SpanHeader.Init cfg r.sp_span sc w1.core.id_ r.sp_reusable
              { w1 with gets := r.sp_span :: w1.gets }) q)

/-- The body of `AllocateInSizeClass` does not read the Block Pool if the calls of
`AllocateNoSlab` do not. -/
theorem AllocateInSizeClassWith_setPool (f : World → Except Fault (Nat × World)) (sc : Nat)
    (q : List PoolEntry)
    (hf : ∀ w, f (w.setPool q) = (f w).map (fun x => (x.1, x.2.setPool q))) (w : World) :
    AllocateInSizeClassWith f sc (w.setPool q)
      = (AllocateInSizeClassWith f sc w).map (fun x => (x.1, x.2.setPool q)) := by
  unfold AllocateInSizeClassWith
  simp only [setPool_core, setPool_hdrs, setPool_mem, modHdr_setPool]
  split_ifs
  · exact hf w
  · rfl
  · exact hf _

/-- `AllocateNoSlab` does not read the Block Pool when the Block Pool answers null. -/
theorem AllocateNoSlab_setPool (cfg : Config) (sc : Nat) (q : List PoolEntry) :
    ∀ (rs : List Round), (∀ r ∈ rs, r.bp_block = 0) → ∀ (w : World),
      AllocateNoSlab cfg sc rs (w.setPool q)
        = (AllocateNoSlab cfg sc rs w).map (fun x => (x.1, x.2.setPool q))
  | [], _, w => by
    unfold AllocateNoSlab
    split_ifs <;> rfl
  | r :: rs, hrs, w => by
    have hbp : r.bp_block = 0 := hrs r (List.mem_cons_self _ _)
    unfold AllocateNoSlab
    by_cases hsc : sc = 0
    · simp only [hsc, if_true]; rfl
    · simp only [hsc, if_false, hbp, BlockPoolAllocate, ne_eq, not_true_eq_false, if_false]
      rw [Refill_setPool]
      cases hR : Refill cfg sc r w with
      | error e => rfl
      | ok w2 =>
        simp only [Except.map]
        exact AllocateInSizeClassWith_setPool _ sc q
          (AllocateNoSlab_setPool cfg sc q rs
            (fun r2 h2 => hrs r2 (List.mem_cons_of_mem _ h2))) w2

theorem Allocate_setPool (cfg : Config) (size : Nat) (rs : List Round) (q : List PoolEntry)
    (hrs : ∀ r ∈ rs, r.bp_block = 0) (w : World) :
    Allocate cfg size rs (w.setPool q)
      = (Allocate cfg size rs w).map (fun x => (x.1, x.2.setPool q)) :=
  AllocateInSizeClassWith_setPool _ _ q (AllocateNoSlab_setPool cfg _ q rs hrs) w

/-- A local `Free`, on a span that carries one of the two tags of the frontend, does not
read the Block Pool. -/
theorem Free_setPool (cfg : Config) (p hdr : Nat) (w : World) (q : List PoolEntry)
    (ht : (w.hdrs hdr).aowner = w.core.me_active_ ∨ (w.hdrs hdr).aowner = w.core.me_inactive_) :
    Free cfg p hdr (w.setPool q) = (Free cfg p hdr w).map (fun w' => w'.setPool q) := by
  unfold Free
  by_cases hnull : hdr = 0
  · simp only [hnull, if_true]; rfl
  · simp only [hnull, if_false, setPool_hdrs]
    unfold FreeInSizeClass
    by_cases hsz : cfg.ClassToSize (w.hdrs hdr).size_class = 0
    · simp only [hsz, if_true]; rfl
    · simp only [hsz, if_false, setPool_hdrs, setPool_core, pushBlock_setPool,
        modHdr_setPool]
      by_cases ha : (w.hdrs hdr).aowner = w.core.me_active_
      · rw [if_pos ha, if_pos ha]
        simp only [bind, Except.bind, pure, Except.pure, Except.map, setPool_hdrs,
          RemoveCoolSpan_setPool, releaseSpan_setPool, AddSlowSpan_setPool, modHdr_setPool]
        by_cases hh : hdr ≠ w.core.hot_span_ (w.hdrs hdr).size_class
        · rw [if_pos hh, if_pos hh]
          cases ((pushBlock hdr (canonical (w.hdrs hdr).flist_aligned_blocksize_offset
            (cfg.ClassToSize (w.hdrs hdr).size_class) p) w).hdrs hdr).Utilization with
          | error e => rfl
          | ok v =>
            simp only []
            split_ifs <;> rfl
        · rw [if_neg hh, if_neg hh]
          simp only [Bool.false_eq_true, if_false]
      · have hi : (w.hdrs hdr).aowner = w.core.me_inactive_ := ht.resolve_left ha
        have hcas : ((w.hdrs hdr).aowner = w.core.me_inactive_ ∧
            (compareAndSwap (w.hdrs hdr).aowner w.core.me_inactive_ w.core.me_active_).1 = true) :=
          ⟨hi, by rw [hi, compareAndSwap_same]⟩
        rw [if_neg ha, if_neg ha, if_pos hcas, if_pos hcas]
        simp only [bind, Except.bind, pure, Except.pure, Except.map, setPool_hdrs,
          RemoveSlowSpan_setPool, releaseSpan_setPool, SetActiveSlab_setPool, modHdr_setPool,
          pushBlock_setPool]
        generalize pushBlock hdr (canonical (w.hdrs hdr).flist_aligned_blocksize_offset
          (cfg.ClassToSize (w.hdrs hdr).size_class) p) (w.modHdr hdr fun h =>
            { h with aowner :=
                (compareAndSwap h.aowner w.core.me_inactive_ w.core.me_active_).2 }) = w1
        by_cases h0 : w.core.hot_span_ (w.hdrs hdr).size_class = 0
        · rw [if_pos h0, if_pos h0]
        · rw [if_neg h0, if_neg h0]
          cases (w1.hdrs (w.core.hot_span_ (w.hdrs hdr).size_class)).Utilization with
          | error e => rfl
          | ok v =>
            simp only []
            split_ifs
            · cases RemoveSlowSpan cfg (w.hdrs hdr).size_class hdr w1 with
              | error e => rfl
              | ok w3 => exact congrArg Except.ok (SetActiveSlab_setPool _ _ w3 q)
            · cases RemoveSlowSpan cfg (w.hdrs hdr).size_class hdr w1 with
              | error e => rfl
              | ok w3 => exact congrArg Except.ok (releaseSpan_setPool _ _ w3 q)
            · rfl
/-! ## The invariant of the runs among other threads -/

theorem Inv_perm {cfg : Config} {w : World} {out out' : List Nat} {cool : Nat → List Nat}
    {fl : Nat → List Nat} (h : Inv cfg w out cool fl) (hp : out.Perm out') :
    Inv cfg w out' cool fl :=
  { h with
    spans := fun s hs => SpanOK_out (h.spans s hs)
      (fun b hb hm => ((h.spans s hs).blocks b hb).2 (hp.mem_iff.2 hm))
      (hp.countP_eq _).symm
    out_nodup := hp.nodup_iff.1 h.out_nodup
    outs := fun b hb => h.outs b (hp.mem_iff.2 hb) }

/-- The tags of two frontends with different ids differ. -/
theorem Reset_ne {a b : Bool} {id id' : Nat} (h : id < 2 ^ 63) (h' : id' < 2 ^ 63)
    (hne : id ≠ id') : ActiveOwner.Reset a id ≠ ActiveOwner.Reset b id' := by
  unfold ActiveOwner.Reset
  rw [Nat.mod_eq_of_lt h, Nat.mod_eq_of_lt h']
  cases a <;> cases b <;> simp <;> omega

/-- Dequeuing a block that is queued takes one entry for the block out of the pool. -/
theorem queued_dequeue (b : Nat) :
    ∀ (pool : List PoolEntry), (∃ e ∈ pool, e.block = b) →
      (b :: (dequeue b pool).map PoolEntry.block).Perm (pool.map PoolEntry.block)
  | [], h => by
    obtain ⟨e, he, -⟩ := h
    simp at he
  | e :: rest, h => by
    unfold dequeue
    by_cases hb : e.block = b
    · rw [if_pos hb, List.map_cons, hb]
    · rw [if_neg hb, List.map_cons, List.map_cons]
      have hrest : ∃ e2 ∈ rest, e2.block = b := by
        obtain ⟨e2, he2, hb2⟩ := h
        rcases List.mem_cons.1 he2 with e3 | e3
        · exact absurd (e3 ▸ hb2) hb
        · exact ⟨e2, e3, hb2⟩
      exact (List.Perm.swap _ _ _).trans ((queued_dequeue b rest hrest).cons _)

/-- `Allocate` with one round of answers returns the same with further rounds. -/
theorem Allocate_mono (cfg : Config) (size : Nat) (r : Round) (rest : List Round) (w : World)
    (x : Nat × World) (h : Allocate cfg size [r] w = .ok x) :
    Allocate cfg size (r :: rest) w = .ok x := by
  unfold Allocate AllocateInSizeClass at h ⊢
  exact AllocateInSizeClassWith_mono _ _ _
    (fun w3 x3 h3 => AllocateNoSlab_mono cfg _ rest [r] w3 x3 h3) w x h

/-- An `Allocate` that the Block Pool answers with null keeps the invariant of the frontend,
whatever the Block Pool holds. -/
theorem Inv_Allocate_queued {cfg : Config} (hcfg : WFConfig cfg) {w : World} {O : List Nat}
    {cool : Nat → List Nat} {fl : Nat → List Nat} (h : Inv cfg (w.setPool []) O cool fl)
    (size : Nat) (r : Round) (rest : List Round) (hbp : r.bp_block = 0) (hbs : r.bp_span = 0)
    (hfresh : FreshSpan cfg w r.sp_span) (p : Nat) (w' : World)
    (hA : Allocate cfg size (r :: rest) w = .ok (p, w')) :
    w'.pool = w.pool ∧
      ∃ cool' fl', Inv cfg (w'.setPool []) (if p = 0 then O else p :: O) cool' fl' := by
  have hr : ValidRound cfg (w.setPool []) (cfg.SizeToClass size) r :=
    ⟨fun hne => absurd hbp hne, fun hne => absurd hbs hne, hfresh⟩
  obtain ⟨p2, w2, hA2, -, cool', fl', hinv', -⟩ := Inv_Allocate hcfg h size r [] hr
  have hcomm := Allocate_setPool cfg size [r] w.pool
    (fun r2 h2 => by rw [List.mem_singleton.1 h2]; exact hbp) (w.setPool [])
  rw [hA2] at hcomm
  have hA3 : Allocate cfg size (r :: rest) w = .ok (p2, w2.setPool w.pool) :=
    Allocate_mono cfg size r rest w _ hcomm
  rw [hA3] at hA
  cases hA
  refine ⟨rfl, cool', fl', ?_⟩
  have e : (w2.setPool w.pool).setPool [] = w2 := by
    rw [setPool_setPool, ← hinv'.poolEmpty]
    rfl
  rw [e]
  exact hinv'

/-- An `Allocate` that pops a block from the hot span does not depend on the answers. -/
theorem Allocate_pop_any (cfg : Config) (size : Nat) (rs rs' : List Round) (w : World)
    (hhot : w.core.hot_span_ (cfg.SizeToClass size) ≠ 0)
    (hne : (w.hdrs (w.core.hot_span_ (cfg.SizeToClass size))).flist.list_ ≠ 0) :
    Allocate cfg size rs w = Allocate cfg size rs' w := by
  unfold Allocate AllocateInSizeClass
  rw [AllocateInSizeClassWith_pop _ _ _ hhot hne, AllocateInSizeClassWith_pop _ _ _ hhot hne]

/-- The worlds of a run among other threads satisfy the invariant of the frontend, with
the blocks queued in the Block Pool counted as handed out. -/
theorem Shared_Inv {cfg : Config} (hcfg : WFConfig cfg) {w : World} {out : List Nat}
    (h : Shared cfg w out) :
    ∃ cool fl, Inv cfg (w.setPool []) (out ++ queued w) cool fl := by
  induction h with
  | init id hdrs mem hid =>
    exact ⟨_, _, Inv_New cfg id hdrs mem hid⟩
  | @alloc w out size r rest p w' _ hr hbs hA ih =>
    obtain ⟨cool, fl, hinv⟩ := ih
    have key : ∀ r2 : Round, r2.bp_block = 0 → r2.bp_span = 0 → r2.sp_span = r.sp_span →
        Allocate cfg size (r2 :: rest) w = .ok (p, w') →
        ∃ cool fl, Inv cfg (w'.setPool [])
          ((if p = 0 then out else p :: out) ++ queued w') cool fl := by
      intro r2 h1 h2 h3 hA2
      obtain ⟨hpool, cool', fl', hinv'⟩ := Inv_Allocate_queued hcfg hinv size r2 rest h1 h2
        (by rw [h3]; exact hr.2.2) p w' hA2
      refine ⟨cool', fl', ?_⟩
      have e : queued w' = queued w := by unfold queued; rw [hpool]
      rw [e]
      by_cases hp : p = 0
      · simpa [hp] using hinv'
      · simpa [hp] using hinv'
    by_cases hbp : r.bp_block = 0
    · exact key r hbp hbs rfl hA
    · obtain ⟨e, he, heb, -⟩ := hr.1 hbp
      have hbO : r.bp_block ∈ out ++ queued w :=
        List.mem_append_right _ (List.mem_map.2 ⟨e, he, heb⟩)
      by_cases hpop : w.core.hot_span_ (cfg.SizeToClass size) ≠ 0 ∧
          (w.hdrs (w.core.hot_span_ (cfg.SizeToClass size))).flist.list_ ≠ 0
      · refine key { r with bp_block := 0 } rfl hbs rfl ?_
        rw [← hA]
        exact Allocate_pop_any cfg size _ _ w hpop.1 hpop.2
      · have hemp : w.core.hot_span_ (cfg.SizeToClass size) = 0 ∨
            (w.hdrs (w.core.hot_span_ (cfg.SizeToClass size))).flist.list_ = 0 := by
          by_cases h0 : w.core.hot_span_ (cfg.SizeToClass size) = 0
          · exact Or.inl h0
          · exact Or.inr (by_contra fun h1 => hpop ⟨h0, h1⟩)
        unfold Allocate AllocateInSizeClass at hA
        rw [AllocateInSizeClassWith_empty _ _ _ hemp] at hA
        unfold AllocateNoSlab at hA
        by_cases hsc : cfg.SizeToClass size = 0
        · simp only [hsc, if_true] at hA
          cases hA
          exact ⟨cool, fl, by simpa using hinv⟩
        · obtain ⟨hlive, hblk⟩ := hinv.outs _ hbO
          have hok := hinv.spans _ hlive
          have hown : ActiveOwner.owner
              (w.hdrs (SpanHeader.GetFromObject cfg r.bp_block)).aowner = w.core.id_ := by
            rcases hok.tag with t | t
            · have t' : (w.hdrs (SpanHeader.GetFromObject cfg r.bp_block)).aowner
                  = w.core.me_active_ := t
              rw [t', show w.core.me_active_ = ActiveOwner.Reset true w.core.id_ from hinv.tagA]
              exact owner_Reset _ _ hinv.id_small
            · have t' : (w.hdrs (SpanHeader.GetFromObject cfg r.bp_block)).aowner
                  = w.core.me_inactive_ := t
              rw [t', show w.core.me_inactive_ = ActiveOwner.Reset false w.core.id_ from
                hinv.tagI]
              exact owner_Reset _ _ hinv.id_small
          simp only [hsc, if_false, hbp, ne_eq, not_false_eq_true, if_true, hbs,
            not_true_eq_false] at hA
          have hcore : (BlockPoolAllocate r.bp_block w).core = w.core :=
            BlockPoolAllocate_core _ _
          have hhd : (BlockPoolAllocate r.bp_block w).hdrs = w.hdrs := by
            simp [BlockPoolAllocate, hbp]
          rw [hcore, hhd, hown] at hA
          simp only [not_true_eq_false, if_false] at hA
          split_ifs at hA with hc hg
          cases hA
          refine ⟨cool, fl, ?_⟩
          have e1 : (BlockPoolAllocate r.bp_block w).setPool [] = w.setPool [] := by
            simp [BlockPoolAllocate, hbp, World.setPool]
          have e2 : queued (BlockPoolAllocate r.bp_block w)
              = (dequeue r.bp_block w.pool).map PoolEntry.block := by
            simp [BlockPoolAllocate, hbp, queued]
          rw [e1, e2, if_neg hbp]
          refine Inv_perm hinv ?_
          have hq := queued_dequeue r.bp_block w.pool ⟨e, he, heb⟩
          exact (List.Perm.append_left out hq.symm).trans List.perm_middle
  | @free w out b k w' _ hb hk hF ih =>
    obtain ⟨cool, fl, hinv⟩ := ih
    have hbO : b ∈ out ++ queued w := List.mem_append_left _ hb
    have htag := (hinv.spans _ (hinv.outs b hbO).1).tag
    have h0 := Free_setPool cfg (b + k) (SpanHeader.GetFromObject cfg b) w [] htag
    have h1 := Free_setPool cfg (b + k) (SpanHeader.GetFromObject cfg b) w w.pool htag
    rw [hF] at h0 h1
    rw [setPool_self, hF] at h1
    have hpool : w'.pool = w.pool := by
      have := congrArg (fun x => match x with | .ok v => v.pool | .error _ => []) h1
      simpa [Except.map] using this
    obtain ⟨cool', fl', hinv', -⟩ := Inv_Free hcfg hinv b k hbO hk (w'.setPool []) h0
    refine ⟨cool', fl', ?_⟩
    have e : queued w' = queued w := by unfold queued; rw [hpool]
    rw [e, ← List.erase_append_left _ hb]
    exact hinv'
  | @remote w out other b k w' _ hb hk hid hne hA hI hF ih =>
    obtain ⟨cool, fl, hinv⟩ := ih
    have hbO : b ∈ out ++ queued w := List.mem_append_left _ hb
    obtain ⟨hlive, hblk⟩ := hinv.outs b hbO
    have hok := hinv.spans _ hlive
    have htA : w.core.me_active_ = ActiveOwner.Reset true w.core.id_ := hinv.tagA
    have htI : w.core.me_inactive_ = ActiveOwner.Reset false w.core.id_ := hinv.tagI
    have hidw : w.core.id_ < 2 ^ 63 := hinv.id_small
    have hna : (w.hdrs (SpanHeader.GetFromObject cfg b)).aowner ≠ other.me_active_ := by
      rw [hA]
      rcases hok.tag with t | t
      · have t' : (w.hdrs (SpanHeader.GetFromObject cfg b)).aowner = w.core.me_active_ := t
        rw [t', htA]; exact Reset_ne hidw hid (Ne.symm hne)
      · have t' : (w.hdrs (SpanHeader.GetFromObject cfg b)).aowner = w.core.me_inactive_ := t
        rw [t', htI]; exact Reset_ne hidw hid (Ne.symm hne)
    have hni : (w.hdrs (SpanHeader.GetFromObject cfg b)).aowner ≠ other.me_inactive_ := by
      rw [hI]
      rcases hok.tag with t | t
      · have t' : (w.hdrs (SpanHeader.GetFromObject cfg b)).aowner = w.core.me_active_ := t
        rw [t', htA]; exact Reset_ne hidw hid (Ne.symm hne)
      · have t' : (w.hdrs (SpanHeader.GetFromObject cfg b)).aowner = w.core.me_inactive_ := t
        rw [t', htI]; exact Reset_ne hidw hid (Ne.symm hne)
    have hsz : cfg.ClassToSize (w.hdrs (SpanHeader.GetFromObject cfg b)).size_class ≠ 0 := by
      have := hcfg.size _ hok.cls
      have e : ((w.setPool []).hdrs (SpanHeader.GetFromObject cfg b)).size_class
          = (w.hdrs (SpanHeader.GetFromObject cfg b)).size_class := rfl
      rw [e] at this
      omega
    have hbase : blockBase cfg w (b + k) (SpanHeader.GetFromObject cfg b) = b :=
      blockBase_block cfg hcfg (w.setPool []) _ _ _ b k hok hblk hk
    rw [Free_remote cfg { w with core := other } (b + k) _ hok.nonnull hsz hna hni] at hF
    cases hF
    refine ⟨cool, fl, ?_⟩
    have e1 : World.setPool { (BlockPoolFree
        (canonical (w.hdrs (SpanHeader.GetFromObject cfg b)).flist_aligned_blocksize_offset
          (cfg.ClassToSize (w.hdrs (SpanHeader.GetFromObject cfg b)).size_class) (b + k))
        (w.hdrs (SpanHeader.GetFromObject cfg b)).size_class
        (w.hdrs (SpanHeader.GetFromObject cfg b)).remote_flist
        { w with core := other }) with core := w.core } [] = w.setPool [] := rfl
    have e2 : queued { (BlockPoolFree
        (canonical (w.hdrs (SpanHeader.GetFromObject cfg b)).flist_aligned_blocksize_offset
          (cfg.ClassToSize (w.hdrs (SpanHeader.GetFromObject cfg b)).size_class) (b + k))
        (w.hdrs (SpanHeader.GetFromObject cfg b)).size_class
        (w.hdrs (SpanHeader.GetFromObject cfg b)).remote_flist
        { w with core := other }) with core := w.core } = b :: queued w := by
      simp only [queued, BlockPoolFree, List.map_cons]
      congr 1
    rw [e1, e2]
    refine Inv_perm hinv ?_
    exact ((List.perm_cons_erase hb).append_right _).trans List.perm_middle.symm
/-! ## Block conservation and the places of a span (C2, C3) -/

/-- A run of one frontend alone is a run among other threads in which no other thread
frees: the Block Pool stays empty, so it answers null and hints at no span. -/
theorem Reachable.shared {cfg : Config} (hcfg : WFConfig cfg) {w : World} {out : List Nat}
    (h : Reachable cfg w out) : Shared cfg w out := by
  induction h with
  | init id hdrs mem hid => exact Shared.init id hdrs mem hid
  | @alloc w out size r rest p w' hreach hr hA ih =>
    obtain ⟨cool, fl, hinv, -⟩ := Reachable_Inv hcfg hreach
    have hbs : r.bp_span = 0 := by
      by_contra hne
      obtain ⟨hb, -⟩ := hr.2.1 hne
      obtain ⟨e, he, -⟩ := hr.1 hb
      rw [hinv.poolEmpty] at he
      simp at he
    exact Shared.alloc size r rest p w' ih hr hbs hA
  | @free w out b k w' _ hb hk hF ih => exact Shared.free b k w' ih hb hk hF

theorem sharedRemote : Shared cfgEx worldRemote [8304, 4192, 4208] :=
  Shared.remote (ScallocCore.New 2) 4176 0 _ (Reachable.shared wfEx reachSlow) (by decide)
    (by decide) (by decide) (by decide) rfl rfl rfl

theorem sharedQueued : Shared cfgEx worldQueued [8256, 8272, 8288, 8304, 4192, 4208] :=
  Shared.alloc 16 (roundEx 12288) [] 8256 worldQueued
    (Shared.alloc 16 (roundEx 12288) [] 8272 (allocEx 0 (allocEx 0 worldRemote))
      (Shared.alloc 16 (roundEx 12288) [] 8288 (allocEx 0 worldRemote) sharedRemote
        (validEx _ _ (by decide)) rfl rfl)
      (validEx _ _ (by decide)) rfl rfl)
    (validEx _ _ (by decide)) rfl rfl

/-- As long as the Block Pool hints at no span, every span is in at most one place. In
every world reached from `New` by `Allocate` and `Free` calls of a frontend and by remote
frees of other threads, with `l` the cool list of a class `c`: the hot span of `c` is
neither in `l` nor in `slow[c]`, no span of `l` is in `slow[c]`, no span is twice in `l`
or twice in `slow[c]`, and every span in the hot slot, in `l` or in `slow[c]` is held by
the frontend (not handed to the Span Pool) and has class `c`. -/
theorem one_place_without_hint (cfg : Config) (hcfg : WFConfig cfg) (w : World)
    (out : List Nat) (h : Shared cfg w out) (c : Nat) (l : List Nat) (hl : CoolList w c l) :
    (w.core.hot_span_ c ∉ l ∧ w.core.hot_span_ c ∉ w.core.slow_spans_ c) ∧
    (∀ s ∈ l, s ∉ w.core.slow_spans_ c) ∧
    l.Nodup ∧ (w.core.slow_spans_ c).Nodup ∧
    (∀ s, s ≠ 0 → (s = w.core.hot_span_ c ∨ s ∈ l ∨ s ∈ w.core.slow_spans_ c) →
      Live w s ∧ (w.hdrs s).size_class = c) := by
  obtain ⟨cool, fl, hinv⟩ := Shared_Inv hcfg h
  have hne := me_ne cfg hinv
  have hl0 : CoolList (w.setPool []) c l := hl
  have e : l = cool c := DLL_unique hl0.1 (hinv.coolOK c).1.1
  subst e
  refine ⟨⟨fun hm => ((hinv.coolOK c).2 _ hm).2.2.2 rfl, fun hm => ?_⟩, fun s hs hm => ?_,
    hl.2, (hinv.slowOK c).1, fun s hs0 hs => ?_⟩
  · obtain ⟨-, -, k3⟩ := (hinv.slowOK c).2 _ hm
    have h0 : w.core.hot_span_ c ≠ 0 := (hinv.spans _ ((hinv.slowOK c).2 _ hm).1).nonnull
    exact hne ((hinv.hotOK c h0).2.2.symm.trans k3)
  · exact hne (((hinv.coolOK c).2 s hs).2.2.1.symm.trans ((hinv.slowOK c).2 s hm).2.2)
  · rcases hs with e | e | e
    · have h0 : w.core.hot_span_ c ≠ 0 := e ▸ hs0
      rw [e]
      exact ⟨(hinv.hotOK c h0).1, (hinv.hotOK c h0).2.1⟩
    · exact ⟨((hinv.coolOK c).2 s e).1, ((hinv.coolOK c).2 s e).2.1⟩
    · exact ⟨((hinv.slowOK c).2 s e).1, ((hinv.slowOK c).2 s e).2.1⟩

/-- C3: the code breaks it when the Block Pool hints at a span that is in the slow list of
the frontend. In the small build frontend 1 holds the span at 4096 in `slow[1]` and has
exhausted its hot span at 8192; frontend 2 has freed the block 4176 of the span at 4096.
The Block Pool answers the next `Allocate` with that block and with its span as the hint:
an answer it can give. `AllocateNoSlab` makes the hinted span the hot span and does not
take it out of the slow list, so the span at 4096, which the frontend holds, is the hot
span of class 1 and an entry of `slow[1]` at once. When the frontend then allocates the
last block of that span and frees its four blocks, the last `Free` finds the span in the
slow list and gives it up (`Collector::Put`), and the span stays the hot span: the next
`Allocate` hands out the block 4208 of a span the frontend no longer holds. -/
theorem hint_slow_span_twice :
    (Shared cfgEx worldQueued [8256, 8272, 8288, 8304, 4192, 4208] ∧
      ValidRound cfgEx worldQueued 1 roundSlowHint ∧
      Allocate cfgEx 16 [roundSlowHint] worldQueued = .ok (4176, worldStolen) ∧
      worldStolen.core.hot_span_ 1 = 4096 ∧ worldStolen.core.slow_spans_ 1 = [4096] ∧
      Live worldStolen 4096) ∧
    (worldGone.released = [Release.collectorPut 4096] ∧ ¬ Live worldGone 4096 ∧
      worldGone.core.hot_span_ 1 = 4096 ∧
      ∃ w', Allocate cfgEx 16 [roundEx 12288] worldGone = .ok (4208, w')) :=
  ⟨⟨sharedQueued, ⟨fun _ => by decide, fun _ => by decide, by decide⟩, rfl, by decide,
    by decide, by decide⟩,
    by decide, by decide, by decide, ⟨_, rfl⟩⟩
end scalloc
